import Mathlib

/-!
# macaco: the modal editing engine (`internal/vim`)

A shallow embedding of `buffer.go`, `motions.go` and `engine.go`.

* A Go `string` is a sequence of bytes (`GoString`); `[]rune(s)`, `string(runes)` and
  `utf8.RuneCountInString` are the UTF-8 decoder and encoder of the Go runtime.
* `int` fields are `Int`; the count prefix wraps like a 64-bit `int`.
* A run-time panic (index or slice out of range) is `none`.
* `unicode.IsLetter` and `unicode.IsDigit` are exact on ASCII; above ASCII they are read
  from a `UnicodeTables` parameter, since the tables belong to the Go library.
-/

namespace Macaco

/-! ## Go strings and runes -/

/-- Go `string`: a sequence of bytes. -/
abbrev GoString := List Nat

/-- Go `rune`: a code point. -/
abbrev Rune := Nat

/-- The replacement character produced when decoding or encoding fails. -/
def runeError : Rune := 0xFFFD

/-- Continuation byte test `locb <= b && b <= hicb`. -/
def isCont (b : Nat) : Bool := decide (0x80 ≤ b) && decide (b ≤ 0xBF)

/-- The runtime's `encoderune`: the UTF-8 bytes of one rune. -/
def encodeRune (r : Rune) : GoString :=
  if r ≤ 0x7F then [r]
  else if r ≤ 0x7FF then [0xC0 + r / 64, 0x80 + r % 64]
  else if 0x10FFFF < r ∨ (0xD800 ≤ r ∧ r ≤ 0xDFFF) then [0xEF, 0xBF, 0xBD]
  else if r ≤ 0xFFFF then [0xE0 + r / 4096, 0x80 + (r / 64) % 64, 0x80 + r % 64]
  else [0xF0 + r / 262144, 0x80 + (r / 4096) % 64, 0x80 + (r / 64) % 64, 0x80 + r % 64]

/-- The runtime's `decoderune` on a non-empty string: the first rune and its width. -/
def decodeRune : GoString → Rune × Nat
  | [] => (runeError, 1)
  | b0 :: rest =>
    if b0 < 0x80 then (b0, 1)
    else if 0xC0 ≤ b0 ∧ b0 < 0xE0 then
      match rest with
      | b1 :: _ =>
        if isCont b1 then
          let r := (b0 % 32) * 64 + b1 % 64
          if 0x7F < r then (r, 2) else (runeError, 1)
        else (runeError, 1)
      | _ => (runeError, 1)
    else if 0xE0 ≤ b0 ∧ b0 < 0xF0 then
      match rest with
      | b1 :: b2 :: _ =>
        if isCont b1 && isCont b2 then
          let r := (b0 % 16) * 4096 + (b1 % 64) * 64 + b2 % 64
          if 0x7FF < r ∧ ¬ (0xD800 ≤ r ∧ r ≤ 0xDFFF) then (r, 3) else (runeError, 1)
        else (runeError, 1)
      | _ => (runeError, 1)
    else if 0xF0 ≤ b0 ∧ b0 < 0xF8 then
      match rest with
      | b1 :: b2 :: b3 :: _ =>
        if isCont b1 && isCont b2 && isCont b3 then
          let r := (b0 % 8) * 262144 + (b1 % 64) * 4096 + (b2 % 64) * 64 + b3 % 64
          if 0xFFFF < r ∧ r ≤ 0x10FFFF then (r, 4) else (runeError, 1)
        else (runeError, 1)
      | _ => (runeError, 1)
    else (runeError, 1)

/-- Decoding loop of `[]rune(s)`; every step consumes at least one byte, so a fuel of
`len(s)` is enough. -/
def toRunesAux : Nat → GoString → List Rune
  | 0, _ => []
  | fuel + 1, s =>
    match s with
    | [] => []
    | _ :: _ => (decodeRune s).1 :: toRunesAux fuel (s.drop (decodeRune s).2)

/-- Go `[]rune(s)`. -/
def toRunes (s : GoString) : List Rune := toRunesAux s.length s

/-- Go `string(runes)`. -/
def fromRunes (rs : List Rune) : GoString := rs.flatMap encodeRune

/-- Go `utf8.RuneCountInString`. -/
def runeCount (s : GoString) : Nat := (toRunes s).length

/-- A string literal as its UTF-8 bytes. -/
def str (s : String) : GoString := s.toList.flatMap (fun c => encodeRune c.toNat)

/-- Go `strings.Split(s, sep)` for a one-byte separator. -/
def stringsSplit (sep : Nat) : GoString → List GoString
  | [] => [[]]
  | c :: cs =>
    if c = sep then [] :: stringsSplit sep cs
    else
      match stringsSplit sep cs with
      | [] => [[c]]
      | l :: ls => (c :: l) :: ls

/-- Go `strings.Join(parts, sep)` for a one-byte separator. -/
def stringsJoin (sep : Nat) : List GoString → GoString
  | [] => []
  | [l] => l
  | l :: l2 :: ls => l ++ sep :: stringsJoin sep (l2 :: ls)

/-- Go `strings.HasSuffix(s, "\n")`. -/
def hasSuffixNL (s : GoString) : Bool := s.getLast? == some 10

/-- Go `strings.TrimSuffix(s, "\n")`. -/
def trimSuffixNL (s : GoString) : GoString := if hasSuffixNL s then s.dropLast else s

/-- Index expression `l[i]` with an `int` index; `none` is the out-of-range panic. -/
def idx? {α : Type} (l : List α) (i : Int) : Option α :=
  if 0 ≤ i then l.get? i.toNat else none

/-- Slice expression `l[lo:hi]`; `none` is the out-of-range panic. -/
def slice? {α : Type} (l : List α) (lo hi : Int) : Option (List α) :=
  if 0 ≤ lo ∧ lo ≤ hi ∧ hi ≤ l.length then some ((l.take hi.toNat).drop lo.toNat) else none

/-- Slice expression `l[:hi]`. -/
def sliceTo? {α : Type} (l : List α) (hi : Int) : Option (List α) := slice? l 0 hi

/-- Slice expression `l[lo:]`. -/
def sliceFrom? {α : Type} (l : List α) (lo : Int) : Option (List α) := slice? l lo l.length

/-- Assignment `l[i] = v` with an `int` index. -/
def setIdx? {α : Type} (l : List α) (i : Int) (v : α) : Option (List α) :=
  if 0 ≤ i ∧ i < l.length then some (l.set i.toNat v) else none

/-! ## Unicode classes -/

/-- The letter and digit tables of Go's `unicode` package above ASCII. -/
structure UnicodeTables where
  letter : Rune → Bool
  digit : Rune → Bool

/-- Go `unicode.IsSpace`. -/
def isSpace (r : Rune) : Bool :=
  r == 0x09 || r == 0x0A || r == 0x0B || r == 0x0C || r == 0x0D || r == 0x20 ||
  r == 0x85 || r == 0xA0 || r == 0x1680 || (decide (0x2000 ≤ r) && decide (r ≤ 0x200A)) ||
  r == 0x2028 || r == 0x2029 || r == 0x202F || r == 0x205F || r == 0x3000

/-- Go `unicode.IsLetter`. -/
def isLetter (U : UnicodeTables) (r : Rune) : Bool :=
  if r < 0x80 then
    (decide (0x41 ≤ r) && decide (r ≤ 0x5A)) || (decide (0x61 ≤ r) && decide (r ≤ 0x7A))
  else U.letter r

/-- Go `unicode.IsDigit`. -/
def isDigit (U : UnicodeTables) (r : Rune) : Bool :=
  if r < 0x80 then decide (0x30 ≤ r) && decide (r ≤ 0x39) else U.digit r

/-- Character classes for word motions. -/
inductive CharClass where
  | whitespace
  | word
  | punctuation
  deriving DecidableEq, Repr

/-- Function `classifyChar` of motions.go. -/
def classifyChar (U : UnicodeTables) (r : Rune) : CharClass :=
  if isSpace r then CharClass.whitespace
  else if isLetter U r || isDigit U r || r == 0x5F then CharClass.word
  else CharClass.punctuation

/-! ## Buffer (buffer.go) -/

/-- Editing modes. -/
inductive Mode where
  | normal
  | insert
  | visual
  | visualLine
  | visualBlock
  | command
  deriving DecidableEq, Repr

/-- The text buffer with its cursor. -/
structure Buffer where
  lines : List GoString
  cursorX : Int
  cursorY : Int
  mode : Mode
  register : GoString
  deriving DecidableEq, Repr

/-- Function `NewBuffer`. -/
def NewBuffer (text : GoString) : Buffer :=
  let lines := stringsSplit 10 text
  let lines := if lines.length = 0 then [[]] else lines
  { lines := lines, cursorX := 0, cursorY := 0, mode := Mode.normal, register := [] }

/-- Function `Buffer.Text`. -/
def Buffer.Text (b : Buffer) : GoString := stringsJoin 10 b.lines

/-- Function `Buffer.CurrentLine`. -/
def Buffer.CurrentLine (b : Buffer) : GoString :=
  if 0 ≤ b.cursorY ∧ b.cursorY < b.lines.length then b.lines.getD b.cursorY.toNat [] else []

/-- Loop of `CursorIndex`: the lengths (plus one each) of the first `n` lines. -/
def lineOffset : List GoString → Nat → Int
  | [], _ => 0
  | _ :: _, 0 => 0
  | l :: ls, n + 1 => ((runeCount l : Int) + 1) + lineOffset ls n

/-- Function `Buffer.CursorIndex`. -/
def Buffer.CursorIndex (b : Buffer) : Int := lineOffset b.lines b.cursorY.toNat + b.cursorX

/-- Function `Buffer.clampCursor`. -/
def Buffer.clampCursor (b : Buffer) : Buffer :=
  let lines := if b.lines.length = 0 then [[]] else b.lines
  let y := if b.cursorY < 0 then 0 else b.cursorY
  let y := if y ≥ lines.length then (lines.length : Int) - 1 else y
  let lineLen : Int := runeCount (lines.getD y.toNat [])
  let x := if b.cursorX < 0 then 0 else b.cursorX
  let x :=
    if b.mode = Mode.normal then
      if lineLen > 0 ∧ x ≥ lineLen then lineLen - 1 else x
    else
      if x > lineLen then lineLen else x
  let x := if x < 0 then 0 else x
  { b with lines := lines, cursorX := x, cursorY := y }

/-- Function `Buffer.SetText`. -/
def Buffer.SetText (b : Buffer) (text : GoString) : Buffer :=
  let lines := stringsSplit 10 text
  let lines := if lines.length = 0 then [[]] else lines
  Buffer.clampCursor { b with lines := lines }

/-- Function `Buffer.SetCursorPosition`. -/
def Buffer.SetCursorPosition (b : Buffer) (x y : Int) : Buffer :=
  Buffer.clampCursor { b with cursorX := x, cursorY := y }

/-- Loop of `SetCursorIndex`: the first line `y` with `pos + lineLen >= index`, as
`(index - pos, y)`. -/
def setCursorIndexLoop (index : Int) : List GoString → Int → Int → Option (Int × Int)
  | [], _, _ => none
  | line :: rest, y, pos =>
    let lineLen : Int := runeCount line
    if pos + lineLen ≥ index then some (index - pos, y)
    else setCursorIndexLoop index rest (y + 1) (pos + lineLen + 1)

/-- Function `Buffer.SetCursorIndex`. -/
def Buffer.SetCursorIndex (b : Buffer) (index : Int) : Buffer :=
  match setCursorIndexLoop index b.lines 0 0 with
  | some (x, y) => Buffer.clampCursor { b with cursorX := x, cursorY := y }
  | none =>
    if b.lines.length > 0 then
      let y : Int := (b.lines.length : Int) - 1
      Buffer.clampCursor { b with cursorY := y, cursorX := runeCount (b.lines.getD y.toNat []) }
    else Buffer.clampCursor b

/-- Function `Buffer.CharAt`. -/
def Buffer.CharAt (b : Buffer) (x y : Int) : Rune :=
  if y < 0 ∨ y ≥ b.lines.length then 0
  else
    let runes := toRunes (b.lines.getD y.toNat [])
    if x < 0 ∨ x ≥ runes.length then 0 else runes.getD x.toNat 0

/-- Function `Buffer.CharUnderCursor`. -/
def Buffer.CharUnderCursor (b : Buffer) : Rune := b.CharAt b.cursorX b.cursorY

/-- Function `Buffer.Insert`. -/
def Buffer.Insert (b : Buffer) (text : GoString) : Option Buffer := do
  let lines := if b.lines.length = 0 then [[]] else b.lines
  let line ← idx? lines b.cursorY
  let runes := toRunes line
  let parts := stringsSplit 10 text
  let pre ← sliceTo? runes b.cursorX
  let post ← sliceFrom? runes b.cursorX
  if parts.length = 1 then
    -- No newlines, simple insert
    let newRunes := pre ++ toRunes text ++ post
    let lines ← setIdx? lines b.cursorY (fromRunes newRunes)
    pure { b with lines := lines, cursorX := b.cursorX + runeCount text }
  else
    -- Multi-line insert
    let before := fromRunes pre
    let after := fromRunes post
    let lines ← setIdx? lines b.cursorY (before ++ parts.headD [])
    let head ← sliceTo? lines (b.cursorY + 1)
    let middle := (parts.drop 1).dropLast
    let last := parts.getLastD []
    let tail ← sliceFrom? lines (b.cursorY + 1)
    pure { b with
      lines := head ++ middle ++ [last ++ after] ++ tail
      cursorY := b.cursorY + ((parts.length : Int) - 1)
      cursorX := runeCount last }

/-- Wrap-around of a 64-bit `int`: `2^63` is 9223372036854775808 and `2^64` is
18446744073709551616. -/
def wrapInt64 (x : Int) : Int :=
  (x + 9223372036854775808) % 18446744073709551616 - 9223372036854775808

/-- Loop of `Buffer.Delete` at cursor `(x, y)`: the state is the lines, `remaining` and the
deleted text. Every iteration that does not leave the loop lowers `remaining` by at least
one, so a fuel of `remaining` is enough. The sum `cursorX + charsToDelete` of the clamp test
wraps at 64 bits. In the two slice expressions the same sum is written without the wrap:
there it is at most `len(runes)`, or it is `2^63` or more and the slice expression panics
with and without the wrap, a length being below `2^63` (`slice?_wrapInt64`,
`sliceFrom?_wrapInt64`). -/
def deleteLoop (x y : Int) : Nat → List GoString → Int → GoString →
    Option (List GoString × GoString)
  | 0, lines, _, deleted => some (lines, deleted)
  | fuel + 1, lines, remaining, deleted =>
    if remaining > 0 ∧ y < lines.length then do
      let line ← idx? lines y
      let runes := toRunes line
      if x ≥ runes.length then
        -- At end of line, delete newline (join with next line)
        if y < (lines.length : Int) - 1 then do
          let next ← idx? lines (y + 1)
          let lines ← setIdx? lines y (line ++ next)
          let head ← sliceTo? lines (y + 1)
          let tail ← sliceFrom? lines (y + 2)
          deleteLoop x y fuel (head ++ tail) (remaining - 1) (deleted ++ [10])
        else some (lines, deleted)
      else do
        let charsToDelete : Int :=
          if wrapInt64 (x + remaining) > runes.length then (runes.length : Int) - x
          else remaining
        let del ← slice? runes x (x + charsToDelete)
        let pre ← sliceTo? runes x
        let post ← sliceFrom? runes (x + charsToDelete)
        let lines ← setIdx? lines y (fromRunes (pre ++ post))
        deleteLoop x y fuel lines (remaining - charsToDelete) (deleted ++ fromRunes del)
    else some (lines, deleted)

/-- Function `Buffer.Delete`: the deleted text and the buffer afterwards. -/
def Buffer.Delete (b : Buffer) (n : Int) : Option (GoString × Buffer) :=
  if b.lines.length = 0 ∨ n ≤ 0 then some ([], b)
  else do
    let r ← deleteLoop b.cursorX b.cursorY n.toNat b.lines n []
    pure (r.2, Buffer.clampCursor { b with lines := r.1 })

/-- Function `Buffer.DeleteLine`. -/
def Buffer.DeleteLine (b : Buffer) : Option (GoString × Buffer) :=
  if b.lines.length = 0 then some ([], b)
  else do
    let deleted ← idx? b.lines b.cursorY
    if b.lines.length = 1 then
      let lines ← setIdx? b.lines 0 []
      pure (deleted, Buffer.clampCursor { b with lines := lines })
    else
      let head ← sliceTo? b.lines b.cursorY
      let tail ← sliceFrom? b.lines (b.cursorY + 1)
      pure (deleted, Buffer.clampCursor { b with lines := head ++ tail })

/-- Function `Buffer.DeleteToEndOfLine`. -/
def Buffer.DeleteToEndOfLine (b : Buffer) : Option (GoString × Buffer) :=
  if b.lines.length = 0 then some ([], b)
  else do
    let line ← idx? b.lines b.cursorY
    let runes := toRunes line
    if b.cursorX ≥ runes.length then pure ([], b)
    else
      let post ← sliceFrom? runes b.cursorX
      let pre ← sliceTo? runes b.cursorX
      let lines ← setIdx? b.lines b.cursorY (fromRunes pre)
      pure (fromRunes post, Buffer.clampCursor { b with lines := lines })

/-- Function `Buffer.ReplaceChar`. -/
def Buffer.ReplaceChar (b : Buffer) (r : Rune) : Option Buffer :=
  if b.lines.length = 0 then some b
  else do
    let line ← idx? b.lines b.cursorY
    let runes := toRunes line
    if b.cursorX < runes.length then
      let runes ← setIdx? runes b.cursorX r
      let lines ← setIdx? b.lines b.cursorY (fromRunes runes)
      pure { b with lines := lines }
    else pure b

/-- Function `Buffer.SetRegister`. -/
def Buffer.SetRegister (b : Buffer) (text : GoString) : Buffer := { b with register := text }

/-- Function `Buffer.SetMode`. -/
def Buffer.SetMode (b : Buffer) (mode : Mode) : Buffer := { b with mode := mode }

/-- Function `Buffer.Clone`: buffers are values, so the copy is the buffer itself. -/
def Buffer.Clone (b : Buffer) : Buffer := b

/-! ## Motions (motions.go) -/

/-- A counted loop `for i := 0; i < count; i++ { body }`. -/
def forCount {σ : Type} : Nat → (σ → σ) → σ → σ
  | 0, _, s => s
  | n + 1, f, s => forCount n f (f s)

/-- A counted loop whose body may panic. -/
def forCountM {σ : Type} : Nat → (σ → Option σ) → σ → Option σ
  | 0, _, s => some s
  | n + 1, f, s => (f s).bind (forCountM n f)

/-- Loop `for x < bound && p(runes[x+off]) { x++ }`; the fuel `bound - x` is exact. -/
def scanFwd (p : Rune → Bool) (runes : List Rune) (off bound : Int) : Nat → Int → Option Int
  | 0, x => some x
  | fuel + 1, x =>
    if x < bound then
      match idx? runes (x + off) with
      | none => none
      | some r => if p r then scanFwd p runes off bound fuel (x + 1) else some x
    else some x

/-- Loop `for x > 0 && p(runes[x+off]) { x-- }`; the fuel `x` is exact. -/
def scanBwd (p : Rune → Bool) (runes : List Rune) (off : Int) : Nat → Int → Option Int
  | 0, x => some x
  | fuel + 1, x =>
    if x > 0 then
      match idx? runes (x + off) with
      | none => none
      | some r => if p r then scanBwd p runes off fuel (x - 1) else some x
    else some x

/-- Function `for x < len(runes) && p(runes[x]) { x++ }`. -/
def skipFwd (p : Rune → Bool) (runes : List Rune) (x : Int) : Option Int :=
  scanFwd p runes 0 runes.length ((runes.length : Int) - x).toNat x

/-- Function `for x < len(runes)-1 && p(runes[x+1]) { x++ }`. -/
def skipFwdNext (p : Rune → Bool) (runes : List Rune) (x : Int) : Option Int :=
  scanFwd p runes 1 ((runes.length : Int) - 1) ((runes.length : Int) - 1 - x).toNat x

/-- Function `for x > 0 && p(runes[x]) { x-- }`. -/
def skipBwd (p : Rune → Bool) (runes : List Rune) (x : Int) : Option Int :=
  scanBwd p runes 0 x.toNat x

/-- Function `for x > 0 && p(runes[x-1]) { x-- }`. -/
def skipBwdPrev (p : Rune → Bool) (runes : List Rune) (x : Int) : Option Int :=
  scanBwd p runes (-1) x.toNat x

/-- Function `MoveLeft`. -/
def MoveLeft (b : Buffer) (count : Int) : Buffer × Bool :=
  forCount count.toNat
    (fun s => if s.1.cursorX > 0 then ({ s.1 with cursorX := s.1.cursorX - 1 }, true) else s)
    (b, false)

/-- Function `MoveRight`. -/
def MoveRight (b : Buffer) (count : Int) : Buffer × Bool :=
  let lineLen : Int := runeCount b.CurrentLine
  forCount count.toNat
    (fun s =>
      let maxX := if s.1.mode = Mode.insert then lineLen else lineLen - 1
      if s.1.cursorX < maxX then ({ s.1 with cursorX := s.1.cursorX + 1 }, true) else s)
    (b, false)

/-- Function `MoveUp`. -/
def MoveUp (b : Buffer) (count : Int) : Buffer × Bool :=
  let s := forCount count.toNat
    (fun s => if s.1.cursorY > 0 then ({ s.1 with cursorY := s.1.cursorY - 1 }, true) else s)
    (b, false)
  (Buffer.clampCursor s.1, s.2)

/-- Function `MoveDown`. -/
def MoveDown (b : Buffer) (count : Int) : Buffer × Bool :=
  let s := forCount count.toNat
    (fun s =>
      if s.1.cursorY < (s.1.lines.length : Int) - 1 then
        ({ s.1 with cursorY := s.1.cursorY + 1 }, true)
      else s)
    (b, false)
  (Buffer.clampCursor s.1, s.2)

/-- Function `MoveToLineStart`. -/
def MoveToLineStart (b : Buffer) : Buffer × Bool :=
  if b.cursorX ≠ 0 then ({ b with cursorX := 0 }, true) else (b, false)

/-- Function `MoveToLineEnd`. -/
def MoveToLineEnd (b : Buffer) : Buffer × Bool :=
  let lineLen : Int := runeCount b.CurrentLine
  let newX := if b.mode = Mode.insert then lineLen else lineLen - 1
  let newX := if newX < 0 then 0 else newX
  if b.cursorX ≠ newX then ({ b with cursorX := newX }, true) else (b, false)

/-- The index of the first rune that is not a space, counting from `i`. -/
def firstNonBlank : List Rune → Nat → Option Nat
  | [], _ => none
  | r :: rs, i => if !isSpace r then some i else firstNonBlank rs (i + 1)

/-- Function `MoveToFirstNonBlank`. -/
def MoveToFirstNonBlank (b : Buffer) : Buffer × Bool :=
  match firstNonBlank (toRunes b.CurrentLine) 0 with
  | some i => if b.cursorX ≠ (i : Int) then ({ b with cursorX := i }, true) else (b, false)
  | none => MoveToLineStart b

/-- Function `moveWordForwardOnce`. The result compares `cursorY` with `startX`, as the source does. -/
def moveWordForwardOnce (U : UnicodeTables) (b : Buffer) : Option (Buffer × Bool) := do
  let runes := toRunes b.CurrentLine
  let startX := b.cursorX
  -- Skip current character class
  let x ←
    if b.cursorX < runes.length then do
      let c ← idx? runes b.cursorX
      skipFwd (fun r => classifyChar U r == classifyChar U c) runes b.cursorX
    else pure b.cursorX
  -- Skip whitespace
  let x ← skipFwd isSpace runes x
  -- If at end of line, try next line
  let b1 ←
    if x ≥ runes.length ∧ b.cursorY < (b.lines.length : Int) - 1 then do
      let b1 := { b with cursorY := b.cursorY + 1, cursorX := 0 }
      let x ← skipFwd isSpace (toRunes b1.CurrentLine) 0
      pure { b1 with cursorX := x }
    else pure { b with cursorX := x }
  let b2 := Buffer.clampCursor b1
  pure (b2, decide (b2.cursorX ≠ startX) || decide (b2.cursorY ≠ startX))

/-- Function `MoveWordForward`. -/
def MoveWordForward (U : UnicodeTables) (b : Buffer) (count : Int) : Option (Buffer × Bool) :=
  forCountM count.toNat
    (fun s => (moveWordForwardOnce U s.1).map (fun r => (r.1, r.2 || s.2)))
    (b, false)

/-- Function `moveWordBackwardOnce`. -/
def moveWordBackwardOnce (U : UnicodeTables) (b : Buffer) : Option (Buffer × Bool) := do
  let startX := b.cursorX
  let startY := b.cursorY
  -- If at start of line, go to previous line
  let b1 :=
    if b.cursorX = 0 ∧ b.cursorY > 0 then
      let b1 := { b with cursorY := b.cursorY - 1 }
      { b1 with cursorX := runeCount b1.CurrentLine }
    else b
  let runes := toRunes b1.CurrentLine
  -- Move back one character
  let x := if b1.cursorX > 0 then b1.cursorX - 1 else b1.cursorX
  -- Skip whitespace backward
  let x ← skipBwd isSpace runes x
  -- Handle line wrap
  let wrap ←
    if x = 0 ∧ runes.length > 0 then do
      let r0 ← idx? runes 0
      pure (isSpace r0 && decide (b1.cursorY > 0))
    else pure false
  let st ←
    if wrap then do
      let b2 := { b1 with cursorY := b1.cursorY - 1 }
      let runes2 := toRunes b2.CurrentLine
      let x ← skipBwd isSpace runes2 ((runes2.length : Int) - 1)
      pure (b2, runes2, x)
    else pure (b1, runes, x)
  let b3 := st.1
  let runes := st.2.1
  let x := st.2.2
  -- Find start of word
  let x ←
    if x ≥ 0 ∧ x < runes.length then do
      let c ← idx? runes x
      skipBwdPrev (fun r => classifyChar U r == classifyChar U c) runes x
    else pure x
  let x := if x < 0 then 0 else x
  let b4 := { b3 with cursorX := x }
  pure (b4, decide (b4.cursorX ≠ startX) || decide (b4.cursorY ≠ startY))

/-- Function `MoveWordBackward`. -/
def MoveWordBackward (U : UnicodeTables) (b : Buffer) (count : Int) : Option (Buffer × Bool) :=
  forCountM count.toNat
    (fun s => (moveWordBackwardOnce U s.1).map (fun r => (r.1, r.2 || s.2)))
    (b, false)

/-- Function `moveWordEndOnce`. -/
def moveWordEndOnce (U : UnicodeTables) (b : Buffer) : Option (Buffer × Bool) := do
  let runes := toRunes b.CurrentLine
  let startX := b.cursorX
  -- Move forward at least one character
  let b1 :=
    if b.cursorX < (runes.length : Int) - 1 then { b with cursorX := b.cursorX + 1 }
    else if b.cursorY < (b.lines.length : Int) - 1 then
      { b with cursorY := b.cursorY + 1, cursorX := 0 }
    else b
  let runes :=
    if b.cursorX < (runes.length : Int) - 1 then runes
    else if b.cursorY < (b.lines.length : Int) - 1 then toRunes b1.CurrentLine
    else runes
  -- Skip whitespace
  let x ← skipFwd isSpace runes b1.cursorX
  -- Handle line wrap
  let st ←
    if x ≥ runes.length ∧ b1.cursorY < (b1.lines.length : Int) - 1 then do
      let b2 := { b1 with cursorY := b1.cursorY + 1, cursorX := 0 }
      let runes2 := toRunes b2.CurrentLine
      let x ← skipFwd isSpace runes2 0
      pure (b2, runes2, x)
    else pure (b1, runes, x)
  let b3 := st.1
  let runes := st.2.1
  let x := st.2.2
  -- Move to end of word
  let x ←
    if x < runes.length then do
      let c ← idx? runes x
      skipFwdNext (fun r => classifyChar U r == classifyChar U c) runes x
    else pure x
  let b4 := Buffer.clampCursor { b3 with cursorX := x }
  pure (b4, decide (b4.cursorX ≠ startX))

/-- Function `MoveWordEnd`. -/
def MoveWordEnd (U : UnicodeTables) (b : Buffer) (count : Int) : Option (Buffer × Bool) :=
  forCountM count.toNat
    (fun s => (moveWordEndOnce U s.1).map (fun r => (r.1, r.2 || s.2)))
    (b, false)

/-- Loop of `MoveToChar`: `for i < len(runes) { if runes[i] == char { found++; ... } }`.
`some (some i)` is the index of the `count`-th occurrence, `some none` a miss. -/
def moveToCharLoop (runes : List Rune) (char : Rune) (count : Int) :
    Nat → Int → Int → Option (Option Int)
  | 0, _, _ => some none
  | fuel + 1, i, found =>
    if i < runes.length then
      match idx? runes i with
      | none => none
      | some r =>
        if r = char then
          if found + 1 = count then some (some i)
          else moveToCharLoop runes char count fuel (i + 1) (found + 1)
        else moveToCharLoop runes char count fuel (i + 1) found
    else some none

/-- Function `MoveToChar`. -/
def MoveToChar (b : Buffer) (char : Rune) (count : Int) (before : Bool) :
    Option (Buffer × Bool) := do
  let runes := toRunes b.CurrentLine
  let r ← moveToCharLoop runes char count ((runes.length : Int) - (b.cursorX + 1)).toNat
    (b.cursorX + 1) 0
  match r with
  | some i => pure ({ b with cursorX := if before then i - 1 else i }, true)
  | none => pure (b, false)

/-- Loop of `MoveToCharBackward`: `for i >= 0 { if runes[i] == char { found++; ... } }`. -/
def moveToCharBackwardLoop (runes : List Rune) (char : Rune) (count : Int) :
    Nat → Int → Int → Option (Option Int)
  | 0, _, _ => some none
  | fuel + 1, i, found =>
    if i ≥ 0 then
      match idx? runes i with
      | none => none
      | some r =>
        if r = char then
          if found + 1 = count then some (some i)
          else moveToCharBackwardLoop runes char count fuel (i - 1) (found + 1)
        else moveToCharBackwardLoop runes char count fuel (i - 1) found
    else some none

/-- Function `MoveToCharBackward`. -/
def MoveToCharBackward (b : Buffer) (char : Rune) (count : Int) (after : Bool) :
    Option (Buffer × Bool) := do
  let runes := toRunes b.CurrentLine
  let r ← moveToCharBackwardLoop runes char count b.cursorX.toNat (b.cursorX - 1) 0
  match r with
  | some i => pure ({ b with cursorX := if after then i + 1 else i }, true)
  | none => pure (b, false)

/-- Function `MoveToBufferStart`. -/
def MoveToBufferStart (b : Buffer) : Buffer × Bool :=
  if b.cursorX ≠ 0 ∨ b.cursorY ≠ 0 then ({ b with cursorX := 0, cursorY := 0 }, true)
  else (b, false)

/-- Function `MoveToBufferEnd`. -/
def MoveToBufferEnd (b : Buffer) : Buffer × Bool :=
  let lastLine : Int := (b.lines.length : Int) - 1
  let lastLine := if lastLine < 0 then 0 else lastLine
  if b.cursorY ≠ lastLine then
    ((MoveToFirstNonBlank { b with cursorY := lastLine }).1, true)
  else (b, false)

/-- Function `MoveToLine`. -/
def MoveToLine (b : Buffer) (lineNum : Int) : Buffer × Bool :=
  let targetY := lineNum - 1
  let targetY := if targetY < 0 then 0 else targetY
  let targetY := if targetY ≥ b.lines.length then (b.lines.length : Int) - 1 else targetY
  if b.cursorY ≠ targetY then
    ((MoveToFirstNonBlank { b with cursorY := targetY }).1, true)
  else (b, false)

/-- The `pairs` map of `MoveToMatchingBracket`. -/
def bracketPair (c : Rune) : Option Rune :=
  if c = 0x28 then some 0x29 else if c = 0x29 then some 0x28
  else if c = 0x5B then some 0x5D else if c = 0x5D then some 0x5B
  else if c = 0x7B then some 0x7D else if c = 0x7D then some 0x7B
  else if c = 0x3C then some 0x3E else if c = 0x3E then some 0x3C
  else none

/-- Result of scanning one line for the matching bracket. -/
inductive ScanResult where
  | found (x : Int)
  | depth (d : Int)
  deriving DecidableEq, Repr

/-- Inner loop of `MoveToMatchingBracket` over the runes still to visit; `x` is the index of
the first of them and `step` is `1` (forward) or `-1` (backward). -/
def bracketScan (char m : Rune) (step : Int) : List Rune → Int → Int → ScanResult
  | [], _, depth => ScanResult.depth depth
  | r :: rs, x, depth =>
    if r = char then bracketScan char m step rs (x + step) (depth + 1)
    else if r = m then
      if depth - 1 = 0 then ScanResult.found x
      else bracketScan char m step rs (x + step) (depth - 1)
    else bracketScan char m step rs (x + step) depth

/-- Outer forward loop: `lines` are the lines from `y` on, `startX` the first column. -/
def bracketLinesFwd (char m : Rune) : List GoString → Int → Int → Int → Option (Int × Int)
  | [], _, _, _ => none
  | l :: ls, y, startX, depth =>
    match bracketScan char m 1 ((toRunes l).drop startX.toNat) startX depth with
    | ScanResult.found x => some (x, y)
    | ScanResult.depth d => bracketLinesFwd char m ls (y + 1) 0 d

/-- Outer backward loop: `lines` are the lines from `y` down to `0`; `first` tells whether
`y` is the cursor line, where the scan starts at `cursorX - 1`. -/
def bracketLinesBwd (char m : Rune) (cursorX : Int) :
    List GoString → Int → Bool → Int → Option (Int × Int)
  | [], _, _, _ => none
  | l :: ls, y, first, depth =>
    let runes := toRunes l
    let startX : Int := if first then cursorX - 1 else (runes.length : Int) - 1
    match bracketScan char m (-1) (runes.take (startX + 1).toNat).reverse startX depth with
    | ScanResult.found x => some (x, y)
    | ScanResult.depth d => bracketLinesBwd char m cursorX ls (y - 1) false d

/-- Function `MoveToMatchingBracket`. -/
def MoveToMatchingBracket (b : Buffer) : Option (Buffer × Bool) :=
  let runes := toRunes b.CurrentLine
  if b.cursorX ≥ runes.length then some (b, false)
  else do
    let char ← idx? runes b.cursorX
    match bracketPair char with
    | none => pure (b, false)
    | some m =>
      let forward := char = 0x28 ∨ char = 0x5B ∨ char = 0x7B ∨ char = 0x3C
      let r :=
        if forward then
          bracketLinesFwd char m (b.lines.drop b.cursorY.toNat) b.cursorY (b.cursorX + 1) 1
        else
          bracketLinesBwd char m b.cursorX (b.lines.take (b.cursorY + 1).toNat).reverse
            b.cursorY true 1
      match r with
      | some (x, y) => pure ({ b with cursorX := x, cursorY := y }, true)
      | none => pure (b, false)

/-! ## Engine (engine.go) -/

/-- The command engine: buffer, undo and redo stacks (oldest snapshot first), pending keys
and the last find. -/
structure Engine where
  buffer : Buffer
  undoStack : List Buffer
  redoStack : List Buffer
  pendingKeys : GoString
  lastSearch : Rune
  searchDir : Int
  deriving DecidableEq, Repr

/-- Function `NewEngine`. -/
def NewEngine (text : GoString) : Engine :=
  { buffer := NewBuffer text, undoStack := [], redoStack := [], pendingKeys := [],
    lastSearch := 0, searchDir := 0 }

/-- Function `Engine.Reset`. -/
def Engine.Reset (e : Engine) (text : GoString) (cursorPos : Int) : Engine :=
  { e with
    buffer := (NewBuffer text).SetCursorIndex cursorPos
    undoStack := []
    redoStack := []
    pendingKeys := [] }

/-- Function `Engine.Text`. -/
def Engine.Text (e : Engine) : GoString := e.buffer.Text

/-- Function `Engine.CursorIndex`. -/
def Engine.CursorIndex (e : Engine) : Int := e.buffer.CursorIndex

/-- Function `Engine.Mode`. -/
def Engine.Mode (e : Engine) : Mode := e.buffer.mode

/-- Replace the buffer of the engine. -/
def Engine.setBuf (e : Engine) (b : Buffer) : Engine := { e with buffer := b }

/-- Function `Engine.saveUndo`. -/
def Engine.saveUndo (e : Engine) : Engine :=
  let undo := e.undoStack ++ [e.buffer.Clone]
  { e with
    undoStack := if undo.length > 100 then undo.drop 1 else undo
    redoStack := [] }

/-- Function `Engine.undo`. -/
def Engine.undo (e : Engine) : Engine × Bool :=
  match e.undoStack.getLast? with
  | none => (e, false)
  | some top =>
    ({ e with
        redoStack := e.redoStack ++ [e.buffer.Clone]
        buffer := top
        undoStack := e.undoStack.dropLast }, true)

/-- Function `Engine.redo`. -/
def Engine.redo (e : Engine) : Engine × Bool :=
  match e.redoStack.getLast? with
  | none => (e, false)
  | some top =>
    ({ e with
        undoStack := e.undoStack ++ [e.buffer.Clone]
        buffer := top
        redoStack := e.redoStack.dropLast }, true)

/-- The result `(consumed, remaining)` of a parser, with the engine afterwards. -/
abbrev Step := Option (Engine × Bool × GoString)

/-- A handler result. -/
def ret (e : Engine) (consumed : Bool) (remaining : GoString) : Step :=
  some (e, consumed, remaining)

/-- Function `Engine.handleInsertMode`. -/
def Engine.handleInsertMode (e : Engine) (keys : GoString) : Step :=
  if keys.length = 0 then ret e false []
  else if keys = str "esc" ∨ keys = [0x1b] then
    ret (e.setBuf (MoveLeft (e.buffer.SetMode Mode.normal) 1).1) true []
  else if keys = str "backspace" ∨ keys = [0x7f] then
    if e.buffer.cursorX > 0 then do
      let r ← (MoveLeft e.buffer 1).1.Delete 1
      ret (e.setBuf r.2) true []
    else ret e true []
  else if keys = str "enter" ∨ keys = [0x0d] ∨ keys = [0x0a] then do
    let b ← e.buffer.Insert [0x0a]
    ret (e.setBuf b) true []
  else
    -- Regular character input
    if keys.length = 1 ∧ keys.headD 0 ≥ 32 then do
      let b ← e.buffer.Insert keys
      ret (e.setBuf b) true []
    else ret e false keys

/-- The operator switch shared by `handleOperatorPending` and `handleTextObject`, after
`saveUndo` and `SetCursorIndex(startIdx)`. -/
def applyOperator (e : Engine) (op : GoString) (startIdx endIdx startX startY : Int) :
    Option Engine :=
  if op = str "d" then do
    let r ← e.buffer.Delete (endIdx - startIdx)
    pure (e.setBuf (r.2.SetRegister r.1))
  else if op = str "c" then do
    let r ← e.buffer.Delete (endIdx - startIdx)
    pure (e.setBuf ((r.2.SetRegister r.1).SetMode Mode.insert))
  else if op = str "y" then do
    -- Yank without modifying buffer
    let text := e.buffer.Text
    let b ←
      if startIdx < text.length ∧ endIdx ≤ text.length then do
        let t ← slice? text startIdx endIdx
        pure (e.buffer.SetRegister t)
      else pure e.buffer
    pure (e.setBuf (b.SetCursorPosition startX startY))
  else pure e

/-- Backward loop of `handleBracketObject`: `for i >= 0 { ... }` looking for the opening
bracket; the state is `depth`. `some none` means no opening bracket was found. -/
def findOpenLoop (runes : List Rune) (op cl : Rune) : Nat → Int → Int → Option (Option Int)
  | 0, _, _ => some none
  | fuel + 1, i, depth =>
    if i ≥ 0 then
      match idx? runes i with
      | none => none
      | some r =>
        if r = cl then findOpenLoop runes op cl fuel (i - 1) (depth + 1)
        else if r = op then
          if depth = 0 then some (some i)
          else findOpenLoop runes op cl fuel (i - 1) (depth - 1)
        else findOpenLoop runes op cl fuel (i - 1) depth
    else some none

/-- Forward loop of `handleBracketObject` over the runes from index `i` on. -/
def findCloseLoop (op cl : Rune) : List Rune → Int → Int → Option Int
  | [], _, _ => none
  | r :: rs, i, depth =>
    if r = op then findCloseLoop op cl rs (i + 1) (depth + 1)
    else if r = cl then
      if depth - 1 = 0 then some i else findCloseLoop op cl rs (i + 1) (depth - 1)
    else findCloseLoop op cl rs (i + 1) depth

/-- Function `Engine.handleBracketObject`. -/
def Engine.handleBracketObject (e : Engine) (op : GoString) (opn cls : Rune) (inner : Bool)
    (remaining : GoString) : Step := do
  let text := e.buffer.Text
  let cursorIdx := e.buffer.CursorIndex
  let runes := toRunes text
  -- Find opening bracket (searching backward from cursor)
  let o ← findOpenLoop runes opn cls (cursorIdx + 1).toNat cursorIdx 0
  match o with
  | none => ret e true remaining
  | some openIdx =>
    -- Find closing bracket
    match findCloseLoop opn cls (runes.drop (openIdx + 1).toNat) (openIdx + 1) 1 with
    | none => ret e true remaining
    | some closeIdx =>
      let startIdx := if inner then openIdx + 1 else openIdx
      let endIdx := if inner then closeIdx else closeIdx + 1
      if startIdx ≥ endIdx then ret e true remaining
      else
        let e := e.saveUndo
        let e := e.setBuf (e.buffer.SetCursorIndex startIdx)
        if op = str "d" then do
          let r ← e.buffer.Delete (endIdx - startIdx)
          ret (e.setBuf (r.2.SetRegister r.1)) true remaining
        else if op = str "c" then do
          let r ← e.buffer.Delete (endIdx - startIdx)
          ret (e.setBuf ((r.2.SetRegister r.1).SetMode Mode.insert)) true remaining
        else if op = str "y" then do
          let t ← slice? runes startIdx endIdx
          ret (e.setBuf (e.buffer.SetRegister (fromRunes t))) true remaining
        else ret e true remaining

/-- Loop of the quote object: the indices of the first two occurrences of `quote`. -/
def findQuotes (quote : Rune) : List Rune → Int → Option Int → Option Int × Option Int
  | [], _, openIdx => (openIdx, none)
  | r :: rs, i, openIdx =>
    if r = quote then
      match openIdx with
      | none => findQuotes quote rs (i + 1) (some i)
      | some o => (some o, some i)
    else findQuotes quote rs (i + 1) openIdx

/-- The object switch of `handleTextObject`: the engine after the cursor moves with
`startIdx` and `endIdx` (`Sum.inr`), or an early return (`Sum.inl`). `motion` is the rest
after the object key. -/
def Engine.textObjectRange (U : UnicodeTables) (e : Engine) (op : GoString) (inner : Bool)
    (obj : Nat) (motion : GoString) : Option (Sum Step (Engine × Int × Int)) :=
  let runes := toRunes e.buffer.CurrentLine
  if obj = 0x77 then
    -- word
    let x := e.buffer.cursorX
    if x ≥ runes.length then some (Sum.inl (ret e true motion))
    else do
      let c ← idx? runes x
      let sameClass := fun r => classifyChar U r == classifyChar U c
      let start ← skipBwdPrev sameClass runes x
      let stop ← skipFwdNext sameClass runes x
      let stop ← if !inner then skipFwdNext isSpace runes stop else pure stop
      let startIdx := ({ e.buffer with cursorX := start } : Buffer).CursorIndex
      let b := ({ e.buffer with cursorX := stop + 1 } : Buffer)
      pure (Sum.inr (e.setBuf b, startIdx, b.CursorIndex))
  else if obj = 0x22 ∨ obj = 0x27 ∨ obj = 0x60 then
    -- quotes
    match findQuotes obj runes 0 none with
    | (some openIdx, some closeIdx) =>
      if inner then
        let startIdx := ({ e.buffer with cursorX := openIdx + 1 } : Buffer).CursorIndex
        let b := ({ e.buffer with cursorX := closeIdx } : Buffer)
        some (Sum.inr (e.setBuf b, startIdx, b.CursorIndex))
      else
        let startIdx := ({ e.buffer with cursorX := openIdx } : Buffer).CursorIndex
        let b := ({ e.buffer with cursorX := closeIdx + 1 } : Buffer)
        some (Sum.inr (e.setBuf b, startIdx, b.CursorIndex))
    | _ => some (Sum.inl (ret e true motion))
  else if obj = 0x28 ∨ obj = 0x29 ∨ obj = 0x62 then
    some (Sum.inl (e.handleBracketObject op 0x28 0x29 inner motion))
  else if obj = 0x5B ∨ obj = 0x5D then
    some (Sum.inl (e.handleBracketObject op 0x5B 0x5D inner motion))
  else if obj = 0x7B ∨ obj = 0x7D ∨ obj = 0x42 then
    some (Sum.inl (e.handleBracketObject op 0x7B 0x7D inner motion))
  else if obj = 0x3C ∨ obj = 0x3E then
    some (Sum.inl (e.handleBracketObject op 0x3C 0x3E inner motion))
  else some (Sum.inl (ret e true motion))

/-- Function `Engine.handleTextObject`; the caller guarantees `len(motion) >= 2`, the function
checks it again. -/
def Engine.handleTextObject (U : UnicodeTables) (e : Engine) (op motion : GoString)
    (_count : Int) : Step :=
  if motion.length < 2 then ret e false (op ++ motion)
  else
    let inner : Bool := motion.headD 0 == 0x69
    let obj := (motion.drop 1).headD 0
    let motion := motion.drop 2
    let startX := e.buffer.cursorX
    let startY := e.buffer.cursorY
    match e.textObjectRange U op inner obj motion with
    | none => none
    | some (Sum.inl r) => r
    | some (Sum.inr (e, startIdx, endIdx)) =>
      if startIdx ≥ endIdx then
        ret (e.setBuf (e.buffer.SetCursorPosition startX startY)) true motion
      else
        -- Perform operation
        let e := e.saveUndo
        let e := e.setBuf (e.buffer.SetCursorIndex startIdx)
        (applyOperator e op startIdx endIdx startX startY).bind (fun e => ret e true motion)

/-- The motion switch of `handleOperatorPending`: the engine after the motion, `moved`, the
start index and the rest of `motion`; `Sum.inl` is an early return. -/
def operatorMotion (U : UnicodeTables) (e : Engine) (op motion : GoString) (count : Int)
    (startIdx : Int) : Option (Sum (Engine × Bool × GoString) (Engine × Bool × Int × GoString)) :=
  let m0 := motion.headD 0
  let b := e.buffer
  if m0 = 0x77 then do
    let r ← MoveWordForward U b count
    pure (Sum.inr (e.setBuf r.1, r.2, startIdx, motion.drop 1))
  else if m0 = 0x62 then do
    let r ← MoveWordBackward U b count
    pure (Sum.inr (e.setBuf r.1, r.2, startIdx, motion.drop 1))
  else if m0 = 0x65 then do
    let r ← MoveWordEnd U b count
    -- Include the character at end
    pure (Sum.inr (e.setBuf (MoveRight r.1 1).1, r.2, startIdx, motion.drop 1))
  else if m0 = 0x24 then
    let r := MoveToLineEnd b
    -- Include last char for d$
    some (Sum.inr (e.setBuf (MoveRight r.1 1).1, r.2, startIdx, motion.drop 1))
  else if m0 = 0x30 then
    -- d0 deletes from cursor to start of line
    let endX := b.cursorX
    let b1 := (MoveToLineStart b).1
    some (Sum.inr (e.setBuf { b1 with cursorX := endX }, true, b1.CursorIndex, motion.drop 1))
  else if m0 = 0x5E then
    let endX := b.cursorX
    let b1 := (MoveToFirstNonBlank b).1
    if b1.cursorX < endX then
      some (Sum.inr (e.setBuf { b1 with cursorX := endX }, true, b1.CursorIndex, motion.drop 1))
    else some (Sum.inr (e.setBuf b1, true, startIdx, motion.drop 1))
  else if m0 = 0x66 ∨ m0 = 0x74 then
    if motion.length ≥ 2 then do
      let char := (motion.drop 1).headD 0
      let r ← MoveToChar b char count (decide (m0 ≠ 0x66))
      -- Include target char
      pure (Sum.inr (e.setBuf (MoveRight r.1 1).1, r.2, startIdx, motion.drop 2))
    else some (Sum.inl (e, false, op ++ motion))
  else if m0 = 0x46 ∨ m0 = 0x54 then
    if motion.length ≥ 2 then do
      let char := (motion.drop 1).headD 0
      let r ← MoveToCharBackward b char count (decide (m0 ≠ 0x46))
      -- Swap start and end since we moved backward
      let endIdx := r.1.CursorIndex
      pure (Sum.inr (e.setBuf (r.1.SetCursorIndex startIdx), r.2, endIdx, motion.drop 2))
    else some (Sum.inl (e, false, op ++ motion))
  else if m0 = 0x47 then
    let r := if count > 1 then MoveToLine b count else MoveToBufferEnd b
    some (Sum.inr (e.setBuf r.1, r.2, startIdx, motion.drop 1))
  else if m0 = 0x67 then
    if motion.length ≥ 2 ∧ (motion.drop 1).headD 0 = 0x67 then
      let r := MoveToBufferStart b
      some (Sum.inr (e.setBuf r.1, r.2, startIdx, motion.drop 2))
    else some (Sum.inl (e, false, op ++ motion))
  else some (Sum.inl (e, false, []))

/-- Function `Engine.handleOperatorPending`. -/
def Engine.handleOperatorPending (U : UnicodeTables) (e : Engine) (op motion : GoString)
    (count : Int) : Step :=
  if motion.length = 0 then ret e false op
  else
    let startX := e.buffer.cursorX
    let startY := e.buffer.cursorY
    let startIdx := e.buffer.CursorIndex
    -- Handle text objects
    if motion.length ≥ 2 ∧ (motion.headD 0 = 0x69 ∨ motion.headD 0 = 0x61) then
      e.handleTextObject U op motion count
    else
      -- Execute motion
      match operatorMotion U e op motion count startIdx with
      | none => none
      | some (Sum.inl r) => some r
      | some (Sum.inr (e, moved, startIdx, motion)) =>
        if !moved then
          ret (e.setBuf (e.buffer.SetCursorPosition startX startY)) true motion
        else
          let endIdx := e.buffer.CursorIndex
          -- Ensure startIdx < endIdx
          let lo := if startIdx > endIdx then endIdx else startIdx
          let hi := if startIdx > endIdx then startIdx else endIdx
          -- Perform operation
          let e := e.saveUndo
          let e := e.setBuf (e.buffer.SetCursorIndex lo)
          (applyOperator e op lo hi startX startY).bind (fun e => ret e true motion)

/-- The two digit loops of `handleNormalMode`: `idx` after skipping `[1-9]*` and then
`[0-9]*`. -/
def countPrefixLen (keys : GoString) : Nat :=
  let i1 := (keys.takeWhile (fun k => decide (0x31 ≤ k) && decide (k ≤ 0x39))).length
  i1 + ((keys.drop i1).takeWhile (fun k => decide (0x30 ≤ k) && decide (k ≤ 0x39))).length

/-- The loop `count = count*10 + int(keys[i]-'0')` over the digit prefix. -/
def parseCount (digits : GoString) : Int :=
  digits.foldl (fun c k => wrapInt64 (c * 10 + ((k : Int) - 0x30))) 0

/-- The find cases `f`, `F`, `t`, `T` of `handleNormalMode`. -/
def Engine.findChar (e : Engine) (keys : GoString) (count : Int) (backward before : Bool) :
    Step := do
  let char := (keys.drop 1).headD 0
  let r ← if backward then MoveToCharBackward e.buffer char count before
          else MoveToChar e.buffer char count before
  ret { e with buffer := r.1, lastSearch := char, searchDir := if backward then -1 else 1 }
    true (keys.drop 2)

/-- Function `Engine.handleNormalMode`. -/
def Engine.handleNormalMode (U : UnicodeTables) (e : Engine) (keys : GoString) : Step :=
  if keys.length = 0 then ret e false []
  else
    -- Parse count prefix
    let idx := countPrefixLen keys
    let count : Int :=
      if idx > 0 then
        let c := parseCount (keys.take idx)
        if c = 0 then 1 else c
      else 1
    let keys := keys.drop idx
    let b := e.buffer
    if keys.length = 0 then ret e false (List.replicate idx 0x30)
    -- Mode changes
    else if keys = str "i" then ret (e.setBuf (b.SetMode Mode.insert)) true []
    else if keys = str "I" then
      ret (e.setBuf ((MoveToFirstNonBlank b).1.SetMode Mode.insert)) true []
    else if keys = str "a" then ret (e.setBuf ((MoveRight b 1).1.SetMode Mode.insert)) true []
    else if keys = str "A" then
      let b1 := (MoveToLineEnd b).1
      ret (e.setBuf (({ b1 with cursorX := b1.cursorX + 1 } : Buffer).SetMode Mode.insert)) true []
    else if keys = str "o" then do
      let e := e.saveUndo
      let b1 ← (MoveToLineEnd e.buffer).1.Insert [0x0a]
      ret (e.setBuf (b1.SetMode Mode.insert)) true []
    else if keys = str "O" then do
      let e := e.saveUndo
      let b1 ← (MoveToLineStart e.buffer).1.Insert [0x0a]
      ret (e.setBuf ((MoveUp b1 1).1.SetMode Mode.insert)) true []
    else if keys = str "v" then ret (e.setBuf (b.SetMode Mode.visual)) true []
    else if keys = str "V" then ret (e.setBuf (b.SetMode Mode.visualLine)) true []
    -- Basic motions
    else if keys = str "h" then ret (e.setBuf (MoveLeft b count).1) true []
    else if keys = str "l" then ret (e.setBuf (MoveRight b count).1) true []
    else if keys = str "j" then ret (e.setBuf (MoveDown b count).1) true []
    else if keys = str "k" then ret (e.setBuf (MoveUp b count).1) true []
    else if keys = str "0" then ret (e.setBuf (MoveToLineStart b).1) true []
    else if keys = str "$" then ret (e.setBuf (MoveToLineEnd b).1) true []
    else if keys = str "^" then ret (e.setBuf (MoveToFirstNonBlank b).1) true []
    else if keys = str "w" then
      (MoveWordForward U b count).bind (fun r => ret (e.setBuf r.1) true [])
    else if keys = str "b" then
      (MoveWordBackward U b count).bind (fun r => ret (e.setBuf r.1) true [])
    else if keys = str "e" then
      (MoveWordEnd U b count).bind (fun r => ret (e.setBuf r.1) true [])
    else if keys = str "gg" then ret (e.setBuf (MoveToBufferStart b).1) true []
    else if keys = str "G" then
      if count > 1 then ret (e.setBuf (MoveToLine b count).1) true []
      else ret (e.setBuf (MoveToBufferEnd b).1) true []
    else if keys = str "%" then
      (MoveToMatchingBracket b).bind (fun r => ret (e.setBuf r.1) true [])
    -- Find character
    else if keys.length ≥ 2 ∧ keys.headD 0 = 0x66 then e.findChar keys count false false
    else if keys.length ≥ 2 ∧ keys.headD 0 = 0x46 then e.findChar keys count true false
    else if keys.length ≥ 2 ∧ keys.headD 0 = 0x74 then e.findChar keys count false true
    else if keys.length ≥ 2 ∧ keys.headD 0 = 0x54 then e.findChar keys count true true
    else if keys = str ";" then
      if e.lastSearch ≠ 0 then
        if e.searchDir > 0 then
          (MoveToChar b e.lastSearch count false).bind (fun r => ret (e.setBuf r.1) true [])
        else
          (MoveToCharBackward b e.lastSearch count false).bind
            (fun r => ret (e.setBuf r.1) true [])
      else ret e true []
    else if keys = str "," then
      if e.lastSearch ≠ 0 then
        if e.searchDir > 0 then
          (MoveToCharBackward b e.lastSearch count false).bind
            (fun r => ret (e.setBuf r.1) true [])
        else
          (MoveToChar b e.lastSearch count false).bind (fun r => ret (e.setBuf r.1) true [])
      else ret e true []
    -- Delete operations
    else if keys = str "x" then do
      let e := e.saveUndo
      let r ← e.buffer.Delete count
      ret (e.setBuf (r.2.SetRegister r.1)) true []
    else if keys = str "X" then do
      let e := e.saveUndo
      let b1 ← forCountM count.toNat
        (fun b => if b.cursorX > 0 then ((MoveLeft b 1).1.Delete 1).map (fun r => r.2)
                  else some b)
        e.buffer
      ret (e.setBuf b1) true []
    else if keys = str "dd" then do
      let e := e.saveUndo
      let b1 ← forCountM count.toNat
        (fun b => b.DeleteLine.map (fun r => r.2.SetRegister (r.1 ++ [0x0a])))
        e.buffer
      ret (e.setBuf b1) true []
    else if keys = str "D" then do
      let e := e.saveUndo
      let r ← e.buffer.DeleteToEndOfLine
      ret (e.setBuf (r.2.SetRegister r.1)) true []
    else if keys.headD 0 = 0x64 then e.handleOperatorPending U (str "d") (keys.drop 1) count
    -- Change operations
    else if keys = str "cc" ∨ keys = str "S" then do
      let e := e.saveUndo
      let r ← e.buffer.DeleteLine
      ret (e.setBuf (r.2.SetMode Mode.insert)) true []
    else if keys = str "C" then do
      let e := e.saveUndo
      let r ← e.buffer.DeleteToEndOfLine
      ret (e.setBuf (r.2.SetMode Mode.insert)) true []
    else if keys = str "s" then do
      let e := e.saveUndo
      let r ← e.buffer.Delete count
      ret (e.setBuf (r.2.SetMode Mode.insert)) true []
    else if keys.headD 0 = 0x63 then e.handleOperatorPending U (str "c") (keys.drop 1) count
    -- Replace
    else if keys.length ≥ 2 ∧ keys.headD 0 = 0x72 then do
      let e := e.saveUndo
      let char := (keys.drop 1).headD 0
      let st ← forCountM count.toNat
        (fun (st : Buffer × Int) =>
          (st.1.ReplaceChar char).map
            (fun b1 => (if st.2 < count - 1 then (MoveRight b1 1).1 else b1, st.2 + 1)))
        (e.buffer, 0)
      ret (e.setBuf st.1) true (keys.drop 2)
    -- Yank operations
    else if keys = str "yy" ∨ keys = str "Y" then
      ret (e.setBuf (b.SetRegister (b.CurrentLine ++ [0x0a]))) true []
    else if keys.headD 0 = 0x79 then e.handleOperatorPending U (str "y") (keys.drop 1) count
    -- Put
    else if keys = str "p" then do
      let e := e.saveUndo
      let reg := e.buffer.register
      if hasSuffixNL reg then do
        -- Line-wise paste
        let b1 := (MoveToLineEnd e.buffer).1
        let b2 ← ({ b1 with cursorX := b1.cursorX + 1 } : Buffer).Insert
          ([0x0a] ++ trimSuffixNL reg)
        ret (e.setBuf (MoveToFirstNonBlank (MoveDown b2 1).1).1) true []
      else do
        let b1 ← (MoveRight e.buffer 1).1.Insert reg
        ret (e.setBuf b1) true []
    else if keys = str "P" then do
      let e := e.saveUndo
      let reg := e.buffer.register
      if hasSuffixNL reg then do
        -- Line-wise paste above
        let b1 ← (MoveToLineStart e.buffer).1.Insert (trimSuffixNL reg ++ [0x0a])
        ret (e.setBuf (MoveToFirstNonBlank (MoveUp b1 1).1).1) true []
      else do
        let b1 ← e.buffer.Insert reg
        ret (e.setBuf b1) true []
    -- Undo/Redo
    else if keys = str "u" then ret e.undo.1 true []
    else if keys = [0x12] then ret e.redo.1 true []
    -- Pending - wait for more input
    else if keys = str "g" ∨ keys = str "d" ∨ keys = str "c" ∨ keys = str "y" ∨
        keys = str "f" ∨ keys = str "F" ∨ keys = str "t" ∨ keys = str "T" ∨ keys = str "r" then
      ret e false keys
    else
      -- Unknown command, discard
      ret e false []

/-- Function `Engine.handleVisualMode`. -/
def Engine.handleVisualMode (U : UnicodeTables) (e : Engine) (keys : GoString) : Step :=
  let b := e.buffer
  if keys.length = 0 then ret e false []
  else if keys = str "esc" ∨ keys = [0x1b] ∨ keys = str "v" ∨ keys = str "V" then
    ret (e.setBuf (b.SetMode Mode.normal)) true []
  else if keys = str "d" ∨ keys = str "x" then ret (e.setBuf (b.SetMode Mode.normal)) true []
  else if keys = str "y" then ret (e.setBuf (b.SetMode Mode.normal)) true []
  else if keys = str "h" then ret (e.setBuf (MoveLeft b 1).1) true []
  else if keys = str "l" then ret (e.setBuf (MoveRight b 1).1) true []
  else if keys = str "j" then ret (e.setBuf (MoveDown b 1).1) true []
  else if keys = str "k" then ret (e.setBuf (MoveUp b 1).1) true []
  else if keys = str "w" then (MoveWordForward U b 1).bind (fun r => ret (e.setBuf r.1) true [])
  else if keys = str "b" then (MoveWordBackward U b 1).bind (fun r => ret (e.setBuf r.1) true [])
  else if keys = str "e" then (MoveWordEnd U b 1).bind (fun r => ret (e.setBuf r.1) true [])
  else if keys = str "$" then ret (e.setBuf (MoveToLineEnd b).1) true []
  else if keys = str "0" then ret (e.setBuf (MoveToLineStart b).1) true []
  else ret e false []

/-- Function `Engine.parseAndExecute`. -/
def Engine.parseAndExecute (U : UnicodeTables) (e : Engine) (keys : GoString) : Step :=
  if keys.length = 0 then ret e false []
  else
    match e.buffer.mode with
    | Mode.insert => e.handleInsertMode keys
    | Mode.normal => e.handleNormalMode U keys
    | Mode.visual => e.handleVisualMode U keys
    | Mode.visualLine => e.handleVisualMode U keys
    | _ => ret e false keys

/-- Function `Engine.ProcessKey`: the engine afterwards and `consumed`; `none` is a panic. -/
def Engine.ProcessKey (U : UnicodeTables) (e : Engine) (key : GoString) :
    Option (Engine × Bool) :=
  let e1 := { e with pendingKeys := e.pendingKeys ++ key }
  -- Try to parse and execute the pending keys
  (e1.parseAndExecute U e1.pendingKeys).map
    (fun r => ({ r.1 with pendingKeys := r.2.2 }, r.2.1))

/-- Feed the keys one at a time, stopping at a panic. -/
def Engine.ProcessKeys (U : UnicodeTables) (e : Engine) : List GoString → Option Engine
  | [] => some e
  | k :: ks => (e.ProcessKey U k).bind (fun r => Engine.ProcessKeys U r.1 ks)

/-! ## Predicates and sample states used by the theorems -/

/-- Engine states reachable from `NewEngine` by `Reset` and by `ProcessKey` calls that
return. -/
inductive Reachable (U : UnicodeTables) : Engine → Prop
  | newEngine (text : GoString) : Reachable U (NewEngine text)
  | reset (e : Engine) (text : GoString) (cursorPos : Int) :
      Reachable U e → Reachable U (e.Reset text cursorPos)
  | processKey (e e1 : Engine) (key : GoString) (consumed : Bool) :
      Reachable U e → e.ProcessKey U key = some (e1, consumed) → Reachable U e1

/-- The two history stacks together hold at most 100 snapshots. -/
def StackInv (e : Engine) : Prop := e.undoStack.length + e.redoStack.length ≤ 100

/-- The property `P` holds of the result whenever the computation returns. -/
def OptAll {α : Type} (P : α → Prop) (o : Option α) : Prop := ∀ a, o = some a → P a

/-- Stack invariant of a result of `Engine.textObjectRange`. -/
def RangeInv : Sum Step (Engine × Int × Int) → Prop
  | Sum.inl r => OptAll (fun x => StackInv x.1) r
  | Sum.inr x => StackInv x.1

/-- Stack invariant of a result of `operatorMotion`. -/
def MotionInv : Sum (Engine × Bool × GoString) (Engine × Bool × Int × GoString) → Prop
  | Sum.inl x => StackInv x.1
  | Sum.inr x => StackInv x.1

/-- Tables with no letter and no digit above ASCII, for evaluating ASCII examples. -/
def asciiTables : UnicodeTables := ⟨fun _ => false, fun _ => false⟩

/-- A fresh engine on `text` with the cursor at index `cursor`, as a task start does. -/
def startEngine (text : String) (cursor : Int) : Engine :=
  (NewEngine []).Reset (str text) cursor

/-- The final `(cursorX, cursorY)`, mode, current line and pending keys of a run. -/
def Engine.view (e : Engine) : Int × Int × Macaco.Mode × GoString × GoString :=
  (e.buffer.cursorX, e.buffer.cursorY, e.buffer.mode, e.buffer.CurrentLine, e.pendingKeys)

/-- The engine after the key `x` on "ab". -/
def afterX : Engine :=
  { buffer := { lines := [str "b"], cursorX := 0, cursorY := 0, mode := Mode.normal,
                register := str "a" }
    undoStack := [NewBuffer (str "ab")]
    redoStack := []
    pendingKeys := []
    lastSearch := 0
    searchDir := 0 }

/-- The buffer "ab\ncd" in normal mode with the cursor on `d`. -/
def twoLines : Buffer :=
  { lines := [str "ab", str "cd"], cursorX := 1, cursorY := 1, mode := Mode.normal,
    register := [] }

/-- Unicode scalar values: the runes that `encodeRune` encodes without replacement. -/
def ValidRune (r : Nat) : Prop := r ≤ 0x10FFFF ∧ ¬ (0xD800 ≤ r ∧ r ≤ 0xDFFF)

/-- The string is valid UTF-8, as Go `utf8.ValidString` tests it: decoding and encoding
again gives it back. -/
def ValidUTF8 (s : GoString) : Prop := fromRunes (toRunes s) = s

/-- Every line of the list is valid UTF-8. -/
def ValidLines (lines : List GoString) : Prop := ∀ l ∈ lines, ValidUTF8 l

/-- The runes of the lines above the cursor line, each followed by its newline. -/
def linesBefore (A : List (List Rune)) : List Rune := A.flatMap (fun l => l ++ [10])

/-- The runes of the lines below the cursor line, each preceded by its newline. -/
def linesAfter (B : List (List Rune)) : List Rune := B.flatMap (fun l => 10 :: l)

/-- The cursor of `b` is on the line `l` between the lines `A` and `B`, after the runes
`pre` and before the runes `post` of `l`, and every line is valid UTF-8. -/
def AtSplit (b : Buffer) (A : List GoString) (l : GoString) (B : List GoString)
    (pre post : List Rune) : Prop :=
  b.lines = A ++ l :: B ∧ b.cursorY = A.length ∧ b.cursorX = pre.length ∧
  toRunes l = pre ++ post ∧ ValidLines b.lines

instance (s : GoString) : Decidable (ValidUTF8 s) :=
  inferInstanceAs (Decidable (fromRunes (toRunes s) = s))

instance (lines : List GoString) : Decidable (ValidLines lines) :=
  inferInstanceAs (Decidable (∀ l ∈ lines, ValidUTF8 l))

/-- The sequence `SetCursorIndex(i); Insert(s); SetCursorIndex(i); Delete(char_count(s))` on
`b`, and the text afterwards. -/
def insertThenDelete (b : Buffer) (i : Int) (s : GoString) : Option GoString :=
  ((b.SetCursorIndex i).Insert s).bind
    (fun b2 => ((b2.SetCursorIndex i).Delete (runeCount s)).map (fun r => r.2.Text))

/-- The tables `U` with the letter and digit entries of the rune `r0` replaced by `v` and
`w`. -/
def tablesWith (U : UnicodeTables) (r0 : Rune) (v w : Bool) : UnicodeTables :=
  { letter := fun r => if r = r0 then v else U.letter r
    digit := fun r => if r = r0 then w else U.digit r }

/-- What `d` with a text object does to the buffer of `e`: either the lines are unchanged,
or the buffer is the result of `Delete(n)` after `SetCursorIndex(i)` on the lines of `e`, with
the deleted text in the register. -/
def DeletedAt (e e1 : Engine) : Prop :=
  e1.buffer.lines = e.buffer.lines ∨
  ∃ (b0 : Buffer) (i n : Int) (r : GoString × Buffer),
    b0.lines = e.buffer.lines ∧ b0.mode = e.buffer.mode ∧ 0 < n ∧
    (b0.SetCursorIndex i).Delete n = some r ∧ e1.buffer = r.2.SetRegister r.1

/-- Frame of a result of `Engine.textObjectRange` for the operator `d`. -/
def RangeShape (e : Engine) (rest : GoString) : Sum Step (Engine × Int × Int) → Prop
  | Sum.inl r => OptAll (fun x => DeletedAt e x.1 ∧ x.2.2 = rest) r
  | Sum.inr x => x.1.buffer.lines = e.buffer.lines ∧ x.1.buffer.mode = e.buffer.mode

/-- The engine after the key string `daw` on "hello world foo" with the cursor on `w`. -/
def afterDaw : Engine :=
  { buffer := { lines := [str "hello foo"], cursorX := 6, cursorY := 0, mode := Mode.normal,
                register := str "world " }
    undoStack := [{ lines := [str "hello world foo"], cursorX := 12, cursorY := 0,
                    mode := Mode.normal, register := [] }]
    redoStack := []
    pendingKeys := []
    lastSearch := 0
    searchDir := 0 }

/-! ## float64 arithmetic (used by game/session.go)

A finite `float64` value is the rational number it denotes. The operations round the exact
result to the nearest value with a 53-bit significand, ties to even. The exponent range is
not modelled: the quotients and products of `int` values computed by the session lie
between `2^-63` and `2^70` in absolute value, far inside the normal range. -/

/-- Number of binary digits of `n`, by halving; `fuel` bounds the number of steps. -/
def bitLenAux : Nat → Nat → Nat
  | 0, _ => 0
  | fuel + 1, n => if n = 0 then 0 else bitLenAux fuel (n / 2) + 1

/-- Number of binary digits of `n` (`0` for `n = 0`). -/
def bitLen (n : Nat) : Nat := bitLenAux n n

/-- The integer nearest to `a / b`, ties to the even one. -/
def roundHalfEven (a b : Nat) : Nat :=
  let q := a / b
  let r := a % b
  if 2 * r < b then q
  else if b < 2 * r then q + 1
  else if q % 2 = 0 then q else q + 1

/-- The exponent `e` of the unit in the last place of `a / b` (`a, b > 0`):
`2^52 ≤ (a / b) / 2^e < 2^53`. -/
def ulpExponent (a b : Nat) : Int :=
  let k : Int := (bitLen a : Int) - (bitLen b : Int)
  if b * 2 ^ k.toNat ≤ a * 2 ^ (-k).toNat then k - 52 else k - 53

/-- The `float64` nearest to `a / b` (`a, b > 0`): `roundHalfEven((a / b) / 2^e) * 2^e` with
`e` the exponent of the unit in the last place. Of `e.toNat` and `(-e).toNat` one is `0`. -/
def roundFrac (a b : Nat) : ℚ :=
  let e := ulpExponent a b
  (roundHalfEven (a * 2 ^ (-e).toNat) (b * 2 ^ e.toNat) : ℚ) * 2 ^ e.toNat / 2 ^ (-e).toNat

/-- Rounding of a rational to the nearest `float64`, ties to even. -/
def roundFloat64 (x : ℚ) : ℚ :=
  if x = 0 then 0
  else if x.num < 0 then -roundFrac x.num.natAbs x.den
  else roundFrac x.num.natAbs x.den

/-- Conversion `float64(n)` of an `int`. -/
def float64OfInt (n : Int) : ℚ := roundFloat64 n

/-- Division of two `float64` values (`y ≠ 0`). -/
def float64Div (x y : ℚ) : ℚ := roundFloat64 (x / y)

/-- Multiplication of two `float64` values. -/
def float64Mul (x y : ℚ) : ℚ := roundFloat64 (x * y)

/-! ## Session (game/session.go, game/task.go)

Times are nanoseconds as `Int`; every operation that reads the clock takes the reading `now`
as an argument (one reading per operation). The task pointers of a session are non-nil, as
`CreateSession` builds them. A nil `engine` is `none`; a method call on it panics (`none`
result). -/

/-- A point in time or a duration, in nanoseconds. -/
abbrev Time := Int

/-- Type `Task`. -/
structure Task where
  ID : GoString
  Category : GoString
  Difficulty : Int
  Initial : GoString
  Desired : GoString
  CursorStart : Int
  CursorEnd : Int
  HighlightStart : Int
  HighlightEnd : Int
  OptimalKeys : GoString
  OptimalCount : Int
  Description : GoString
  Hint : GoString
  Tags : List GoString
  deriving DecidableEq

/-- Function `Task.IsMotionTask`. -/
def Task.IsMotionTask (t : Task) : Bool := decide (t.Initial = t.Desired) && decide (t.CursorEnd > 0)

/-- Type `SessionState`. -/
inductive SessionState where
  | SessionStateActive
  | SessionStatePaused
  | SessionStateCompleted
  deriving DecidableEq, Repr

/-- Type `MatchStatus`. -/
inductive MatchStatus where
  | MatchNone
  | MatchInProgress
  | MatchComplete
  deriving DecidableEq, Repr

/-- Type `TaskResult`; `Efficiency` is a `float64`. -/
structure TaskResult where
  TaskID : GoString
  Category : GoString
  Difficulty : Int
  TimeMs : Int
  Keystrokes : Int
  OptimalKeystrokes : Int
  Efficiency : ℚ
  Success : Bool
  KeysUsed : GoString
  Resets : Int
  HintsUsed : Int
  CompletedAt : Time
  deriving DecidableEq

/-- Type `Session`. -/
structure Session where
  ID : GoString
  RoundType : GoString
  Tasks : List Task
  CurrentIndex : Int
  State : SessionState
  StartedAt : Time
  CompletedAt : Option Time
  TaskResults : List TaskResult
  TotalTasks : Int
  SkipsRemaining : Int
  engine : Option Engine
  taskStart : Time
  keystrokes : Int
  keysUsed : GoString
  hintsUsed : Int
  resets : Int
  isPaused : Bool
  pauseStart : Time
  pausedTime : Time
  deriving DecidableEq

/-- Function `NewSession`; `sid` is the fresh UUID. -/
def NewSession (sid roundType : GoString) (tasks : List Task) (now : Time) : Session :=
  { ID := sid, RoundType := roundType, Tasks := tasks, CurrentIndex := 0,
    State := SessionState.SessionStateActive, StartedAt := now, CompletedAt := none,
    TaskResults := [], TotalTasks := tasks.length, SkipsRemaining := 5,
    engine := none, taskStart := 0, keystrokes := 0, keysUsed := [], hintsUsed := 0,
    resets := 0, isPaused := false, pauseStart := 0, pausedTime := 0 }

/-- Function `Session.CurrentTask`; `none` is the nil task. -/
def Session.CurrentTask (s : Session) : Option Task :=
  if 0 ≤ s.CurrentIndex ∧ s.CurrentIndex < s.Tasks.length then s.Tasks[s.CurrentIndex.toNat]? else none

/-- Function `Session.StartTask`. -/
def Session.StartTask (s : Session) (now : Time) : Session :=
  match s.CurrentTask with
  | none => s
  | some task =>
    let e := NewEngine task.Initial
    { s with
      engine := some (e.setBuf (e.buffer.SetCursorIndex task.CursorStart))
      taskStart := now
      keystrokes := 0
      keysUsed := []
      hintsUsed := 0
      resets := 0
      pausedTime := 0 }

/-- Function `Session.CheckMatch`. -/
def Session.CheckMatch (s : Session) : MatchStatus :=
  match s.CurrentTask, s.engine with
  | some task, some engine =>
    let bufferText := engine.Text
    let cursorIdx := engine.CursorIndex
    if task.IsMotionTask then
      -- For motion tasks, check cursor position
      if cursorIdx = task.CursorEnd then MatchStatus.MatchComplete
      else MatchStatus.MatchInProgress
    -- For editing tasks, check text match
    else if bufferText = task.Desired then MatchStatus.MatchComplete
    else if bufferText = task.Initial then MatchStatus.MatchNone
    else MatchStatus.MatchInProgress
  | _, _ => MatchStatus.MatchNone

/-- Function `Session.ProcessKey`; `none` when the vim engine panics on the key. -/
def Session.ProcessKey (U : UnicodeTables) (s : Session) (key : GoString) :
    Option (Session × MatchStatus) :=
  match s.engine with
  | none => some (s, MatchStatus.MatchNone)
  | some engine =>
    if s.isPaused then some (s, MatchStatus.MatchNone)
    else do
      let r ← engine.ProcessKey U key
      let s1 := { s with
        engine := some r.1
        keystrokes := wrapInt64 (s.keystrokes + 1)
        keysUsed := s.keysUsed ++ key }
      pure (s1, s1.CheckMatch)

/-- The part of `CompleteTask` and `SkipTask` after the result is built: append the result,
advance, and complete the session or start the next task. -/
def Session.advance (s : Session) (result : TaskResult) (now : Time) : Session :=
  let s1 := { s with TaskResults := s.TaskResults ++ [result], CurrentIndex := s.CurrentIndex + 1 }
  if s1.CurrentIndex ≥ s1.Tasks.length then
    { s1 with State := SessionState.SessionStateCompleted, CompletedAt := some now }
  else s1.StartTask now

/-- The efficiency computed by `CompleteTask`. -/
def efficiencyOf (optimalCount keystrokes : Int) : ℚ :=
  if keystrokes > 0 then
    let efficiency := float64Mul (float64Div (float64OfInt optimalCount) (float64OfInt keystrokes)) 100
    if efficiency > 100 then 100 else efficiency
  else 0

/-- Function `Session.CompleteTask`; the result is `none` for the nil result. -/
def Session.CompleteTask (s : Session) (now : Time) : Session × Option TaskResult :=
  match s.CurrentTask with
  | none => (s, none)
  | some task =>
    let elapsed := (now - s.taskStart) - s.pausedTime
    let result : TaskResult :=
      { TaskID := task.ID, Category := task.Category, Difficulty := task.Difficulty,
        TimeMs := Int.tdiv elapsed 1000000, Keystrokes := s.keystrokes,
        OptimalKeystrokes := task.OptimalCount,
        Efficiency := efficiencyOf task.OptimalCount s.keystrokes,
        Success := true, KeysUsed := s.keysUsed, Resets := s.resets,
        HintsUsed := s.hintsUsed, CompletedAt := now }
    (s.advance result now, some result)

/-- Function `Session.SkipTask`. -/
def Session.SkipTask (s : Session) (now : Time) : Session × Bool :=
  if s.SkipsRemaining ≤ 0 then (s, false)
  else
    match s.CurrentTask with
    | none => (s, false)
    | some task =>
      let s1 := { s with SkipsRemaining := s.SkipsRemaining - 1 }
      let result : TaskResult :=
        { TaskID := task.ID, Category := task.Category, Difficulty := task.Difficulty,
          TimeMs := 60000, Keystrokes := s1.keystrokes,
          OptimalKeystrokes := task.OptimalCount, Efficiency := 0,
          Success := false, KeysUsed := s1.keysUsed, Resets := s1.resets,
          HintsUsed := s1.hintsUsed, CompletedAt := now }
      (s1.advance result now, true)

/-- Function `Session.ResetTask`; `none` when the engine is nil and a task is current. -/
def Session.ResetTask (s : Session) : Option Session :=
  match s.CurrentTask with
  | none => some s
  | some task =>
    match s.engine with
    | none => none
    | some engine =>
      some { s with
        resets := wrapInt64 (s.resets + 1)
        engine := some (engine.Reset task.Initial task.CursorStart) }

/-- Function `Session.UseHint`. -/
def Session.UseHint (s : Session) : Session := { s with hintsUsed := wrapInt64 (s.hintsUsed + 1) }

/-- Function `Session.Pause`. -/
def Session.Pause (s : Session) (now : Time) : Session :=
  if !s.isPaused then
    { s with isPaused := true, pauseStart := now, State := SessionState.SessionStatePaused }
  else s

/-- Function `Session.Resume`. -/
def Session.Resume (s : Session) (now : Time) : Session :=
  if s.isPaused then
    { s with pausedTime := s.pausedTime + (now - s.pauseStart), isPaused := false,
             State := SessionState.SessionStateActive }
  else s

/-- Function `Session.IsComplete`. -/
def Session.IsComplete (s : Session) : Bool := decide (s.State = SessionState.SessionStateCompleted)

/-- The operations of a session. -/
inductive SessionOp where
  | ProcessKey (key : GoString)
  | CompleteTask (now : Time)
  | SkipTask (now : Time)
  | ResetTask
  | UseHint
  | Pause (now : Time)
  | Resume (now : Time)

/-- The session after one operation; `none` when the operation panics. -/
def Session.apply (U : UnicodeTables) (s : Session) : SessionOp → Option Session
  | SessionOp.ProcessKey key => (s.ProcessKey U key).map (fun r => r.1)
  | SessionOp.CompleteTask now => some (s.CompleteTask now).1
  | SessionOp.SkipTask now => some (s.SkipTask now).1
  | SessionOp.ResetTask => s.ResetTask
  | SessionOp.UseHint => some s.UseHint
  | SessionOp.Pause now => some (s.Pause now)
  | SessionOp.Resume now => some (s.Resume now)

/-- Sessions reachable from `NewSession` by `StartTask` (as `CreateSession` does) and the
session operations. -/
inductive SessionReachable (U : UnicodeTables) : Session → Prop
  | create (sid roundType : GoString) (tasks : List Task) (now : Time) :
      SessionReachable U (NewSession sid roundType tasks now)
  | start (s : Session) (now : Time) :
      SessionReachable U s → SessionReachable U (s.StartTask now)
  | step (s s1 : Session) (op : SessionOp) :
      SessionReachable U s → s.apply U op = some s1 → SessionReachable U s1

/-- The results of successive `SkipTask` calls at the given clock readings. -/
def Session.SkipTasks (s : Session) : List Time → List Bool
  | [] => []
  | now :: rest => (s.SkipTask now).2 :: (s.SkipTask now).1.SkipTasks rest

/-- The embedded task `motion-0-001`. -/
def taskMotionZero : Task :=
  { ID := str "motion-0-001", Category := str "motion", Difficulty := 1,
    Initial := str "hello world from vim", Desired := str "hello world from vim",
    CursorStart := 12, CursorEnd := 0, HighlightStart := 0, HighlightEnd := 0,
    OptimalKeys := str "0", OptimalCount := 1,
    Description := str "Move to start of line",
    Hint := str "Use '0' to jump to line start",
    Tags := [str "line-motion", str "basic"] }

/-- The embedded task `delete-dw-001`. -/
def taskDeleteWord : Task :=
  { ID := str "delete-dw-001", Category := str "delete", Difficulty := 1,
    Initial := str "hello extra world", Desired := str "hello world",
    CursorStart := 6, CursorEnd := 0, HighlightStart := 0, HighlightEnd := 0,
    OptimalKeys := str "dw", OptimalCount := 2,
    Description := str "Delete word",
    Hint := str "Use 'dw' to delete word",
    Tags := [str "delete", str "word"] }

/-- A session created on `tasks` as `CreateSession` does, with the clock at `0`. -/
def sessionOn (tasks : List Task) : Session := (NewSession [] [] tasks 0).StartTask 0

/-- The session after the given keys, one `ProcessKey` call each. -/
def Session.ProcessKeys (U : UnicodeTables) (s : Session) : List GoString → Option Session
  | [] => some s
  | key :: rest => (s.ProcessKey U key).bind (fun r => r.1.ProcessKeys U rest)

/-- The embedded task `insert-o-001`. -/
def taskInsertO : Task :=
  { ID := str "insert-o-001", Category := str "insert", Difficulty := 1,
    Initial := str "line one\nline three", Desired := str "line one\nline two\nline three",
    CursorStart := 0, CursorEnd := 0, HighlightStart := 0, HighlightEnd := 0,
    OptimalKeys := str "oline two<ESC>", OptimalCount := 11,
    Description := str "Open new line below",
    Hint := str "Use 'o' to open new line below and enter insert mode",
    Tags := [str "insert", str "line"] }

/-! ## Balanced brackets and innermost pairs (for the bracket text objects) -/

/-- Opening minus closing brackets in `u`. -/
def bracketCount (op cl : Rune) (u : List Rune) : Int :=
  (u.count op : Int) - (u.count cl : Int)

/-- The brackets `op`, `cl` are balanced in `u`: the opening and closing brackets are equally
many, and no prefix of `u` has more closing than opening brackets. -/
def Balanced (op cl : Rune) (u : List Rune) : Prop :=
  bracketCount op cl u = 0 ∧ ∀ n, n ≤ u.length → 0 ≤ bracketCount op cl (u.take n)

instance (op cl : Rune) (u : List Rune) : Decidable (Balanced op cl u) :=
  inferInstanceAs (Decidable (_ ∧ _))

/-- The brackets at the indices `i < j` of `t` match: `t[i]` is the opening bracket, `t[j]` the
closing bracket, and the characters strictly between them are balanced. -/
def MatchingPair (op cl : Rune) (t : List Rune) (i j : Nat) : Prop :=
  i < j ∧ t[i]? = some op ∧ t[j]? = some cl ∧ Balanced op cl ((t.take j).drop (i + 1))

instance (op cl : Rune) (t : List Rune) (i j : Nat) : Decidable (MatchingPair op cl t i j) :=
  inferInstanceAs (Decidable (_ ∧ _))

/-- The pair at `(i, j)` is the innermost matching pair of `t` that encloses the index `k`:
it encloses `k`, and no matching pair that encloses `k` opens after `i`. -/
def InnermostPair (op cl : Rune) (t : List Rune) (k i j : Nat) : Prop :=
  MatchingPair op cl t i j ∧ i < k ∧ k < j ∧
  ∀ i1, i1 < k → ∀ j1, j1 < t.length → MatchingPair op cl t i1 j1 → k < j1 → i1 ≤ i

instance (op cl : Rune) (t : List Rune) (k i j : Nat) :
    Decidable (InnermostPair op cl t k i j) :=
  inferInstanceAs (Decidable (_ ∧ _))

/-! ## Embedded tasks (game/task.go) and their optimal keys -/

/-- Function `getEmbeddedTasks`: the built-in task collection. -/
def getEmbeddedTasks : List Task :=
  [ { ID := str "motion-w-001", Category := str "motion", Difficulty := 1,
      Initial := str "hello world from vim",
      Desired := str "hello world from vim",
      CursorStart := 0, CursorEnd := 6, HighlightStart := 0, HighlightEnd := 0,
      OptimalKeys := str "w", OptimalCount := 1,
      Description := str "Move to next word start",
      Hint := str "Use 'w' to move forward one word",
      Tags := [str "word-motion", str "basic"] },
    { ID := str "motion-b-001", Category := str "motion", Difficulty := 1,
      Initial := str "hello world from vim",
      Desired := str "hello world from vim",
      CursorStart := 12, CursorEnd := 6, HighlightStart := 0, HighlightEnd := 0,
      OptimalKeys := str "b", OptimalCount := 1,
      Description := str "Move to previous word start",
      Hint := str "Use 'b' to move backward one word",
      Tags := [str "word-motion", str "basic"] },
    { ID := str "motion-e-001", Category := str "motion", Difficulty := 1,
      Initial := str "hello world from vim",
      Desired := str "hello world from vim",
      CursorStart := 0, CursorEnd := 4, HighlightStart := 0, HighlightEnd := 0,
      OptimalKeys := str "e", OptimalCount := 1,
      Description := str "Move to end of word",
      Hint := str "Use 'e' to move to end of current word",
      Tags := [str "word-motion", str "basic"] },
    { ID := str "motion-0-001", Category := str "motion", Difficulty := 1,
      Initial := str "hello world from vim",
      Desired := str "hello world from vim",
      CursorStart := 12, CursorEnd := 0, HighlightStart := 0, HighlightEnd := 0,
      OptimalKeys := str "0", OptimalCount := 1,
      Description := str "Move to start of line",
      Hint := str "Use '0' to jump to line start",
      Tags := [str "line-motion", str "basic"] },
    { ID := str "motion-$-001", Category := str "motion", Difficulty := 1,
      Initial := str "hello world from vim",
      Desired := str "hello world from vim",
      CursorStart := 0, CursorEnd := 19, HighlightStart := 0, HighlightEnd := 0,
      OptimalKeys := str "$", OptimalCount := 1,
      Description := str "Move to end of line",
      Hint := str "Use '$' to jump to line end",
      Tags := [str "line-motion", str "basic"] },
    { ID := str "motion-^-001", Category := str "motion", Difficulty := 1,
      Initial := str "   hello world",
      Desired := str "   hello world",
      CursorStart := 0, CursorEnd := 3, HighlightStart := 0, HighlightEnd := 0,
      OptimalKeys := str "^", OptimalCount := 1,
      Description := str "Move to first non-blank",
      Hint := str "Use '^' to jump to first non-blank character",
      Tags := [str "line-motion", str "basic"] },
    { ID := str "motion-3w-001", Category := str "motion", Difficulty := 2,
      Initial := str "one two three four five",
      Desired := str "one two three four five",
      CursorStart := 0, CursorEnd := 14, HighlightStart := 0, HighlightEnd := 0,
      OptimalKeys := str "3w", OptimalCount := 2,
      Description := str "Move forward three words",
      Hint := str "Use count before motion: '3w'",
      Tags := [str "word-motion", str "count"] },
    { ID := str "motion-f-001", Category := str "motion", Difficulty := 2,
      Initial := str "find the letter x here",
      Desired := str "find the letter x here",
      CursorStart := 0, CursorEnd := 16, HighlightStart := 0, HighlightEnd := 0,
      OptimalKeys := str "fx", OptimalCount := 2,
      Description := str "Find next 'x'",
      Hint := str "Use 'f' followed by target character",
      Tags := [str "find-motion", str "intermediate"] },
    { ID := str "motion-t-001", Category := str "motion", Difficulty := 2,
      Initial := str "move to (parenthesis)",
      Desired := str "move to (parenthesis)",
      CursorStart := 0, CursorEnd := 7, HighlightStart := 0, HighlightEnd := 0,
      OptimalKeys := str "t(", OptimalCount := 2,
      Description := str "Move until '('",
      Hint := str "Use 't' to move until (before) a character",
      Tags := [str "find-motion", str "intermediate"] },
    { ID := str "motion-2b-001", Category := str "motion", Difficulty := 2,
      Initial := str "one two three four",
      Desired := str "one two three four",
      CursorStart := 14, CursorEnd := 4, HighlightStart := 0, HighlightEnd := 0,
      OptimalKeys := str "2b", OptimalCount := 2,
      Description := str "Move back two words",
      Hint := str "Use '2b' to move back two words",
      Tags := [str "word-motion", str "count"] },
    { ID := str "delete-x-001", Category := str "delete", Difficulty := 1,
      Initial := str "helxlo world",
      Desired := str "hello world",
      CursorStart := 3, CursorEnd := 0, HighlightStart := 0, HighlightEnd := 0,
      OptimalKeys := str "x", OptimalCount := 1,
      Description := str "Delete character under cursor",
      Hint := str "Use 'x' to delete character under cursor",
      Tags := [str "delete", str "basic"] },
    { ID := str "delete-x-002", Category := str "delete", Difficulty := 1,
      Initial := str "hellooo world",
      Desired := str "hello world",
      CursorStart := 5, CursorEnd := 0, HighlightStart := 0, HighlightEnd := 0,
      OptimalKeys := str "xx", OptimalCount := 2,
      Description := str "Delete two extra characters",
      Hint := str "Use 'x' twice or '2x' to delete two characters",
      Tags := [str "delete", str "basic"] },
    { ID := str "delete-dw-001", Category := str "delete", Difficulty := 1,
      Initial := str "hello extra world",
      Desired := str "hello world",
      CursorStart := 6, CursorEnd := 0, HighlightStart := 0, HighlightEnd := 0,
      OptimalKeys := str "dw", OptimalCount := 2,
      Description := str "Delete word",
      Hint := str "Use 'dw' to delete word",
      Tags := [str "delete", str "word"] },
    { ID := str "delete-dd-001", Category := str "delete", Difficulty := 1,
      Initial := str "line one\ndelete me\nline three",
      Desired := str "line one\nline three",
      CursorStart := 9, CursorEnd := 0, HighlightStart := 0, HighlightEnd := 0,
      OptimalKeys := str "dd", OptimalCount := 2,
      Description := str "Delete entire line",
      Hint := str "Use 'dd' to delete the current line",
      Tags := [str "delete", str "line"] },
    { ID := str "delete-D-001", Category := str "delete", Difficulty := 1,
      Initial := str "keep this delete rest",
      Desired := str "keep this",
      CursorStart := 9, CursorEnd := 0, HighlightStart := 0, HighlightEnd := 0,
      OptimalKeys := str "D", OptimalCount := 1,
      Description := str "Delete to end of line",
      Hint := str "Use 'D' to delete from cursor to end of line",
      Tags := [str "delete", str "line"] },
    { ID := str "delete-daw-001", Category := str "delete", Difficulty := 2,
      Initial := str "delete this word here",
      Desired := str "delete word here",
      CursorStart := 9, CursorEnd := 0, HighlightStart := 0, HighlightEnd := 0,
      OptimalKeys := str "daw", OptimalCount := 3,
      Description := str "Delete a word (including space)",
      Hint := str "Use 'daw' to delete 'a word' including surrounding space",
      Tags := [str "delete", str "text-object"] },
    { ID := str "delete-diw-001", Category := str "delete", Difficulty := 2,
      Initial := str "delete this word",
      Desired := str "delete  word",
      CursorStart := 8, CursorEnd := 0, HighlightStart := 0, HighlightEnd := 0,
      OptimalKeys := str "diw", OptimalCount := 3,
      Description := str "Delete inner word",
      Hint := str "Use 'diw' to delete just the word (not space)",
      Tags := [str "delete", str "text-object"] },
    { ID := str "delete-dt-001", Category := str "delete", Difficulty := 2,
      Initial := str "delete until (keep this)",
      Desired := str "(keep this)",
      CursorStart := 0, CursorEnd := 0, HighlightStart := 0, HighlightEnd := 0,
      OptimalKeys := str "dt(", OptimalCount := 3,
      Description := str "Delete until character",
      Hint := str "Use 'dt(' to delete until the '(' character",
      Tags := [str "delete", str "find-motion"] },
    { ID := str "change-cw-001", Category := str "change", Difficulty := 1,
      Initial := str "hello old world",
      Desired := str "hello new world",
      CursorStart := 6, CursorEnd := 0, HighlightStart := 0, HighlightEnd := 0,
      OptimalKeys := str "cwnew<ESC>", OptimalCount := 6,
      Description := str "Change word to 'new'",
      Hint := str "Use 'cw' to change word, type 'new', press ESC",
      Tags := [str "change", str "word"] },
    { ID := str "change-r-001", Category := str "change", Difficulty := 1,
      Initial := str "hello warld",
      Desired := str "hello world",
      CursorStart := 7, CursorEnd := 0, HighlightStart := 0, HighlightEnd := 0,
      OptimalKeys := str "ro", OptimalCount := 2,
      Description := str "Replace single character",
      Hint := str "Use 'r' followed by the replacement character",
      Tags := [str "change", str "replace"] },
    { ID := str "change-s-001", Category := str "change", Difficulty := 1,
      Initial := str "hello xorld",
      Desired := str "hello world",
      CursorStart := 6, CursorEnd := 0, HighlightStart := 0, HighlightEnd := 0,
      OptimalKeys := str "sw<ESC>", OptimalCount := 4,
      Description := str "Substitute character",
      Hint := str "Use 's' to delete char and enter insert mode",
      Tags := [str "change", str "substitute"] },
    { ID := str "change-cc-001", Category := str "change", Difficulty := 1,
      Initial := str "wrong line",
      Desired := str "right line",
      CursorStart := 0, CursorEnd := 0, HighlightStart := 0, HighlightEnd := 0,
      OptimalKeys := str "ccright line<ESC>", OptimalCount := 13,
      Description := str "Change entire line",
      Hint := str "Use 'cc' to change the entire line",
      Tags := [str "change", str "line"] },
    { ID := str "change-C-001", Category := str "change", Difficulty := 1,
      Initial := str "keep this wrong part",
      Desired := str "keep this right part",
      CursorStart := 10, CursorEnd := 0, HighlightStart := 0, HighlightEnd := 0,
      OptimalKeys := str "Cright part<ESC>", OptimalCount := 12,
      Description := str "Change to end of line",
      Hint := str "Use 'C' to change from cursor to end of line",
      Tags := [str "change", str "line"] },
    { ID := str "change-ciw-001", Category := str "change", Difficulty := 2,
      Initial := str "change inside word",
      Desired := str "change outside word",
      CursorStart := 10, CursorEnd := 0, HighlightStart := 0, HighlightEnd := 0,
      OptimalKeys := str "ciwoutside<ESC>", OptimalCount := 11,
      Description := str "Change inner word",
      Hint := str "Use 'ciw' to change word regardless of cursor position",
      Tags := [str "change", str "text-object"] },
    { ID := str "change-ci-quote-001", Category := str "change", Difficulty := 2,
      Initial := str "text = \"old value\"",
      Desired := str "text = \"new value\"",
      CursorStart := 10, CursorEnd := 0, HighlightStart := 0, HighlightEnd := 0,
      OptimalKeys := str "ci\"new value<ESC>", OptimalCount := 14,
      Description := str "Change inside quotes",
      Hint := str "Use 'ci\"' to change text inside quotes",
      Tags := [str "change", str "text-object"] },
    { ID := str "change-ci-paren-001", Category := str "change", Difficulty := 2,
      Initial := str "func(old, args)",
      Desired := str "func(new, args)",
      CursorStart := 6, CursorEnd := 0, HighlightStart := 0, HighlightEnd := 0,
      OptimalKeys := str "cwnew<ESC>", OptimalCount := 6,
      Description := str "Change function argument",
      Hint := str "Use 'cw' to change the word",
      Tags := [str "change", str "word"] },
    { ID := str "insert-i-001", Category := str "insert", Difficulty := 1,
      Initial := str "hello world",
      Desired := str "hello beautiful world",
      CursorStart := 6, CursorEnd := 0, HighlightStart := 0, HighlightEnd := 0,
      OptimalKeys := str "ibeautiful <ESC>", OptimalCount := 12,
      Description := str "Insert text before cursor",
      Hint := str "Use 'i' to insert before cursor",
      Tags := [str "insert", str "basic"] },
    { ID := str "insert-a-001", Category := str "insert", Difficulty := 1,
      Initial := str "hello world",
      Desired := str "hello, world",
      CursorStart := 4, CursorEnd := 0, HighlightStart := 0, HighlightEnd := 0,
      OptimalKeys := str "a,<ESC>", OptimalCount := 4,
      Description := str "Append after cursor",
      Hint := str "Use 'a' to append after cursor",
      Tags := [str "insert", str "basic"] },
    { ID := str "insert-A-001", Category := str "insert", Difficulty := 1,
      Initial := str "hello world",
      Desired := str "hello world!",
      CursorStart := 0, CursorEnd := 0, HighlightStart := 0, HighlightEnd := 0,
      OptimalKeys := str "A!<ESC>", OptimalCount := 4,
      Description := str "Append at end of line",
      Hint := str "Use 'A' to append at end of line",
      Tags := [str "insert", str "basic"] },
    { ID := str "insert-I-001", Category := str "insert", Difficulty := 1,
      Initial := str "world",
      Desired := str "hello world",
      CursorStart := 2, CursorEnd := 0, HighlightStart := 0, HighlightEnd := 0,
      OptimalKeys := str "Ihello <ESC>", OptimalCount := 9,
      Description := str "Insert at start of line",
      Hint := str "Use 'I' to insert at the beginning of line",
      Tags := [str "insert", str "basic"] },
    { ID := str "insert-o-001", Category := str "insert", Difficulty := 1,
      Initial := str "line one\nline three",
      Desired := str "line one\nline two\nline three",
      CursorStart := 0, CursorEnd := 0, HighlightStart := 0, HighlightEnd := 0,
      OptimalKeys := str "oline two<ESC>", OptimalCount := 11,
      Description := str "Open new line below",
      Hint := str "Use 'o' to open new line below and enter insert mode",
      Tags := [str "insert", str "line"] },
    { ID := str "insert-O-001", Category := str "insert", Difficulty := 1,
      Initial := str "line two\nline three",
      Desired := str "line one\nline two\nline three",
      CursorStart := 0, CursorEnd := 0, HighlightStart := 0, HighlightEnd := 0,
      OptimalKeys := str "Oline one<ESC>", OptimalCount := 11,
      Description := str "Open new line above",
      Hint := str "Use 'O' to open new line above and enter insert mode",
      Tags := [str "insert", str "line"] },
    { ID := str "visual-vwd-001", Category := str "visual", Difficulty := 2,
      Initial := str "select extra word here",
      Desired := str "select word here",
      CursorStart := 7, CursorEnd := 0, HighlightStart := 0, HighlightEnd := 0,
      OptimalKeys := str "vewd", OptimalCount := 4,
      Description := str "Visual select and delete word",
      Hint := str "Use 'v' to enter visual, 'e' to extend, 'd' to delete",
      Tags := [str "visual", str "delete"] },
    { ID := str "visual-Vy-001", Category := str "visual", Difficulty := 2,
      Initial := str "copy this line\npaste here",
      Desired := str "copy this line\ncopy this line\npaste here",
      CursorStart := 0, CursorEnd := 0, HighlightStart := 0, HighlightEnd := 0,
      OptimalKeys := str "Vyjp", OptimalCount := 4,
      Description := str "Visual line yank and paste",
      Hint := str "Use 'V' for line visual, 'y' yank, 'j' down, 'p' paste",
      Tags := [str "visual", str "yank", str "paste"] },
    { ID := str "visual-viw-001", Category := str "visual", Difficulty := 2,
      Initial := str "change this word now",
      Desired := str "change that word now",
      CursorStart := 9, CursorEnd := 0, HighlightStart := 0, HighlightEnd := 0,
      OptimalKeys := str "ciwcthat<ESC>", OptimalCount := 9,
      Description := str "Change inner word",
      Hint := str "Use 'ciw' to change the word under cursor",
      Tags := [str "visual", str "change"] },
    { ID := str "complex-dt-001", Category := str "complex", Difficulty := 3,
      Initial := str "delete until (keep this)",
      Desired := str "(keep this)",
      CursorStart := 0, CursorEnd := 0, HighlightStart := 0, HighlightEnd := 0,
      OptimalKeys := str "dt(", OptimalCount := 3,
      Description := str "Delete until character",
      Hint := str "Use 'dt(' to delete until '('",
      Tags := [str "complex", str "delete", str "find"] },
    { ID := str "complex-cf-001", Category := str "complex", Difficulty := 3,
      Initial := str "change until,comma here",
      Desired := str "new text,comma here",
      CursorStart := 0, CursorEnd := 0, HighlightStart := 0, HighlightEnd := 0,
      OptimalKeys := str "cf,new text<ESC>", OptimalCount := 12,
      Description := str "Change through character",
      Hint := str "Use 'cf,' to change through comma",
      Tags := [str "complex", str "change", str "find"] },
    { ID := str "complex-yap-001", Category := str "complex", Difficulty := 3,
      Initial := str "func(old)",
      Desired := str "func(old)old",
      CursorStart := 5, CursorEnd := 0, HighlightStart := 0, HighlightEnd := 0,
      OptimalKeys := str "yi)$p", OptimalCount := 5,
      Description := str "Yank inside and paste",
      Hint := str "Use 'yi)' to yank inside parens, '$p' to paste at end",
      Tags := [str "complex", str "yank", str "paste"] },
    { ID := str "complex-multi-001", Category := str "complex", Difficulty := 4,
      Initial := str "const oldName = 'value';",
      Desired := str "const newName = 'value';",
      CursorStart := 6, CursorEnd := 0, HighlightStart := 0, HighlightEnd := 0,
      OptimalKeys := str "cwnewName<ESC>", OptimalCount := 11,
      Description := str "Change variable name",
      Hint := str "Navigate to word and use 'cw'",
      Tags := [str "complex", str "change"] },
    { ID := str "complex-swap-001", Category := str "complex", Difficulty := 4,
      Initial := str "second first",
      Desired := str "first second",
      CursorStart := 0, CursorEnd := 0, HighlightStart := 0, HighlightEnd := 0,
      OptimalKeys := str "dwwP", OptimalCount := 4,
      Description := str "Swap two words",
      Hint := str "Delete word, move, paste before",
      Tags := [str "complex", str "delete", str "paste"] },
    { ID := str "complex-dup-001", Category := str "complex", Difficulty := 4,
      Initial := str "duplicate",
      Desired := str "duplicate duplicate",
      CursorStart := 0, CursorEnd := 0, HighlightStart := 0, HighlightEnd := 0,
      OptimalKeys := str "yiwA <ESC>p", OptimalCount := 8,
      Description := str "Duplicate word at end",
      Hint := str "Yank word, append space at end, paste",
      Tags := [str "complex", str "yank", str "paste"] } ]

/-- The keys of an `optimal_keys` string: the token `<ESC>` is the key "esc", every other
byte is a key of its own. -/
def splitKeys : GoString → List GoString
  | [] => []
  | 0x3C :: 0x45 :: 0x53 :: 0x43 :: 0x3E :: rest => str "esc" :: splitKeys rest
  | c :: rest => [c] :: splitKeys rest

/-- Number of keys of an `optimal_keys` string. -/
def keyCount (keys : GoString) : Int := (splitKeys keys).length

/-- Match status and keystroke count after a session is started on the task and its
`optimal_keys` are fed one key at a time. -/
def optimalRun (U : UnicodeTables) (t : Task) : Option (MatchStatus × Int) :=
  ((sessionOn [t]).ProcessKeys U (splitKeys t.OptimalKeys)).map
    (fun s => (s.CheckMatch, s.keystrokes))

/-! ## Grades (game/engine.go, stats/stats.go) -/

/-- The fields of `stats.SessionStats` that `calculateGrade` reads. `AvgEfficiency` is a
finite `float64` value. -/
structure SessionStats where
  /-- Field `TasksCompleted`. -/
  TasksCompleted : Int
  /-- Field `TasksAttempted`. -/
  TasksAttempted : Int
  /-- Field `AvgEfficiency`. -/
  AvgEfficiency : ℚ
  /-- Field `AvgTimeMs`. -/
  AvgTimeMs : Int

/-- Conversion `int64(x)` of a `float64`: truncation toward zero. -/
def int64OfFloat (x : ℚ) : Int := Int.tdiv x.num x.den

/-- Function `calculateGrade`. The constants `0.9` and `1.2` are the nearest `float64`
values; `1.0`, `0.75`, `0.5` and the integers are `float64` values themselves. -/
def calculateGrade (s : SessionStats) : GoString :=
  if s.TasksAttempted = 0 then str "F"
  else
    let completionRate := float64Div (float64OfInt s.TasksCompleted) (float64OfInt s.TasksAttempted)
    let efficiency := s.AvgEfficiency
    -- Target times by difficulty (in ms); simplified: using overall average
    let avgTargetTime : Int := 8000
    if completionRate = 1 ∧ efficiency ≥ 95 ∧ s.AvgTimeMs ≤ avgTargetTime then str "S"
    else if completionRate = 1 ∧ efficiency ≥ 85 ∧
        s.AvgTimeMs ≤ int64OfFloat (float64Mul (float64OfInt avgTargetTime) (roundFloat64 (6 / 5)))
      then str "A"
    else if completionRate ≥ roundFloat64 (9 / 10) ∧ efficiency ≥ 75 then str "B"
    else if completionRate ≥ 3 / 4 ∧ efficiency ≥ 60 then str "C"
    else if completionRate ≥ 1 / 2 then str "D"
    else str "F"

/-- The grade table as the specification words it, on the exact completion rate
`c = tasks_completed / tasks_attempted`: the first matching row. -/
def gradeTable (s : SessionStats) : GoString :=
  let c : ℚ := (s.TasksCompleted : ℚ) / (s.TasksAttempted : ℚ)
  let e := s.AvgEfficiency
  let t := s.AvgTimeMs
  if c = 1 ∧ e ≥ 95 ∧ t ≤ 8000 then str "S"
  else if c = 1 ∧ e ≥ 85 ∧ t ≤ 9600 then str "A"
  else if c ≥ 9 / 10 ∧ e ≥ 75 then str "B"
  else if c ≥ 3 / 4 ∧ e ≥ 60 then str "C"
  else if c ≥ 1 / 2 then str "D"
  else str "F"

/-- A session record with `2^53` of `2^53 + 1` tasks completed. -/
def hugeStats : SessionStats :=
  { TasksCompleted := 9007199254740992, TasksAttempted := 9007199254740993,
    AvgEfficiency := 100, AvgTimeMs := 0 }

/-- A session record of a round of 30 tasks, 27 of them completed. -/
def roundStats : SessionStats :=
  { TasksCompleted := 27, TasksAttempted := 30, AvgEfficiency := 80, AvgTimeMs := 5000 }

/-! ## Cells of a buffer (used for the bracket motion `%`) -/

/-- A character of the buffer with its `(cursorX, cursorY)` position. -/
abbrev Cell := Rune × Int × Int

/-- The cells of the runes `rs` of line `y`, left to right, the first at column `x`. -/
def rowFrom : List Rune → Int → Int → List Cell
  | [], _, _ => []
  | r :: rs, x, y => (r, x, y) :: rowFrom rs (x + 1) y

/-- The cells of the runes `rs` of line `y`, right to left, the first at column `x`. -/
def rowDown : List Rune → Int → Int → List Cell
  | [], _, _ => []
  | r :: rs, x, y => (r, x, y) :: rowDown rs (x - 1) y

/-- The cells of the lines `ls`, the first being line `y`, in reading order. -/
def cellsFrom : List GoString → Int → List Cell
  | [], _ => []
  | l :: ls, y => rowFrom (toRunes l) 0 y ++ cellsFrom ls (y + 1)

/-- The cells visited by the forward loops of `MoveToMatchingBracket`: the lines from `y` on,
the first of them from column `startX`. -/
def cellsFwd : List GoString → Int → Int → List Cell
  | [], _, _ => []
  | l :: ls, y, startX =>
    rowFrom ((toRunes l).drop startX.toNat) startX y ++ cellsFwd ls (y + 1) 0

/-- The cells visited by the backward loops of `MoveToMatchingBracket`: the lines from `y`
down to `0`, each right to left, the cursor line (`first`) from column `cursorX - 1`. -/
def cellsBwd (cursorX : Int) : List GoString → Int → Bool → List Cell
  | [], _, _ => []
  | l :: ls, y, first =>
    let runes := toRunes l
    let startX : Int := if first then cursorX - 1 else (runes.length : Int) - 1
    rowDown (runes.take (startX + 1).toNat).reverse startX y ++ cellsBwd cursorX ls (y - 1) false

/-- The two nested loops of `MoveToMatchingBracket` as one loop over the visited cells. -/
def scanCells (char m : Rune) : List Cell → Int → Option (Int × Int)
  | [], _ => none
  | (r, pos) :: cs, depth =>
    if r = char then scanCells char m cs (depth + 1)
    else if r = m then
      if depth - 1 = 0 then some pos
      else scanCells char m cs (depth - 1)
    else scanCells char m cs depth

/-- Opening minus closing brackets among the cells. -/
def cellCount (char m : Rune) (cs : List Cell) : Int := bracketCount char m (cs.map Prod.fst)

/-! ## Task generator (game/generator.go)

The generator calls three things that are not part of the repository: functions of the
packages `strings` and `fmt`, the pseudo-random generator `*rand.Rand`, and the iteration of
the Go runtime over a map. The string functions are modelled by their documented results on
byte strings. The random generator is modelled by the outcomes of its draws: its state is the
list of the raw values of the draws still to come (`0` once the list is used up), and every
method reduces the next raw value to its range; any sequence of outcomes of a run of the
generator is obtained from some list. The order in which `range` visits the entries of a map
is not specified by the language; it is an argument of `GenerateTasksForRound`. -/

/-- Type `TextSource`. -/
structure TextSource where
  /-- Field `Name`. -/
  Name : GoString
  /-- Field `Author`. -/
  Author : GoString
  /-- Field `Year`. -/
  Year : Int
  /-- Field `License`. -/
  License : GoString
  /-- Field `Attribution`. -/
  Attribution : GoString
  /-- Field `Sentences`. -/
  Sentences : List GoString
  deriving DecidableEq

/-- Function `GetPublicDomainSources`: text sources from public domain works. -/
def GetPublicDomainSources : List TextSource :=
  [ { Name := str "Pride and Prejudice",
      Author := str "Jane Austen",
      Year := 1813,
      License := str "Public Domain",
      Attribution :=
        str "Text from 'Pride and Prejudice' by Jane Austen (1813), sourced from Project Gutenberg",
      Sentences :=
        [ str "It is a truth universally acknowledged",
          str "that a single man in possession of a good fortune",
          str "must be in want of a wife",
          str "Mr Bennet was so odd a mixture",
          str "of quick parts and sarcastic humour",
          str "reserve and caprice",
          str "She was a woman of mean understanding",
          str "little information and uncertain temper",
          str "The business of her life was to get her daughters married",
          str "He was an intelligent and handsome man",
          str "Elizabeth had been obliged to accept him",
          str "Their visit afforded was the sight",
          str "Mr Darcy soon drew the attention",
          str "of the room by his fine person",
          str "He was the proudest man in the world",
          str "She is tolerable but not handsome enough",
          str "I could easily forgive his pride",
          str "The evening altogether passed off pleasantly",
          str "I have been used to consider poetry",
          str "as the food of love" ] },
    { Name := str "A Tale of Two Cities",
      Author := str "Charles Dickens",
      Year := 1859,
      License := str "Public Domain",
      Attribution :=
        str "Text from 'A Tale of Two Cities' by Charles Dickens (1859), sourced from Project Gutenberg",
      Sentences :=
        [ str "It was the best of times",
          str "it was the worst of times",
          str "it was the age of wisdom",
          str "it was the age of foolishness",
          str "it was the epoch of belief",
          str "it was the epoch of incredulity",
          str "it was the season of Light",
          str "it was the season of Darkness",
          str "it was the spring of hope",
          str "it was the winter of despair",
          str "we had everything before us",
          str "we had nothing before us",
          str "we were all going direct to Heaven",
          str "we were all going direct the other way",
          str "There were a king with a large jaw",
          str "and a queen with a plain face",
          str "In both countries it was clearer than crystal",
          str "the state of public feeling",
          str "France received the news by mail",
          str "England had a certain authority" ] },
    { Name := str "The Adventures of Sherlock Holmes",
      Author := str "Arthur Conan Doyle",
      Year := 1892,
      License := str "Public Domain",
      Attribution :=
        str "Text from 'The Adventures of Sherlock Holmes' by Arthur Conan Doyle (1892), sourced from Project Gutenberg",
      Sentences :=
        [ str "To Sherlock Holmes she is always the woman",
          str "I have seldom heard him mention her",
          str "In his eyes she eclipses the whole of her sex",
          str "He never spoke of softer passions",
          str "They were admirable things for the observer",
          str "But for the trained reasoner",
          str "to admit such intrusions into his own mind",
          str "was to introduce a distracting factor",
          str "I had seen little of Holmes lately",
          str "My marriage had drifted us away",
          str "My own complete happiness",
          str "absorbed all my attention",
          str "He was buried in his chair",
          str "reading and rereading a letter",
          str "The note was undated",
          str "and without signature or address",
          str "There will call upon you tonight",
          str "a gentleman who desires to consult",
          str "Your recent services to the crown",
          str "have shown that you may be trusted" ] },
    { Name := str "Moby Dick",
      Author := str "Herman Melville",
      Year := 1851,
      License := str "Public Domain",
      Attribution :=
        str "Text from 'Moby Dick' by Herman Melville (1851), sourced from Project Gutenberg",
      Sentences :=
        [ str "Call me Ishmael",
          str "Some years ago never mind how long",
          str "having little or no money in my purse",
          str "and nothing particular to interest me",
          str "I thought I would sail about a little",
          str "and see the watery part of the world",
          str "whenever I find myself growing grim",
          str "whenever it is a damp drizzly November",
          str "I account it high time to get to sea",
          str "This is my substitute for pistol and ball",
          str "There now is your insular city",
          str "belted round by wharves as Indian isles",
          str "Commerce surrounds it with her surf",
          str "Right and left the streets take you",
          str "Its extreme downtown is the battery",
          str "where that noble mole is washed",
          str "Look at the crowds of water gazers",
          str "Circumambulate the city on a dreamy day",
          str "Go from Corlears Hook to Coenties Slip",
          str "What do you see there" ] },
    { Name := str "Alice's Adventures in Wonderland",
      Author := str "Lewis Carroll",
      Year := 1865,
      License := str "Public Domain",
      Attribution :=
        str "Text from 'Alice's Adventures in Wonderland' by Lewis Carroll (1865), sourced from Project Gutenberg",
      Sentences :=
        [ str "Alice was beginning to get very tired",
          str "of sitting by her sister on the bank",
          str "and of having nothing to do",
          str "once or twice she had peeped",
          str "into the book her sister was reading",
          str "but it had no pictures or conversations",
          str "what is the use of a book",
          str "without pictures or conversations",
          str "So she was considering in her own mind",
          str "whether the pleasure of making a daisy chain",
          str "would be worth the trouble of getting up",
          str "when suddenly a White Rabbit ran close by",
          str "There was nothing so very remarkable",
          str "nor did Alice think it so very odd",
          str "to hear the Rabbit say to itself",
          str "Oh dear Oh dear I shall be late",
          str "but when the Rabbit took a watch",
          str "out of its waistcoat pocket",
          str "Alice started to her feet",
          str "burning with curiosity she ran across" ] } ]

/-- The table `asciiSpace` of package `strings`: the white space among the ASCII bytes. -/
def asciiSpace (c : Nat) : Bool :=
  c = 0x09 || c = 0x0A || c = 0x0B || c = 0x0C || c = 0x0D || c = 0x20

/-- Loop of `strings.Fields`: `cur` is the field being read. -/
def fieldsAux : GoString → GoString → List GoString
  | [], cur => if cur = [] then [] else [cur]
  | c :: cs, cur =>
    if asciiSpace c then
      if cur = [] then fieldsAux cs [] else cur :: fieldsAux cs []
    else fieldsAux cs (cur ++ [c])

/-- Go `strings.Fields(s)` for a string of ASCII bytes: the maximal runs of bytes that are
not white space. -/
def stringsFields (s : GoString) : List GoString := fieldsAux s []

/-- Loop of `strings.Index`: `i` is the index of the first byte of the rest. -/
def indexAux (substr : GoString) : GoString → Int → Int
  | [], i => if substr = [] then i else -1
  | c :: cs, i => if substr.isPrefixOf (c :: cs) then i else indexAux substr cs (i + 1)

/-- Go `strings.Index(s, substr)`: the byte index of the first occurrence, or `-1`. -/
def stringsIndex (s substr : GoString) : Int := indexAux substr s 0

/-- Go `strings.Replace(s, old, new, 1)`: the first occurrence of `old` replaced. -/
def stringsReplaceFirst (s old new : GoString) : GoString :=
  let i := stringsIndex s old
  if i < 0 then s else s.take i.toNat ++ new ++ s.drop (i.toNat + old.length)

/-- Go `strings.TrimPrefix(s, p)`. -/
def stringsTrimPrefix (s p : GoString) : GoString :=
  if p.isPrefixOf s then s.drop p.length else s

/-- Go `strings.TrimSuffix(s, p)`. -/
def stringsTrimSuffix (s p : GoString) : GoString :=
  if p.isSuffixOf s then s.take (s.length - p.length) else s

/-- Digits of `n`, most significant first, in front of `acc`; `fuel` bounds the number of
digits. -/
def decimalAux : Nat → Nat → GoString → GoString
  | 0, _, acc => acc
  | fuel + 1, n, acc =>
    if n < 10 then (0x30 + n) :: acc
    else decimalAux fuel (n / 10) ((0x30 + n % 10) :: acc)

/-- The verb `%d` of `fmt.Sprintf` for an `int`. -/
def formatInt (n : Int) : GoString :=
  if n < 0 then 0x2D :: decimalAux (n.natAbs + 1) n.natAbs []
  else decimalAux (n.toNat + 1) n.toNat []

/-- The verb `%c` of `fmt.Sprintf` for a byte: the character with that code point. -/
def formatChar (c : Nat) : GoString := encodeRune c

/-- The pseudo-random generator `*rand.Rand`: the raw values of the draws still to come. -/
structure Rng where
  /-- The raw values, the next draw first. -/
  draws : List Nat
  deriving DecidableEq, Repr

/-- The next raw value and the generator after the draw. -/
def Rng.next (r : Rng) : Nat × Rng := (r.draws.headD 0, { draws := r.draws.tail })

/-- Method `Intn`: a value in `[0, n)`; it panics when `n ≤ 0`. -/
def Rng.Intn (r : Rng) (n : Int) : Option (Int × Rng) :=
  if n ≤ 0 then none else some ((r.next.1 : Int) % n, r.next.2)

/-- Method `Float32`: a `float32` in `[0, 1)`. Every such value is a multiple of `2^-149`;
the result is the numerator `k` of the value `k / 2^149`. -/
def Rng.Float32 (r : Rng) : Nat × Rng := (r.next.1 % 2 ^ 149, r.next.2)

/-- The swap function handed to `Shuffle`: `tasks[i], tasks[j] = tasks[j], tasks[i]`. -/
def swap? {α : Type} (l : List α) (i j : Int) : Option (List α) := do
  let a ← idx? l i
  let b ← idx? l j
  let l1 ← setIdx? l i b
  setIdx? l1 j a

/-- Loop of method `Shuffle` (Fisher-Yates): for `i` from `n - 1` down to `1`, swap the
elements `i` and `j` for a drawn `j` in `[0, i]`. The argument is the number of steps left,
which is the current `i`. -/
def Rng.shuffleLoop {α : Type} : Nat → Rng → List α → Option (List α × Rng)
  | 0, r, l => some (l, r)
  | i + 1, r, l => do
    let (j, r1) ← r.Intn ((i : Int) + 2)
    let l1 ← swap? l ((i : Int) + 1) j
    Rng.shuffleLoop i r1 l1

/-- Method `Shuffle(len(l), swap)` with the swap function of `GenerateTasksForRound`. -/
def Rng.Shuffle {α : Type} (r : Rng) (l : List α) : Option (List α × Rng) :=
  Rng.shuffleLoop (l.length - 1) r l

/-- Method `Int`: a non-negative `int` (63 bits). -/
def Rng.Int (r : Rng) : Int × Rng := (((r.next.1 % 2 ^ 63 : Nat) : ℤ), r.next.2)

/-- Type `TaskGenerator`. -/
structure TaskGenerator where
  /-- Field `sources`. -/
  sources : List TextSource
  /-- Field `rng`. -/
  rng : Rng
  deriving DecidableEq

/-- Function `NewSeededTaskGenerator`; `source seed` stands for
`rand.New(rand.NewSource(seed))`. -/
def NewSeededTaskGenerator (source : Int → Rng) (seed : Int) : TaskGenerator :=
  { sources := GetPublicDomainSources, rng := source seed }

/-- Zero value of `Task` (`var task Task`). -/
def Task.zero : Task :=
  { ID := [], Category := [], Difficulty := 0, Initial := [], Desired := [], CursorStart := 0,
    CursorEnd := 0, HighlightStart := 0, HighlightEnd := 0, OptimalKeys := [],
    OptimalCount := 0, Description := [], Hint := [], Tags := [] }

/-- Constant `CategoryMotion`. -/
def CategoryMotion : GoString := str "motion"

/-- Constant `CategoryDelete`. -/
def CategoryDelete : GoString := str "delete"

/-- Constant `CategoryChange`. -/
def CategoryChange : GoString := str "change"

/-- Constant `CategoryInsert`. -/
def CategoryInsert : GoString := str "insert"

/-- Constant `CategoryVisual`. -/
def CategoryVisual : GoString := str "visual"

/-- Constant `CategoryComplex`. -/
def CategoryComplex : GoString := str "complex"

/-- Function `TaskGenerator.randomSentence`. -/
def TaskGenerator.randomSentence (g : TaskGenerator) : Option (GoString × TaskGenerator) := do
  let (i, r) ← g.rng.Intn g.sources.length
  let source ← idx? g.sources i
  let (j, r) ← r.Intn source.Sentences.length
  let sentence ← idx? source.Sentences j
  pure (sentence, { g with rng := r })

/-- Inner loop of `randomWord`: skip the spaces from `startIdx` on. -/
def skipSpaces (sentence : GoString) : Nat → Int → Option Int
  | 0, startIdx => some startIdx
  | fuel + 1, startIdx =>
    if startIdx < sentence.length then do
      let c ← idx? sentence startIdx
      if c = 0x20 then skipSpaces sentence fuel (startIdx + 1) else pure startIdx
    else pure startIdx

/-- Loop of `randomWord` over the words before `wordIdx`; `ws` are the words still to visit. -/
def randomWordLoop (sentence : GoString) : List GoString → Int → Option Int
  | [], startIdx => some startIdx
  | w :: ws, startIdx => do
    let rest ← sliceFrom? sentence startIdx
    let startIdx := stringsIndex rest w + w.length + startIdx
    -- Skip whitespace
    let startIdx ← skipSpaces sentence (sentence.length + 1) startIdx
    randomWordLoop sentence ws startIdx

/-- Function `TaskGenerator.randomWord`. -/
def TaskGenerator.randomWord (g : TaskGenerator) (sentence : GoString) :
    Option (GoString × Int × TaskGenerator) :=
  let words := stringsFields sentence
  if words.length = 0 then some ([], 0, g)
  else do
    let (wordIdx, r) ← g.rng.Intn words.length
    let word ← idx? words wordIdx
    -- Find the start index of this word in the sentence
    let _ ← randomWordLoop sentence (words.take wordIdx.toNat) 0
    let startIdx := stringsIndex sentence word
    pure (word, startIdx, { g with rng := r })

/-- An entry of the slice `motions` of `GenerateMotionTask`; `setup` is the result of the
closure, `none` if it panics. Only the entry that is chosen has its `setup` run. -/
structure MotionChoice where
  /-- Field `name`. -/
  name : GoString
  /-- Field `keys`. -/
  keys : GoString
  /-- Field `description`. -/
  description : GoString
  /-- Field `hint`. -/
  hint : GoString
  /-- Result `(cursorStart, cursorEnd)` of the closure `setup`. -/
  setup : Option (Int × Int)

/-- The slice `motions` of `GenerateMotionTask`. -/
def motionChoices (sentence : GoString) (words : List GoString) : List MotionChoice :=
  [ { name := str "w", keys := str "w", description := str "Move to next word",
      hint := str "Use 'w' to move to the start of the next word",
      setup :=
        if words.length < 2 then some (0, (sentence.length : Int) - 1)
        else do
          let w1 ← idx? words 1
          let startIdx : Int := 0
          let endIdx := stringsIndex sentence w1
          pure (startIdx, endIdx) },
    { name := str "e", keys := str "e", description := str "Move to end of word",
      hint := str "Use 'e' to move to the end of the current word",
      setup :=
        if words.length < 1 then some (0, 0)
        else do
          let w0 ← idx? words 0
          pure (0, (w0.length : Int) - 1) },
    { name := str "0", keys := str "0", description := str "Move to start of line",
      hint := str "Use '0' to move to the beginning of the line",
      setup :=
        let startPos : Int := (sentence.length : Int) / 2
        let startPos := if startPos < 1 then 1 else startPos
        some (startPos, 0) },
    { name := str "$", keys := str "$", description := str "Move to end of line",
      hint := str "Use '$' to move to the end of the line",
      setup := some (0, (sentence.length : Int) - 1) },
    { name := str "b", keys := str "b", description := str "Move to previous word",
      hint := str "Use 'b' to move back to the start of the previous word",
      setup :=
        if words.length < 2 then some ((sentence.length : Int) - 1, 0)
        else do
          -- Start at second word, move to first
          let w1 ← idx? words 1
          let startIdx := stringsIndex sentence w1
          pure (startIdx, 0) } ]

/-- Case 1 of the switch of `GenerateMotionTask`: simple word motion `w`, `b`, `e`, `0`,
`$`. -/
def TaskGenerator.motionCase1 (g : TaskGenerator) (sentence : GoString) (words : List GoString)
    (task : Task) : Option (Task × TaskGenerator) := do
  let motions := motionChoices sentence words
  let (k, r) ← g.rng.Intn motions.length
  let choice ← idx? motions k
  let (cursorStart, cursorEnd) ← choice.setup
  let (n, r) := r.Int
  pure ({ task with
      CursorStart := cursorStart
      CursorEnd := cursorEnd
      OptimalKeys := choice.keys
      OptimalCount := choice.keys.length
      Description := choice.description
      Hint := choice.hint
      ID := str "gen-motion-" ++ choice.name ++ str "-" ++ formatInt n },
    { g with rng := r })

/-- Case 2 of the switch of `GenerateMotionTask`: motion with counts or find. -/
def TaskGenerator.motionCase2 (g : TaskGenerator) (sentence : GoString) (words : List GoString)
    (task : Task) : Option (Task × TaskGenerator) :=
  -- `len(words) >= 3 && g.rng.Float32() < 0.5`: the draw is made only if `len(words) >= 3`
  let cond : Bool × Rng :=
    if words.length ≥ 3 then (decide (g.rng.Float32.1 < 2 ^ 148), g.rng.Float32.2)
    else (false, g.rng)
  if cond.1 then do
    -- Count motion: 2w, 3w
    let (count, r) ←
      if words.length > 3 then do
        let (v, r) ← cond.2.Intn 2
        pure (2 + v, r) -- 2 or 3
      else pure ((2 : Int), cond.2)
    let targetWord ← idx? words (min count ((words.length : Int) - 1))
    let (n, r) := r.Int
    pure ({ task with
        CursorStart := 0
        CursorEnd := stringsIndex sentence targetWord
        OptimalKeys := formatInt count ++ str "w"
        OptimalCount := 2
        Description := str "Move forward " ++ formatInt count ++ str " words"
        Hint := str "Use '" ++ formatInt count ++ str "w' to move forward " ++ formatInt count
          ++ str " words"
        ID := str "gen-motion-" ++ formatInt count ++ str "w-" ++ formatInt n },
      { g with rng := r })
  else do
    -- Find motion: f{char}
    let (word, wordStart, g1) ← ({ g with rng := cond.2 } : TaskGenerator).randomWord sentence
    if word.length > 0 ∧ wordStart > 0 then do
      let targetChar ← idx? word 0
      let (n, r) := g1.rng.Int
      pure ({ task with
          CursorStart := 0
          CursorEnd := wordStart
          OptimalKeys := str "f" ++ formatChar targetChar
          OptimalCount := 2
          Description := str "Find '" ++ formatChar targetChar ++ str "'"
          Hint := str "Use 'f" ++ formatChar targetChar ++ str "' to jump to the next '"
            ++ formatChar targetChar ++ str "'"
          ID := str "gen-motion-f" ++ formatChar targetChar ++ str "-" ++ formatInt n },
        { g1 with rng := r })
    else
      -- Fallback to $ motion
      let (n, r) := g1.rng.Int
      pure ({ task with
          CursorStart := 0
          CursorEnd := (sentence.length : Int) - 1
          OptimalKeys := str "$"
          OptimalCount := 1
          Description := str "Move to end of line"
          Hint := str "Use '$' to move to the end of the line"
          ID := str "gen-motion-dollar-" ++ formatInt n },
        { g1 with rng := r })

/-- Default case of the switch of `GenerateMotionTask`: `t` motion. -/
def TaskGenerator.motionDefault (g : TaskGenerator) (sentence : GoString) (task : Task) :
    Option (Task × TaskGenerator) := do
  let (word, wordStart, g1) ← g.randomWord sentence
  if word.length > 0 ∧ wordStart > 1 then do
    let targetChar ← idx? word 0
    let (n, r) := g1.rng.Int
    pure ({ task with
        CursorStart := 0
        CursorEnd := wordStart - 1
        OptimalKeys := str "t" ++ formatChar targetChar
        OptimalCount := 2
        Description := str "Move until '" ++ formatChar targetChar ++ str "'"
        Hint := str "Use 't" ++ formatChar targetChar ++ str "' to move to just before '"
          ++ formatChar targetChar ++ str "'"
        ID := str "gen-motion-t" ++ formatChar targetChar ++ str "-" ++ formatInt n },
      { g1 with rng := r })
  else
    let (n, r) := g1.rng.Int
    pure ({ task with
        CursorStart := (sentence.length : Int) - 1
        CursorEnd := 0
        OptimalKeys := str "0"
        OptimalCount := 1
        Description := str "Move to start of line"
        Hint := str "Use '0' to move to the beginning"
        ID := str "gen-motion-zero-" ++ formatInt n },
      { g1 with rng := r })

/-- Function `TaskGenerator.GenerateMotionTask`. -/
def TaskGenerator.GenerateMotionTask (g : TaskGenerator) (difficulty : Int) :
    Option (Task × TaskGenerator) := do
  let (sentence, g) ← g.randomSentence
  let words := stringsFields sentence
  let task : Task := { Task.zero with
    Category := CategoryMotion
    Difficulty := difficulty
    Initial := sentence
    Desired := sentence } -- Same for motion tasks
  let (task, g) ←
    if difficulty = 1 then g.motionCase1 sentence words task
    else if difficulty = 2 then g.motionCase2 sentence words task
    else g.motionDefault sentence task
  pure ({ task with Tags := [str "motion", str "procedural"] }, g)

/-- Function `TaskGenerator.GenerateDeleteTask`. -/
def TaskGenerator.GenerateDeleteTask (g : TaskGenerator) (difficulty : Int) :
    Option (Task × TaskGenerator) := do
  let (sentence, g) ← g.randomSentence
  let words := stringsFields sentence
  let task : Task := { Task.zero with
    Category := CategoryDelete
    Difficulty := difficulty
    Tags := [str "delete", str "procedural"] }
  if difficulty = 1 then
    -- Simple delete: x, dw, dd
    if words.length ≥ 2 then do
      -- Delete a word with dw
      let (wordIdx, r) ← g.rng.Intn ((words.length : Int) - 1) -- Not the last word
      let wordToDelete ← idx? words wordIdx
      let startIdx := stringsIndex sentence wordToDelete
      let (n, r) := r.Int
      pure ({ task with
          Initial := sentence
          -- Remove the word and the space after it
          Desired := stringsReplaceFirst sentence (wordToDelete ++ str " ") []
          CursorStart := startIdx
          -- Highlight the word to be deleted (including trailing space)
          HighlightStart := startIdx
          HighlightEnd := startIdx + wordToDelete.length + 1
          OptimalKeys := str "dw"
          OptimalCount := 2
          Description := str "Delete word"
          Hint := str "Use 'dw' to delete the word under the cursor"
          ID := str "gen-delete-dw-" ++ formatInt n },
        { g with rng := r })
    else if sentence.length > 1 then do
      -- Delete character with x
      let (pos, r) ← g.rng.Intn sentence.length
      let before ← sliceTo? sentence pos
      let after ← sliceFrom? sentence (pos + 1)
      let (n, r) := r.Int
      pure ({ task with
          Initial := sentence
          Desired := before ++ after
          CursorStart := pos
          -- Highlight the character to be deleted
          HighlightStart := pos
          HighlightEnd := pos + 1
          OptimalKeys := str "x"
          OptimalCount := 1
          Description := str "Delete character"
          Hint := str "Use 'x' to delete the character under the cursor"
          ID := str "gen-delete-x-" ++ formatInt n },
        { g with rng := r })
    else pure (task, g)
  else if difficulty = 2 then
    -- Text object delete: daw, diw
    if words.length ≥ 2 then do
      let (wordIdx, r) ← g.rng.Intn words.length
      let wordToDelete ← idx? words wordIdx
      let startIdx := stringsIndex sentence wordToDelete
      -- Position cursor in middle of word
      let cursorPos := startIdx + (wordToDelete.length : Int) / 2
      -- daw removes word and surrounding space
      let task : Task :=
        if wordIdx = 0 then
          { task with
            Initial := sentence
            Desired := stringsTrimPrefix sentence (wordToDelete ++ str " ")
            HighlightStart := 0
            HighlightEnd := (wordToDelete.length : Int) + 1 }
        else if wordIdx = (words.length : Int) - 1 then
          { task with
            Initial := sentence
            Desired := stringsTrimSuffix sentence (str " " ++ wordToDelete)
            HighlightStart := startIdx - 1 -- Include leading space
            HighlightEnd := startIdx + wordToDelete.length }
        else
          { task with
            Initial := sentence
            Desired := stringsReplaceFirst sentence (str " " ++ wordToDelete) []
            HighlightStart := startIdx - 1 -- Include leading space
            HighlightEnd := startIdx + wordToDelete.length }
      let (n, r) := r.Int
      pure ({ task with
          CursorStart := cursorPos
          OptimalKeys := str "daw"
          OptimalCount := 3
          Description := str "Delete a word"
          Hint := str "Use 'daw' to delete 'a word' including surrounding space"
          ID := str "gen-delete-daw-" ++ formatInt n },
        { g with rng := r })
    else pure (task, g)
  else do
    -- Advanced: dt, df
    let (word, wordStart, g1) ← g.randomWord sentence
    if word.length > 0 ∧ wordStart > 0 then do
      let targetChar ← idx? word 0
      let desired ← sliceFrom? sentence wordStart
      let (n, r) := g1.rng.Int
      pure ({ task with
          Initial := sentence
          Desired := desired
          CursorStart := 0
          -- Highlight from cursor to target
          HighlightStart := 0
          HighlightEnd := wordStart
          OptimalKeys := str "dt" ++ formatChar targetChar
          OptimalCount := 3
          Description := str "Delete until '" ++ formatChar targetChar ++ str "'"
          Hint := str "Use 'dt" ++ formatChar targetChar ++ str "' to delete until '"
            ++ formatChar targetChar ++ str "'"
          ID := str "gen-delete-dt-" ++ formatInt n },
        { g1 with rng := r })
    else pure (task, g1)

/-- The slice `replacementWords` of `GenerateChangeTask`. -/
def replacementWords : List GoString :=
  [str "new", str "changed", str "updated", str "modified", str "different"]

/-- Function `TaskGenerator.GenerateChangeTask`. -/
def TaskGenerator.GenerateChangeTask (g : TaskGenerator) (difficulty : Int) :
    Option (Task × TaskGenerator) := do
  let (sentence, g) ← g.randomSentence
  let words := stringsFields sentence
  let task : Task := { Task.zero with
    Category := CategoryChange
    Difficulty := difficulty
    Tags := [str "change", str "procedural"] }
  let (k, r) ← g.rng.Intn replacementWords.length
  let g : TaskGenerator := { g with rng := r }
  let replacement ← idx? replacementWords k
  if difficulty = 1 then
    -- Simple change: cw, r
    if words.length ≥ 1 then do
      let (wordIdx, r) ← g.rng.Intn words.length
      let oldWord ← idx? words wordIdx
      let startIdx := stringsIndex sentence oldWord
      let (n, r) := r.Int
      pure ({ task with
          Initial := sentence
          Desired := stringsReplaceFirst sentence oldWord replacement
          CursorStart := startIdx
          -- Highlight the word to be changed
          HighlightStart := startIdx
          HighlightEnd := startIdx + oldWord.length
          OptimalKeys := str "cw" ++ replacement ++ str "<ESC>"
          OptimalCount := 2 + replacement.length + 1 -- cw + word + ESC
          Description := str "Change word to '" ++ replacement ++ str "'"
          Hint := str "Use 'cw' to change the word, type the new word, press ESC"
          ID := str "gen-change-cw-" ++ formatInt n },
        { g with rng := r })
    else pure (task, g)
  else if difficulty = 2 then
    -- Text object change: ciw
    if words.length ≥ 1 then do
      let (wordIdx, r) ← g.rng.Intn words.length
      let oldWord ← idx? words wordIdx
      let startIdx := stringsIndex sentence oldWord
      -- Position cursor in middle of word
      let cursorPos := startIdx + (oldWord.length : Int) / 2
      let (n, r) := r.Int
      pure ({ task with
          Initial := sentence
          Desired := stringsReplaceFirst sentence oldWord replacement
          CursorStart := cursorPos
          -- Highlight the word to be changed
          HighlightStart := startIdx
          HighlightEnd := startIdx + oldWord.length
          OptimalKeys := str "ciw" ++ replacement ++ str "<ESC>"
          OptimalCount := 3 + replacement.length + 1
          Description := str "Change inner word to '" ++ replacement ++ str "'"
          Hint := str "Use 'ciw' to change the word regardless of cursor position"
          ID := str "gen-change-ciw-" ++ formatInt n },
        { g with rng := r })
    else pure (task, g)
  else
    -- Advanced: C, cc - entire line
    let (n, r) := g.rng.Int
    pure ({ task with
        Initial := sentence
        Desired := replacement
        CursorStart := 0
        -- Highlight entire line
        HighlightStart := 0
        HighlightEnd := sentence.length
        OptimalKeys := str "cc" ++ replacement ++ str "<ESC>"
        OptimalCount := 2 + replacement.length + 1
        Description := str "Change entire line"
        Hint := str "Use 'cc' to change the entire line"
        ID := str "gen-change-cc-" ++ formatInt n },
      { g with rng := r })

/-- The slice `insertWords` of `GenerateInsertTask`. -/
def insertWords : List GoString :=
  [str "very", str "quite", str "rather", str "extremely", str "somewhat"]

/-- Function `TaskGenerator.GenerateInsertTask`. -/
def TaskGenerator.GenerateInsertTask (g : TaskGenerator) (difficulty : Int) :
    Option (Task × TaskGenerator) := do
  let (sentence, g) ← g.randomSentence
  let task : Task := { Task.zero with
    Category := CategoryInsert
    Difficulty := difficulty
    Tags := [str "insert", str "procedural"] }
  let (k, r) ← g.rng.Intn insertWords.length
  let g : TaskGenerator := { g with rng := r }
  let insertion ← idx? insertWords k
  if difficulty = 1 then
    -- Simple insert: i, a, A
    let words := stringsFields sentence
    if words.length ≥ 2 then do
      -- Insert before second word
      let secondWord ← idx? words 1
      let insertPos := stringsIndex sentence secondWord
      let before ← sliceTo? sentence insertPos
      let after ← sliceFrom? sentence insertPos
      let (n, r) := g.rng.Int
      pure ({ task with
          Initial := sentence
          Desired := before ++ insertion ++ str " " ++ after
          CursorStart := insertPos
          OptimalKeys := str "i" ++ insertion ++ str " <ESC>"
          OptimalCount := 1 + insertion.length + 1 + 1
          Description := str "Insert '" ++ insertion ++ str "' before cursor"
          Hint := str "Use 'i' to insert before the cursor"
          ID := str "gen-insert-i-" ++ formatInt n },
        { g with rng := r })
    else pure (task, g)
  else if difficulty = 2 then
    -- Append: A (end of line)
    let (n, r) := g.rng.Int
    pure ({ task with
        Initial := sentence
        Desired := sentence ++ str " " ++ insertion
        CursorStart := 0
        OptimalKeys := str "A " ++ insertion ++ str "<ESC>"
        OptimalCount := 1 + 1 + insertion.length + 1
        Description := str "Append at end of line"
        Hint := str "Use 'A' to append at the end of the line"
        ID := str "gen-insert-A-" ++ formatInt n },
      { g with rng := r })
  else
    -- Open line: o, O
    let (n, r) := g.rng.Int
    pure ({ task with
        Initial := sentence
        Desired := sentence ++ str "\n" ++ insertion
        CursorStart := 0
        OptimalKeys := str "o" ++ insertion ++ str "<ESC>"
        OptimalCount := 1 + insertion.length + 1
        Description := str "Open new line below"
        Hint := str "Use 'o' to open a new line below and enter insert mode"
        ID := str "gen-insert-o-" ++ formatInt n },
      { g with rng := r })

/-- Function `TaskGenerator.GenerateVisualTask`. -/
def TaskGenerator.GenerateVisualTask (g : TaskGenerator) (difficulty : Int) :
    Option (Task × TaskGenerator) := do
  let (sentence, g) ← g.randomSentence
  let words := stringsFields sentence
  let task : Task := { Task.zero with
    Category := CategoryVisual
    Difficulty := max difficulty 2 -- Visual is at least level 2
    Tags := [str "visual", str "procedural"] }
  if words.length ≥ 2 then do
    -- Visual delete word
    let (wordIdx, r) ← g.rng.Intn words.length
    let wordToDelete ← idx? words wordIdx
    let startIdx := stringsIndex sentence wordToDelete
    let (n, r) := r.Int
    pure ({ task with
        Initial := sentence
        -- Remove word
        Desired :=
          if wordIdx < (words.length : Int) - 1 then
            stringsReplaceFirst sentence (wordToDelete ++ str " ") []
          else stringsReplaceFirst sentence (str " " ++ wordToDelete) []
        CursorStart := startIdx
        OptimalKeys := str "viwd"
        OptimalCount := 4
        Description := str "Visually select and delete word"
        Hint := str "Use 'viw' to visually select the word, then 'd' to delete"
        ID := str "gen-visual-viwd-" ++ formatInt n },
      { g with rng := r })
  else pure (task, g)

/-- Function `TaskGenerator.GenerateComplexTask`. -/
def TaskGenerator.GenerateComplexTask (g : TaskGenerator) (difficulty : Int) :
    Option (Task × TaskGenerator) := do
  let (sentence, g) ← g.randomSentence
  let words := stringsFields sentence
  let task : Task := { Task.zero with
    Category := CategoryComplex
    Difficulty := max difficulty 3 -- Complex is at least level 3
    Tags := [str "complex", str "procedural"] }
  if words.length ≥ 2 then do
    -- Swap first two words
    let newWords ← swap? words 0 1
    let (n, r) := g.rng.Int
    pure ({ task with
        Initial := sentence
        Desired := stringsJoin 0x20 newWords
        CursorStart := 0
        OptimalKeys := str "dwwP"
        OptimalCount := 4
        Description := str "Swap first two words"
        Hint := str "Delete first word, move to next word, paste before"
        ID := str "gen-complex-swap-" ++ formatInt n },
      { g with rng := r })
  else pure (task, g)

/-- The map `distribution` of `GenerateTasksForRound`, as the list of its entries. -/
def distribution : List (GoString × Int) :=
  [(CategoryMotion, 6), (CategoryDelete, 6), (CategoryChange, 6), (CategoryInsert, 6),
   (CategoryVisual, 3), (CategoryComplex, 3)]

/-- The difficulty range `(minDiff, maxDiff)` of a round type. -/
def roundRange (roundType : GoString) : Int × Int :=
  if roundType = str "beginner" then (1, 1)
  else if roundType = str "intermediate" then (1, 2)
  else if roundType = str "advanced" then (2, 3)
  else if roundType = str "expert" then (3, 4)
  else if roundType = str "mixed" then (1, 4)
  else (1, 1)

/-- The switch on the category in `GenerateTasksForRound`. -/
def TaskGenerator.generateByCategory (g : TaskGenerator) (cat : GoString) (diff : Int) :
    Option (Task × TaskGenerator) :=
  if cat = CategoryMotion then g.GenerateMotionTask diff
  else if cat = CategoryDelete then g.GenerateDeleteTask diff
  else if cat = CategoryChange then g.GenerateChangeTask diff
  else if cat = CategoryInsert then g.GenerateInsertTask diff
  else if cat = CategoryVisual then g.GenerateVisualTask diff
  else if cat = CategoryComplex then g.GenerateComplexTask diff
  else some (Task.zero, g)

/-- Inner loop of `GenerateTasksForRound`: `n` tasks of the category `cat` are still to be
appended to `tasks`. -/
def TaskGenerator.categoryLoop (cat : GoString) (minDiff maxDiff : Int) :
    Nat → TaskGenerator → List Task → Option (List Task × TaskGenerator)
  | 0, g, tasks => some (tasks, g)
  | n + 1, g, tasks => do
    let (diff, g1) ←
      if maxDiff > minDiff then do
        let (v, r) ← g.rng.Intn (maxDiff - minDiff + 1)
        pure (minDiff + v, ({ g with rng := r } : TaskGenerator))
      else pure (minDiff, g)
    let (task, g2) ← g1.generateByCategory cat diff
    TaskGenerator.categoryLoop cat minDiff maxDiff n g2 (tasks ++ [task])

/-- Outer loop of `GenerateTasksForRound` over the entries of the map, in the order `order`
in which `range` yields them. -/
def TaskGenerator.roundLoop (minDiff maxDiff : Int) :
    List (GoString × Int) → TaskGenerator → List Task → Option (List Task × TaskGenerator)
  | [], g, tasks => some (tasks, g)
  | (cat, count) :: rest, g, tasks => do
    let (tasks1, g1) ← TaskGenerator.categoryLoop cat minDiff maxDiff count.toNat g tasks
    TaskGenerator.roundLoop minDiff maxDiff rest g1 tasks1

/-- Function `TaskGenerator.GenerateTasksForRound`. The argument `order` lists the entries
of the map `distribution` in the order in which `range` yields them in this call; it is a
permutation of `distribution`. -/
def TaskGenerator.GenerateTasksForRound (g : TaskGenerator) (order : List (GoString × Int))
    (roundType : GoString) : Option (List Task × TaskGenerator) := do
  -- Difficulty range based on round type
  let (minDiff, maxDiff) := roundRange roundType
  let (tasks, g1) ← TaskGenerator.roundLoop minDiff maxDiff order g []
  -- Shuffle tasks
  let (tasks, r) ← g1.rng.Shuffle tasks
  pure (tasks, { g1 with rng := r })

/-- A seeded generator whose draws have the raw values `0, 0, 2` and then `0` for ever. -/
def sampleGenerator : TaskGenerator :=
  NewSeededTaskGenerator (fun _ => { draws := [0, 0, 2] }) 1

/-- What the generator relies on in a sentence: it has at least two words, every word is
found by `strings.Index`, and the loop of `randomWord` runs through for every word. -/
def sentenceOK (s : GoString) : Bool :=
  let words := stringsFields s
  decide (2 ≤ words.length) && words.all (fun w => decide (0 ≤ stringsIndex s w)) &&
    (List.range words.length).all (fun k => (randomWordLoop s (words.take k) 0).isSome)

/-- The difficulty a generated task of the category `cat` gets for the drawn level `d`:
visual tasks are at least level 2, complex tasks at least level 3. -/
def taskDifficulty (cat : GoString) (d : Int) : Int :=
  if cat = CategoryVisual then max d 2 else if cat = CategoryComplex then max d 3 else d

/-- Number of tasks the map `order` asks for in the category `cat`. -/
def categoryTotal (order : List (GoString × Int)) (cat : GoString) : Nat :=
  ((order.filter (fun e => e.1 = cat)).map (fun e => e.2.toNat)).sum

/-- Number of tasks of the category `cat` in a list. -/
def categoryCount (tasks : List Task) (cat : GoString) : Nat :=
  (tasks.filter (fun t => t.Category = cat)).length

/-! ## Theorems -/

theorem stringsSplit_ne_nil (sep : Nat) (t : GoString) : stringsSplit sep t ≠ [] := by
  cases t with
  | nil => simp [stringsSplit]
  | cons c cs =>
    simp only [stringsSplit]
    split
    · simp
    · split <;> simp

theorem stringsJoin_cons_cons (sep c : Nat) (l : GoString) (ls : List GoString) :
    stringsJoin sep ((c :: l) :: ls) = c :: stringsJoin sep (l :: ls) := by
  cases ls <;> simp [stringsJoin]

theorem stringsJoin_stringsSplit (sep : Nat) (t : GoString) :
    stringsJoin sep (stringsSplit sep t) = t := by
  induction t with
  | nil => simp [stringsSplit, stringsJoin]
  | cons c cs ih =>
    simp only [stringsSplit]
    split
    · rename_i h
      subst h
      cases hs : stringsSplit c cs with
      | nil => exact absurd hs (stringsSplit_ne_nil _ _)
      | cons l ls => rw [hs] at ih; simp [stringsJoin, ih]
    · cases hs : stringsSplit sep cs with
      | nil => exact absurd hs (stringsSplit_ne_nil _ _)
      | cons l ls => rw [hs] at ih; simp [stringsJoin_cons_cons, ih]

/-- Claim C9: text round-trip. For every string `t`, `NewBuffer(t).Text()` is `t`. -/
theorem NewBuffer_Text_roundtrip (t : GoString) : (NewBuffer t).Text = t := by
  have h : (stringsSplit 10 t).length ≠ 0 := by
    simpa using stringsSplit_ne_nil 10 t
  simp [NewBuffer, Buffer.Text, h, stringsJoin_stringsSplit]

theorem lineOffset_nonneg (lines : List GoString) (n : Nat) : 0 ≤ lineOffset lines n := by
  induction lines generalizing n with
  | nil => simp [lineOffset]
  | cons l ls ih =>
    cases n with
    | zero => simp [lineOffset]
    | succ n => simp only [lineOffset]; have := ih n; omega

theorem setCursorIndexLoop_lineOffset (lines : List GoString) (n : Nat) (x y0 pos0 : Int)
    (hn : n < lines.length) (hx0 : 0 ≤ x) (hx : x ≤ runeCount (lines.getD n [])) :
    setCursorIndexLoop (lineOffset lines n + x + pos0) lines y0 pos0 = some (x, y0 + n) := by
  induction lines generalizing n y0 pos0 with
  | nil => simp at hn
  | cons l ls ih =>
    cases n with
    | zero =>
      simp only [List.getD_cons_zero] at hx
      simp only [lineOffset, setCursorIndexLoop]
      rw [if_pos (by omega)]
      simp
    | succ n =>
      simp only [List.getD_cons_succ] at hx
      simp only [List.length_cons, Nat.add_lt_add_iff_right] at hn
      simp only [lineOffset, setCursorIndexLoop]
      have h0 := lineOffset_nonneg ls n
      rw [if_neg (by omega)]
      have := ih n (y0 + 1) (pos0 + runeCount l + 1) hn hx
      rw [show (runeCount l : Int) + 1 + lineOffset ls n + x + pos0
        = lineOffset ls n + x + (pos0 + runeCount l + 1) by ring]
      rw [this]
      simp; ring

/-- Claim C10: cursor mapping round-trip. For a buffer whose cursor is valid for its mode
(`0 <= cursor_y < |lines|`, `0 <= cursor_x`, and `cursor_x < max(1, char_count)` in normal
mode or `cursor_x <= char_count` in the other modes), `SetCursorIndex(CursorIndex())` leaves
the buffer, and so `(cursor_x, cursor_y)`, unchanged. -/
theorem SetCursorIndex_CursorIndex_roundtrip (b : Buffer)
    (hy0 : 0 ≤ b.cursorY) (hy : b.cursorY < b.lines.length) (hx0 : 0 ≤ b.cursorX)
    (hx : if b.mode = Mode.normal then b.cursorX < max 1 (runeCount b.CurrentLine : Int)
          else b.cursorX ≤ runeCount b.CurrentLine) :
    b.SetCursorIndex b.CursorIndex = b := by
  obtain ⟨lines, x, y, mode, reg⟩ := b
  simp only at hy0 hy hx0 hx
  have hn : y.toNat < lines.length := by omega
  have hcur : Buffer.CurrentLine ⟨lines, x, y, mode, reg⟩ = lines.getD y.toNat [] := by
    simp [Buffer.CurrentLine, hy0, hy]
  rw [hcur] at hx
  have hlen : lines.length ≠ 0 := by omega
  have hxle : x ≤ runeCount (lines.getD y.toNat []) := by
    split at hx
    · rcases Nat.eq_zero_or_pos (runeCount (lines.getD y.toNat [])) with h | h
      · rw [h] at hx; simp at hx; omega
      · have : max 1 (runeCount (lines.getD y.toNat []) : Int) = runeCount (lines.getD y.toNat []) := by
          apply max_eq_right; omega
        omega
    · exact hx
  have hloop := setCursorIndexLoop_lineOffset lines y.toNat x 0 0 hn hx0 hxle
  have hyy : (0 : Int) + (y.toNat : Int) = y := by omega
  simp only [Buffer.SetCursorIndex, Buffer.CursorIndex]
  rw [show lineOffset lines y.toNat + x = lineOffset lines y.toNat + x + 0 by ring, hloop]
  simp only [hyy]
  have h1 : ¬ y < 0 := by omega
  have h2 : ¬ y ≥ (lines.length : Int) := by omega
  have h3 : ¬ x < 0 := by omega
  by_cases hm : mode = Mode.normal
  · simp only [hm, if_true] at hx
    have h4 : ¬ ((runeCount (lines.getD y.toNat []) : Int) > 0 ∧
        x ≥ runeCount (lines.getD y.toNat [])) := by
      intro ⟨h1, h2⟩
      have : max 1 (runeCount (lines.getD y.toNat []) : Int)
          = runeCount (lines.getD y.toNat []) := by
        apply max_eq_right; omega
      omega
    have hg : lines[y.toNat]?.getD [] = lines.getD y.toNat [] := by simp
    simp [Buffer.clampCursor, hlen, h1, h2, h3, hm]
    rw [hg]
    split_ifs <;> omega
  · have h4 : ¬ x > (runeCount (lines.getD y.toNat []) : Int) := by omega
    have hg : lines[y.toNat]?.getD [] = lines.getD y.toNat [] := by simp
    simp [Buffer.clampCursor, hlen, h1, h2, h3, hm]
    rw [hg]
    split_ifs <;> omega

@[simp] theorem stackInv_setBuf (e : Engine) (b : Buffer) : StackInv (e.setBuf b) ↔ StackInv e :=
  Iff.rfl

theorem stackInv_saveUndo (e : Engine) (h : StackInv e) : StackInv e.saveUndo := by
  unfold StackInv at *
  simp only [Engine.saveUndo, List.length_nil, Nat.add_zero]
  split <;> simp at * <;> omega

theorem stackInv_undo (e : Engine) (h : StackInv e) : StackInv e.undo.1 := by
  unfold StackInv at *
  unfold Engine.undo
  cases hl : e.undoStack.getLast? with
  | none => simpa using h
  | some top =>
    have hne : e.undoStack ≠ [] := by
      intro h0; simp [h0] at hl
    have := List.length_pos.mpr hne
    simp; omega

theorem stackInv_redo (e : Engine) (h : StackInv e) : StackInv e.redo.1 := by
  unfold StackInv at *
  unfold Engine.redo
  cases hl : e.redoStack.getLast? with
  | none => simpa using h
  | some top =>
    have hne : e.redoStack ≠ [] := by
      intro h0; simp [h0] at hl
    have := List.length_pos.mpr hne
    simp; omega


theorem optAll_some {α : Type} (P : α → Prop) (a : α) : OptAll P (some a) ↔ P a := by
  simp [OptAll]

theorem optAll_pure {α : Type} (P : α → Prop) (a : α) : OptAll P (pure a) ↔ P a := by
  simp [OptAll, pure]

theorem optAll_none {α : Type} (P : α → Prop) : OptAll P none ↔ True := by
  simp [OptAll]

theorem optAll_bind {α β : Type} (P : β → Prop) (o : Option α) (f : α → Option β) :
    OptAll P (o.bind f) ↔ ∀ a, o = some a → OptAll P (f a) := by
  cases o <;> simp [OptAll]

theorem optAll_bind2 {α β : Type} (P : β → Prop) (o : Option α) (f : α → Option β) :
    OptAll P (o >>= f) ↔ ∀ a, o = some a → OptAll P (f a) := optAll_bind P o f

theorem optAll_map {α β : Type} (P : β → Prop) (o : Option α) (f : α → β) :
    OptAll P (o.map f) ↔ ∀ a, o = some a → P (f a) := by
  cases o <;> simp [OptAll]

theorem optAll_ite {α : Type} (P : α → Prop) (c : Prop) [Decidable c] (a b : Option α) :
    OptAll P (if c then a else b) ↔ (c → OptAll P a) ∧ (¬ c → OptAll P b) := by
  split <;> simp_all

theorem optAll_ret (P : Engine × Bool × GoString → Prop) (e : Engine) (c : Bool)
    (k : GoString) : OptAll P (ret e c k) ↔ P (e, c, k) := by
  simp [OptAll, ret]

theorem applyOperator_inv (e : Engine) (op : GoString) (s t x y : Int) (h : StackInv e) :
    OptAll StackInv (applyOperator e op s t x y) := by
  unfold applyOperator
  simp only [optAll_ite, optAll_bind, optAll_bind2, optAll_some, optAll_pure, stackInv_setBuf]
  simp [h]

theorem handleBracketObject_inv (e : Engine) (op : GoString) (o c : Rune) (inner : Bool)
    (rem : GoString) (h : StackInv e) :
    OptAll (fun x => StackInv x.1) (e.handleBracketObject op o c inner rem) := by
  have h2 := stackInv_saveUndo e h
  unfold Engine.handleBracketObject
  simp only [optAll_bind, optAll_bind2]
  intro a _
  split
  · simpa [optAll_ret] using h
  · split
    · simpa [optAll_ret] using h
    · simp only [optAll_ite, optAll_bind, optAll_bind2, optAll_ret, stackInv_setBuf]
      simp [h, h2]

theorem textObjectRange_inv (U : UnicodeTables) (e : Engine) (op : GoString) (inner : Bool)
    (obj : Nat) (motion : GoString) (h : StackInv e) :
    OptAll RangeInv (e.textObjectRange U op inner obj motion) := by
  unfold Engine.textObjectRange
  simp only [optAll_ite, optAll_bind, optAll_bind2, optAll_some, optAll_pure, RangeInv,
    optAll_ret, stackInv_setBuf]
  refine ⟨fun _ => ⟨fun _ => h, fun _ => ?_⟩, fun _ => ⟨fun _ => ?_, fun _ => ?_⟩⟩
  · intros; exact ⟨fun _ _ _ => h, fun _ _ _ => h⟩
  · split
    · simp only [optAll_ite, optAll_some, RangeInv, stackInv_setBuf]
      exact ⟨fun _ => h, fun _ => h⟩
    · simpa [optAll_some, RangeInv, optAll_ret] using h
  · refine ⟨fun _ => handleBracketObject_inv _ _ _ _ _ _ h, fun _ => ?_⟩
    refine ⟨fun _ => handleBracketObject_inv _ _ _ _ _ _ h, fun _ => ?_⟩
    refine ⟨fun _ => handleBracketObject_inv _ _ _ _ _ _ h, fun _ => ?_⟩
    exact ⟨fun _ => handleBracketObject_inv _ _ _ _ _ _ h, fun _ => h⟩

theorem handleTextObject_inv (U : UnicodeTables) (e : Engine) (op motion : GoString)
    (count : Int) (h : StackInv e) :
    OptAll (fun x => StackInv x.1) (e.handleTextObject U op motion count) := by
  unfold Engine.handleTextObject
  simp only [optAll_ite, optAll_ret]
  refine ⟨fun _ => h, fun _ => ?_⟩
  have hr := textObjectRange_inv U e op (motion.headD 0 == 0x69) ((motion.drop 1).headD 0)
    (motion.drop 2) h
  split
  · simp [optAll_none]
  · next r heq => rw [heq] at hr; simpa [optAll_some, RangeInv] using hr
  · next e1 s t heq =>
    rw [heq] at hr
    have h1 : StackInv e1 := by simpa [optAll_some, RangeInv] using hr
    simp only [optAll_ite, optAll_ret, optAll_bind, stackInv_setBuf]
    refine ⟨fun _ => h1, fun _ a ha => ?_⟩
    exact applyOperator_inv _ _ _ _ _ _ (by simpa using stackInv_saveUndo e1 h1) a ha

theorem operatorMotion_inv (U : UnicodeTables) (e : Engine) (op motion : GoString)
    (count startIdx : Int) (h : StackInv e) :
    OptAll MotionInv (operatorMotion U e op motion count startIdx) := by
  unfold operatorMotion
  simp only [optAll_ite, optAll_bind, optAll_bind2, optAll_some, optAll_pure, MotionInv,
    stackInv_setBuf]
  simp [h]

theorem handleOperatorPending_inv (U : UnicodeTables) (e : Engine) (op motion : GoString)
    (count : Int) (h : StackInv e) :
    OptAll (fun x => StackInv x.1) (e.handleOperatorPending U op motion count) := by
  unfold Engine.handleOperatorPending
  simp only [optAll_ite, optAll_ret]
  refine ⟨fun _ => h, fun _ => ⟨fun _ => handleTextObject_inv U e op motion count h, fun _ => ?_⟩⟩
  have hr := operatorMotion_inv U e op motion count e.buffer.CursorIndex h
  split
  · simp [optAll_none]
  · next r heq => rw [heq] at hr; simpa [optAll_some, MotionInv] using hr
  · next e1 moved s m heq =>
    rw [heq] at hr
    have h1 : StackInv e1 := by simpa [optAll_some, MotionInv] using hr
    simp only [optAll_ite, optAll_ret, optAll_bind, stackInv_setBuf]
    refine ⟨fun _ => h1, fun _ a ha => ?_⟩
    exact applyOperator_inv _ _ _ _ _ _ (by simpa using stackInv_saveUndo e1 h1) a ha

theorem findChar_inv (e : Engine) (keys : GoString) (count : Int) (bw bf : Bool)
    (h : StackInv e) : OptAll (fun x => StackInv x.1) (e.findChar keys count bw bf) := by
  unfold Engine.findChar
  split <;> simp only [optAll_bind, optAll_bind2, optAll_ret] <;> intros <;> exact h

theorem handleInsertMode_inv (e : Engine) (keys : GoString) (h : StackInv e) :
    OptAll (fun x => StackInv x.1) (e.handleInsertMode keys) := by
  unfold Engine.handleInsertMode
  simp only [optAll_ite, optAll_bind, optAll_bind2, optAll_ret, stackInv_setBuf]
  simp [h]

theorem handleVisualMode_inv (U : UnicodeTables) (e : Engine) (keys : GoString)
    (h : StackInv e) : OptAll (fun x => StackInv x.1) (e.handleVisualMode U keys) := by
  unfold Engine.handleVisualMode
  simp only [optAll_ite, optAll_bind, optAll_bind2, optAll_ret, stackInv_setBuf]
  simp [h]

set_option maxHeartbeats 1000000 in
theorem handleNormalMode_inv (U : UnicodeTables) (e : Engine) (keys : GoString)
    (h : StackInv e) : OptAll (fun x => StackInv x.1) (e.handleNormalMode U keys) := by
  have h2 := stackInv_saveUndo e h
  have hu := stackInv_undo e h
  have hr := stackInv_redo e h
  have hop := fun op m c => handleOperatorPending_inv U e op m c h
  have hf := fun k c a b => findChar_inv e k c a b h
  unfold Engine.handleNormalMode
  simp only [optAll_ite, optAll_bind, optAll_bind2, optAll_ret, stackInv_setBuf]
  simp [h, h2, hu, hr, hop, hf]


theorem parseAndExecute_inv (U : UnicodeTables) (e : Engine) (keys : GoString)
    (h : StackInv e) : OptAll (fun x => StackInv x.1) (e.parseAndExecute U keys) := by
  unfold Engine.parseAndExecute
  simp only [optAll_ite, optAll_ret]
  refine ⟨fun _ => h, fun _ => ?_⟩
  split
  · exact handleInsertMode_inv e keys h
  · exact handleNormalMode_inv U e keys h
  · exact handleVisualMode_inv U e keys h
  · exact handleVisualMode_inv U e keys h
  · simpa [optAll_ret] using h

theorem ProcessKey_inv (U : UnicodeTables) (e : Engine) (key : GoString) (h : StackInv e) :
    OptAll (fun x => StackInv x.1) (e.ProcessKey U key) := by
  unfold Engine.ProcessKey
  simp only [optAll_map]
  intro a ha
  exact parseAndExecute_inv U { e with pendingKeys := e.pendingKeys ++ key } _ h a ha

theorem reachable_stackInv (U : UnicodeTables) (e : Engine) (h : Reachable U e) :
    StackInv e := by
  induction h with
  | newEngine text => simp [StackInv, NewEngine]
  | reset e text pos _ _ => simp [StackInv, Engine.Reset]
  | processKey e e1 key c _ hk ih => exact ProcessKey_inv U e key ih _ hk

/-- Claim C8: undo stack bound. In every engine state reachable from `NewEngine` by `Reset`
and `ProcessKey` calls (any keys, `u` and Ctrl-R included) the undo stack holds at most 100
snapshots. -/
theorem undoStack_bounded (U : UnicodeTables) (e : Engine) (h : Reachable U e) :
    e.undoStack.length ≤ 100 := by
  have := reachable_stackInv U e h
  unfold StackInv at this
  omega

/-! ### Key-by-key parsing in normal mode -/

theorem ProcessKey_normal (U : UnicodeTables) (e : Engine) (key : GoString)
    (hmode : e.buffer.mode = Mode.normal) (hk : e.pendingKeys ++ key ≠ []) :
    e.ProcessKey U key =
      (({ e with pendingKeys := e.pendingKeys ++ key } : Engine).handleNormalMode U
        (e.pendingKeys ++ key)).map (fun r => ({ r.1 with pendingKeys := r.2.2 }, r.2.1)) := by
  unfold Engine.ProcessKey Engine.parseAndExecute
  have : (e.pendingKeys ++ key).length ≠ 0 := by
    intro h; exact hk (List.length_eq_zero.mp h)
  simp only [this, if_false, hmode]

theorem handleNormalMode_digit (U : UnicodeTables) (e : Engine) (n : Nat) (h1 : 1 ≤ n)
    (h9 : n ≤ 9) : e.handleNormalMode U [0x30 + n] = ret e false [0x30] := by
  interval_cases n <;> rfl

theorem handleNormalMode_zero_w (U : UnicodeTables) (e : Engine) :
    e.handleNormalMode U (str "0w") =
      (MoveWordForward U e.buffer 1).bind (fun r => ret (e.setBuf r.1) true []) := by
  rfl

theorem handleNormalMode_w (U : UnicodeTables) (e : Engine) :
    e.handleNormalMode U (str "w") =
      (MoveWordForward U e.buffer 1).bind (fun r => ret (e.setBuf r.1) true []) := by
  rfl

theorem handleNormalMode_operator (U : UnicodeTables) (e : Engine) (op : GoString)
    (hop : op = str "d" ∨ op = str "c" ∨ op = str "y") :
    e.handleNormalMode U op = ret e false op := by
  rcases hop with rfl | rfl | rfl <;> rfl

theorem handleNormalMode_operator_then_i_or_a (U : UnicodeTables) (e : Engine) (op p : GoString)
    (hop : op = str "d" ∨ op = str "c" ∨ op = str "y") (hpre : p = str "i" ∨ p = str "a") :
    e.handleNormalMode U (op ++ p) = ret e false [] := by
  rcases hop with rfl | rfl | rfl <;> rcases hpre with rfl | rfl <;> rfl

/-- Claim C1, as the code behaves: a count typed as its own key is dropped. In normal mode
with no pending keys, a digit `1..9` followed by `w` leaves the engine exactly where the
single key `w` leaves it, because `handleNormalMode` returns zeros as the pending count. -/
theorem count_key_then_w_equals_single_w (U : UnicodeTables) (e : Engine) (n : Nat)
    (hmode : e.buffer.mode = Mode.normal) (hp : e.pendingKeys = []) (h1 : 1 ≤ n) (h9 : n ≤ 9) :
    e.ProcessKeys U [[0x30 + n], str "w"] = e.ProcessKeys U [str "w"] := by
  have hw : str "w" ≠ [] := by decide
  have s1 : e.ProcessKey U [0x30 + n] = some ({ e with pendingKeys := [0x30] }, false) := by
    rw [ProcessKey_normal U e _ hmode (by simp), hp]
    simp only [List.nil_append, handleNormalMode_digit U _ n h1 h9]
    rfl
  have s2 : ({ e with pendingKeys := [0x30] } : Engine).ProcessKey U (str "w")
      = e.ProcessKey U (str "w") := by
    have l := ProcessKey_normal U { e with pendingKeys := [0x30] } (str "w") hmode (by simp)
    have r := ProcessKey_normal U e (str "w") hmode (by simp [hp, hw])
    rw [hp] at r
    simp only [List.nil_append] at r
    rw [l, r, show [0x30] ++ str "w" = str "0w" by rfl, handleNormalMode_zero_w,
      handleNormalMode_w]
    cases MoveWordForward U e.buffer 1 <;> rfl
  simp only [Engine.ProcessKeys, s1, Option.bind, s2]

/-- Claim C1 at the task `motion-3w-001`: on "one two three four five" from index 0 the keys
`3`,`w` end at index 4, while three `w` keys end at index 14. -/
theorem count_key_then_w_on_task_3w :
    (startEngine "one two three four five" 0).buffer.mode = Mode.normal ∧
    (startEngine "one two three four five" 0).pendingKeys = [] ∧
    (startEngine "one two three four five" 0).ProcessKeys asciiTables [[0x30 + 3], str "w"]
      = (startEngine "one two three four five" 0).ProcessKeys asciiTables [str "w"] ∧
    ((startEngine "one two three four five" 0).ProcessKeys asciiTables
      [str "3", str "w"]).map Engine.CursorIndex = some 4 ∧
    ((startEngine "one two three four five" 0).ProcessKeys asciiTables
      [str "w", str "w", str "w"]).map Engine.CursorIndex = some 14 :=
  ⟨by decide, by decide,
   count_key_then_w_equals_single_w asciiTables (startEngine "one two three four five" 0) 3
     (by decide) (by decide) (by decide) (by decide),
   by decide, by decide⟩

/-- Claim C2, as the code behaves: in normal mode with no pending keys the key `0` is taken
by the second digit loop, so the buffer (cursor included) is unchanged and `0` stays
pending; the `0` motion is never run. -/
theorem zero_key_stays_pending (U : UnicodeTables) (e : Engine)
    (hmode : e.buffer.mode = Mode.normal) (hp : e.pendingKeys = []) :
    e.ProcessKey U (str "0") = some ({ e with pendingKeys := str "0" }, false) := by
  rw [ProcessKey_normal U e _ hmode (by simp [show str "0" ≠ [] by decide]), hp]
  rfl

/-- Claim C2 on "hello world" with the cursor at index 5: after the key `0` the cursor is
still in column 5 and the pending keys are `0`. -/
theorem zero_key_on_hello_world :
    (startEngine "hello world" 5).buffer.mode = Mode.normal ∧
    (startEngine "hello world" 5).pendingKeys = [] ∧
    (startEngine "hello world" 5).ProcessKey asciiTables (str "0")
      = some ({ startEngine "hello world" 5 with pendingKeys := str "0" }, false) ∧
    ((startEngine "hello world" 5).ProcessKeys asciiTables [str "0"]).map Engine.view
      = some (5, 0, Mode.normal, str "hello world", str "0") :=
  ⟨by decide, by decide,
   zero_key_stays_pending asciiTables (startEngine "hello world" 5) (by decide) (by decide),
   by decide⟩

/-- Claim C3, as the code behaves: in normal mode with no pending keys, an operator `d`, `c`
or `y` followed by the separate key `i` or `a` leaves the engine unchanged with an EMPTY
pending string: the operator and the prefix are discarded instead of being kept as
`op+p`. -/
theorem operator_then_object_prefix_is_discarded (U : UnicodeTables) (e : Engine)
    (op p : GoString) (hmode : e.buffer.mode = Mode.normal) (hp : e.pendingKeys = [])
    (hop : op = str "d" ∨ op = str "c" ∨ op = str "y") (hpre : p = str "i" ∨ p = str "a") :
    e.ProcessKeys U [op, p] = some { e with pendingKeys := [] } := by
  have hne : op ≠ [] := by rcases hop with rfl | rfl | rfl <;> decide
  have s1 : e.ProcessKey U op = some ({ e with pendingKeys := op }, false) := by
    rw [ProcessKey_normal U e _ hmode (by simp [hne]), hp]
    simp only [List.nil_append, handleNormalMode_operator U _ op hop]
    rfl
  have s2 : ({ e with pendingKeys := op } : Engine).ProcessKey U p
      = some ({ e with pendingKeys := [] }, false) := by
    have l := ProcessKey_normal U { e with pendingKeys := op } p hmode (by simp [hne])
    rw [l]
    simp only [handleNormalMode_operator_then_i_or_a U _ op p hop hpre]
    rfl
  simp only [Engine.ProcessKeys, s1, Option.bind, s2]

/-- Claim C3 at the task `change-ciw-001`: on "change inside word" from index 10, the keys
`c`,`i` leave nothing pending, and the whole key sequence of the task ends with the text
"change inside wor\nutsided", not "change outside word". -/
theorem ciw_key_by_key_on_task :
    (startEngine "change inside word" 10).buffer.mode = Mode.normal ∧
    (startEngine "change inside word" 10).pendingKeys = [] ∧
    (startEngine "change inside word" 10).ProcessKeys asciiTables [str "c", str "i"]
      = some { startEngine "change inside word" 10 with pendingKeys := [] } ∧
    ((startEngine "change inside word" 10).ProcessKeys asciiTables
      [str "c", str "i", str "w", str "o", str "u", str "t", str "s", str "i", str "d",
       str "e", str "esc"]).map (fun e => (e.Text, e.Mode))
      = some (str "change inside wor\nutsided", Mode.normal) ∧
    ((startEngine "change inside word" 10).ProcessKeys asciiTables
      [str "ciw", str "o", str "u", str "t", str "s", str "i", str "d",
       str "e", str "esc"]).map (fun e => (e.Text, e.Mode))
      = some (str "change outside word", Mode.normal) :=
  ⟨by decide, by decide,
   operator_then_object_prefix_is_discarded asciiTables (startEngine "change inside word" 10)
     (str "c") (str "i") (by decide) (by decide) (by decide) (by decide),
   by decide, by decide⟩

/-! ### Insert mode and multi-byte keys -/

theorem encodeRune_multibyte (r : Nat) (hr : 0x80 ≤ r) :
    2 ≤ (encodeRune r).length ∧ 0xC0 ≤ (encodeRune r).headD 0 := by
  unfold encodeRune
  split_ifs with h1
  · have h1 : r ≤ 0x7F := h1
    omega
  all_goals simp
  all_goals omega

theorem handleInsertMode_multibyte (e : Engine) (keys : GoString) (hlen : 2 ≤ keys.length)
    (hhead : 0xC0 ≤ keys.headD 0) : e.handleInsertMode keys = ret e false keys := by
  have h0 : keys.length ≠ 0 := by omega
  have h1 : keys.length ≠ 1 := by omega
  have hne : ∀ k : GoString, k.headD 0 < 0xC0 → keys ≠ k := by
    intro k hk h; rw [h] at hhead; omega
  have e1 := hne (str "esc") (by decide)
  have e2 := hne [0x1b] (by decide)
  have e3 := hne (str "backspace") (by decide)
  have e4 := hne [0x7f] (by decide)
  have e5 := hne (str "enter") (by decide)
  have e6 := hne [0x0d] (by decide)
  have e7 := hne [0x0a] (by decide)
  unfold Engine.handleInsertMode
  simp only [h0, h1, e1, e2, e3, e4, e5, e6, e7, if_false, or_self, false_and]

/-- Claim C4, as the code behaves: in insert mode with no pending keys, a key that is one
character above ASCII (its UTF-8 encoding has two to four bytes) is NOT inserted: the
buffer and the cursor are unchanged and the key stays in the pending string, because the
test `len(keys) == 1` counts bytes. -/
theorem multibyte_key_is_not_inserted (U : UnicodeTables) (e : Engine) (r : Rune)
    (hmode : e.buffer.mode = Mode.insert) (hp : e.pendingKeys = []) (hr : 0x80 ≤ r) :
    e.ProcessKey U (encodeRune r) = some ({ e with pendingKeys := encodeRune r }, false) := by
  obtain ⟨hlen, hhead⟩ := encodeRune_multibyte r hr
  have h0 : (encodeRune r).length ≠ 0 := by omega
  unfold Engine.ProcessKey Engine.parseAndExecute
  simp only [hp, List.nil_append, h0, if_false, hmode,
    handleInsertMode_multibyte _ (encodeRune r) hlen hhead]
  rfl

/-- Claim C4 on "ab": after `i`, the key "é" (bytes C3 A9) leaves the text "ab" and the
cursor in column 0 and stays pending; a following `esc` is appended to it and the mode
stays insert. -/
theorem e_acute_key_in_insert_mode :
    ((startEngine "ab" 0).buffer.SetMode Mode.insert).mode = Mode.insert ∧
    ((startEngine "ab" 0).setBuf ((startEngine "ab" 0).buffer.SetMode Mode.insert)).pendingKeys
      = [] ∧
    (0x80 : Nat) ≤ 0xE9 ∧
    ((startEngine "ab" 0).setBuf ((startEngine "ab" 0).buffer.SetMode Mode.insert)).ProcessKey
        asciiTables (encodeRune 0xE9)
      = some ({ (startEngine "ab" 0).setBuf ((startEngine "ab" 0).buffer.SetMode Mode.insert)
                with pendingKeys := encodeRune 0xE9 }, false) ∧
    ((startEngine "ab" 0).ProcessKeys asciiTables [str "i", str "é"]).map Engine.view
      = some (0, 0, Mode.insert, str "ab", [0xC3, 0xA9]) ∧
    ((startEngine "ab" 0).ProcessKeys asciiTables [str "i", str "é", str "esc"]).map Engine.view
      = some (0, 0, Mode.insert, str "ab", [0xC3, 0xA9] ++ str "esc") ∧
    ((startEngine "ab" 0).ProcessKeys asciiTables [str "i", str "e"]).map Engine.view
      = some (1, 0, Mode.insert, str "eab", []) :=
  ⟨by decide, by decide, by decide,
   multibyte_key_is_not_inserted asciiTables
     ((startEngine "ab" 0).setBuf ((startEngine "ab" 0).buffer.SetMode Mode.insert)) 0xE9
     (by decide) (by decide) (by decide),
   by decide, by decide, by decide⟩

/-! ### Cursor bounds and undo on concrete runs -/

/-- Claim C5 fails on the code: from `NewEngine("a")` the keys `x`,`P` end in normal mode
with the text "a" and `cursor_x = 1`, which is not below `max(1, 1)`; `P` inserts the
register without clamping the cursor. -/
theorem paste_before_leaves_cursor_past_line_end (U : UnicodeTables) :
    ((NewEngine (str "a")).ProcessKeys U [str "x", str "P"]).map Engine.view
      = some (1, 0, Mode.normal, str "a", []) ∧
    ¬ ((1 : Int) < max 1 (runeCount (str "a") : Int)) :=
  ⟨rfl, by decide⟩

/-- Claim C6 fails on the code: from `NewEngine("")` the key `A` ends in insert mode on the
empty line with `cursor_x = 1 > 0`; the next typed character then panics in
`Buffer.Insert`. -/
theorem append_on_empty_line_leaves_cursor_past_line_end (U : UnicodeTables) :
    ((NewEngine []).ProcessKeys U [str "A"]).map Engine.view
      = some (1, 0, Mode.insert, [], []) ∧
    ¬ ((1 : Int) ≤ (runeCount [] : Int)) ∧
    (NewEngine []).ProcessKeys U [str "A", str "x"] = none :=
  ⟨rfl, by decide, rfl⟩

/-- Claim C7 fails on the code: (a) on "hello" the keys `i`,`a`,`esc`,`u` leave the text
"ahello", since text typed after `i` pushes no undo snapshot; (b) on "hello world" the keys
`d`,`w`,`u` restore the text but leave the cursor at index 6, since the snapshot is taken
after the motion has moved the cursor; (c) `x`,`u` on "hello" restores text and cursor. -/
theorem undo_after_insert_or_operator_does_not_restore (U : UnicodeTables) :
    ((NewEngine (str "hello")).ProcessKeys U [str "i", str "a", str "esc", str "u"]).map
        (fun e => (e.Text, e.CursorIndex)) = some (str "ahello", 0) ∧
    ((NewEngine (str "hello world")).ProcessKeys U [str "d", str "w", str "u"]).map
        (fun e => (e.Text, e.CursorIndex)) = some (str "hello world", 6) ∧
    ((NewEngine (str "hello")).ProcessKeys U [str "x", str "u"]).map
        (fun e => (e.Text, e.CursorIndex)) = some (str "hello", 0) :=
  ⟨rfl, rfl, rfl⟩

/-- Claim C8 on a run: after `x` on "ab" the engine is reachable and its undo stack has one
snapshot, within the bound. -/
theorem undoStack_bounded_after_x :
    (NewEngine (str "ab")).ProcessKey asciiTables (str "x") = some (afterX, true) ∧
    Reachable asciiTables afterX ∧ afterX.undoStack.length ≤ 100 :=
  ⟨by decide,
   Reachable.processKey (NewEngine (str "ab")) afterX (str "x") true
     (Reachable.newEngine (str "ab")) (by decide),
   undoStack_bounded asciiTables afterX
     (Reachable.processKey (NewEngine (str "ab")) afterX (str "x") true
       (Reachable.newEngine (str "ab")) (by decide))⟩

/-- Claim C10 on the buffer "ab\ncd" with the cursor on `d` (column 1 of line 1, index 4). -/
theorem SetCursorIndex_CursorIndex_roundtrip_on_two_lines :
    (0 : Int) ≤ twoLines.cursorY ∧ twoLines.cursorY < twoLines.lines.length ∧
    (0 : Int) ≤ twoLines.cursorX ∧
    (if twoLines.mode = Mode.normal then
        twoLines.cursorX < max 1 (runeCount twoLines.CurrentLine : Int)
      else twoLines.cursorX ≤ runeCount twoLines.CurrentLine) ∧
    twoLines.CursorIndex = 4 ∧
    twoLines.SetCursorIndex twoLines.CursorIndex = twoLines :=
  ⟨by decide, by decide, by decide, by decide, by decide,
   SetCursorIndex_CursorIndex_roundtrip twoLines (by decide) (by decide) (by decide)
     (by decide)⟩

/-! ## UTF-8 and the buffer contracts -/

theorem decodeRune_encodeRune (r : Nat) (rest : GoString) (h : ValidRune r) :
    decodeRune (encodeRune r ++ rest) = (r, (encodeRune r).length) := by
  obtain ⟨h1, h2⟩ := h
  unfold encodeRune
  by_cases a1 : r ≤ 0x7F
  · rw [if_pos a1]
    have : r < 0x80 := by omega
    simp [decodeRune, this]
  · rw [if_neg a1]
    by_cases a2 : r ≤ 0x7FF
    · rw [if_pos a2]
      have c1 : ¬ (0xC0 + r / 64 < 0x80) := by omega
      have c2 : 0xC0 ≤ 0xC0 + r / 64 ∧ 0xC0 + r / 64 < 0xE0 := by omega
      have c3 : isCont (0x80 + r % 64) = true := by simp [isCont]; omega
      have c4 : (0xC0 + r / 64) % 32 * 64 + (0x80 + r % 64) % 64 = r := by omega
      have c5 : 0x7F < r := by omega
      simp only [List.cons_append, List.nil_append, decodeRune, c1, c2, c3, c4, c5, if_true,
        if_false, and_self, List.length_cons, List.length_nil]
    · rw [if_neg a2]
      have a3 : ¬ (0x10FFFF < r ∨ (0xD800 ≤ r ∧ r ≤ 0xDFFF)) := by omega
      rw [if_neg a3]
      by_cases a4 : r ≤ 0xFFFF
      · rw [if_pos a4]
        have c1 : ¬ (0xE0 + r / 4096 < 0x80) := by omega
        have c2 : ¬ (0xC0 ≤ 0xE0 + r / 4096 ∧ 0xE0 + r / 4096 < 0xE0) := by omega
        have c2b : 0xE0 ≤ 0xE0 + r / 4096 ∧ 0xE0 + r / 4096 < 0xF0 := by omega
        have c3 : isCont (0x80 + r / 64 % 64) = true := by simp [isCont]; omega
        have c3b : isCont (0x80 + r % 64) = true := by simp [isCont]; omega
        have c4 : (0xE0 + r / 4096) % 16 * 4096 + (0x80 + r / 64 % 64) % 64 * 64
            + (0x80 + r % 64) % 64 = r := by omega
        have c5 : 0x7FF < r ∧ ¬ (0xD800 ≤ r ∧ r ≤ 0xDFFF) := by omega
        simp only [List.cons_append, List.nil_append, decodeRune, c1, c2, c2b, c3, c3b, c4, c5,
          if_true, if_false, and_self, Bool.and_self, not_false_eq_true, List.length_cons,
          List.length_nil]
      · rw [if_neg a4]
        have c1 : ¬ (0xF0 + r / 262144 < 0x80) := by omega
        have c2 : ¬ (0xC0 ≤ 0xF0 + r / 262144 ∧ 0xF0 + r / 262144 < 0xE0) := by omega
        have c2b : ¬ (0xE0 ≤ 0xF0 + r / 262144 ∧ 0xF0 + r / 262144 < 0xF0) := by omega
        have c2c : 0xF0 ≤ 0xF0 + r / 262144 ∧ 0xF0 + r / 262144 < 0xF8 := by omega
        have c3 : isCont (0x80 + r / 4096 % 64) = true := by simp [isCont]; omega
        have c3a : isCont (0x80 + r / 64 % 64) = true := by simp [isCont]; omega
        have c3b : isCont (0x80 + r % 64) = true := by simp [isCont]; omega
        have c4 : (0xF0 + r / 262144) % 8 * 262144 + (0x80 + r / 4096 % 64) % 64 * 4096
            + (0x80 + r / 64 % 64) % 64 * 64 + (0x80 + r % 64) % 64 = r := by omega
        have c5 : 0xFFFF < r ∧ r ≤ 0x10FFFF := by omega
        simp only [List.cons_append, List.nil_append, decodeRune, c1, c2, c2b, c2c, c3, c3a, c3b,
          c4, c5, if_true, if_false, and_self, Bool.and_self, List.length_cons, List.length_nil]

theorem encodeRune_length_pos (r : Nat) : 0 < (encodeRune r).length := by
  unfold encodeRune
  split_ifs <;> simp

theorem decodeRune_width_pos (s : GoString) : 1 ≤ (decodeRune s).2 := by
  unfold decodeRune
  repeat' split
  all_goals (try (dsimp only; split_ifs))
  all_goals simp

theorem decodeRune_validRune (s : GoString) : ValidRune (decodeRune s).1 := by
  unfold decodeRune ValidRune
  repeat' split
  all_goals (try (dsimp only; split_ifs))
  all_goals simp [runeError]
  all_goals omega

theorem toRunesAux_fuel (n m : Nat) (s : GoString) (hn : s.length ≤ n) (hm : s.length ≤ m) :
    toRunesAux n s = toRunesAux m s := by
  induction n generalizing m s with
  | zero =>
    have : s = [] := List.length_eq_zero.mp (by omega)
    subst this
    cases m <;> simp [toRunesAux]
  | succ n ih =>
    cases s with
    | nil => cases m <;> simp [toRunesAux]
    | cons b t =>
      cases m with
      | zero => simp at hm
      | succ m =>
        simp only [toRunesAux]
        have hw := decodeRune_width_pos (b :: t)
        have hl : ((b :: t).drop (decodeRune (b :: t)).2).length ≤ t.length := by
          simp only [List.length_drop, List.length_cons]; omega
        simp only [List.length_cons] at hn hm
        rw [ih m _ (by omega) (by omega)]

theorem toRunes_nil : toRunes [] = [] := by
  simp [toRunes, toRunesAux]

theorem toRunes_cons (b : Nat) (t : GoString) :
    toRunes (b :: t) =
      (decodeRune (b :: t)).1 :: toRunes ((b :: t).drop (decodeRune (b :: t)).2) := by
  have hw := decodeRune_width_pos (b :: t)
  have hl : ((b :: t).drop (decodeRune (b :: t)).2).length ≤ t.length := by
    simp only [List.length_drop, List.length_cons]; omega
  simp only [toRunes, List.length_cons, toRunesAux]
  rw [toRunesAux_fuel t.length _ _ hl (le_refl _)]

theorem toRunes_encodeRune_append (r : Nat) (rest : GoString) (h : ValidRune r) :
    toRunes (encodeRune r ++ rest) = r :: toRunes rest := by
  have hp := encodeRune_length_pos r
  have hd := decodeRune_encodeRune r rest h
  cases he : encodeRune r ++ rest with
  | nil =>
    have : (encodeRune r ++ rest).length = 0 := by rw [he]; rfl
    simp only [List.length_append] at this
    omega
  | cons b t =>
    rw [toRunes_cons, ← he, hd]
    simp

theorem toRunes_fromRunes_append (rs : List Rune) (t : GoString)
    (h : ∀ r ∈ rs, ValidRune r) : toRunes (fromRunes rs ++ t) = rs ++ toRunes t := by
  induction rs with
  | nil => simp [fromRunes]
  | cons r rs ih =>
    have h1 : ValidRune r := h r (List.mem_cons_self _ _)
    have h2 : ∀ x ∈ rs, ValidRune x := fun x hx => h x (List.mem_cons_of_mem _ hx)
    have : fromRunes (r :: rs) ++ t = encodeRune r ++ (fromRunes rs ++ t) := by
      simp [fromRunes]
    rw [this, toRunes_encodeRune_append _ _ h1, ih h2]
    rfl

theorem toRunes_fromRunes (rs : List Rune) (h : ∀ r ∈ rs, ValidRune r) :
    toRunes (fromRunes rs) = rs := by
  have := toRunes_fromRunes_append rs [] h
  simpa [toRunes_nil] using this

theorem toRunes_validRune (s : GoString) : ∀ r ∈ toRunes s, ValidRune r := by
  generalize hn : s.length = n
  induction n using Nat.strong_induction_on generalizing s with
  | _ n ih =>
    cases s with
    | nil => simp [toRunes_nil]
    | cons b t =>
      rw [toRunes_cons]
      intro r hr
      rcases List.mem_cons.mp hr with h | h
      · rw [h]; exact decodeRune_validRune _
      · have hw := decodeRune_width_pos (b :: t)
        refine ih _ ?_ _ rfl r h
        simp only [List.length_drop, List.length_cons] at hn ⊢
        omega

theorem fromRunes_append (a b : List Rune) : fromRunes (a ++ b) = fromRunes a ++ fromRunes b := by
  simp [fromRunes]

theorem validUTF8_fromRunes (rs : List Rune) (h : ∀ r ∈ rs, ValidRune r) :
    ValidUTF8 (fromRunes rs) := by
  unfold ValidUTF8
  rw [toRunes_fromRunes rs h]

theorem validUTF8_fromRunes_toRunes (s : GoString) : ValidUTF8 (fromRunes (toRunes s)) :=
  validUTF8_fromRunes _ (toRunes_validRune s)

theorem toRunes_append (a t : GoString) (h : ValidUTF8 a) :
    toRunes (a ++ t) = toRunes a ++ toRunes t := by
  have := toRunes_fromRunes_append (toRunes a) t (toRunes_validRune a)
  rw [h] at this
  exact this

theorem validUTF8_append (a b : GoString) (ha : ValidUTF8 a) (hb : ValidUTF8 b) :
    ValidUTF8 (a ++ b) := by
  unfold ValidUTF8
  rw [toRunes_append a b ha, fromRunes_append, ha, hb]

theorem validUTF8_nil : ValidUTF8 [] := by
  simp [ValidUTF8, toRunes_nil, fromRunes]

theorem toRunes_newline_cons (t : GoString) : toRunes (10 :: t) = 10 :: toRunes t := by
  rw [toRunes_cons]
  simp [decodeRune]

theorem runeCount_fromRunes (rs : List Rune) (h : ∀ r ∈ rs, ValidRune r) :
    runeCount (fromRunes rs) = rs.length := by
  simp [runeCount, toRunes_fromRunes rs h]

/-! ### Lines and the joined text -/

theorem stringsJoin_cons_linesAfter (l : List Nat) (B : List (List Nat)) :
    stringsJoin 10 (l :: B) = l ++ linesAfter B := by
  induction B generalizing l with
  | nil => simp [stringsJoin, linesAfter]
  | cons l2 B ih =>
    simp only [stringsJoin, ih l2]
    simp [linesAfter]

theorem stringsJoin_decompose (A : List (List Nat)) (l : List Nat) (B : List (List Nat)) :
    stringsJoin 10 (A ++ l :: B) = linesBefore A ++ l ++ linesAfter B := by
  induction A with
  | nil => simp [linesBefore, stringsJoin_cons_linesAfter]
  | cons a A ih =>
    cases hA : A ++ l :: B with
    | nil => simp at hA
    | cons c C =>
      simp only [List.cons_append, hA, stringsJoin]
      rw [← hA, ih]
      simp [linesBefore]

theorem linesAfter_append (B C : List (List Nat)) :
    linesAfter (B ++ C) = linesAfter B ++ linesAfter C := by
  simp [linesAfter]

theorem linesBefore_append (B C : List (List Nat)) :
    linesBefore (B ++ C) = linesBefore B ++ linesBefore C := by
  simp [linesBefore]

theorem toRunes_stringsJoin (L : List GoString) (h : ValidLines L) :
    toRunes (stringsJoin 10 L) = stringsJoin 10 (L.map toRunes) := by
  induction L with
  | nil => simp [stringsJoin, toRunes_nil]
  | cons l L ih =>
    have hl : ValidUTF8 l := h l (List.mem_cons_self _ _)
    have hL : ValidLines L := fun x hx => h x (List.mem_cons_of_mem _ hx)
    cases L with
    | nil => simp [stringsJoin]
    | cons l2 L =>
      simp only [stringsJoin, List.map_cons] at ih ⊢
      rw [toRunes_append _ _ hl, toRunes_newline_cons, ih hL]

theorem validUTF8_stringsJoin (L : List GoString) (h : ValidLines L) :
    ValidUTF8 (stringsJoin 10 L) := by
  induction L with
  | nil => simpa [stringsJoin] using validUTF8_nil
  | cons l L ih =>
    have hl : ValidUTF8 l := h l (List.mem_cons_self _ _)
    have hL : ValidLines L := fun x hx => h x (List.mem_cons_of_mem _ hx)
    cases L with
    | nil => simpa [stringsJoin] using hl
    | cons l2 L =>
      simp only [stringsJoin] at ih ⊢
      have h10 : ValidUTF8 [10] := by unfold ValidUTF8; decide
      have : l ++ 10 :: stringsJoin 10 (l2 :: L) = l ++ ([10] ++ stringsJoin 10 (l2 :: L)) := by
        simp
      rw [this]
      exact validUTF8_append _ _ hl (validUTF8_append _ _ h10 (ih hL))

theorem lineOffset_zero (L : List GoString) : lineOffset L 0 = 0 := by
  cases L <;> simp [lineOffset]

theorem linesBefore_cons (a : List Nat) (A : List (List Nat)) :
    linesBefore (a :: A) = a ++ [10] ++ linesBefore A := by
  simp [linesBefore]

theorem lineOffset_append (A rest : List GoString) :
    lineOffset (A ++ rest) A.length = ((linesBefore (A.map toRunes)).length : Int) := by
  induction A with
  | nil => simp [lineOffset_zero, linesBefore]
  | cons a A ih =>
    simp only [List.cons_append, List.length_cons, lineOffset, List.map_cons, linesBefore_cons,
      List.length_append, List.length_nil]
    have ih2 : lineOffset (A.append rest) A.length
        = ((linesBefore (A.map toRunes)).length : Int) := ih
    rw [ih2]
    simp only [runeCount]
    push_cast
    ring

/-! ### Index and slice expressions on a split list -/

theorem getElem?_append_cons {α : Type} (A : List α) (l : α) (B : List α) :
    (A ++ l :: B)[A.length]? = some l := by
  rw [List.getElem?_append_right (le_refl _)]
  simp

theorem idx?_append {α : Type} (A : List α) (l : α) (B : List α) :
    idx? (A ++ l :: B) (A.length : Int) = some l := by
  simp only [idx?, Int.toNat_ofNat, List.get?_eq_getElem?, getElem?_append_cons]
  simp

theorem setIdx?_append {α : Type} (A : List α) (l v : α) (B : List α) :
    setIdx? (A ++ l :: B) (A.length : Int) v = some (A ++ v :: B) := by
  simp [setIdx?]

theorem slice?_append {α : Type} (A M B : List α) :
    slice? (A ++ M ++ B) (A.length : Int) ((A.length : Int) + M.length) = some M := by
  have h : ((A.length : Int) + M.length).toNat = A.length + M.length := by omega
  have h2 : (0 : Int) ≤ A.length ∧ (A.length : Int) ≤ A.length + M.length ∧
      (A.length : Int) + M.length ≤ ((A ++ M ++ B).length : Int) := by
    simp only [List.length_append]; push_cast; omega
  simp only [slice?, h2, and_self, if_true, h, Int.toNat_ofNat]
  rw [List.take_left' (by simp), List.drop_left]

theorem sliceTo?_append {α : Type} (A B : List α) :
    sliceTo? (A ++ B) (A.length : Int) = some A := by
  have := slice?_append [] A B
  simpa [sliceTo?] using this

theorem sliceFrom?_append {α : Type} (A B : List α) :
    sliceFrom? (A ++ B) (A.length : Int) = some B := by
  have := slice?_append A B []
  simp only [List.append_nil] at this
  simp only [sliceFrom?, List.length_append]
  push_cast
  exact this

/-! ### Splitting at newlines commutes with the encoding -/

theorem stringsSplit_eq_cons (sep : Nat) (t : List Nat) :
    ∃ l ls, stringsSplit sep t = l :: ls := by
  cases hs : stringsSplit sep t with
  | nil => exact absurd hs (stringsSplit_ne_nil _ _)
  | cons l ls => exact ⟨l, ls, rfl⟩

theorem stringsSplit_append_of_not_mem (sep : Nat) (a t : List Nat) (h : sep ∉ a) :
    stringsSplit sep (a ++ t) =
      (a ++ (stringsSplit sep t).headD []) :: (stringsSplit sep t).tail := by
  induction a with
  | nil =>
    obtain ⟨l, ls, hs⟩ := stringsSplit_eq_cons sep t
    simp [hs]
  | cons c a ih =>
    have hc : c ≠ sep := fun e => h (by simp [e])
    have ha : sep ∉ a := fun e => h (List.mem_cons_of_mem _ e)
    simp only [List.cons_append, stringsSplit, hc, if_false, List.append_eq]
    rw [ih ha]

theorem not_newline_mem_encodeRune (r : Nat) (h : r ≠ 10) : 10 ∉ encodeRune r := by
  unfold encodeRune
  split_ifs <;> simp <;> omega

theorem stringsSplit_fromRunes (rs : List Rune) :
    stringsSplit 10 (fromRunes rs) = (stringsSplit 10 rs).map fromRunes := by
  induction rs with
  | nil => simp [stringsSplit, fromRunes]
  | cons r rs ih =>
    have hf : fromRunes (r :: rs) = encodeRune r ++ fromRunes rs := by simp [fromRunes]
    by_cases h : r = 10
    · subst h
      have : encodeRune 10 = [10] := by decide
      rw [hf, this]
      simp only [List.cons_append, List.nil_append, stringsSplit, if_true, List.map_cons,
        List.append_eq]
      rw [ih]
      simp [fromRunes]
    · rw [hf, stringsSplit_append_of_not_mem 10 _ _ (not_newline_mem_encodeRune r h), ih]
      obtain ⟨l, ls, hs⟩ := stringsSplit_eq_cons 10 rs
      simp only [stringsSplit, h, if_false, hs, List.map_cons, List.headD_cons, List.tail_cons]
      simp [fromRunes]

theorem mem_of_mem_stringsSplit (sep : Nat) (t : List Nat) :
    ∀ p ∈ stringsSplit sep t, ∀ r ∈ p, r ∈ t := by
  induction t with
  | nil => simp [stringsSplit]
  | cons c cs ih =>
    intro p hp r hr
    simp only [stringsSplit] at hp
    split at hp
    · rcases List.mem_cons.mp hp with h | h
      · subst h; simp at hr
      · exact List.mem_cons_of_mem _ (ih p h r hr)
    · cases hs : stringsSplit sep cs with
      | nil => exact absurd hs (stringsSplit_ne_nil _ _)
      | cons l ls =>
        rw [hs] at hp ih
        rcases List.mem_cons.mp hp with h | h
        · subst h
          rcases List.mem_cons.mp hr with h2 | h2
          · simp [h2]
          · exact List.mem_cons_of_mem _ (ih l (List.mem_cons_self _ _) r h2)
        · exact List.mem_cons_of_mem _ (ih p (List.mem_cons_of_mem _ h) r hr)

/-- The parts of a valid string are valid and are the parts of its runes. -/
theorem stringsSplit_valid (s : GoString) (hs : ValidUTF8 s) :
    ValidLines (stringsSplit 10 s) ∧
    (stringsSplit 10 s).map toRunes = stringsSplit 10 (toRunes s) := by
  have hv : ∀ p ∈ stringsSplit 10 (toRunes s), ∀ r ∈ p, ValidRune r :=
    fun p hp r hr => toRunes_validRune s r (mem_of_mem_stringsSplit 10 _ p hp r hr)
  have e : stringsSplit 10 s = (stringsSplit 10 (toRunes s)).map fromRunes := by
    rw [← stringsSplit_fromRunes, hs]
  constructor
  · intro l hl
    rw [e] at hl
    obtain ⟨p, hp, rfl⟩ := List.mem_map.mp hl
    exact validUTF8_fromRunes p (hv p hp)
  · rw [e, List.map_map]
    conv_rhs => rw [← List.map_id (stringsSplit 10 (toRunes s))]
    apply List.map_congr_left
    intro p hp
    simpa using toRunes_fromRunes p (hv p hp)

/-! ### Buffers with a valid cursor -/

theorem validLines_append_cons (A : List GoString) (l : GoString) (B : List GoString) :
    ValidLines (A ++ l :: B) ↔ ValidLines A ∧ ValidUTF8 l ∧ ValidLines B := by
  simp only [ValidLines, List.mem_append, List.mem_cons]
  constructor
  · intro h
    exact ⟨fun x hx => h x (Or.inl hx), h l (Or.inr (Or.inl rfl)),
      fun x hx => h x (Or.inr (Or.inr hx))⟩
  · rintro ⟨h1, h2, h3⟩ x (hx | hx | hx)
    · exact h1 x hx
    · rw [hx]; exact h2
    · exact h3 x hx

theorem validLines_append (A B : List GoString) :
    ValidLines (A ++ B) ↔ ValidLines A ∧ ValidLines B := by
  simp only [ValidLines, List.mem_append]
  constructor
  · intro h
    exact ⟨fun x hx => h x (Or.inl hx), fun x hx => h x (Or.inr hx)⟩
  · rintro ⟨h1, h2⟩ x (hx | hx)
    · exact h1 x hx
    · exact h2 x hx

theorem getD_append_cons {α : Type} (A : List α) (l : α) (B : List α) (d : α) :
    (A ++ l :: B).getD A.length d = l := by
  rw [List.getD_eq_getElem?_getD, getElem?_append_cons]
  rfl

theorem atSplit_of_valid (b : Buffer) (hy0 : 0 ≤ b.cursorY) (hy : b.cursorY < b.lines.length)
    (hx0 : 0 ≤ b.cursorX) (hx : b.cursorX ≤ runeCount b.CurrentLine)
    (hv : ValidLines b.lines) :
    ∃ A l B pre post, AtSplit b A l B pre post := by
  have hn : b.cursorY.toNat < b.lines.length := by omega
  have hcur : b.CurrentLine = b.lines[b.cursorY.toNat] := by
    simp [Buffer.CurrentLine, hy0, hy, List.getD_eq_getElem?_getD, List.getElem?_eq_getElem hn]
  rw [hcur] at hx
  refine ⟨b.lines.take b.cursorY.toNat, b.lines[b.cursorY.toNat],
    b.lines.drop (b.cursorY.toNat + 1),
    (toRunes b.lines[b.cursorY.toNat]).take b.cursorX.toNat,
    (toRunes b.lines[b.cursorY.toNat]).drop b.cursorX.toNat, ?_, ?_, ?_, ?_, hv⟩
  · rw [List.getElem_cons_drop, List.take_append_drop]
  · rw [List.length_take]; omega
  · rw [List.length_take]; unfold runeCount at hx; omega
  · rw [List.take_append_drop]

theorem atSplit_currentLine (b : Buffer) (A : List GoString) (l : GoString) (B : List GoString)
    (pre post : List Rune) (h : AtSplit b A l B pre post) : b.CurrentLine = l := by
  obtain ⟨hL, hy, hx, hl, hv⟩ := h
  have h1 : (0 : Int) ≤ A.length ∧ (A.length : Int) < ((A ++ l :: B).length : Int) := by
    simp only [List.length_append, List.length_cons]; push_cast; omega
  simp only [Buffer.CurrentLine, hL, hy, h1, and_self, if_true, Int.toNat_ofNat,
    getD_append_cons]

theorem atSplit_text (b : Buffer) (A : List GoString) (l : GoString) (B : List GoString)
    (pre post : List Rune) (h : AtSplit b A l B pre post) :
    toRunes b.Text = linesBefore (A.map toRunes) ++ pre ++ post ++ linesAfter (B.map toRunes) ∧
    b.CursorIndex = ((linesBefore (A.map toRunes) ++ pre).length : Int) ∧
    ValidUTF8 b.Text := by
  obtain ⟨hL, hy, hx, hl, hv⟩ := h
  refine ⟨?_, ?_, ?_⟩
  · rw [Buffer.Text, toRunes_stringsJoin _ hv, hL]
    simp only [List.map_append, List.map_cons, stringsJoin_decompose, hl, List.append_assoc]
  · simp only [Buffer.CursorIndex, hL, hy, hx, Int.toNat_ofNat, lineOffset_append,
      List.length_append]
    push_cast
    ring
  · exact validUTF8_stringsJoin _ hv

theorem linesBefore_shift (M : List (List Nat)) :
    10 :: linesBefore M = linesAfter M ++ [10] := by
  induction M with
  | nil => simp [linesBefore, linesAfter]
  | cons m M ih =>
    have e1 : linesBefore (m :: M) = m ++ 10 :: linesBefore M := by simp [linesBefore]
    have e2 : linesAfter (m :: M) = 10 :: m ++ linesAfter M := by simp [linesAfter]
    rw [e1, e2, ih]
    simp

/-! ### The contract of `Buffer.Insert` -/

theorem validRune_of_toRunes_eq (l : GoString) (pre post : List Rune)
    (hl : toRunes l = pre ++ post) :
    (∀ r ∈ pre, ValidRune r) ∧ (∀ r ∈ post, ValidRune r) := by
  have h := toRunes_validRune l
  rw [hl] at h
  exact ⟨fun r hr => h r (List.mem_append_left _ hr), fun r hr => h r (List.mem_append_right _ hr)⟩

theorem Insert_atSplit (b : Buffer) (A : List GoString) (l : GoString) (B : List GoString)
    (pre post : List Rune) (s : GoString) (h : AtSplit b A l B pre post) (hs : ValidUTF8 s) :
    ∃ b1 A1 l1 pre1, b.Insert s = some b1 ∧ AtSplit b1 A1 l1 B pre1 post ∧
      linesBefore (A1.map toRunes) ++ pre1
        = linesBefore (A.map toRunes) ++ pre ++ toRunes s ∧
      b1.mode = b.mode ∧ b1.register = b.register := by
  obtain ⟨hL, hy, hx, hl, hv⟩ := h
  obtain ⟨hpre, hpost⟩ := validRune_of_toRunes_eq l pre post hl
  rw [hL, validLines_append_cons] at hv
  obtain ⟨hvA, hvl, hvB⟩ := hv
  obtain ⟨hparts, hmap⟩ := stringsSplit_valid s hs
  have hjoin : stringsJoin 10 (stringsSplit 10 s) = s := stringsJoin_stringsSplit 10 s
  have hlen0 : (A ++ l :: B).length ≠ 0 := by simp
  have hsr := toRunes_validRune s
  unfold Buffer.Insert
  simp only [hL, hlen0, if_false, hy, hx, idx?_append, hl, sliceTo?_append, sliceFrom?_append,
    Option.bind_eq_bind, Option.some_bind, Option.bind_some, bind, pure]
  by_cases h1 : (stringsSplit 10 s).length = 1
  · simp only [h1, if_true, setIdx?_append, Option.some_bind, Option.bind_some]
    refine ⟨_, A, fromRunes (pre ++ toRunes s ++ post), pre ++ toRunes s, rfl, ?_, ?_, rfl, rfl⟩
    · have hval : ∀ r ∈ pre ++ toRunes s ++ post, ValidRune r := by
        intro r hr
        simp only [List.mem_append] at hr
        rcases hr with (hr | hr) | hr
        · exact hpre r hr
        · exact hsr r hr
        · exact hpost r hr
      refine ⟨rfl, rfl, ?_, toRunes_fromRunes _ hval, ?_⟩
      · simp only [runeCount, List.length_append]; push_cast; ring
      · rw [validLines_append_cons]
        exact ⟨hvA, validUTF8_fromRunes _ hval, hvB⟩
    · simp [List.append_assoc]
  · obtain ⟨p0, rest, hp⟩ := stringsSplit_eq_cons 10 s
    have hrest : rest ≠ [] := by
      intro e; rw [hp, e] at h1; simp at h1
    obtain ⟨m, q, hmq⟩ : ∃ m q, rest = m ++ [q] :=
      ⟨rest.dropLast, rest.getLast hrest, (List.dropLast_append_getLast hrest).symm⟩
    subst hmq
    rw [hp] at hparts hmap hjoin h1
    simp only [hp, h1, if_false, setIdx?_append, Option.some_bind, Option.bind_some,
      List.headD_cons]
    have e1 : sliceTo? (A ++ (fromRunes pre ++ p0) :: B) ((A.length : Int) + 1)
        = some (A ++ [fromRunes pre ++ p0]) := by
      have := sliceTo?_append (A ++ [fromRunes pre ++ p0]) B
      simpa using this
    have e2 : sliceFrom? (A ++ (fromRunes pre ++ p0) :: B) ((A.length : Int) + 1) = some B := by
      have := sliceFrom?_append (A ++ [fromRunes pre ++ p0]) B
      simpa using this
    simp only [e1, e2, Option.some_bind, Option.bind_some]
    have g1 : (List.drop 1 (p0 :: (m ++ [q]))).dropLast = m := by simp
    have g2 : (p0 :: (m ++ [q])).getLastD [] = q := by simp [List.getLastD]
    have g3 : (A.length : Int) + (((p0 :: (m ++ [q])).length : Int) - 1)
        = ((A ++ [fromRunes pre ++ p0] ++ m).length : Int) := by
      simp only [List.length_cons, List.length_append, List.length_nil]; push_cast; ring
    rw [g1, g2, g3]
    have hvp0 : ValidUTF8 p0 := hparts p0 (by simp)
    have hvq : ValidUTF8 q := hparts q (by simp)
    have hvm : ValidLines m := fun x hx => hparts x (by simp [hx])
    have hrs : toRunes s
        = toRunes p0 ++ linesAfter (m.map toRunes) ++ 10 :: toRunes q := by
      have := stringsJoin_stringsSplit 10 (toRunes s)
      rw [← hmap, List.map_cons, stringsJoin_cons_linesAfter, List.map_append,
        linesAfter_append] at this
      rw [← this]
      simp [linesAfter]
    refine ⟨_, A ++ [fromRunes pre ++ p0] ++ m, q ++ fromRunes post, toRunes q, rfl, ?_, ?_,
      rfl, rfl⟩
    · refine ⟨by simp, rfl, rfl, ?_, ?_⟩
      · rw [toRunes_append _ _ hvq, toRunes_fromRunes _ hpost]
      · have hb : ValidUTF8 (fromRunes pre ++ p0) :=
          validUTF8_append _ _ (validUTF8_fromRunes _ hpre) hvp0
        have hq : ValidUTF8 (q ++ fromRunes post) :=
          validUTF8_append _ _ hvq (validUTF8_fromRunes _ hpost)
        intro x hx
        simp only [List.mem_append, List.mem_cons, List.mem_singleton, List.not_mem_nil,
          or_false] at hx
        rcases hx with (((hx | hx) | hx) | hx) | hx
        · exact hvA x hx
        · rw [hx]; exact hb
        · exact hvm x hx
        · rw [hx]; exact hq
        · exact hvB x hx
    · rw [hrs]
      simp only [List.map_append, List.map_cons, List.map_nil, linesBefore_append]
      rw [toRunes_append _ _ (validUTF8_fromRunes _ hpre), toRunes_fromRunes _ hpre]
      have sh := linesBefore_shift (m.map toRunes)
      have e : linesBefore [pre ++ toRunes p0] = pre ++ toRunes p0 ++ [10] := by
        simp [linesBefore]
      rw [e]
      simp only [List.append_assoc, List.singleton_append, List.cons_append, List.nil_append]
      have sh2 : 10 :: (linesBefore (m.map toRunes) ++ toRunes q)
          = linesAfter (m.map toRunes) ++ 10 :: toRunes q := by
        rw [← List.cons_append, sh]; simp
      rw [sh2]

theorem take_drop_splice {α : Type} (P Q : List α) :
    (P ++ Q).take P.length = P ∧ (P ++ Q).drop P.length = Q :=
  ⟨List.take_left _ _, List.drop_left _ _⟩

/-- Claim C13: the contract of `Buffer.Insert`. For a buffer with a valid cursor
(`0 <= cursor_y < |lines|`, `0 <= cursor_x <= char_count(current line)`) whose lines and the
string `s` are valid UTF-8, `Insert(s)` returns, the text afterwards is the text before with the
characters of `s` spliced in at the original `CursorIndex()`, and `CursorIndex()` has grown
by exactly `char_count(s)`. -/
theorem Insert_splices_at_cursor (b : Buffer) (s : GoString)
    (hy0 : 0 ≤ b.cursorY) (hy : b.cursorY < b.lines.length) (hx0 : 0 ≤ b.cursorX)
    (hx : b.cursorX ≤ runeCount b.CurrentLine) (hv : ValidLines b.lines) (hs : ValidUTF8 s) :
    ∃ b1, b.Insert s = some b1 ∧
      b1.Text = fromRunes ((toRunes b.Text).take b.CursorIndex.toNat ++ toRunes s ++
        (toRunes b.Text).drop b.CursorIndex.toNat) ∧
      b1.CursorIndex = b.CursorIndex + runeCount s := by
  obtain ⟨A, l, B, pre, post, h⟩ := atSplit_of_valid b hy0 hy hx0 hx hv
  obtain ⟨b1, A1, l1, pre1, hins, h1, hrel, -, -⟩ := Insert_atSplit b A l B pre post s h hs
  obtain ⟨hT, hI, -⟩ := atSplit_text b A l B pre post h
  obtain ⟨hT1, hI1, hV1⟩ := atSplit_text b1 A1 l1 B pre1 post h1
  refine ⟨b1, hins, ?_, ?_⟩
  · have e : toRunes b.Text
        = (linesBefore (A.map toRunes) ++ pre) ++ (post ++ linesAfter (B.map toRunes)) := by
      rw [hT]; simp
    rw [hI, Int.toNat_ofNat, e, (take_drop_splice _ _).1, (take_drop_splice _ _).2, ← hV1, hT1,
      hrel]
    simp
  · rw [hI1, hI, hrel]
    simp only [List.length_append, runeCount]
    push_cast
    ring

/-! ### The contract of `Buffer.Delete` -/

theorem take_split {α : Type} (c k : Nat) (post LA : List α) (hc : c ≤ post.length) :
    (post ++ LA).take (c + k) = post.take c ++ (post.drop c ++ LA).take k ∧
    (post ++ LA).drop (c + k) = (post.drop c ++ LA).drop k := by
  constructor
  · rw [List.take_add, List.take_append_of_le_length hc, List.drop_append_of_le_length hc]
  · rw [← List.drop_drop, List.drop_append_of_le_length hc]

theorem wrapInt64_eq (x : Int) : wrapInt64 x = (x + 2 ^ 63) % 2 ^ 64 - 2 ^ 63 := by
  unfold wrapInt64; norm_num

theorem wrapInt64_le (x : Int) (h : 0 ≤ x) : wrapInt64 x ≤ x := by
  unfold wrapInt64; omega

theorem wrapInt64_of_small (x : Int) (h0 : 0 ≤ x) (h : x < 2 ^ 63) : wrapInt64 x = x := by
  unfold wrapInt64; norm_num at h; omega

/-- The end `cursorX + charsToDelete` of a slice expression of `Delete` gives the same result
with and without the 64-bit wrap, on a slice shorter than `2^63`. -/
theorem slice?_wrapInt64 {α : Type} (l : List α) (lo hi : Int) (hl : (l.length : Int) < 2 ^ 63)
    (h0 : 0 ≤ lo) (h1 : 0 ≤ hi) (h2 : hi < 2 ^ 64) :
    slice? l lo (wrapInt64 hi) = slice? l lo hi := by
  norm_num at hl h2
  by_cases h : hi < 9223372036854775808
  · have : wrapInt64 hi = hi := by unfold wrapInt64; omega
    rw [this]
  · have hw : wrapInt64 hi < 0 := by unfold wrapInt64; omega
    have c1 : ¬ (0 ≤ lo ∧ lo ≤ wrapInt64 hi ∧ wrapInt64 hi ≤ (l.length : Int)) := by omega
    have c2 : ¬ (0 ≤ lo ∧ lo ≤ hi ∧ hi ≤ (l.length : Int)) := by omega
    simp only [slice?, c1, c2, if_false]

/-- The start `cursorX + charsToDelete` of a slice expression of `Delete` gives the same
result with and without the 64-bit wrap, on a slice shorter than `2^63`. -/
theorem sliceFrom?_wrapInt64 {α : Type} (l : List α) (lo : Int)
    (hl : (l.length : Int) < 2 ^ 63) (h0 : 0 ≤ lo) (h2 : lo < 2 ^ 64) :
    sliceFrom? l (wrapInt64 lo) = sliceFrom? l lo := by
  norm_num at hl h2
  by_cases h : lo < 9223372036854775808
  · have : wrapInt64 lo = lo := by unfold wrapInt64; omega
    rw [this]
  · have hw : wrapInt64 lo < 0 := by unfold wrapInt64; omega
    have c1 : ¬ (0 ≤ wrapInt64 lo ∧ wrapInt64 lo ≤ (l.length : Int) ∧
        (l.length : Int) ≤ (l.length : Int)) := by omega
    have c2 : ¬ (0 ≤ lo ∧ lo ≤ (l.length : Int) ∧ (l.length : Int) ≤ (l.length : Int)) := by
      omega
    simp only [sliceFrom?, slice?, c1, c2, if_false]

theorem deleteLoop_atSplit (A : List GoString) (pre : List Rune)
    (hpre : ∀ r ∈ pre, ValidRune r) :
    ∀ (fuel : Nat) (l : GoString) (B : List GoString) (post : List Rune) (rem : Int)
      (del : GoString),
      toRunes l = pre ++ post → ValidUTF8 l → ValidLines B → rem ≤ fuel →
      (deleteLoop pre.length A.length fuel (A ++ l :: B) rem del = none ∧
        ¬ ((pre.length : Int) + rem < 2 ^ 63 ∨ rem ≤ post.length)) ∨
      ∃ l1 B1 post1,
        deleteLoop pre.length A.length fuel (A ++ l :: B) rem del
          = some (A ++ l1 :: B1,
              del ++ fromRunes ((post ++ linesAfter (B.map toRunes)).take rem.toNat)) ∧
        toRunes l1 = pre ++ post1 ∧ ValidUTF8 l1 ∧ ValidLines B1 ∧
        post1 ++ linesAfter (B1.map toRunes)
          = (post ++ linesAfter (B.map toRunes)).drop rem.toNat := by
  intro fuel
  induction fuel with
  | zero =>
    intro l B post rem del hl hvl hvB hrem
    have : rem.toNat = 0 := by simp at hrem; omega
    refine Or.inr ⟨l, B, post, ?_, hl, hvl, hvB, ?_⟩
    · simp [deleteLoop, this, fromRunes]
    · simp [this]
  | succ fuel ih =>
    intro l B post rem del hl hvl hvB hrem
    by_cases hpos : rem > 0
    · have hcond : rem > 0 ∧ (A.length : Int) < ((A ++ l :: B).length : Int) := by
        refine ⟨hpos, ?_⟩
        simp only [List.length_append, List.length_cons]; push_cast; omega
      have hremN : rem.toNat = (rem - 1).toNat + 1 := by omega
      simp only [deleteLoop, hcond, and_self, if_true, idx?_append, hl, Option.bind_eq_bind,
        Option.some_bind, bind]
      by_cases hpost : post = []
      · subst hpost
        have hx : (pre.length : Int) ≥ ((pre ++ ([] : List Rune)).length : Int) := by simp
        simp only [hx, if_true]
        cases B with
        | nil =>
          have hlast : ¬ ((A.length : Int) < ((A ++ [l]).length : Int) - 1) := by
            simp only [List.length_append, List.length_cons, List.length_nil]; push_cast; omega
          simp only [hlast, if_false]
          exact Or.inr
            ⟨l, [], [], by simp [linesAfter, fromRunes], hl, hvl, hvB, by simp [linesAfter]⟩
        | cons l2 B2 =>
          have hnl : (A.length : Int) < ((A ++ l :: l2 :: B2).length : Int) - 1 := by
            simp only [List.length_append, List.length_cons]; push_cast; omega
          have i1 : idx? (A ++ l :: l2 :: B2) ((A.length : Int) + 1) = some l2 := by
            have := idx?_append (A ++ [l]) l2 B2
            simpa using this
          have i2 : sliceTo? (A ++ (l ++ l2) :: l2 :: B2) ((A.length : Int) + 1)
              = some (A ++ [l ++ l2]) := by
            have := sliceTo?_append (A ++ [l ++ l2]) (l2 :: B2)
            simpa using this
          have i3 : sliceFrom? (A ++ (l ++ l2) :: l2 :: B2) ((A.length : Int) + 2)
              = some B2 := by
            have := sliceFrom?_append (A ++ [l ++ l2, l2]) B2
            simpa using this
          simp only [hnl, if_true, i1, setIdx?_append, i2, i3, Option.some_bind,
            Option.bind_some]
          have hvl2 : ValidUTF8 l2 := hvB l2 (by simp)
          have hvB2 : ValidLines B2 := fun x hx => hvB x (by simp [hx])
          have hl' : toRunes (l ++ l2) = pre ++ toRunes l2 := by
            rw [toRunes_append _ _ hvl, hl]; simp
          have eL : A ++ [l ++ l2] ++ B2 = A ++ (l ++ l2) :: B2 := by simp
          rw [eL]
          rcases ih (l ++ l2) B2 (toRunes l2) (rem - 1) (del ++ [10]) hl'
              (validUTF8_append _ _ hvl hvl2) hvB2 (by push_cast at hrem; omega) with
            ⟨e, hnb⟩ | ⟨l1, B1, post1, e, h1, h2, h3, h4⟩
          · refine Or.inl ⟨e, fun hb => hnb ?_⟩
            rcases hb with hb | hb
            · exact Or.inl (by omega)
            · simp only [List.length_nil] at hb
              push_cast at hb
              omega
          · rw [e]
            refine Or.inr ⟨l1, B1, post1, ?_, h1, h2, h3, ?_⟩
            · rw [hremN]
              simp [linesAfter, fromRunes, encodeRune]
            · rw [h4, hremN]
              simp [linesAfter]
      · have hplen : 0 < post.length := List.length_pos.mpr hpost
        have hx : ¬ ((pre.length : Int) ≥ ((pre ++ post).length : Int)) := by
          simp only [List.length_append]; push_cast; omega
        obtain ⟨-, hpostv⟩ := validRune_of_toRunes_eq l pre post hl
        have hlen : ((pre ++ post).length : Int) = (pre.length : Int) + post.length := by
          simp only [List.length_append]; push_cast; rfl
        have hw := wrapInt64_le ((pre.length : Int) + rem) (by omega)
        by_cases hfit : wrapInt64 ((pre.length : Int) + rem) > ((pre ++ post).length : Int) ∨
            rem ≤ post.length
        · have hc : (if wrapInt64 ((pre.length : Int) + rem) > ((pre ++ post).length : Int)
              then ((pre ++ post).length : Int) - pre.length else rem)
              = ((min rem.toNat post.length : Nat) : Int) := by
            split_ifs with hif
            · rw [hlen] at hif ⊢
              omega
            · rcases hfit with hfit | hfit
              · exact absurd hfit hif
              · omega
          generalize hcn : min rem.toNat post.length = cn at hc
          have hcn1 : 1 ≤ cn := by omega
          have hcn2 : cn ≤ post.length := by omega
          have hcn3 : (cn : Int) ≤ rem := by omega
          have htl : (post.take cn).length = cn := by simp [List.length_take]; omega
          have j1 : slice? (pre ++ post) (pre.length : Int) ((pre.length : Int) + cn)
              = some (post.take cn) := by
            have := slice?_append pre (post.take cn) (post.drop cn)
            rw [htl, List.append_assoc, List.take_append_drop] at this
            exact this
          have j2 : sliceFrom? (pre ++ post) ((pre.length : Int) + cn)
              = some (post.drop cn) := by
            have := sliceFrom?_append (pre ++ post.take cn) (post.drop cn)
            rw [List.append_assoc, List.take_append_drop, List.length_append, htl] at this
            push_cast at this
            exact this
          simp only [hx, if_false, hc, j1, j2, sliceTo?_append, setIdx?_append,
            Option.some_bind, Option.bind_some]
          have hval : ∀ r ∈ pre ++ post.drop cn, ValidRune r := by
            intro r hr
            rcases List.mem_append.mp hr with h | h
            · exact hpre r h
            · exact hpostv r (List.mem_of_mem_drop h)
          rcases ih (fromRunes (pre ++ post.drop cn)) B (post.drop cn) (rem - cn)
              (del ++ fromRunes (post.take cn)) (toRunes_fromRunes _ hval)
              (validUTF8_fromRunes _ hval) hvB (by push_cast at hrem; omega) with
            ⟨e, hnb⟩ | ⟨l1, B1, post1, e, h1, h2, h3, h4⟩
          · refine Or.inl ⟨e, fun hb => hnb ?_⟩
            rcases hb with hb | hb
            · exact Or.inl (by omega)
            · refine Or.inr ?_
              simp only [List.length_drop]
              omega
          · rw [e]
            have hsplit : rem.toNat = cn + (rem - (cn : Int)).toNat := by omega
            obtain ⟨t1, t2⟩ := take_split cn (rem - (cn : Int)).toNat post
              (linesAfter (B.map toRunes)) hcn2
            refine Or.inr ⟨l1, B1, post1, ?_, h1, h2, h3, ?_⟩
            · rw [hsplit, t1, fromRunes_append]
              simp
            · rw [h4, hsplit, t2]
        · have hif : ¬ (wrapInt64 ((pre.length : Int) + rem) > ((pre ++ post).length : Int)) :=
            fun h => hfit (Or.inl h)
          have hlong : ¬ (rem ≤ (post.length : Int)) := fun h => hfit (Or.inr h)
          have hs : slice? (pre ++ post) (pre.length : Int) ((pre.length : Int) + rem)
              = none := by
            have : ¬ ((0 : Int) ≤ pre.length ∧ (pre.length : Int) ≤ pre.length + rem ∧
                (pre.length : Int) + rem ≤ ((pre ++ post).length : Int)) := by
              rw [hlen]; omega
            simp only [slice?, this, if_false]
          refine Or.inl ⟨?_, ?_⟩
          · simp only [hx, if_false, hif, hs, Option.none_bind]
          · rintro (hb | hb)
            · rw [wrapInt64_of_small _ (by omega) hb, hlen] at hif
              omega
            · exact hlong hb
    · have : rem.toNat = 0 := by omega
      refine Or.inr ⟨l, B, post, ?_, hl, hvl, hvB, ?_⟩
      · simp [deleteLoop, this, fromRunes, hpos]
      · simp [this]

theorem deleteLoop_overflow (A : List GoString) (l : GoString) (B : List GoString)
    (x rem : Int) (fuel : Nat) (del : GoString)
    (hx : x < runeCount l) (hpos : 0 < rem)
    (hw : wrapInt64 (x + rem) ≤ runeCount l) (hlong : (runeCount l : Int) < x + rem) :
    deleteLoop x A.length (fuel + 1) (A ++ l :: B) rem del = none := by
  unfold runeCount at hx hw hlong
  have hcond : rem > 0 ∧ (A.length : Int) < ((A ++ l :: B).length : Int) := by
    refine ⟨hpos, ?_⟩
    simp only [List.length_append, List.length_cons]; push_cast; omega
  have h1 : ¬ (x ≥ ((toRunes l).length : Int)) := by omega
  have h2 : ¬ (wrapInt64 (x + rem) > ((toRunes l).length : Int)) := by omega
  have hs : slice? (toRunes l) x (x + rem) = none := by
    have : ¬ (0 ≤ x ∧ x ≤ x + rem ∧ x + rem ≤ ((toRunes l).length : Int)) := by omega
    simp only [slice?, this, if_false]
  simp only [deleteLoop, hcond, and_self, if_true, idx?_append, Option.bind_eq_bind,
    Option.some_bind, bind, h1, if_false, h2, hs, Option.none_bind]

theorem clampCursor_lines (b : Buffer) (h : b.lines ≠ []) :
    b.clampCursor.lines = b.lines ∧ b.clampCursor.mode = b.mode ∧
    b.clampCursor.register = b.register := by
  have : b.lines.length ≠ 0 := fun e => h (List.length_eq_zero.mp e)
  simp [Buffer.clampCursor, this]

theorem Delete_atSplit_cases (b : Buffer) (A : List GoString) (l : GoString)
    (B : List GoString) (pre post : List Rune) (n : Int) (h : AtSplit b A l B pre post)
    (hn : 0 < n) :
    (b.Delete n = none ∧ ¬ ((pre.length : Int) + n < 2 ^ 63 ∨ n ≤ post.length)) ∨
    ∃ l1 B1 post1,
      b.Delete n = some (fromRunes ((post ++ linesAfter (B.map toRunes)).take n.toNat),
        Buffer.clampCursor { b with lines := A ++ l1 :: B1 }) ∧
      toRunes l1 = pre ++ post1 ∧ ValidLines (A ++ l1 :: B1) ∧
      post1 ++ linesAfter (B1.map toRunes)
        = (post ++ linesAfter (B.map toRunes)).drop n.toNat := by
  obtain ⟨hL, hy, hx, hl, hv⟩ := h
  obtain ⟨hpre, -⟩ := validRune_of_toRunes_eq l pre post hl
  rw [hL, validLines_append_cons] at hv
  obtain ⟨hvA, hvl, hvB⟩ := hv
  have hc : ¬ ((A ++ l :: B).length = 0 ∨ n ≤ 0) := by
    simp; omega
  rcases deleteLoop_atSplit A pre hpre n.toNat l B post n [] hl hvl hvB (by omega) with
    ⟨e, hnb⟩ | ⟨l1, B1, post1, e, h1, h2, h3, h4⟩
  · refine Or.inl ⟨?_, hnb⟩
    unfold Buffer.Delete
    simp only [hL, hc, if_false, hx, hy, e, Option.bind_eq_bind, Option.none_bind]
  · refine Or.inr ⟨l1, B1, post1, ?_, h1, ?_, h4⟩
    · unfold Buffer.Delete
      simp only [hL, hc, if_false, hx, hy, e, Option.bind_eq_bind, Option.some_bind, bind, pure,
        List.nil_append]
    · rw [validLines_append_cons]
      exact ⟨hvA, h2, h3⟩

theorem Delete_atSplit (b : Buffer) (A : List GoString) (l : GoString) (B : List GoString)
    (pre post : List Rune) (n : Int) (h : AtSplit b A l B pre post) (hn : 0 < n)
    (hb : (pre.length : Int) + n < 2 ^ 63 ∨ n ≤ post.length) :
    ∃ l1 B1 post1,
      b.Delete n = some (fromRunes ((post ++ linesAfter (B.map toRunes)).take n.toNat),
        Buffer.clampCursor { b with lines := A ++ l1 :: B1 }) ∧
      toRunes l1 = pre ++ post1 ∧ ValidLines (A ++ l1 :: B1) ∧
      post1 ++ linesAfter (B1.map toRunes)
        = (post ++ linesAfter (B.map toRunes)).drop n.toNat := by
  rcases Delete_atSplit_cases b A l B pre post n h hn with ⟨-, hnb⟩ | h1
  · exact absurd hb hnb
  · exact h1

theorem atSplit_no_overflow (b : Buffer) (A : List GoString) (l : GoString)
    (B : List GoString) (pre post : List Rune) (n : Int) (h : AtSplit b A l B pre post)
    (hb : b.cursorX + n < 2 ^ 63 ∨ b.cursorX + n ≤ runeCount b.CurrentLine) :
    (pre.length : Int) + n < 2 ^ 63 ∨ n ≤ post.length := by
  rw [atSplit_currentLine b A l B pre post h] at hb
  obtain ⟨-, -, hx, hl, -⟩ := h
  unfold runeCount at hb
  rw [hl, hx, List.length_append] at hb
  push_cast at hb
  rcases hb with hb | hb
  · exact Or.inl hb
  · exact Or.inr (by omega)

/-- When `cursor_x + n` passes `2^63` on a cursor inside a line, the clamp test of `Delete`
sees a negative sum, `charsToDelete` stays `n`, and the slice expression panics. -/
theorem Delete_none_of_overflow (b : Buffer) (n : Int)
    (hy0 : 0 ≤ b.cursorY) (hy : b.cursorY < b.lines.length) (hx0 : 0 ≤ b.cursorX)
    (hx : b.cursorX < runeCount b.CurrentLine)
    (hlen : (runeCount b.CurrentLine : Int) < 2 ^ 63) (hn : n < 2 ^ 63)
    (hov : 2 ^ 63 ≤ b.cursorX + n) : b.Delete n = none := by
  have hN : b.cursorY.toNat < b.lines.length := by omega
  have hcur : b.CurrentLine = b.lines[b.cursorY.toNat] := by
    simp [Buffer.CurrentLine, hy0, hy, List.getD_eq_getElem?_getD, List.getElem?_eq_getElem hN]
  rw [hcur] at hx hlen
  have hL : b.lines = b.lines.take b.cursorY.toNat ++
      b.lines[b.cursorY.toNat] :: b.lines.drop (b.cursorY.toNat + 1) := by
    rw [List.getElem_cons_drop, List.take_append_drop]
  have hA : ((b.lines.take b.cursorY.toNat).length : Int) = b.cursorY := by
    rw [List.length_take]; omega
  norm_num at hlen hn hov
  have hpos : 0 < n := by omega
  have hw : wrapInt64 (b.cursorX + n) ≤ runeCount b.lines[b.cursorY.toNat] := by
    unfold wrapInt64; omega
  obtain ⟨k, hk⟩ : ∃ k, n.toNat = k + 1 := ⟨n.toNat - 1, by omega⟩
  have hc : ¬ (b.lines.length = 0 ∨ n ≤ 0) := by omega
  have := deleteLoop_overflow (b.lines.take b.cursorY.toNat) b.lines[b.cursorY.toNat]
    (b.lines.drop (b.cursorY.toNat + 1)) b.cursorX n k [] hx hpos hw (by omega)
  rw [hA, ← hL] at this
  unfold Buffer.Delete
  simp only [hc, if_false, hk, this, Option.bind_eq_bind, Option.none_bind]

/-- The contract of `Buffer.Delete` where `cursor_x + n` does not overflow (claim C12 on
that range). For a buffer with a valid cursor whose lines are valid UTF-8 and every `n > 0`
with `cursor_x + n < 2^63`, or with `cursor_x + n` inside the current line, `Delete(n)`
returns exactly the first `min(n, remaining)` characters of `Text()` from `CursorIndex()` on
(a newline is one character), and afterwards `Text()` is the original text with exactly that
range removed. -/
theorem Delete_removes_range_at_cursor (b : Buffer) (n : Int)
    (hy0 : 0 ≤ b.cursorY) (hy : b.cursorY < b.lines.length) (hx0 : 0 ≤ b.cursorX)
    (hx : b.cursorX ≤ runeCount b.CurrentLine) (hv : ValidLines b.lines) (hn : 0 < n)
    (hb : b.cursorX + n < 2 ^ 63 ∨ b.cursorX + n ≤ runeCount b.CurrentLine) :
    ∃ del b1, b.Delete n = some (del, b1) ∧
      del = fromRunes (((toRunes b.Text).drop b.CursorIndex.toNat).take n.toNat) ∧
      b1.Text = fromRunes ((toRunes b.Text).take b.CursorIndex.toNat ++
        (toRunes b.Text).drop (b.CursorIndex.toNat + n.toNat)) := by
  obtain ⟨A, l, B, pre, post, h⟩ := atSplit_of_valid b hy0 hy hx0 hx hv
  obtain ⟨l1, B1, post1, hdel, hl1, hv1, hpost1⟩ :=
    Delete_atSplit b A l B pre post n h hn (atSplit_no_overflow b A l B pre post n h hb)
  obtain ⟨hT, hI, -⟩ := atSplit_text b A l B pre post h
  have e : toRunes b.Text
      = (linesBefore (A.map toRunes) ++ pre) ++ (post ++ linesAfter (B.map toRunes)) := by
    rw [hT]; simp
  have hne : ({ b with lines := A ++ l1 :: B1 } : Buffer).lines ≠ [] := by simp
  refine ⟨_, _, hdel, ?_, ?_⟩
  · rw [hI, Int.toNat_ofNat, e, (take_drop_splice _ _).2]
  · rw [hI, Int.toNat_ofNat, e, (take_drop_splice _ _).1, List.drop_append, ← hpost1]
    rw [Buffer.Text, (clampCursor_lines _ hne).1]
    have hvt := validUTF8_stringsJoin _ hv1
    rw [← hvt, toRunes_stringsJoin _ hv1]
    simp only [List.map_append, List.map_cons, stringsJoin_decompose, hl1, List.append_assoc]

/-! ### `SetCursorIndex` outside normal mode -/

theorem clampCursor_of_valid (b : Buffer) (hy0 : 0 ≤ b.cursorY)
    (hy : b.cursorY < b.lines.length) (hx0 : 0 ≤ b.cursorX)
    (hx : b.cursorX ≤ runeCount (b.lines.getD b.cursorY.toNat []))
    (hnorm : b.mode = Mode.normal → 0 < runeCount (b.lines.getD b.cursorY.toNat []) →
      b.cursorX < runeCount (b.lines.getD b.cursorY.toNat [])) :
    b.clampCursor = b := by
  obtain ⟨lines, x, y, mode, reg⟩ := b
  simp only at hy0 hy hx0 hx hnorm
  have hlen : lines.length ≠ 0 := by omega
  have h1 : ¬ y < 0 := by omega
  have h2 : ¬ y ≥ (lines.length : Int) := by omega
  have h3 : ¬ x < 0 := by omega
  have hg : lines[y.toNat]?.getD [] = lines.getD y.toNat [] := by simp
  by_cases hm : mode = Mode.normal
  · have hn := hnorm hm
    simp [Buffer.clampCursor, hlen, h1, h2, h3, hm]
    rw [hg]
    split_ifs <;> omega
  · simp [Buffer.clampCursor, hlen, h1, h2, h3, hm]
    rw [hg]
    split_ifs <;> omega

theorem lineOffset_succ_cons (l : GoString) (L : List GoString) (n : Nat) :
    lineOffset (l :: L) (n + 1) = (runeCount l : Int) + 1 + lineOffset L n := by
  simp [lineOffset]

theorem setCursorIndexLoop_in_range (i : Int) (L : List GoString) :
    ∀ (y0 pos0 : Int), L ≠ [] → pos0 ≤ i →
      i ≤ pos0 + ((stringsJoin 10 (L.map toRunes)).length : Int) →
      ∃ (n : Nat) (x : Int), setCursorIndexLoop i L y0 pos0 = some (x, y0 + n) ∧
        n < L.length ∧ 0 ≤ x ∧ x ≤ runeCount (L.getD n []) ∧
        pos0 + lineOffset L n + x = i := by
  induction L with
  | nil => intro _ _ h; exact absurd rfl h
  | cons l L ih =>
    intro y0 pos0 _ hpos hi
    by_cases hc : pos0 + (runeCount l : Int) ≥ i
    · refine ⟨0, i - pos0, ?_, by simp, by omega, ?_, ?_⟩
      · simp [setCursorIndexLoop, hc]
      · simp only [List.getD_cons_zero]; omega
      · simp [lineOffset_zero]
    · cases L with
      | nil =>
        simp only [List.map_cons, List.map_nil, stringsJoin] at hi
        unfold runeCount at hc
        omega
      | cons l2 L2 =>
        have hlen : ((stringsJoin 10 ((l :: l2 :: L2).map toRunes)).length : Int)
            = (runeCount l : Int) + 1
              + ((stringsJoin 10 ((l2 :: L2).map toRunes)).length : Int) := by
          simp only [List.map_cons, stringsJoin, List.length_append, List.length_cons, runeCount]
          push_cast
          ring
        obtain ⟨n, x, e, hn, hx0, hx, hoff⟩ :=
          ih (y0 + 1) (pos0 + runeCount l + 1) (by simp) (by omega) (by rw [hlen] at hi; omega)
        refine ⟨n + 1, x, ?_, by simp at hn ⊢; omega, hx0, ?_, ?_⟩
        · have step : setCursorIndexLoop i (l :: l2 :: L2) y0 pos0
              = setCursorIndexLoop i (l2 :: L2) (y0 + 1) (pos0 + runeCount l + 1) := by
            conv_lhs => unfold setCursorIndexLoop
            simp only [hc, if_false]
          rw [step, e]
          congr 2
          push_cast
          ring
        · simpa using hx
        · rw [lineOffset_succ_cons]; omega

theorem SetCursorIndex_lands (b : Buffer) (i : Int) (hlines : b.lines ≠ [])
    (hm : b.mode ≠ Mode.normal) (hv : ValidLines b.lines) (h0 : 0 ≤ i)
    (hi : i ≤ (toRunes b.Text).length) :
    (b.SetCursorIndex i).lines = b.lines ∧ (b.SetCursorIndex i).mode = b.mode ∧
    (b.SetCursorIndex i).register = b.register ∧
    0 ≤ (b.SetCursorIndex i).cursorY ∧
    (b.SetCursorIndex i).cursorY < (b.SetCursorIndex i).lines.length ∧
    0 ≤ (b.SetCursorIndex i).cursorX ∧
    (b.SetCursorIndex i).cursorX ≤ runeCount (b.SetCursorIndex i).CurrentLine ∧
    (b.SetCursorIndex i).CursorIndex = i := by
  rw [Buffer.Text, toRunes_stringsJoin _ hv] at hi
  obtain ⟨n, x, e, hn, hx0, hx, hoff⟩ :=
    setCursorIndexLoop_in_range i b.lines 0 0 hlines h0 (by omega)
  have hcl : ({ b with cursorX := x, cursorY := (0 : Int) + n } : Buffer).clampCursor
      = { b with cursorX := x, cursorY := (0 : Int) + n } := by
    apply clampCursor_of_valid
    · simp
    · simp; omega
    · exact hx0
    · simpa using hx
    · intro hmn; exact absurd hmn hm
  have hs : b.SetCursorIndex i = { b with cursorX := x, cursorY := (0 : Int) + n } := by
    simp only [Buffer.SetCursorIndex, e]
    exact hcl
  rw [hs]
  refine ⟨rfl, rfl, rfl, by simp, by simp; omega, hx0, ?_, ?_⟩
  · have h1 : (0 : Int) ≤ (0 : Int) + n ∧ (0 : Int) + n < b.lines.length := by omega
    simp only [Buffer.CurrentLine, h1, and_self, if_true]
    simpa using hx
  · simp only [Buffer.CursorIndex]
    have : ((0 : Int) + n).toNat = n := by omega
    rw [this]; omega

/-! ### `SetCursorIndex` always leaves a cursor inside its line -/

theorem clampCursor_valid (b : Buffer) (hy0 : 0 ≤ b.cursorY) (hy : b.cursorY < b.lines.length)
    (hx : b.cursorX ≤ runeCount (b.lines.getD b.cursorY.toNat [])) :
    b.clampCursor.lines = b.lines ∧ b.clampCursor.mode = b.mode ∧
    b.clampCursor.register = b.register ∧ b.clampCursor.cursorY = b.cursorY ∧
    0 ≤ b.clampCursor.cursorX ∧
    b.clampCursor.cursorX ≤ runeCount (b.lines.getD b.cursorY.toNat []) := by
  obtain ⟨lines, x, y, mode, reg⟩ := b
  simp only at hy0 hy hx
  have hlen : lines.length ≠ 0 := by omega
  have h1 : ¬ y < 0 := by omega
  have h2 : ¬ y ≥ (lines.length : Int) := by omega
  have hg : lines[y.toNat]?.getD [] = lines.getD y.toNat [] := by simp
  simp [Buffer.clampCursor, hlen, h1, h2]
  rw [hg]
  constructor <;> split_ifs <;> omega

theorem setCursorIndexLoop_valid (i : Int) (L : List GoString) :
    ∀ (y0 pos0 x y : Int), setCursorIndexLoop i L y0 pos0 = some (x, y) →
      ∃ n : Nat, y = y0 + n ∧ n < L.length ∧ x ≤ runeCount (L.getD n []) := by
  induction L with
  | nil => intro y0 pos0 x y h; simp [setCursorIndexLoop] at h
  | cons l L ih =>
    intro y0 pos0 x y h
    by_cases hc : pos0 + (runeCount l : Int) ≥ i
    · simp only [setCursorIndexLoop, hc, if_true, Option.some.injEq, Prod.mk.injEq] at h
      refine ⟨0, by simp [h.2], by simp, ?_⟩
      simp only [List.getD_cons_zero]; omega
    · have step : setCursorIndexLoop i (l :: L) y0 pos0
          = setCursorIndexLoop i L (y0 + 1) (pos0 + runeCount l + 1) := by
        conv_lhs => unfold setCursorIndexLoop
        simp only [hc, if_false]
      rw [step] at h
      obtain ⟨n, h1, h2, h3⟩ := ih _ _ _ _ h
      refine ⟨n + 1, by push_cast; omega, by simp; omega, by simpa using h3⟩

theorem SetCursorIndex_valid (b : Buffer) (i : Int) (hlines : b.lines ≠ []) :
    (b.SetCursorIndex i).lines = b.lines ∧ (b.SetCursorIndex i).mode = b.mode ∧
    (b.SetCursorIndex i).register = b.register ∧
    0 ≤ (b.SetCursorIndex i).cursorY ∧
    (b.SetCursorIndex i).cursorY < (b.SetCursorIndex i).lines.length ∧
    0 ≤ (b.SetCursorIndex i).cursorX ∧
    (b.SetCursorIndex i).cursorX ≤ runeCount (b.SetCursorIndex i).CurrentLine := by
  have hpos : 0 < b.lines.length := List.length_pos.mpr hlines
  have key : ∀ (x y : Int), 0 ≤ y → y < b.lines.length →
      x ≤ runeCount (b.lines.getD y.toNat []) →
      b.SetCursorIndex i = ({ b with cursorX := x, cursorY := y } : Buffer).clampCursor →
      (b.SetCursorIndex i).lines = b.lines ∧ (b.SetCursorIndex i).mode = b.mode ∧
      (b.SetCursorIndex i).register = b.register ∧
      0 ≤ (b.SetCursorIndex i).cursorY ∧
      (b.SetCursorIndex i).cursorY < (b.SetCursorIndex i).lines.length ∧
      0 ≤ (b.SetCursorIndex i).cursorX ∧
      (b.SetCursorIndex i).cursorX ≤ runeCount (b.SetCursorIndex i).CurrentLine := by
    intro x y hy0 hy hx e
    obtain ⟨c1, c2, c3, c4, c5, c6⟩ :=
      clampCursor_valid ({ b with cursorX := x, cursorY := y } : Buffer) hy0 hy hx
    rw [e]
    simp only at c1 c2 c3 c4 c5 c6
    refine ⟨c1, c2, c3, by rw [c4]; exact hy0, by rw [c4, c1]; exact hy, c5, ?_⟩
    have h1 : (0 : Int) ≤ y ∧ y < b.lines.length := ⟨hy0, hy⟩
    simp only [Buffer.CurrentLine, c4, c1, h1, and_self, if_true]
    exact c6
  cases hloop : setCursorIndexLoop i b.lines 0 0 with
  | some r =>
    obtain ⟨x, y⟩ := r
    obtain ⟨n, h1, h2, h3⟩ := setCursorIndexLoop_valid i b.lines 0 0 x y hloop
    have hyn : y.toNat = n := by omega
    refine key x y (by omega) (by omega) (by rw [hyn]; exact h3) ?_
    simp only [Buffer.SetCursorIndex, hloop]
  | none =>
    refine key (runeCount (b.lines.getD ((b.lines.length : Int) - 1).toNat []))
      ((b.lines.length : Int) - 1) (by omega) (by omega) (le_refl _) ?_
    simp only [Buffer.SetCursorIndex, hloop, hpos, gt_iff_lt, if_true]

/-! ### Insert followed by delete -/

theorem eq_of_toRunes_eq (a b : GoString) (ha : ValidUTF8 a) (hb : ValidUTF8 b)
    (h : toRunes a = toRunes b) : a = b := by
  rw [← ha, ← hb, h]

theorem validUTF8_text (b : Buffer) (hv : ValidLines b.lines) : ValidUTF8 b.Text :=
  validUTF8_stringsJoin _ hv

theorem Insert_spec (b : Buffer) (s : GoString)
    (hy0 : 0 ≤ b.cursorY) (hy : b.cursorY < b.lines.length) (hx0 : 0 ≤ b.cursorX)
    (hx : b.cursorX ≤ runeCount b.CurrentLine) (hv : ValidLines b.lines) (hs : ValidUTF8 s) :
    ∃ b1, b.Insert s = some b1 ∧
      toRunes b1.Text = (toRunes b.Text).take b.CursorIndex.toNat ++ toRunes s ++
        (toRunes b.Text).drop b.CursorIndex.toNat ∧
      ValidLines b1.lines ∧ b1.lines ≠ [] ∧ b1.mode = b.mode ∧ b1.register = b.register := by
  obtain ⟨A, l, B, pre, post, h⟩ := atSplit_of_valid b hy0 hy hx0 hx hv
  obtain ⟨b1, A1, l1, pre1, hins, h1, hrel, hm, hr⟩ := Insert_atSplit b A l B pre post s h hs
  obtain ⟨hT, hI, -⟩ := atSplit_text b A l B pre post h
  obtain ⟨hT1, hI1, hV1⟩ := atSplit_text b1 A1 l1 B pre1 post h1
  refine ⟨b1, hins, ?_, h1.2.2.2.2, ?_, hm, hr⟩
  · have e : toRunes b.Text
        = (linesBefore (A.map toRunes) ++ pre) ++ (post ++ linesAfter (B.map toRunes)) := by
      rw [hT]; simp
    rw [hI, Int.toNat_ofNat, e, (take_drop_splice _ _).1, (take_drop_splice _ _).2, hT1, hrel]
    simp
  · rw [h1.1]; simp

theorem Delete_spec (b : Buffer) (n : Int)
    (hy0 : 0 ≤ b.cursorY) (hy : b.cursorY < b.lines.length) (hx0 : 0 ≤ b.cursorX)
    (hx : b.cursorX ≤ runeCount b.CurrentLine) (hv : ValidLines b.lines) (hn : 0 < n)
    (hb : b.cursorX + n < 2 ^ 63 ∨ b.cursorX + n ≤ runeCount b.CurrentLine) :
    ∃ del b1, b.Delete n = some (del, b1) ∧
      del = fromRunes (((toRunes b.Text).drop b.CursorIndex.toNat).take n.toNat) ∧
      toRunes b1.Text = (toRunes b.Text).take b.CursorIndex.toNat ++
        (toRunes b.Text).drop (b.CursorIndex.toNat + n.toNat) ∧
      ValidLines b1.lines ∧ b1.lines ≠ [] ∧ b1.mode = b.mode ∧ b1.register = b.register := by
  obtain ⟨A, l, B, pre, post, h⟩ := atSplit_of_valid b hy0 hy hx0 hx hv
  obtain ⟨l1, B1, post1, hdel, hl1, hv1, hpost1⟩ :=
    Delete_atSplit b A l B pre post n h hn (atSplit_no_overflow b A l B pre post n h hb)
  obtain ⟨hT, hI, -⟩ := atSplit_text b A l B pre post h
  have e : toRunes b.Text
      = (linesBefore (A.map toRunes) ++ pre) ++ (post ++ linesAfter (B.map toRunes)) := by
    rw [hT]; simp
  have hne : ({ b with lines := A ++ l1 :: B1 } : Buffer).lines ≠ [] := by simp
  obtain ⟨c1, c2, c3⟩ := clampCursor_lines _ hne
  refine ⟨_, _, hdel, ?_, ?_, ?_, ?_, c2, c3⟩
  · rw [hI, Int.toNat_ofNat, e, (take_drop_splice _ _).2]
  · rw [hI, Int.toNat_ofNat, e, (take_drop_splice _ _).1, List.drop_append, ← hpost1]
    rw [Buffer.Text, c1, toRunes_stringsJoin _ hv1]
    simp only [List.map_append, List.map_cons, stringsJoin_decompose, hl1, List.append_assoc]
  · rw [c1]; exact hv1
  · rw [c1]; simp

theorem Text_of_lines_eq (a b : Buffer) (h : a.lines = b.lines) : a.Text = b.Text := by
  simp [Buffer.Text, h]

theorem cursorIndex_le_text (b : Buffer)
    (hy0 : 0 ≤ b.cursorY) (hy : b.cursorY < b.lines.length) (hx0 : 0 ≤ b.cursorX)
    (hx : b.cursorX ≤ runeCount b.CurrentLine) (hv : ValidLines b.lines) :
    0 ≤ b.CursorIndex ∧ b.CursorIndex ≤ (toRunes b.Text).length := by
  obtain ⟨A, l, B, pre, post, h⟩ := atSplit_of_valid b hy0 hy hx0 hx hv
  obtain ⟨hT, hI, -⟩ := atSplit_text b A l B pre post h
  rw [hI, hT]
  simp only [List.length_append]
  push_cast
  omega

theorem insertThenDelete_of_lands (b : Buffer) (i : Int) (s : GoString)
    (hlines : b.lines ≠ []) (hv : ValidLines b.lines) (hs : ValidUTF8 s)
    (hland1 : (b.SetCursorIndex i).CursorIndex = i)
    (hland2 : ∀ b2 ∈ (b.SetCursorIndex i).Insert s, (b2.SetCursorIndex i).CursorIndex = i)
    (hsize : i + runeCount s < 2 ^ 63) :
    insertThenDelete b i s = some b.Text := by
  obtain ⟨f1, f2, f3, f4, f5, f6, f7⟩ := SetCursorIndex_valid b i hlines
  have hT1 : (b.SetCursorIndex i).Text = b.Text := Text_of_lines_eq _ _ f1
  obtain ⟨k0, k1⟩ := cursorIndex_le_text _ f4 f5 f6 f7 (by rw [f1]; exact hv)
  rw [hland1] at k0 k1
  rw [hT1] at k1
  obtain ⟨b2, hins, hT2, hv2, hne2, hm2, -⟩ :=
    Insert_spec (b.SetCursorIndex i) s f4 f5 f6 f7 (by rw [f1]; exact hv) hs
  rw [hT1, hland1] at hT2
  have hiN : i.toNat ≤ (toRunes b.Text).length := by omega
  obtain ⟨g1, g2, g3, g4, g5, g6, g7⟩ := SetCursorIndex_valid b2 i hne2
  have g8 : (b2.SetCursorIndex i).CursorIndex = i := hland2 b2 hins
  have hT3 : (b2.SetCursorIndex i).Text = b2.Text := Text_of_lines_eq _ _ g1
  have hvb : ValidUTF8 b.Text := validUTF8_text b hv
  unfold insertThenDelete
  rw [hins, Option.some_bind]
  by_cases hn : (runeCount s : Int) ≤ 0
  · have hz : toRunes s = [] := by
      unfold runeCount at hn
      exact List.length_eq_zero.mp (by omega)
    have hd : (b2.SetCursorIndex i).Delete (runeCount s)
        = some ([], b2.SetCursorIndex i) := by
      have : (b2.SetCursorIndex i).lines.length = 0 ∨ (runeCount s : Int) ≤ 0 := Or.inr hn
      simp only [Buffer.Delete, this, if_true]
    rw [hd, Option.map_some']
    simp only
    rw [hT3]
    congr 1
    apply eq_of_toRunes_eq _ _ (validUTF8_text b2 hv2) hvb
    rw [hT2, hz]
    simp
  · obtain ⟨del, b4, hdel, -, hT4, hv4, -, -, -⟩ :=
      Delete_spec (b2.SetCursorIndex i) (runeCount s) g4 g5 g6 g7 (by rw [g1]; exact hv2)
        (by omega)
        (Or.inl (by
          have hoff := lineOffset_nonneg (b2.SetCursorIndex i).lines
            (b2.SetCursorIndex i).cursorY.toNat
          have hci : (b2.SetCursorIndex i).CursorIndex
              = lineOffset (b2.SetCursorIndex i).lines (b2.SetCursorIndex i).cursorY.toNat
                + (b2.SetCursorIndex i).cursorX := rfl
          rw [g8] at hci
          omega))
    rw [hdel, Option.map_some']
    simp only
    congr 1
    apply eq_of_toRunes_eq _ _ (validUTF8_text b4 hv4) hvb
    rw [hT4, hT3, g8, hT2]
    have hl : ((toRunes b.Text).take i.toNat).length = i.toNat := by
      rw [List.length_take]; omega
    have e1 : (List.take i.toNat (toRunes b.Text) ++ toRunes s
        ++ List.drop i.toNat (toRunes b.Text)).take i.toNat
        = (toRunes b.Text).take i.toNat := by
      rw [List.append_assoc, List.take_left' hl]
    have e2 : (List.take i.toNat (toRunes b.Text) ++ toRunes s
        ++ List.drop i.toNat (toRunes b.Text)).drop (i.toNat + (runeCount s : Int).toNat)
        = (toRunes b.Text).drop i.toNat := by
      have : ((toRunes b.Text).take i.toNat ++ toRunes s).length
          = i.toNat + (runeCount s : Int).toNat := by
        rw [List.length_append, hl]; simp [runeCount]
      rw [List.drop_left' this]
    rw [e1, e2, List.take_append_drop]

/-- Outside normal mode `SetCursorIndex(i)` lands on index `i` before and after the
insertion, for every index inside the text. -/
theorem lands_outside_normal_mode (b : Buffer) (i : Int) (s : GoString)
    (hlines : b.lines ≠ []) (hm : b.mode ≠ Mode.normal) (hv : ValidLines b.lines)
    (hs : ValidUTF8 s) (h0 : 0 ≤ i) (hi : i ≤ (toRunes b.Text).length) :
    (b.SetCursorIndex i).CursorIndex = i ∧
    ∀ b2 ∈ (b.SetCursorIndex i).Insert s, (b2.SetCursorIndex i).CursorIndex = i := by
  obtain ⟨f1, f2, f3, f4, f5, f6, f7, f8⟩ := SetCursorIndex_lands b i hlines hm hv h0 hi
  refine ⟨f8, ?_⟩
  intro b2 hb2
  have hT1 : (b.SetCursorIndex i).Text = b.Text := Text_of_lines_eq _ _ f1
  obtain ⟨b2', hins, hT2, hv2, hne2, hm2, -⟩ :=
    Insert_spec (b.SetCursorIndex i) s f4 f5 f6 f7 (by rw [f1]; exact hv) hs
  have : b2 = b2' := by
    have h := Option.mem_def.mp hb2
    rw [hins] at h
    exact (Option.some.inj h).symm
  subst this
  rw [hT1, f8] at hT2
  have hlen2 : ((toRunes b2.Text).length : Int) = (toRunes b.Text).length + runeCount s := by
    rw [hT2]
    simp only [List.length_append, List.length_take, List.length_drop, runeCount]
    push_cast
    omega
  have hm2' : b2.mode ≠ Mode.normal := by rw [hm2, f2]; exact hm
  exact (SetCursorIndex_lands b2 i hne2 hm2' hv2 h0 (by omega)).2.2.2.2.2.2.2

/-- Claim C11, amended: insert–delete inverse where the cursor lands on the index. For a
buffer with at least one line, valid UTF-8 lines and a valid UTF-8 string `s`, if
`SetCursorIndex(i)` leaves `CursorIndex() = i` both before the insertion and after it, and
`i + char_count(s)` is below `2^63`, then
`SetCursorIndex(i); Insert(s); SetCursorIndex(i); Delete(char_count(s))` returns and the text
afterwards is the text before. -/
theorem insert_then_delete_restores_text (b : Buffer) (i : Int) (s : GoString)
    (hlines : b.lines ≠ []) (hv : ValidLines b.lines) (hs : ValidUTF8 s)
    (hland1 : (b.SetCursorIndex i).CursorIndex = i)
    (hland2 : ∀ b2 ∈ (b.SetCursorIndex i).Insert s, (b2.SetCursorIndex i).CursorIndex = i)
    (hsize : i + runeCount s < 2 ^ 63) :
    insertThenDelete b i s = some b.Text :=
  insertThenDelete_of_lands b i s hlines hv hs hland1 hland2 hsize

/-- Insert–delete inverse outside normal mode: for every index inside the text. -/
theorem insertThenDelete_outside_normal_mode (b : Buffer) (i : Int) (s : GoString)
    (hlines : b.lines ≠ []) (hm : b.mode ≠ Mode.normal) (hv : ValidLines b.lines)
    (hs : ValidUTF8 s) (h0 : 0 ≤ i) (hi : i ≤ (toRunes b.Text).length)
    (hsize : i + runeCount s < 2 ^ 63) :
    insertThenDelete b i s = some b.Text :=
  insertThenDelete_of_lands b i s hlines hv hs
    (lands_outside_normal_mode b i s hlines hm hv hs h0 hi).1
    (lands_outside_normal_mode b i s hlines hm hv hs h0 hi).2 hsize

/-- Claim C11 in normal mode on "ab": at index 1 with "X\nY" the cursor lands on the index
both times and the text is restored. -/
theorem insert_then_delete_restores_text_on_ab :
    (NewBuffer (str "ab")).lines ≠ [] ∧ ValidLines (NewBuffer (str "ab")).lines ∧
    ValidUTF8 (str "X\nY") ∧
    ((NewBuffer (str "ab")).SetCursorIndex 1).CursorIndex = 1 ∧
    (∀ b2 ∈ ((NewBuffer (str "ab")).SetCursorIndex 1).Insert (str "X\nY"),
      (b2.SetCursorIndex 1).CursorIndex = 1) ∧
    (1 : Int) + runeCount (str "X\nY") < 2 ^ 63 ∧
    insertThenDelete (NewBuffer (str "ab")) 1 (str "X\nY") = some (NewBuffer (str "ab")).Text :=
  ⟨by decide, by decide, by decide, by decide, by decide, by decide,
   insert_then_delete_restores_text (NewBuffer (str "ab")) 1 (str "X\nY")
     (by decide) (by decide) (by decide) (by decide) (by decide) (by decide)⟩

/-- Claim C11 as stated fails in normal mode: on "ab" with `i = 2` (the end of the line)
and `s = "X"` the sequence ends with the text "aX", and with `i = 1` and `s = "\nX"` it ends
with "Xb"; `SetCursorIndex` clamps the cursor to the last character of the line. -/
theorem insert_then_delete_in_normal_mode_changes_text :
    (NewBuffer (str "ab")).mode = Mode.normal ∧
    insertThenDelete (NewBuffer (str "ab")) 2 (str "X") = some (str "aX") ∧
    insertThenDelete (NewBuffer (str "ab")) 1 (str "\nX") = some (str "Xb") ∧
    (NewBuffer (str "ab")).Text = str "ab" ∧ str "aX" ≠ str "ab" ∧ str "Xb" ≠ str "ab" := by
  decide

/-! ### Insert–delete past the 64-bit range -/

theorem fromRunes_replicate_ascii (m : Nat) (c : Nat) (hc : c ≤ 0x7F) :
    fromRunes (List.replicate m c) = List.replicate m c := by
  induction m with
  | zero => simp [fromRunes]
  | succ m ih =>
    have : fromRunes (List.replicate (m + 1) c) = encodeRune c ++ fromRunes (List.replicate m c) := by
      simp [fromRunes, List.replicate_succ]
    rw [this, ih]
    simp [encodeRune, hc, List.replicate_succ]

theorem replicate_ascii_valid (m : Nat) (c : Nat) (hc : c ≤ 0x7F) :
    ValidUTF8 (List.replicate m c) ∧ runeCount (List.replicate m c) = m := by
  have hv : ∀ r ∈ List.replicate m c, ValidRune r := by
    intro r hr
    rw [List.mem_replicate] at hr
    rw [hr.2]
    unfold ValidRune
    omega
  have h1 := toRunes_fromRunes _ hv
  rw [fromRunes_replicate_ascii m c hc] at h1
  refine ⟨?_, ?_⟩
  · unfold ValidUTF8
    rw [h1, fromRunes_replicate_ascii m c hc]
  · unfold runeCount
    rw [h1, List.length_replicate]

theorem insertThenDelete_overflow (t : GoString) (hv : ValidUTF8 t) (hnl : 10 ∉ t)
    (hlen : (runeCount t : Int) + 3 = 2 ^ 63) :
    ValidUTF8 (str "X\n" ++ t) ∧
    ((NewBuffer (str "ab")).SetCursorIndex 1).CursorIndex = 1 ∧
    (∀ b2 ∈ ((NewBuffer (str "ab")).SetCursorIndex 1).Insert (str "X\n" ++ t),
      (b2.SetCursorIndex 1).CursorIndex = 1) ∧
    insertThenDelete (NewBuffer (str "ab")) 1 (str "X\n" ++ t) = none := by
  have hX : ValidUTF8 (str "X\n") := by decide
  have hs : ValidUTF8 (str "X\n" ++ t) := validUTF8_append _ _ hX hv
  have hrc : runeCount (str "X\n" ++ t) = 2 + runeCount t := by
    unfold runeCount
    rw [toRunes_append _ _ hX, List.length_append]
    rfl
  have hb1 : (NewBuffer (str "ab")).SetCursorIndex 1
      = ⟨[str "ab"], 1, 0, Mode.normal, []⟩ := by decide
  have hsplit : stringsSplit 10 (str "X\n" ++ t) = [str "X", t] := by
    have e : str "X\n" ++ t = [88] ++ (10 :: t) := rfl
    have h1 : stringsSplit 10 (10 :: t) = [] :: stringsSplit 10 t := by
      simp [stringsSplit]
    have h2 := stringsSplit_append_of_not_mem 10 t [] hnl
    rw [List.append_nil] at h2
    rw [e, stringsSplit_append_of_not_mem 10 [88] (10 :: t) (by decide), h1, h2]
    simp [stringsSplit, str, encodeRune]
  have hins : ((NewBuffer (str "ab")).SetCursorIndex 1).Insert (str "X\n" ++ t)
      = some ⟨[str "aX", t ++ str "b"], runeCount t, 1, Mode.normal, []⟩ := by
    rw [hb1]
    unfold Buffer.Insert
    rw [hsplit]
    rfl
  have hb3 : (⟨[str "aX", t ++ str "b"], runeCount t, 1, Mode.normal, []⟩ : Buffer).SetCursorIndex 1
      = ⟨[str "aX", t ++ str "b"], 1, 0, Mode.normal, []⟩ := by
    rfl
  refine ⟨hs, by rw [hb1]; decide, ?_, ?_⟩
  · intro b2 hb2
    rw [hins] at hb2
    have := Option.mem_def.mp hb2
    cases this
    rw [hb3]
    rfl
  · unfold insertThenDelete
    rw [hins, Option.some_bind, hb3, hrc]
    have hd := Delete_none_of_overflow
      (⟨[str "aX", t ++ str "b"], 1, 0, Mode.normal, []⟩ : Buffer)
      ((2 + runeCount t : Nat) : Int)
      (by show (0 : Int) ≤ 0; decide) (by simp) (by show (0 : Int) ≤ 1; decide)
      (by show (1 : Int) < (runeCount (str "aX") : Int); decide)
      (by show ((runeCount (str "aX") : Nat) : Int) < 2 ^ 63; decide)
      (by push_cast; omega)
      (by show (2 : Int) ^ 63 ≤ 1 + ((2 + runeCount t : Nat) : Int); push_cast; omega)
    rw [hd]
    rfl

/-- The bound on `i + char_count(s)` in the amended claim C11 is needed: on "ab" at index 1
with `s` = "X\n" followed by `2^63 - 3` letters `Y` (`char_count(s) = 2^63 - 1`), both
`SetCursorIndex(1)` calls land on the index, and `Delete(char_count(s))` at `cursor_x = 1`
panics, the sum `cursor_x + n` of its clamp test having wrapped. -/
theorem insert_then_delete_panics_past_int64 :
    ValidUTF8 (str "X\n" ++ List.replicate 9223372036854775805 89) ∧
    ((NewBuffer (str "ab")).SetCursorIndex 1).CursorIndex = 1 ∧
    (∀ b2 ∈ ((NewBuffer (str "ab")).SetCursorIndex 1).Insert
        (str "X\n" ++ List.replicate 9223372036854775805 89),
      (b2.SetCursorIndex 1).CursorIndex = 1) ∧
    insertThenDelete (NewBuffer (str "ab")) 1
      (str "X\n" ++ List.replicate 9223372036854775805 89) = none :=
  insertThenDelete_overflow (List.replicate 9223372036854775805 89)
    (replicate_ascii_valid 9223372036854775805 89 (by omega)).1
    (by rw [List.mem_replicate]; omega)
    (by rw [(replicate_ascii_valid 9223372036854775805 89 (by omega)).2]; norm_num)

/-! ### Operator ranges, yank and paste on concrete runs -/

/-- Claim C14 fails on the code when the landing character is the last of the line: on
"hello world" from index 6 the keys `d`,`e` leave "hello d" (register "worl"), and from
index 0 the keys `d`,`f`,`d` leave "d" (register "hello worl"); `MoveRight` does not step
past the last character in normal mode, so the range ends before it. Inside the line the
landing character is included: `d`,`e` from index 0 leaves " world", and `d`,`t`,`d` leaves
"d" with register "hello worl". -/
theorem operator_range_excludes_last_character_of_line (U : UnicodeTables) :
    ((startEngine "hello world" 6).ProcessKeys U [str "d", str "e"]).map
        (fun e => (e.Text, e.buffer.register)) = some (str "hello d", str "worl") ∧
    ((startEngine "hello world" 0).ProcessKeys U [str "d", str "f", str "d"]).map
        (fun e => (e.Text, e.buffer.register)) = some (str "d", str "hello worl") ∧
    ((startEngine "hello world" 0).ProcessKeys U [str "d", str "e"]).map
        (fun e => (e.Text, e.buffer.register)) = some (str " world", str "hello") ∧
    ((startEngine "hello world" 0).ProcessKeys U [str "d", str "t", str "d"]).map
        (fun e => (e.Text, e.buffer.register)) = some (str "d", str "hello worl") :=
  ⟨rfl, rfl, rfl, rfl⟩

/-- Claim C15 fails on the code for bracket objects: on "a (b c) d" with the cursor on `c`
(index 5) the key string `yi(` leaves the cursor at index 3, the start of the yanked range,
while `yiw` and `y`,`w` leave it at index 5; text and mode are unchanged in all three. -/
theorem yank_bracket_object_moves_cursor (U : UnicodeTables) :
    ((startEngine "a (b c) d" 5).ProcessKeys U [str "yi("]).map
        (fun e => (e.Text, e.CursorIndex, e.Mode, e.buffer.register))
      = some (str "a (b c) d", 3, Mode.normal, str "b c") ∧
    ((startEngine "a (b c) d" 5).ProcessKeys U [str "yiw"]).map
        (fun e => (e.Text, e.CursorIndex, e.Mode, e.buffer.register))
      = some (str "a (b c) d", 5, Mode.normal, str "c") ∧
    ((startEngine "a (b c) d" 5).ProcessKeys U [str "y", str "w"]).map
        (fun e => (e.Text, e.CursorIndex, e.Mode, e.buffer.register))
      = some (str "a (b c) d", 5, Mode.normal, str "c") :=
  ⟨rfl, rfl, rfl⟩

theorem tablesWith_self (U : UnicodeTables) (r0 : Rune) :
    tablesWith U r0 (U.letter r0) (U.digit r0) = U := by
  obtain ⟨letter, digit⟩ := U
  simp only [tablesWith, UnicodeTables.mk.injEq]
  constructor <;> funext r <;> split_ifs with h <;> simp [h]

/-- Claim C16 fails on the code: on "é b" from index 0 the keys `y`,`w` store the two bytes
of "é" in the register, while `d`,`w` store "é " (three bytes, two characters); the key
string `yiw` stores the single byte C3 while `diw` stores "é". The yank branch slices the
text by bytes with indices counted in characters. -/
theorem yank_slices_bytes_with_character_indices (U : UnicodeTables) :
    ((startEngine "é b" 0).ProcessKeys U [str "y", str "w"]).map
        (fun e => e.buffer.register) = some [0xC3, 0xA9] ∧
    ((startEngine "é b" 0).ProcessKeys U [str "d", str "w"]).map
        (fun e => e.buffer.register) = some [0xC3, 0xA9, 0x20] ∧
    ((startEngine "é b" 0).ProcessKeys U [str "yiw"]).map
        (fun e => e.buffer.register) = some [0xC3] ∧
    ((startEngine "é b" 0).ProcessKeys U [str "diw"]).map
        (fun e => e.buffer.register) = some [0xC3, 0xA9] := by
  have key : ∀ v w : Bool,
      ((startEngine "é b" 0).ProcessKeys (tablesWith U 0xE9 v w) [str "y", str "w"]).map
          (fun e => e.buffer.register) = some [0xC3, 0xA9] ∧
      ((startEngine "é b" 0).ProcessKeys (tablesWith U 0xE9 v w) [str "d", str "w"]).map
          (fun e => e.buffer.register) = some [0xC3, 0xA9, 0x20] ∧
      ((startEngine "é b" 0).ProcessKeys (tablesWith U 0xE9 v w) [str "yiw"]).map
          (fun e => e.buffer.register) = some [0xC3] ∧
      ((startEngine "é b" 0).ProcessKeys (tablesWith U 0xE9 v w) [str "diw"]).map
          (fun e => e.buffer.register) = some [0xC3, 0xA9] := by
    intro v w
    cases v <;> cases w <;> exact ⟨rfl, rfl, rfl, rfl⟩
  have h := key (U.letter 0xE9) (U.digit 0xE9)
  rwa [tablesWith_self] at h

/-- Claim C18 fails on the code when the buffer has more than one line: on "a\nb\nc" with the
cursor on line 1 the keys `c`,`c` remove the line, leaving the two lines "a" and "c" with
the cursor on "c" in insert mode, and typing `X`,`esc` then gives "a" and "Xc". On the
single-line buffer "abc" the key `S` leaves one empty line. -/
theorem change_line_removes_the_line (U : UnicodeTables) :
    ((startEngine "a\nb\nc" 2).ProcessKeys U [str "c", str "c"]).map
        (fun e => (e.buffer.lines, e.buffer.cursorY, e.Mode))
      = some ([str "a", str "c"], 1, Mode.insert) ∧
    ((startEngine "a\nb\nc" 2).ProcessKeys U [str "c", str "c", str "X", str "esc"]).map
        (fun e => (e.buffer.lines, e.buffer.cursorY, e.Mode))
      = some ([str "a", str "Xc"], 1, Mode.normal) ∧
    ((startEngine "abc" 1).ProcessKeys U [str "S"]).map
        (fun e => (e.buffer.lines, e.buffer.cursorY, e.Mode))
      = some ([[]], 0, Mode.insert) :=
  ⟨rfl, rfl, rfl⟩

/-- Claim C19 fails on the code when a line follows the current line: on "a\nb" from line 0
the keys `y`,`y`,`p` give the lines "a","a","b" with the cursor on line 2, not on the pasted
line 1; `Insert` has already moved the cursor to the pasted line when `MoveDown` runs. From
the last line the cursor ends on the pasted line. -/
theorem linewise_paste_cursor_skips_a_line (U : UnicodeTables) :
    ((startEngine "a\nb" 0).ProcessKeys U [str "y", str "y", str "p"]).map
        (fun e => (e.buffer.lines, e.buffer.cursorX, e.buffer.cursorY))
      = some ([str "a", str "a", str "b"], 0, 2) ∧
    ((startEngine "a\nb" 2).ProcessKeys U [str "y", str "y", str "p"]).map
        (fun e => (e.buffer.lines, e.buffer.cursorX, e.buffer.cursorY))
      = some ([str "a", str "b", str "b"], 0, 2) :=
  ⟨rfl, rfl⟩

/-- Claim C20 fails on the code when the cursor is on the last character of the line: on
the task `complex-yap-001`, "func(old)" from index 5, the key strings `yi)`,`$`,`p` give
"func(oldold)", not "func(old)old"; `MoveRight` does not step past the last character in
normal mode, so the register is inserted before it. Inside the line, `x`,`p` on "abc" gives
"bac". -/
theorem paste_on_last_character_inserts_before_it (U : UnicodeTables) :
    ((startEngine "func(old)" 5).ProcessKeys U [str "yi)", str "$", str "p"]).map
        Engine.Text = some (str "func(oldold)") ∧
    ((startEngine "abc" 0).ProcessKeys U [str "x", str "p"]).map
        Engine.Text = some (str "bac") :=
  ⟨rfl, rfl⟩

/-! ### Delete around a text object, then paste before -/

theorem applyOperator_d (e : Engine) (s t x y : Int) :
    applyOperator e (str "d") s t x y
      = (e.buffer.Delete (t - s)).bind (fun r => some (e.setBuf (r.2.SetRegister r.1))) := by
  rfl

theorem handleBracketObject_d_shape (e : Engine) (o c : Rune) (inner : Bool)
    (rest : GoString) :
    OptAll (fun x => DeletedAt e x.1 ∧ x.2.2 = rest)
      (e.handleBracketObject (str "d") o c inner rest) := by
  unfold Engine.handleBracketObject
  simp only [optAll_bind, optAll_bind2]
  intro a _
  split
  · simp only [optAll_ret]; exact ⟨Or.inl rfl, trivial⟩
  · split
    · simp only [optAll_ret]; exact ⟨Or.inl rfl, trivial⟩
    · simp only [optAll_ite, optAll_ret]
      refine ⟨fun _ => ⟨Or.inl rfl, trivial⟩, fun hlt => ?_⟩
      have hd : str "d" = str "d" := rfl
      simp only [hd, if_true, optAll_bind, optAll_bind2, optAll_ret]
      refine ⟨fun _ r hr => ⟨Or.inr ⟨e.buffer, _, _, r, rfl, rfl, ?_, hr, rfl⟩, trivial⟩,
        fun h => absurd trivial h⟩
      omega

theorem textObjectRange_d_shape (U : UnicodeTables) (e : Engine) (inner : Bool)
    (obj : Nat) (rest : GoString) :
    OptAll (RangeShape e rest) (e.textObjectRange U (str "d") inner obj rest) := by
  unfold Engine.textObjectRange
  simp only [optAll_ite, optAll_bind, optAll_bind2, optAll_some, optAll_pure, RangeShape,
    optAll_ret]
  refine ⟨fun _ => ⟨fun _ => ⟨Or.inl rfl, trivial⟩, fun _ => ?_⟩,
    fun _ => ⟨fun _ => ?_, fun _ => ?_⟩⟩
  · intros; exact ⟨fun _ _ _ => ⟨rfl, rfl⟩, fun _ _ _ => ⟨rfl, rfl⟩⟩
  · split
    · simp only [optAll_ite, optAll_some, RangeShape]
      exact ⟨fun _ => ⟨rfl, rfl⟩, fun _ => ⟨rfl, rfl⟩⟩
    · simp only [optAll_some, RangeShape, optAll_ret]; exact ⟨Or.inl rfl, trivial⟩
  · refine ⟨fun _ => handleBracketObject_d_shape _ _ _ _ _, fun _ => ?_⟩
    refine ⟨fun _ => handleBracketObject_d_shape _ _ _ _ _, fun _ => ?_⟩
    refine ⟨fun _ => handleBracketObject_d_shape _ _ _ _ _, fun _ => ?_⟩
    exact ⟨fun _ => handleBracketObject_d_shape _ _ _ _ _, fun _ => ⟨Or.inl rfl, trivial⟩⟩

theorem handleTextObject_d_shape (U : UnicodeTables) (e : Engine) (motion : GoString)
    (count : Int) (hm : 2 ≤ motion.length) (hl : e.buffer.lines ≠ []) :
    OptAll (fun x => DeletedAt e x.1 ∧ x.2.2 = motion.drop 2)
      (e.handleTextObject U (str "d") motion count) := by
  unfold Engine.handleTextObject
  simp only [optAll_ite, optAll_ret]
  refine ⟨fun h => absurd h (by omega), fun _ => ?_⟩
  have hr := textObjectRange_d_shape U e (motion.headD 0 == 0x69) ((motion.drop 1).headD 0)
    (motion.drop 2)
  split
  · simp [optAll_none]
  · next r heq => rw [heq] at hr; simpa [optAll_some, RangeShape] using hr
  · next e1 s t heq =>
    rw [heq] at hr
    have h1 : e1.buffer.lines = e.buffer.lines ∧ e1.buffer.mode = e.buffer.mode := by
      simpa [optAll_some, RangeShape] using hr
    simp only [optAll_ite, optAll_ret, optAll_bind, applyOperator_d, optAll_some]
    refine ⟨fun _ => ⟨Or.inl ?_, trivial⟩, fun hlt => ?_⟩
    · show (Buffer.SetCursorPosition e1.buffer _ _).lines = _
      unfold Buffer.SetCursorPosition
      rw [(clampCursor_lines _ (by rw [h1.1]; exact hl)).1]
      exact h1.1
    · intro a ha
      obtain ⟨r, hr, ha⟩ := Option.bind_eq_some.mp ha
      cases ha
      exact ⟨Or.inr ⟨e1.buffer, s, t - s, r, h1.1, h1.2, by omega, hr, rfl⟩, trivial⟩

theorem handleNormalMode_da (U : UnicodeTables) (e : Engine) (obj : Nat) :
    e.handleNormalMode U (str "da" ++ [obj]) = e.handleTextObject U (str "d") [0x61, obj] 1 := by
  rfl

theorem handleNormalMode_P (U : UnicodeTables) (e : Engine)
    (h : hasSuffixNL e.buffer.register = false) :
    e.handleNormalMode U (str "P")
      = (e.buffer.Insert e.buffer.register).bind (fun b1 => ret (e.saveUndo.setBuf b1) true []) := by
  have h0 : e.handleNormalMode U (str "P")
      = (if hasSuffixNL e.buffer.register then
          ((MoveToLineStart e.buffer).1.Insert (trimSuffixNL e.buffer.register ++ [0x0a])).bind
            (fun b1 => ret (e.saveUndo.setBuf (MoveToFirstNonBlank (MoveUp b1 1).1).1) true [])
        else
          (e.buffer.Insert e.buffer.register).bind
            (fun b1 => ret (e.saveUndo.setBuf b1) true [])) := rfl
  rw [h0, h]
  rfl

theorem clampCursor_cursorX (b : Buffer) (hy0 : 0 ≤ b.cursorY) (hy : b.cursorY < b.lines.length)
    (hx0 : 0 ≤ b.cursorX) (hx : b.cursorX ≤ runeCount (b.lines.getD b.cursorY.toNat [])) :
    b.clampCursor.cursorX = b.cursorX ∨
    (0 < runeCount (b.lines.getD b.cursorY.toNat []) ∧
      b.clampCursor.cursorX + 1 = runeCount (b.lines.getD b.cursorY.toNat [])) := by
  obtain ⟨lines, x, y, mode, reg⟩ := b
  simp only at hy0 hy hx hx0
  have hlen : lines.length ≠ 0 := by omega
  have h1 : ¬ y < 0 := by omega
  have h2 : ¬ y ≥ (lines.length : Int) := by omega
  have h3 : ¬ x < 0 := by omega
  have hg : lines[y.toNat]?.getD [] = lines.getD y.toNat [] := by simp
  simp [Buffer.clampCursor, hlen, h1, h2, h3]
  rw [hg]
  split_ifs <;> omega

theorem paste_before_after_delete (b0 : Buffer) (n : Int) (r : GoString × Buffer)
    (hv : ValidLines b0.lines)
    (hy0 : 0 ≤ b0.cursorY) (hy : b0.cursorY < b0.lines.length) (hx0 : 0 ≤ b0.cursorX)
    (hx : b0.cursorX ≤ runeCount b0.CurrentLine) (hn : 0 < n)
    (hr : b0.Delete n = some r)
    (hcur : r.2.cursorX + 1 < runeCount r.2.CurrentLine ∨ runeCount r.2.CurrentLine = 0) :
    ∃ b2, (r.2.SetRegister r.1).Insert r.1 = some b2 ∧ b2.Text = b0.Text ∧
      r.2.mode = b0.mode := by
  obtain ⟨A, l, B, pre, post, h⟩ := atSplit_of_valid b0 hy0 hy hx0 hx hv
  obtain ⟨l1, B1, post1, hdel, hl1, hv1, hpost1⟩ :
      ∃ l1 B1 post1,
        b0.Delete n = some (fromRunes ((post ++ linesAfter (B.map toRunes)).take n.toNat),
          Buffer.clampCursor { b0 with lines := A ++ l1 :: B1 }) ∧
        toRunes l1 = pre ++ post1 ∧ ValidLines (A ++ l1 :: B1) ∧
        post1 ++ linesAfter (B1.map toRunes)
          = (post ++ linesAfter (B.map toRunes)).drop n.toNat := by
    rcases Delete_atSplit_cases b0 A l B pre post n h hn with ⟨hnone, -⟩ | hsome
    · rw [hr] at hnone
      exact absurd hnone (by simp)
    · exact hsome
  obtain ⟨hT, -, hVT⟩ := atSplit_text b0 A l B pre post h
  generalize hb : ({ b0 with lines := A ++ l1 :: B1 } : Buffer) = b1 at hdel
  have hb1 : b1.cursorY = (A.length : Int) := by rw [← hb]; exact h.2.1
  have hb2 : b1.cursorX = (pre.length : Int) := by rw [← hb]; exact h.2.2.1
  have hb3 : b1.lines = A ++ l1 :: B1 := by rw [← hb]
  have hb4 : b1.mode = b0.mode := by rw [← hb]
  have hline : b1.lines.getD b1.cursorY.toNat [] = l1 := by
    rw [hb1, hb3, Int.toNat_ofNat, getD_append_cons]
  have hrc : (runeCount l1 : Int) = (pre.length : Int) + (post1.length : Int) := by
    simp only [runeCount, hl1, List.length_append]; push_cast; ring
  have c0 : (0 : Int) ≤ b1.cursorY := by rw [hb1]; omega
  have c1 : b1.cursorY < (b1.lines.length : Int) := by
    rw [hb1, hb3]; simp only [List.length_append, List.length_cons]; push_cast; omega
  have c2 : (0 : Int) ≤ b1.cursorX := by rw [hb2]; omega
  have c3 : b1.cursorX ≤ runeCount (b1.lines.getD b1.cursorY.toNat []) := by
    rw [hline, hb2, hrc]; omega
  obtain ⟨k1, k2, -, k4, -, -⟩ := clampCursor_valid _ c0 c1 c3
  have kx := clampCursor_cursorX _ c0 c1 c2 c3
  rw [hline, hb2] at kx
  rw [hb3] at k1
  rw [hb1] at k4
  rw [hb4] at k2
  rw [hr] at hdel
  cases hdel
  simp only at hcur ⊢
  generalize Buffer.clampCursor b1 = bc at *
  have hcl : bc.CurrentLine = l1 := by
    have e0 : (0 : Int) ≤ (A.length : Int) := by omega
    have e1 : (A.length : Int) < ((A ++ l1 :: B1).length : Int) := by
      simp only [List.length_append, List.length_cons]; push_cast; omega
    simp only [Buffer.CurrentLine, k1, k4, e0, e1, and_self, if_true, Int.toNat_ofNat,
      getD_append_cons]
  rw [hcl] at hcur
  have hxe : bc.cursorX = (pre.length : Int) := by
    rcases kx with kx | ⟨kx1, kx2⟩
    · exact kx
    · omega
  have hs1 : AtSplit (bc.SetRegister (fromRunes
      (List.take n.toNat (post ++ linesAfter (B.map toRunes))))) A l1 B1 pre post1 :=
    ⟨k1, k4, hxe, hl1, by show ValidLines bc.lines; rw [k1]; exact hv1⟩
  have hX : ∀ x ∈ post ++ linesAfter (B.map toRunes), ValidRune x := by
    intro x hx
    refine toRunes_validRune b0.Text x ?_
    rw [hT]
    simp only [List.append_assoc, List.mem_append] at hx ⊢
    rcases hx with hx | hx
    · exact Or.inr (Or.inr (Or.inl hx))
    · exact Or.inr (Or.inr (Or.inr hx))
  have hXt : ∀ x ∈ List.take n.toNat (post ++ linesAfter (B.map toRunes)), ValidRune x :=
    fun x hx => hX x (List.mem_of_mem_take hx)
  obtain ⟨b2, A2, l2, pre2, hins, h2, hrel, -, -⟩ :=
    Insert_atSplit _ A l1 B1 pre post1 _ hs1 (validUTF8_fromRunes _ hXt)
  obtain ⟨hT2, -, hVT2⟩ := atSplit_text b2 A2 l2 B1 pre2 post1 h2
  refine ⟨b2, hins, eq_of_toRunes_eq _ _ hVT2 hVT ?_, k2⟩
  rw [hT2, hrel, toRunes_fromRunes _ hXt, hT]
  simp only [List.append_assoc]
  rw [hpost1, List.take_append_drop]

theorem ProcessKey_P (U : UnicodeTables) (e1 : Engine) (b2 : Buffer)
    (hmode : e1.buffer.mode = Mode.normal) (hpend : e1.pendingKeys = [])
    (hreg : hasSuffixNL e1.buffer.register = false)
    (hins : e1.buffer.Insert e1.buffer.register = some b2) :
    ∃ e2 c2, e1.ProcessKey U (str "P") = some (e2, c2) ∧ e2.Text = b2.Text := by
  have hk1 : e1.pendingKeys ++ str "P" ≠ [] := by rw [hpend]; decide
  rw [ProcessKey_normal U _ _ hmode hk1, hpend, List.nil_append]
  rw [handleNormalMode_P U ({ e1 with pendingKeys := str "P" } : Engine) hreg]
  have hins1 : Buffer.Insert ({ e1 with pendingKeys := str "P" } : Engine).buffer
      ({ e1 with pendingKeys := str "P" } : Engine).buffer.register = some b2 := hins
  rw [hins1]
  exact ⟨_, _, rfl, rfl⟩

/-- Claim C17, amended: on a buffer of valid UTF-8 lines, in normal mode with no pending keys, if
the single key string `da`+obj changes the text, the cursor is afterwards not on the last
character of a non-empty line, and the register does not end in a newline, then the key `P`
returns and the text is again the text before the deletion. -/
theorem delete_around_then_paste_before_restores_text (U : UnicodeTables) (e e1 : Engine)
    (c1 : Bool) (obj : Nat)
    (hmode : e.buffer.mode = Mode.normal) (hp : e.pendingKeys = [])
    (hl : e.buffer.lines ≠ []) (hv : ValidLines e.buffer.lines)
    (h1 : e.ProcessKey U (str "da" ++ [obj]) = some (e1, c1))
    (hdel : e1.Text ≠ e.Text)
    (hcur : e1.buffer.cursorX + 1 < runeCount e1.buffer.CurrentLine ∨
      runeCount e1.buffer.CurrentLine = 0)
    (hreg : hasSuffixNL e1.buffer.register = false) :
    ∃ e2 c2, e1.ProcessKey U (str "P") = some (e2, c2) ∧ e2.Text = e.Text := by
  have hk : e.pendingKeys ++ (str "da" ++ [obj]) ≠ [] := by
    intro h
    have := congrArg List.length h
    simp at this
  rw [ProcessKey_normal U e _ hmode hk, hp, List.nil_append, handleNormalMode_da] at h1
  obtain ⟨r, hr, hre⟩ := Option.map_eq_some'.mp h1
  have hsh := handleTextObject_d_shape U
    ({ e with pendingKeys := str "da" ++ [obj] } : Engine) [0x61, obj] 1 (by simp) hl r hr
  simp only [Prod.mk.injEq] at hre
  obtain ⟨hre, -⟩ := hre
  subst hre
  obtain ⟨hsh, hrest⟩ := hsh
  simp only [List.drop_succ_cons, List.drop_zero] at hrest
  simp only [Engine.Text] at hdel hcur hreg ⊢
  rcases hsh with hsame | ⟨b0, i, n, d, hb0l, hb0m, hn, hd, hbuf⟩
  · exact absurd (by simp only [Buffer.Text]; rw [hsame]) hdel
  · have hb0l : b0.lines = e.buffer.lines := hb0l
    have hb0m : b0.mode = e.buffer.mode := hb0m
    have hbuf : r.1.buffer = d.2.SetRegister d.1 := hbuf
    have hcur : r.1.buffer.cursorX + 1 < runeCount r.1.buffer.CurrentLine ∨
      runeCount r.1.buffer.CurrentLine = 0 := hcur
    have hreg : hasSuffixNL r.1.buffer.register = false := hreg
    have hb0ne : b0.lines ≠ [] := by rw [hb0l]; exact hl
    obtain ⟨s1, s2, -, s4, s5, s6, s7⟩ := SetCursorIndex_valid b0 i hb0ne
    rw [hbuf] at hcur hreg
    have hcur1 : d.2.cursorX + 1 < runeCount d.2.CurrentLine ∨ runeCount d.2.CurrentLine = 0 :=
      hcur
    obtain ⟨b2, hins, hT2, hm2⟩ := paste_before_after_delete (b0.SetCursorIndex i) n d
      (by rw [s1, hb0l]; exact hv) s4 s5 s6 s7 hn hd hcur1
    have hmode1 : ({ r.1 with pendingKeys := r.2.2 } : Engine).buffer.mode = Mode.normal := by
      show r.1.buffer.mode = _
      rw [hbuf]
      show d.2.mode = _
      rw [hm2, s2, hb0m]; exact hmode
    have hins1 : Buffer.Insert ({ r.1 with pendingKeys := r.2.2 } : Engine).buffer
        ({ r.1 with pendingKeys := r.2.2 } : Engine).buffer.register = some b2 := by
      show Buffer.Insert r.1.buffer r.1.buffer.register = some b2
      rw [hbuf]; exact hins
    obtain ⟨e2, c2, hP, hT⟩ := ProcessKey_P U _ b2 hmode1 hrest
      (by show hasSuffixNL r.1.buffer.register = false; rw [hbuf]; exact hreg) hins1
    refine ⟨e2, c2, hP, ?_⟩
    show e2.Text = e.buffer.Text
    rw [hT, hT2]
    simp only [Buffer.Text, s1, hb0l]

/-- Claim C17, amended, applied to `daw` on "hello world foo" with the cursor on
`w`; the deletion leaves "hello foo" with the cursor on `f`, and `P` restores the text. -/
theorem delete_around_then_paste_before_on_three_words :
    (startEngine "hello world foo" 6).Text = str "hello world foo" ∧
    ∃ e2 c2, afterDaw.ProcessKey asciiTables (str "P") = some (e2, c2) ∧
      e2.Text = (startEngine "hello world foo" 6).Text :=
  ⟨by decide,
   delete_around_then_paste_before_restores_text asciiTables (startEngine "hello world foo" 6)
    afterDaw true 0x77 (by decide) (by decide) (by decide) (by decide) (by decide) (by decide)
    (by decide) (by decide)⟩

/-- Claim C17 as stated fails: on "hello world" with the cursor on `w`, the key string `daw` deletes
"world" and leaves "hello " with the cursor clamped back onto the space; `P` then gives
"helloworld ", not "hello world". In the same way `da(` then `P` on "f(x)" gives "(x)f". -/
theorem delete_around_last_word_then_paste_before_changes_text :
    (startEngine "hello world" 6).Text = str "hello world" ∧
    ((startEngine "hello world" 6).ProcessKeys asciiTables [str "daw"]).map Engine.Text
      = some (str "hello ") ∧
    ((startEngine "hello world" 6).ProcessKeys asciiTables [str "daw", str "P"]).map Engine.Text
      = some (str "helloworld ") ∧
    ((startEngine "f(x)" 2).ProcessKeys asciiTables [str "da(", str "P"]).map Engine.Text
      = some (str "(x)f") := by
  decide

/-- The contract of `Buffer.Delete` on two lines: on "ab\ncd" with the cursor on `b`,
`Delete(3)` returns "b\nc" and leaves "ad"; with the cursor on `d`, `Delete(2)` returns the
one remaining character. -/
theorem Delete_removes_range_at_cursor_on_two_lines :
    (({ twoLines with cursorY := 0 } : Buffer).Delete 3).map (fun r => (r.1, r.2.Text))
      = some (str "b\nc", str "ad") ∧
    (twoLines.Delete 2).map (fun r => (r.1, r.2.Text)) = some (str "d", str "ab\nc") ∧
    ∃ del b1, ({ twoLines with cursorY := 0 } : Buffer).Delete 3 = some (del, b1) ∧
      del = fromRunes (((toRunes ({ twoLines with cursorY := 0 } : Buffer).Text).drop
        ({ twoLines with cursorY := 0 } : Buffer).CursorIndex.toNat).take (3 : Int).toNat) ∧
      b1.Text = fromRunes
        ((toRunes ({ twoLines with cursorY := 0 } : Buffer).Text).take
            ({ twoLines with cursorY := 0 } : Buffer).CursorIndex.toNat ++
          (toRunes ({ twoLines with cursorY := 0 } : Buffer).Text).drop
            (({ twoLines with cursorY := 0 } : Buffer).CursorIndex.toNat + (3 : Int).toNat)) :=
  ⟨by decide, by decide,
   Delete_removes_range_at_cursor ({ twoLines with cursorY := 0 } : Buffer) 3 (by decide)
    (by decide) (by decide) (by decide) (by decide) (by decide) (Or.inl (by decide))⟩

set_option maxRecDepth 1000000 in
/-- Claim C12 fails on the code when `cursor_x + n` overflows: on `NewBuffer("ab\ncd")` with
the cursor on `b` (`cursor_x = 1`), `Delete(9223372036854775807)` panics, while the claim
asks for the four characters "b\ncd" from the cursor on; the keys `l`,
`9223372036854775807x` reach this call from `NewEngine("ab\ncd")`. With one less,
`Delete(9223372036854775806)` returns "b\ncd" and leaves "a", and from `cursor_x = 0` the
count `9223372036854775807` deletes the whole text. -/
theorem Delete_panics_when_count_overflows :
    ({ NewBuffer (str "ab\ncd") with cursorX := 1 } : Buffer).Delete 9223372036854775807
      = none ∧
    fromRunes (((toRunes ({ NewBuffer (str "ab\ncd") with cursorX := 1 } : Buffer).Text).drop
        ({ NewBuffer (str "ab\ncd") with cursorX := 1 } : Buffer).CursorIndex.toNat).take
          (9223372036854775807 : Int).toNat) = str "b\ncd" ∧
    (NewEngine (str "ab\ncd")).ProcessKeys asciiTables [str "l", str "9223372036854775807x"]
      = none ∧
    (({ NewBuffer (str "ab\ncd") with cursorX := 1 } : Buffer).Delete 9223372036854775806).map
      (fun r => (r.1, r.2.Text)) = some (str "b\ncd", str "a") ∧
    ((NewBuffer (str "ab\ncd")).Delete 9223372036854775807).map
      (fun r => (r.1, r.2.Text)) = some (str "ab\ncd", str "") := by
  decide

/-- Claim C13 on two lines: on "ab\ncd" with the cursor on `d`, `Insert("X\nY")` gives "ab\ncX\nYd" and
moves the cursor index from 4 to 7. -/
theorem Insert_splices_at_cursor_on_two_lines :
    (twoLines.Insert (str "X\nY")).map (fun b => (b.Text, b.CursorIndex))
      = some (str "ab\ncX\nYd", 7) ∧
    ∃ b1, twoLines.Insert (str "X\nY") = some b1 ∧
      b1.Text = fromRunes ((toRunes twoLines.Text).take twoLines.CursorIndex.toNat ++
        toRunes (str "X\nY") ++ (toRunes twoLines.Text).drop twoLines.CursorIndex.toNat) ∧
      b1.CursorIndex = twoLines.CursorIndex + runeCount (str "X\nY") :=
  ⟨by decide,
   Insert_splices_at_cursor twoLines (str "X\nY") (by decide) (by decide) (by decide)
    (by decide) (by decide) (by decide)⟩

/-! ### Session: match status, skipping, progress -/

theorem currentTask_some (s : Session) (t : Task) (h : s.CurrentTask = some t) :
    0 ≤ s.CurrentIndex ∧ s.CurrentIndex < s.Tasks.length := by
  unfold Session.CurrentTask at h
  split_ifs at h with hc
  exact hc

theorem StartTask_frame (s : Session) (now : Time) :
    (s.StartTask now).CurrentIndex = s.CurrentIndex ∧ (s.StartTask now).Tasks = s.Tasks ∧
    (s.StartTask now).SkipsRemaining = s.SkipsRemaining ∧
    (s.StartTask now).TaskResults = s.TaskResults ∧ (s.StartTask now).State = s.State := by
  unfold Session.StartTask
  split <;> simp

theorem advance_frame (s : Session) (r : TaskResult) (now : Time) :
    (s.advance r now).CurrentIndex = s.CurrentIndex + 1 ∧ (s.advance r now).Tasks = s.Tasks ∧
    (s.advance r now).SkipsRemaining = s.SkipsRemaining ∧
    (s.advance r now).TaskResults = s.TaskResults ++ [r] := by
  unfold Session.advance
  simp only
  split_ifs
  · simp
  · simp [StartTask_frame]

/-- Claim C27, amended: for a session whose current task is not a motion task
(`IsMotionTask` false) and whose engine is set, `CheckMatch` returns `MatchComplete` exactly
when the buffer text is the desired text, `MatchNone` exactly when the text is the initial
text and not the desired text, and `MatchInProgress` exactly when it is neither. -/
theorem CheckMatch_classifies_editing_tasks (s : Session) (task : Task) (engine : Engine)
    (ht : s.CurrentTask = some task) (he : s.engine = some engine)
    (hm : task.IsMotionTask = false) :
    (s.CheckMatch = MatchStatus.MatchComplete ↔ engine.Text = task.Desired) ∧
    (s.CheckMatch = MatchStatus.MatchNone ↔
      engine.Text = task.Initial ∧ engine.Text ≠ task.Desired) ∧
    (s.CheckMatch = MatchStatus.MatchInProgress ↔
      engine.Text ≠ task.Desired ∧ engine.Text ≠ task.Initial) := by
  unfold Session.CheckMatch
  rw [ht, he]
  simp only [hm, Bool.false_eq_true, if_false]
  by_cases h1 : engine.Text = task.Desired
  · rw [if_pos h1]
    exact ⟨⟨fun _ => h1, fun _ => rfl⟩, ⟨(fun h => nomatch h), fun h => absurd h1 h.2⟩,
      ⟨(fun h => nomatch h), fun h => absurd h1 h.1⟩⟩
  · rw [if_neg h1]
    by_cases h2 : engine.Text = task.Initial
    · rw [if_pos h2]
      exact ⟨⟨(fun h => nomatch h), fun h => absurd h h1⟩, ⟨fun _ => ⟨h2, h1⟩, fun _ => rfl⟩,
        ⟨(fun h => nomatch h), fun h => absurd h2 h.2⟩⟩
    · rw [if_neg h2]
      exact ⟨⟨(fun h => nomatch h), fun h => absurd h h1⟩,
        ⟨(fun h => nomatch h), fun h => absurd h.1 h2⟩, ⟨fun _ => ⟨h1, h2⟩, fun _ => rfl⟩⟩

/-- Claim C27, amended, on the task `delete-dw-001`: the freshly started session holds the
initial text "hello extra world", which is not the desired text, and the status is
`MatchNone`. -/
theorem CheckMatch_on_delete_word_task :
    (sessionOn [taskDeleteWord]).CheckMatch = MatchStatus.MatchNone ∧
    (((sessionOn [taskDeleteWord]).CheckMatch = MatchStatus.MatchComplete ↔
        ((NewEngine taskDeleteWord.Initial).setBuf
          ((NewEngine taskDeleteWord.Initial).buffer.SetCursorIndex 6)).Text
          = taskDeleteWord.Desired) ∧
      ((sessionOn [taskDeleteWord]).CheckMatch = MatchStatus.MatchNone ↔
        ((NewEngine taskDeleteWord.Initial).setBuf
          ((NewEngine taskDeleteWord.Initial).buffer.SetCursorIndex 6)).Text
          = taskDeleteWord.Initial ∧
        ((NewEngine taskDeleteWord.Initial).setBuf
          ((NewEngine taskDeleteWord.Initial).buffer.SetCursorIndex 6)).Text
          ≠ taskDeleteWord.Desired) ∧
      ((sessionOn [taskDeleteWord]).CheckMatch = MatchStatus.MatchInProgress ↔
        ((NewEngine taskDeleteWord.Initial).setBuf
          ((NewEngine taskDeleteWord.Initial).buffer.SetCursorIndex 6)).Text
          ≠ taskDeleteWord.Desired ∧
        ((NewEngine taskDeleteWord.Initial).setBuf
          ((NewEngine taskDeleteWord.Initial).buffer.SetCursorIndex 6)).Text
          ≠ taskDeleteWord.Initial)) :=
  ⟨by decide,
   CheckMatch_classifies_editing_tasks (sessionOn [taskDeleteWord]) taskDeleteWord
    ((NewEngine taskDeleteWord.Initial).setBuf
      ((NewEngine taskDeleteWord.Initial).buffer.SetCursorIndex 6))
    (by decide) (by decide) (by decide)⟩

/-- Claim C27 as stated fails when the initial and the desired text are equal: the embedded
task `motion-0-001` has `cursor_end = 0`, so it is not a motion task, and on the freshly
started session the buffer text equals the initial text while `CheckMatch` returns
`MatchComplete`, not `MatchNone`. -/
theorem CheckMatch_complete_on_initial_text :
    taskMotionZero.IsMotionTask = false ∧
    (sessionOn [taskMotionZero]).CurrentTask = some taskMotionZero ∧
    (sessionOn [taskMotionZero]).engine.map Engine.Text = some taskMotionZero.Initial ∧
    (sessionOn [taskMotionZero]).CheckMatch = MatchStatus.MatchComplete := by
  decide

theorem SkipTask_fail (s : Session) (now : Time)
    (h : s.SkipsRemaining ≤ 0 ∨ s.CurrentTask = none) : s.SkipTask now = (s, false) := by
  unfold Session.SkipTask
  rcases h with h | h
  · rw [if_pos h]
  · split_ifs
    · rfl
    · rw [h]

theorem SkipTask_success (s : Session) (now : Time) (task : Task)
    (h : 0 < s.SkipsRemaining) (ht : s.CurrentTask = some task) :
    ∃ r, s.SkipTask now
        = (({ s with SkipsRemaining := s.SkipsRemaining - 1 } : Session).advance r now, true) ∧
      r.Success = false ∧ r.TimeMs = 60000 ∧ r.Efficiency = 0 := by
  unfold Session.SkipTask
  rw [if_neg (by omega), ht]
  exact ⟨_, rfl, rfl, rfl, rfl⟩

theorem SkipTask_step (s : Session) (now : Time) (h : 0 < s.SkipsRemaining)
    (hi0 : 0 ≤ s.CurrentIndex) (hi : s.CurrentIndex < s.Tasks.length) :
    (s.SkipTask now).2 = true ∧
    (s.SkipTask now).1.SkipsRemaining = s.SkipsRemaining - 1 ∧
    (s.SkipTask now).1.CurrentIndex = s.CurrentIndex + 1 ∧
    (s.SkipTask now).1.Tasks = s.Tasks := by
  have hn : s.CurrentIndex.toNat < s.Tasks.length := by omega
  have ht : s.CurrentTask = some (s.Tasks[s.CurrentIndex.toNat]) := by
    unfold Session.CurrentTask
    rw [if_pos ⟨hi0, hi⟩, List.getElem?_eq_getElem hn]
  obtain ⟨r, hr, -⟩ := SkipTask_success s now _ h ht
  rw [hr]
  obtain ⟨a1, a2, a3, -⟩ :=
    advance_frame ({ s with SkipsRemaining := s.SkipsRemaining - 1 } : Session) r now
  exact ⟨rfl, a3, a1, a2⟩

/-- Claim C29: `SkipTask` on a session with `skips_remaining ≥ 0` returns false exactly when
`skips_remaining` is 0 or there is no current task, and then the session is unchanged;
otherwise `skips_remaining` drops by one, one result with `success = false`,
`time_ms = 60000` and efficiency 0 is appended, and `current_index` grows by one. On a
session created on at least 6 tasks, five skips succeed and the sixth fails. -/
theorem SkipTask_fails_exactly_when_exhausted (s : Session) (now : Time)
    (sid roundType : GoString) (tasks : List Task) (t0 t1 n1 n2 n3 n4 n5 n6 : Time)
    (h : 0 ≤ s.SkipsRemaining) (h6 : 6 ≤ tasks.length) :
    ((s.SkipTask now).2 = false ↔ (s.SkipsRemaining = 0 ∨ s.CurrentTask = none)) ∧
    ((s.SkipTask now).2 = false → (s.SkipTask now).1 = s) ∧
    ((s.SkipTask now).2 = true →
      ∃ r, (s.SkipTask now).1.SkipsRemaining = s.SkipsRemaining - 1 ∧
        (s.SkipTask now).1.TaskResults = s.TaskResults ++ [r] ∧
        r.Success = false ∧ r.TimeMs = 60000 ∧ r.Efficiency = 0 ∧
        (s.SkipTask now).1.CurrentIndex = s.CurrentIndex + 1) ∧
    ((NewSession sid roundType tasks t0).StartTask t1).SkipTasks [n1, n2, n3, n4, n5, n6]
      = [true, true, true, true, true, false] := by
  have key : (s.SkipsRemaining = 0 ∨ s.CurrentTask = none) ∨
      (0 < s.SkipsRemaining ∧ ∃ task, s.CurrentTask = some task) := by
    by_cases h0 : s.SkipsRemaining = 0
    · exact Or.inl (Or.inl h0)
    · cases ht : s.CurrentTask with
      | none => exact Or.inl (Or.inr rfl)
      | some task => exact Or.inr ⟨by omega, task, rfl⟩
  refine ⟨?_, ?_, ?_, ?_⟩
  · rcases key with hf | ⟨hp, task, ht⟩
    · have := SkipTask_fail s now (hf.imp (fun e => by omega) (fun x => x))
      rw [this]; simp [hf]
    · obtain ⟨r, hr, -⟩ := SkipTask_success s now task hp ht
      rw [hr]
      simp only [Bool.true_eq_false, false_iff, not_or]
      exact ⟨by omega, by rw [ht]; simp⟩
  · rcases key with hf | ⟨hp, task, ht⟩
    · have := SkipTask_fail s now (hf.imp (fun e => by omega) (fun x => x))
      rw [this]; simp
    · obtain ⟨r, hr, -⟩ := SkipTask_success s now task hp ht
      rw [hr]; simp
  · rcases key with hf | ⟨hp, task, ht⟩
    · have := SkipTask_fail s now (hf.imp (fun e => by omega) (fun x => x))
      rw [this]; simp
    · obtain ⟨r, hr, r1, r2, r3⟩ := SkipTask_success s now task hp ht
      rw [hr]
      intro _
      obtain ⟨a1, -, a3, a4⟩ :=
        advance_frame ({ s with SkipsRemaining := s.SkipsRemaining - 1 } : Session) r now
      exact ⟨r, a3, a4, r1, r2, r3, a1⟩
  · obtain ⟨f1, f2, f3, -, -⟩ := StartTask_frame (NewSession sid roundType tasks t0) t1
    have g0 : ((NewSession sid roundType tasks t0).StartTask t1).CurrentIndex = 0 := f1
    have g1 : ((NewSession sid roundType tasks t0).StartTask t1).Tasks = tasks := f2
    have g2 : ((NewSession sid roundType tasks t0).StartTask t1).SkipsRemaining = 5 := f3
    generalize (NewSession sid roundType tasks t0).StartTask t1 = s0 at g0 g1 g2
    obtain ⟨b1, c1, d1, e1⟩ := SkipTask_step s0 n1 (by omega) (by omega) (by rw [g1]; omega)
    obtain ⟨b2, c2, d2, e2⟩ := SkipTask_step (s0.SkipTask n1).1 n2 (by omega) (by omega)
      (by rw [e1, g1]; omega)
    obtain ⟨b3, c3, d3, e3⟩ := SkipTask_step ((s0.SkipTask n1).1.SkipTask n2).1 n3 (by omega)
      (by omega) (by rw [e2, e1, g1]; omega)
    obtain ⟨b4, c4, d4, e4⟩ := SkipTask_step (((s0.SkipTask n1).1.SkipTask n2).1.SkipTask n3).1
      n4 (by omega) (by omega) (by rw [e3, e2, e1, g1]; omega)
    obtain ⟨b5, c5, d5, e5⟩ := SkipTask_step
      ((((s0.SkipTask n1).1.SkipTask n2).1.SkipTask n3).1.SkipTask n4).1
      n5 (by omega) (by omega) (by rw [e4, e3, e2, e1, g1]; omega)
    have b6 := SkipTask_fail
      (((((s0.SkipTask n1).1.SkipTask n2).1.SkipTask n3).1.SkipTask n4).1.SkipTask n5).1 n6
      (Or.inl (by omega))
    simp only [Session.SkipTasks, b1, b2, b3, b4, b5, b6]

/-- Claim C29 on a session created on six copies of `delete-dw-001`: the first `SkipTask`
succeeds and leaves 4 skips, index 1 and one failed result with 60000 ms; six skips in a
row give five successes and one failure. -/
theorem SkipTask_on_six_tasks :
    (0 : Int) ≤ (sessionOn (List.replicate 6 taskDeleteWord)).SkipsRemaining ∧
    6 ≤ (List.replicate 6 taskDeleteWord).length ∧
    (((sessionOn (List.replicate 6 taskDeleteWord)).SkipTask 1).2 = false ↔
      ((sessionOn (List.replicate 6 taskDeleteWord)).SkipsRemaining = 0 ∨
        (sessionOn (List.replicate 6 taskDeleteWord)).CurrentTask = none)) ∧
    (((sessionOn (List.replicate 6 taskDeleteWord)).SkipTask 1).2 = false →
      ((sessionOn (List.replicate 6 taskDeleteWord)).SkipTask 1).1
        = sessionOn (List.replicate 6 taskDeleteWord)) ∧
    (((sessionOn (List.replicate 6 taskDeleteWord)).SkipTask 1).2 = true →
      ∃ r, ((sessionOn (List.replicate 6 taskDeleteWord)).SkipTask 1).1.SkipsRemaining
          = (sessionOn (List.replicate 6 taskDeleteWord)).SkipsRemaining - 1 ∧
        ((sessionOn (List.replicate 6 taskDeleteWord)).SkipTask 1).1.TaskResults
          = (sessionOn (List.replicate 6 taskDeleteWord)).TaskResults ++ [r] ∧
        r.Success = false ∧ r.TimeMs = 60000 ∧ r.Efficiency = 0 ∧
        ((sessionOn (List.replicate 6 taskDeleteWord)).SkipTask 1).1.CurrentIndex
          = (sessionOn (List.replicate 6 taskDeleteWord)).CurrentIndex + 1) ∧
    ((NewSession [] [] (List.replicate 6 taskDeleteWord) 0).StartTask 0).SkipTasks
        [1, 2, 3, 4, 5, 6]
      = [true, true, true, true, true, false] :=
  ⟨by decide, by decide,
   SkipTask_fails_exactly_when_exhausted (sessionOn (List.replicate 6 taskDeleteWord)) 1 [] []
    (List.replicate 6 taskDeleteWord) 0 0 1 2 3 4 5 6 (by decide) (by decide)⟩

theorem CompleteTask_frame (s : Session) (now : Time) :
    ((s.CompleteTask now).1 = s ∧ s.CurrentTask = none) ∨
    ((s.CompleteTask now).1.CurrentIndex = s.CurrentIndex + 1 ∧
      (s.CompleteTask now).1.Tasks = s.Tasks ∧ s.CurrentIndex < s.Tasks.length) := by
  unfold Session.CompleteTask
  cases ht : s.CurrentTask with
  | none => exact Or.inl ⟨rfl, rfl⟩
  | some task =>
    obtain ⟨a1, a2, -, -⟩ := advance_frame s
      { TaskID := task.ID, Category := task.Category, Difficulty := task.Difficulty,
        TimeMs := Int.tdiv ((now - s.taskStart) - s.pausedTime) 1000000,
        Keystrokes := s.keystrokes, OptimalKeystrokes := task.OptimalCount,
        Efficiency := efficiencyOf task.OptimalCount s.keystrokes,
        Success := true, KeysUsed := s.keysUsed, Resets := s.resets,
        HintsUsed := s.hintsUsed, CompletedAt := now } now
    exact Or.inr ⟨a1, a2, (currentTask_some s task ht).2⟩

theorem SkipTask_frame (s : Session) (now : Time) :
    (s.SkipTask now).1 = s ∨
    ((s.SkipTask now).1.CurrentIndex = s.CurrentIndex + 1 ∧
      (s.SkipTask now).1.Tasks = s.Tasks ∧ s.CurrentIndex < s.Tasks.length) := by
  by_cases h : 0 < s.SkipsRemaining
  · cases ht : s.CurrentTask with
    | none => rw [SkipTask_fail s now (Or.inr ht)]; exact Or.inl rfl
    | some task =>
      obtain ⟨r, hr, -⟩ := SkipTask_success s now task h ht
      rw [hr]
      obtain ⟨a1, a2, -, -⟩ :=
        advance_frame ({ s with SkipsRemaining := s.SkipsRemaining - 1 } : Session) r now
      exact Or.inr ⟨a1, a2, (currentTask_some s task ht).2⟩
  · rw [SkipTask_fail s now (Or.inl (by omega))]; exact Or.inl rfl

theorem apply_frame (U : UnicodeTables) (s s1 : Session) (op : SessionOp)
    (h : s.apply U op = some s1) :
    s1.Tasks = s.Tasks ∧
    (s1.CurrentIndex = s.CurrentIndex ∨
      (s1.CurrentIndex = s.CurrentIndex + 1 ∧ s.CurrentIndex < s.Tasks.length)) := by
  cases op with
  | ProcessKey key =>
    simp only [Session.apply, Session.ProcessKey, Option.map_eq_some'] at h
    obtain ⟨r, hr, rfl⟩ := h
    split at hr
    · cases hr; exact ⟨rfl, Or.inl rfl⟩
    · split_ifs at hr
      · cases hr; exact ⟨rfl, Or.inl rfl⟩
      · obtain ⟨x, -, hx⟩ := Option.bind_eq_some.mp hr
        cases hx
        exact ⟨rfl, Or.inl rfl⟩
  | CompleteTask now =>
    simp only [Session.apply, Option.some.injEq] at h
    subst h
    rcases CompleteTask_frame s now with ⟨h1, -⟩ | ⟨h1, h2, h3⟩
    · rw [h1]; exact ⟨rfl, Or.inl rfl⟩
    · exact ⟨h2, Or.inr ⟨h1, h3⟩⟩
  | SkipTask now =>
    simp only [Session.apply, Option.some.injEq] at h
    subst h
    rcases SkipTask_frame s now with h1 | ⟨h1, h2, h3⟩
    · rw [h1]; exact ⟨rfl, Or.inl rfl⟩
    · exact ⟨h2, Or.inr ⟨h1, h3⟩⟩
  | ResetTask =>
    simp only [Session.apply, Session.ResetTask] at h
    split at h
    · cases h; exact ⟨rfl, Or.inl rfl⟩
    · split at h
      · cases h
      · cases h; exact ⟨rfl, Or.inl rfl⟩
  | UseHint =>
    simp only [Session.apply, Option.some.injEq] at h
    subst h
    exact ⟨rfl, Or.inl rfl⟩
  | Pause now =>
    simp only [Session.apply, Session.Pause, Option.some.injEq] at h
    subst h
    split_ifs <;> exact ⟨rfl, Or.inl rfl⟩
  | Resume now =>
    simp only [Session.apply, Session.Resume, Option.some.injEq] at h
    subst h
    split_ifs <;> exact ⟨rfl, Or.inl rfl⟩

theorem reachable_index_bounds (U : UnicodeTables) (s : Session) (h : SessionReachable U s) :
    0 ≤ s.CurrentIndex ∧ s.CurrentIndex ≤ s.Tasks.length := by
  induction h with
  | create sid roundType tasks now =>
    simp only [NewSession]
    omega
  | start s now _ ih =>
    obtain ⟨f1, f2, -⟩ := StartTask_frame s now
    rw [f1, f2]; exact ih
  | step s s1 op _ hop ih =>
    obtain ⟨f1, f2⟩ := apply_frame U s s1 op hop
    rw [f1]
    rcases f2 with f2 | ⟨f2, f3⟩ <;> omega

/-- Claim C30: every session operation that returns leaves `current_index` at least as
large as before, for every session; and in every session reachable from `NewSession` by
`StartTask` and the operations, `0 ≤ current_index ≤ |tasks|`. -/
theorem current_index_monotonic_and_bounded (U : UnicodeTables) :
    (∀ (s s1 : Session) (op : SessionOp), s.apply U op = some s1 →
      s.CurrentIndex ≤ s1.CurrentIndex) ∧
    (∀ s : Session, SessionReachable U s →
      0 ≤ s.CurrentIndex ∧ s.CurrentIndex ≤ s.Tasks.length) := by
  refine ⟨fun s s1 op h => ?_, reachable_index_bounds U⟩
  obtain ⟨-, f2⟩ := apply_frame U s s1 op h
  rcases f2 with f2 | ⟨f2, -⟩ <;> omega

/-- Claim C30 on a session created on `delete-dw-001`: the key `d` leaves the index at 0,
`CompleteTask` moves it to 1, and the session after `CompleteTask` is reachable with
`0 ≤ 1 ≤ 1`. -/
theorem current_index_on_delete_word_task :
    (((sessionOn [taskDeleteWord]).apply asciiTables (SessionOp.ProcessKey (str "d"))).map
        (fun s => s.CurrentIndex) = some 0 ∧
      (sessionOn [taskDeleteWord]).CurrentIndex ≤
        ((sessionOn [taskDeleteWord]).CompleteTask 5).1.CurrentIndex) ∧
    ((0 : Int) ≤ ((sessionOn [taskDeleteWord]).CompleteTask 5).1.CurrentIndex ∧
      ((sessionOn [taskDeleteWord]).CompleteTask 5).1.CurrentIndex
        ≤ (((sessionOn [taskDeleteWord]).CompleteTask 5).1.Tasks.length : Int)) :=
  ⟨⟨by decide,
    (current_index_monotonic_and_bounded asciiTables).1 (sessionOn [taskDeleteWord]) _
      (SessionOp.CompleteTask 5) rfl⟩,
   (current_index_monotonic_and_bounded asciiTables).2 _
    (SessionReachable.step _ _ (SessionOp.CompleteTask 5)
      (SessionReachable.start _ 0 (SessionReachable.create [] [] [taskDeleteWord] 0)) rfl)⟩

/-! ### Quote objects, `G`, word motion result, `x` and `o` on concrete runs -/

/-- Claim C21 fails on the code: the quote object takes the first two quote characters of
the line, wherever the cursor is. On the line `"a" b` with the cursor on `b` (index 4) the
key string `di"` empties the pair at indices 0 and 2, which lies before the cursor; the
same happens with `di'` on `'a' b`, and on `'a' 'b'` with the cursor inside the second
pair (index 5) the first pair is emptied. With the cursor before the pair (`x 'a' b`,
index 0) the following pair is taken. -/
theorem quote_object_selects_pair_before_cursor (U : UnicodeTables) :
    (((NewEngine []).Reset [0x22, 0x61, 0x22, 0x20, 0x62] 4).ProcessKeys U
        [str "di" ++ [0x22]]).map (fun e => (e.Text, e.buffer.register))
      = some ([0x22, 0x22, 0x20, 0x62], str "a") ∧
    ((startEngine "'a' b" 4).ProcessKeys U [str "di'"]).map
        (fun e => (e.Text, e.buffer.register)) = some (str "'' b", str "a") ∧
    ((startEngine "'a' 'b'" 5).ProcessKeys U [str "di'"]).map
        (fun e => (e.Text, e.buffer.register)) = some (str "'' 'b'", str "a") ∧
    ((startEngine "x 'a' b" 0).ProcessKeys U [str "da'"]).map
        (fun e => (e.Text, e.buffer.register)) = some (str "x  b", str "'a'") :=
  ⟨rfl, rfl, rfl, rfl⟩

/-- Claim C23 fails on the code when the cursor is already on the last line: on the single
line "  abc" with the cursor at column 4 the key `G` leaves the cursor at column 4, not at
the first non-blank column 2, and on "a\n  bc" from line 1 column 3 it stays at column 3;
`MoveToBufferEnd` calls `MoveToFirstNonBlank` only when the line changes. From line 0 the
cursor lands on line 1 at column 2. -/
theorem G_on_last_line_keeps_column (U : UnicodeTables) :
    ((startEngine "  abc" 4).ProcessKeys U [str "G"]).map
        (fun e => (e.buffer.cursorX, e.buffer.cursorY)) = some (4, 0) ∧
    ((startEngine "a\n  bc" 5).ProcessKeys U [str "G"]).map
        (fun e => (e.buffer.cursorX, e.buffer.cursorY)) = some (3, 1) ∧
    ((startEngine "a\n  bc" 0).ProcessKeys U [str "G"]).map
        (fun e => (e.buffer.cursorX, e.buffer.cursorY)) = some (2, 1) :=
  ⟨rfl, rfl, rfl⟩

/-- Claim C24 fails on the code in both directions: on "ab" with the cursor on `b`
(column 1, line 0) `MoveWordForward(b, 1)` leaves the cursor where it is and returns true;
on "ab\n b" from the same position it moves the cursor to column 1 of line 1 and returns
false. `moveWordForwardOnce` returns `cursorX != startX || cursorY != startX`: the line is
compared with the start column. -/
theorem MoveWordForward_result_compares_line_with_column (U : UnicodeTables) :
    (MoveWordForward U { (NewBuffer (str "ab")) with cursorX := 1 } 1).map
        (fun r => (r.1.cursorX, r.1.cursorY, r.2)) = some (1, 0, true) ∧
    (MoveWordForward U { (NewBuffer (str "ab\n b")) with cursorX := 1 } 1).map
        (fun r => (r.1.cursorX, r.1.cursorY, r.2)) = some (1, 1, false) ∧
    (NewBuffer (str "ab")).cursorY = 0 ∧ (NewBuffer (str "ab")).mode = Mode.normal :=
  ⟨rfl, rfl, rfl, rfl⟩

/-- Claim C25 fails on the code: `x` calls `Buffer.Delete(count)`, which takes newlines as
characters. On "\nab" with the cursor on the empty line 0 the key `x` joins the two lines
into "ab" (register "\n"), and on "ab\ncd" with the cursor on `b` the key string `3x`
leaves the single line "ad" (register "b\nc"). A single `x` on `b` stays in the line. -/
theorem x_deletes_across_line_end (U : UnicodeTables) :
    ((startEngine "\nab" 0).ProcessKeys U [str "x"]).map
        (fun e => (e.buffer.lines, e.buffer.register)) = some ([str "ab"], str "\n") ∧
    ((startEngine "ab\ncd" 1).ProcessKeys U [str "3x"]).map
        (fun e => (e.buffer.lines, e.buffer.register)) = some ([str "ad"], str "b\nc") ∧
    ((startEngine "ab\ncd" 1).ProcessKeys U [str "x"]).map
        (fun e => (e.buffer.lines, e.buffer.register)) = some ([str "a", str "cd"], str "b") ∧
    (startEngine "\nab" 0).buffer.lines = [[], str "ab"] :=
  ⟨rfl, rfl, rfl, rfl⟩

/-- Claim C26 fails on the code on every non-empty line: on the task `insert-o-001`,
"line one\nline three" from index 0, the key `o` gives the lines "line on", "e",
"line three" with the cursor on line 1 column 0 in insert mode, and the keys of the task
end with "line on\nline twoe\nline three", not "line one\nline two\nline three".
`MoveToLineEnd` stops on the last character in normal mode and `o` inserts the newline
there. On an empty current line (`"\nb"`) the new line is opened below. -/
theorem o_splits_line_before_last_character (U : UnicodeTables) :
    ((startEngine "line one\nline three" 0).ProcessKeys U [str "o"]).map
        (fun e => (e.buffer.lines, e.buffer.cursorX, e.buffer.cursorY, e.Mode))
      = some ([str "line on", str "e", str "line three"], 0, 1, Mode.insert) ∧
    ((startEngine "line one\nline three" 0).ProcessKeys U
        [str "o", str "l", str "i", str "n", str "e", str " ", str "t", str "w", str "o",
          str "esc"]).map Engine.Text
      = some (str "line on\nline twoe\nline three") ∧
    ((startEngine "\nb" 0).ProcessKeys U [str "o"]).map
        (fun e => (e.buffer.lines, e.buffer.cursorX, e.buffer.cursorY, e.Mode))
      = some ([[], [], str "b"], 0, 1, Mode.insert) :=
  ⟨rfl, rfl, rfl⟩

/-! ### Rounding to float64 and the efficiency of a completed task -/

theorem bitLenAux_spec (fuel n : Nat) (h : n ≤ fuel) :
    n < 2 ^ bitLenAux fuel n ∧ (0 < n → 2 ^ (bitLenAux fuel n - 1) ≤ n) := by
  induction fuel generalizing n with
  | zero =>
    have : n = 0 := by omega
    subst this
    simp [bitLenAux]
  | succ f ih =>
    unfold bitLenAux
    split_ifs with h0
    · subst h0; simp
    · obtain ⟨a, b⟩ := ih (n / 2) (by omega)
      constructor
      · rw [pow_succ]; omega
      · intro _
        simp only [Nat.add_sub_cancel]
        by_cases h2 : n / 2 = 0
        · have : bitLenAux f (n / 2) = 0 := by
            rw [h2]; cases f <;> simp [bitLenAux]
          rw [this]; simp; omega
        · have b1 := b (by omega)
          have hl : 1 ≤ bitLenAux f (n / 2) := by
            by_contra hc
            have : bitLenAux f (n / 2) = 0 := by omega
            rw [this] at a
            simp at a
            exact h2 a
          have : 2 ^ bitLenAux f (n / 2) = 2 * 2 ^ (bitLenAux f (n / 2) - 1) := by
            conv_lhs => rw [show bitLenAux f (n / 2) = (bitLenAux f (n / 2) - 1) + 1 by omega]
            rw [pow_succ, Nat.mul_comm]
          omega

theorem bitLen_spec (n : Nat) (h : 0 < n) :
    1 ≤ bitLen n ∧ 2 ^ (bitLen n - 1) ≤ n ∧ n < 2 ^ bitLen n := by
  obtain ⟨a, b⟩ := bitLenAux_spec n n (Nat.le_refl n)
  refine ⟨?_, b h, a⟩
  by_contra hc
  have : bitLen n = 0 := by omega
  unfold bitLen at this
  rw [this] at a
  simp at a
  omega

theorem roundHalfEven_near (a b : Nat) (hb : 0 < b) :
    2 * (b * roundHalfEven a b) ≤ 2 * a + b ∧ 2 * a ≤ 2 * (b * roundHalfEven a b) + b := by
  have h := Nat.div_add_mod a b
  have hr := Nat.mod_lt a hb
  unfold roundHalfEven
  simp only
  split_ifs <;> (try simp only [Nat.mul_add, Nat.mul_one]) <;> omega

theorem two_pow_toNat_div (e : Int) :
    (2 : ℚ) ^ e.toNat / 2 ^ (-e).toNat = 2 ^ e := by
  rcases le_total 0 e with h | h
  · have h1 : (-e).toNat = 0 := by omega
    rw [h1, pow_zero, div_one, ← zpow_natCast, Int.toNat_of_nonneg h]
  · have h1 : e.toNat = 0 := by omega
    have h2 : ((-e).toNat : Int) = -e := Int.toNat_of_nonneg (by omega)
    rw [h1, pow_zero, one_div, ← zpow_natCast, h2, zpow_neg, inv_inv]

theorem roundFloat64_near (x : ℚ) (hx : 0 ≤ x) : |roundFloat64 x - x| ≤ x / 2 ^ 53 := by
  rcases eq_or_lt_of_le hx with h0 | hpos
  · rw [← h0]; simp [roundFloat64]
  · have hnum : 0 < x.num := Rat.num_pos.mpr hpos
    have hx0 : x ≠ 0 := ne_of_gt hpos
    have hbpos : 0 < x.den := x.den_pos
    have hapos : 0 < x.num.natAbs := Int.natAbs_pos.mpr (ne_of_gt hnum)
    have hxab : x = (x.num.natAbs : ℚ) / (x.den : ℚ) := by
      have h2 : (x.num.natAbs : ℚ) = (x.num : ℚ) := by
        rw [Nat.cast_natAbs, abs_of_pos hnum]
      rw [h2, Rat.num_div_den]
    simp only [roundFloat64, roundFrac, ulpExponent, hx0, if_false, not_lt.mpr hnum.le]
    generalize x.num.natAbs = a at hapos hxab ⊢
    generalize x.den = b at hbpos hxab ⊢
    obtain ⟨la1, la2, la3⟩ := bitLen_spec a hapos
    obtain ⟨lb1, lb2, lb3⟩ := bitLen_spec b hbpos
    have haQ : (0 : ℚ) < a := by exact_mod_cast hapos
    have hbQ : (0 : ℚ) < b := by exact_mod_cast hbpos
    -- the exponent
    have hN : ∀ e : Int,
        e = (if b * 2 ^ ((bitLen a : Int) - (bitLen b : Int)).toNat
              ≤ a * 2 ^ (-((bitLen a : Int) - (bitLen b : Int))).toNat
            then (bitLen a : Int) - (bitLen b : Int) - 52
            else (bitLen a : Int) - (bitLen b : Int) - 53) →
        (2 : ℚ) ^ (52 : Int) * 2 ^ e ≤ x := by
      intro e he
      split_ifs at he with hT
      · -- 2^k ≤ a / b
        have hT1 : ((b * 2 ^ ((bitLen a : Int) - (bitLen b : Int)).toNat : Nat) : ℚ)
            ≤ ((a * 2 ^ (-((bitLen a : Int) - (bitLen b : Int))).toNat : Nat) : ℚ) := by
          exact_mod_cast hT
        push_cast at hT1
        have hk := two_pow_toNat_div ((bitLen a : Int) - (bitLen b : Int))
        have hpp : (0 : ℚ) < 2 ^ (-((bitLen a : Int) - (bitLen b : Int))).toNat := by positivity
        have h2k : (2 : ℚ) ^ ((bitLen a : Int) - (bitLen b : Int)) ≤ a / b := by
          rw [← hk, div_le_div_iff₀ hpp hbQ]
          linarith
        rw [he, ← zpow_add₀ (by norm_num : (2 : ℚ) ≠ 0), hxab]
        have : (52 : Int) + ((bitLen a : Int) - (bitLen b : Int) - 52)
            = (bitLen a : Int) - (bitLen b : Int) := by ring
        rw [this]; exact h2k
      · rw [he, ← zpow_add₀ (by norm_num : (2 : ℚ) ≠ 0), hxab]
        have : (52 : Int) + ((bitLen a : Int) - (bitLen b : Int) - 53)
            = ((bitLen a - 1 : Nat) : Int) - (bitLen b : Int) := by
          rw [Nat.cast_sub la1]; push_cast; ring
        rw [this, zpow_sub₀ (by norm_num : (2 : ℚ) ≠ 0), zpow_natCast, zpow_natCast]
        have h1 : ((2 ^ (bitLen a - 1) : Nat) : ℚ) ≤ (a : ℚ) := by exact_mod_cast la2
        have h2 : (b : ℚ) ≤ ((2 ^ bitLen b : Nat) : ℚ) := by exact_mod_cast lb3.le
        push_cast at h1 h2
        exact div_le_div₀ haQ.le h1 hbQ h2
    generalize (if b * 2 ^ ((bitLen a : Int) - (bitLen b : Int)).toNat
              ≤ a * 2 ^ (-((bitLen a : Int) - (bitLen b : Int))).toNat
            then (bitLen a : Int) - (bitLen b : Int) - 52
            else (bitLen a : Int) - (bitLen b : Int) - 53) = e at hN ⊢
    have hN := hN e rfl
    have hPpos : (0 : ℚ) < 2 ^ (-e).toNat := by positivity
    have hQpos : (0 : ℚ) < 2 ^ e.toNat := by positivity
    obtain ⟨n1, n2⟩ := roundHalfEven_near (a * 2 ^ (-e).toNat) (b * 2 ^ e.toNat)
      (Nat.mul_pos hbpos (by positivity))
    generalize roundHalfEven (a * 2 ^ (-e).toNat) (b * 2 ^ e.toNat) = m at n1 n2 ⊢
    have n1q : (2 : ℚ) * (b * 2 ^ e.toNat * m) ≤ 2 * (a * 2 ^ (-e).toNat) + b * 2 ^ e.toNat := by
      exact_mod_cast n1
    have n2q : (2 : ℚ) * (a * 2 ^ (-e).toNat) ≤ 2 * (b * 2 ^ e.toNat * m) + b * 2 ^ e.toNat := by
      exact_mod_cast n2
    have ht := two_pow_toNat_div e
    generalize (2 : ℚ) ^ (-e).toNat = P at hPpos n1q n2q ht ⊢
    generalize (2 : ℚ) ^ e.toNat = Q at hQpos n1q n2q ht ⊢
    have hte : (2 : ℚ) ^ e = Q / P := ht.symm
    rw [hte] at hN
    have key : (m : ℚ) * Q / P - x = (b * Q * m - a * P) / (b * P) := by
      rw [hxab]; field_simp; ring
    rw [key, abs_le]
    have hbP : (0 : ℚ) < b * P := mul_pos hbQ hPpos
    have hhalf : Q / P / 2 ≤ x / 2 ^ 53 := by
      have : (2 : ℚ) ^ (52 : Int) = 2 ^ 52 := by norm_num
      rw [this] at hN
      have e1 : x / 2 ^ 53 = x / 2 ^ 52 / 2 := by rw [div_div]; norm_num
      rw [e1]
      apply div_le_div_of_nonneg_right _ (by norm_num)
      rw [le_div_iff₀ (by positivity)]
      linarith
    constructor
    · rw [le_div_iff₀ hbP]
      have : -(x / 2 ^ 53) * (b * P) ≤ -(Q / P / 2) * (b * P) := by
        apply mul_le_mul_of_nonneg_right _ hbP.le
        linarith
      have e2 : -(Q / P / 2) * (b * P) = -(b * Q / 2) := by field_simp; ring
      linarith
    · rw [div_le_iff₀ hbP]
      have : (Q / P / 2) * (b * P) ≤ (x / 2 ^ 53) * (b * P) :=
        mul_le_mul_of_nonneg_right hhalf hbP.le
      have e2 : (Q / P / 2) * (b * P) = b * Q / 2 := by field_simp; ring
      linarith

theorem roundFloat64_bounds (x : ℚ) (hx : 0 ≤ x) :
    x * (1 - 1 / 2 ^ 53) ≤ roundFloat64 x ∧ roundFloat64 x ≤ x * (1 + 1 / 2 ^ 53) := by
  have h := abs_le.mp (roundFloat64_near x hx)
  constructor <;> linarith [h.1, h.2]

theorem roundFloat64_nonneg (x : ℚ) (hx : 0 ≤ x) : 0 ≤ roundFloat64 x := by
  have h := (roundFloat64_bounds x hx).1
  have : (0 : ℚ) ≤ x * (1 - 1 / 2 ^ 53) := mul_nonneg hx (by norm_num)
  linarith

theorem efficiency_chain (o k : Int) (ho : 0 ≤ o) (hk : 0 < k) :
    (100 * (o : ℚ) / k) * (1 - 5 / 2 ^ 53)
      ≤ float64Mul (float64Div (float64OfInt o) (float64OfInt k)) 100 ∧
    float64Mul (float64Div (float64OfInt o) (float64OfInt k)) 100
      ≤ (100 * (o : ℚ) / k) * (1 + 5 / 2 ^ 53) := by
  have hoQ : (0 : ℚ) ≤ o := by exact_mod_cast ho
  have hkQ : (0 : ℚ) < k := by exact_mod_cast hk
  unfold float64Mul float64Div float64OfInt
  obtain ⟨a1, a2⟩ := roundFloat64_bounds (o : ℚ) hoQ
  obtain ⟨k1, k2⟩ := roundFloat64_bounds (k : ℚ) hkQ.le
  have hA := roundFloat64_nonneg (o : ℚ) hoQ
  generalize roundFloat64 (o : ℚ) = A at a1 a2 hA ⊢
  generalize roundFloat64 (k : ℚ) = K at k1 k2 ⊢
  have hK : 0 < K := by
    have : (0 : ℚ) < k * (1 - 1 / 2 ^ 53) := mul_pos hkQ (by norm_num)
    linarith
  have hr : (0 : ℚ) ≤ o / k := div_nonneg hoQ hkQ.le
  have hok : (o : ℚ) / k * k = o := div_mul_cancel₀ _ (ne_of_gt hkQ)
  -- the quotient
  have r1 : (o : ℚ) / k * ((1 - 1 / 2 ^ 53) / (1 + 1 / 2 ^ 53)) ≤ A / K := by
    rw [le_div_iff₀ hK]
    have h1 : (o : ℚ) / k * ((1 - 1 / 2 ^ 53) / (1 + 1 / 2 ^ 53)) * K
        ≤ (o : ℚ) / k * ((1 - 1 / 2 ^ 53) / (1 + 1 / 2 ^ 53)) * (k * (1 + 1 / 2 ^ 53)) :=
      mul_le_mul_of_nonneg_left k2 (mul_nonneg hr (by norm_num))
    have h2 : (o : ℚ) / k * ((1 - 1 / 2 ^ 53) / (1 + 1 / 2 ^ 53)) * (k * (1 + 1 / 2 ^ 53))
        = ((o : ℚ) / k * k) * (1 - 1 / 2 ^ 53) := by
      field_simp
    rw [h2, hok] at h1
    linarith
  have r2 : A / K ≤ (o : ℚ) / k * ((1 + 1 / 2 ^ 53) / (1 - 1 / 2 ^ 53)) := by
    rw [div_le_iff₀ hK]
    have h1 : (o : ℚ) / k * ((1 + 1 / 2 ^ 53) / (1 - 1 / 2 ^ 53)) * (k * (1 - 1 / 2 ^ 53))
        ≤ (o : ℚ) / k * ((1 + 1 / 2 ^ 53) / (1 - 1 / 2 ^ 53)) * K :=
      mul_le_mul_of_nonneg_left k1 (mul_nonneg hr (by norm_num))
    have h2 : (o : ℚ) / k * ((1 + 1 / 2 ^ 53) / (1 - 1 / 2 ^ 53)) * (k * (1 - 1 / 2 ^ 53))
        = ((o : ℚ) / k * k) * (1 + 1 / 2 ^ 53) := by
      field_simp
    rw [h2, hok] at h1
    linarith
  have hR : (0 : ℚ) ≤ A / K := div_nonneg hA hK.le
  obtain ⟨q1, q2⟩ := roundFloat64_bounds (A / K) hR
  have hq := roundFloat64_nonneg (A / K) hR
  generalize roundFloat64 (A / K) = q at q1 q2 hq ⊢
  generalize A / K = R at r1 r2 hR q1 q2
  obtain ⟨e1, e2⟩ := roundFloat64_bounds (q * 100) (mul_nonneg hq (by norm_num))
  generalize roundFloat64 (q * 100) = E at e1 e2 ⊢
  have hX : 100 * (o : ℚ) / k = 100 * ((o : ℚ) / k) := by ring
  rw [hX]
  generalize (o : ℚ) / k = r at hr r1 r2 ⊢
  have c1 : r * ((1 - 1 / 2 ^ 53) / (1 + 1 / 2 ^ 53)) = ((1 - 1 / 2 ^ 53) / (1 + 1 / 2 ^ 53)) * r :=
    mul_comm _ _
  have c2 : r * ((1 + 1 / 2 ^ 53) / (1 - 1 / 2 ^ 53)) = ((1 + 1 / 2 ^ 53) / (1 - 1 / 2 ^ 53)) * r :=
    mul_comm _ _
  rw [c1] at r1
  rw [c2] at r2
  norm_num at r1 r2 q1 q2 e1 e2 ⊢
  constructor <;> linarith

theorem efficiencyOf_spec (o k : Int) (ho : 0 ≤ o) :
    0 ≤ efficiencyOf o k ∧ efficiencyOf o k ≤ 100 ∧ (k ≤ 0 → efficiencyOf o k = 0) ∧
    (0 < k → |efficiencyOf o k - min 100 (100 * (o : ℚ) / k)| ≤ 1 / 2 ^ 44) := by
  unfold efficiencyOf
  by_cases hk : k > 0
  · obtain ⟨b1, b2⟩ := efficiency_chain o k ho hk
    have hX : (0 : ℚ) ≤ 100 * (o : ℚ) / k := by
      have h1 : (0 : ℚ) ≤ o := by exact_mod_cast ho
      have h2 : (0 : ℚ) < k := by exact_mod_cast hk
      positivity
    simp only [hk, if_true]
    generalize float64Mul (float64Div (float64OfInt o) (float64OfInt k)) 100 = E at b1 b2 ⊢
    generalize 100 * (o : ℚ) / k = X at b1 b2 hX ⊢
    norm_num at b1 b2
    refine ⟨?_, ?_, fun h => absurd hk (by omega), fun _ => ?_⟩
    · split_ifs
      · norm_num
      · linarith
    · split_ifs with h
      · norm_num
      · linarith
    · rw [abs_le]
      rcases le_total 100 X with hc | hc
      · rw [min_eq_left hc]
        split_ifs with h
        · norm_num
        · constructor <;> norm_num <;> linarith
      · rw [min_eq_right hc]
        split_ifs with h
        · constructor <;> norm_num <;> linarith
        · constructor <;> norm_num <;> linarith
  · rw [if_neg hk]
    exact ⟨le_refl _, by norm_num, fun _ => rfl, fun h => absurd h hk⟩

/-- Claim C28, amended: for a session whose current task has `optimal_count ≥ 0`,
`CompleteTask` returns a result whose efficiency lies in `[0, 100]`, is 0 when
`keystrokes ≤ 0`, and for `keystrokes > 0` differs from
`min(100, 100 * optimal_count / keystrokes)` by at most `2^-44`: the code computes
`float64(optimal_count) / float64(keystrokes) * 100` with a rounding after each step. -/
theorem CompleteTask_efficiency_bounded_and_near_formula (s : Session) (now : Time)
    (task : Task) (ht : s.CurrentTask = some task) (ho : 0 ≤ task.OptimalCount) :
    ∃ r, (s.CompleteTask now).2 = some r ∧ 0 ≤ r.Efficiency ∧ r.Efficiency ≤ 100 ∧
      (s.keystrokes ≤ 0 → r.Efficiency = 0) ∧
      (0 < s.keystrokes →
        |r.Efficiency - min 100 (100 * (task.OptimalCount : ℚ) / s.keystrokes)|
          ≤ 1 / 2 ^ 44) := by
  unfold Session.CompleteTask
  rw [ht]
  exact ⟨_, rfl, efficiencyOf_spec task.OptimalCount s.keystrokes ho⟩

theorem roundFloat64_eval (x : ℚ) (a b : Nat) (e : Int) (p q m : Nat) (hx : x = (a : ℚ) / b)
    (ha : 0 < a) (hb : 0 < b) (hc : Nat.Coprime a b) (he : ulpExponent a b = e)
    (hp : (-e).toNat = p) (hq : e.toNat = q) (hm : roundHalfEven (a * 2 ^ p) (b * 2 ^ q) = m) :
    roundFloat64 x = (m : ℚ) * 2 ^ q / 2 ^ p := by
  have hbZ : (0 : Int) < (b : Int) := by exact_mod_cast hb
  have hcop : Nat.Coprime (a : Int).natAbs (b : Int).natAbs := by simpa using hc
  have hnum : x.num = (a : Int) := by
    have := Rat.num_div_eq_of_coprime hbZ hcop
    rw [hx]; simpa using this
  have hden : x.den = b := by
    have := Rat.den_div_eq_of_coprime hbZ hcop
    rw [hx]
    have h2 : (((a : Int) : ℚ) / ((b : Int) : ℚ)).den = b := by exact_mod_cast this
    simpa using h2
  have hx0 : x ≠ 0 := by
    rw [hx]
    have h1 : (0 : ℚ) < a := by exact_mod_cast ha
    have h2 : (0 : ℚ) < b := by exact_mod_cast hb
    exact ne_of_gt (div_pos h1 h2)
  unfold roundFloat64
  rw [if_neg hx0, hnum, hden, if_neg (by omega)]
  simp only [Int.natAbs_ofNat, roundFrac, he, hp, hq, hm]

set_option maxRecDepth 100000 in
/-- Claim C28 as stated fails: on the task `insert-o-001` (`optimal_count` 11), after 20
keys `l`, `CompleteTask` gives 20 keystrokes and the efficiency `55 + 2^-47` (printed
55.00000000000001), not `min(100, 100 * 11 / 20) = 55`; the quotient `11 / 20` is rounded
before it is multiplied by 100. -/
theorem efficiency_of_11_over_20_is_not_55 :
    ((sessionOn [taskInsertO]).ProcessKeys asciiTables (List.replicate 20 (str "l"))).map
        (fun s => (s.CompleteTask 0).2.map
          (fun r => (r.Keystrokes, r.OptimalKeystrokes, r.Efficiency)))
      = some (some (20, 11, 55 + 1 / 2 ^ 47)) ∧
    min (100 : ℚ) (100 * ((11 : Int) : ℚ) / ((20 : Int) : ℚ)) = 55 := by
  have h11 : float64OfInt 11 = 11 := by
    have := roundFloat64_eval (((11 : Int) : ℚ)) 11 1 (-49) 49 0 (11 * 2 ^ 49) (by norm_num)
      (by decide) (by decide) (by decide) (by decide) (by decide) (by decide) (by decide)
    rw [float64OfInt, this]; norm_num
  have h20 : float64OfInt 20 = 20 := by
    have := roundFloat64_eval (((20 : Int) : ℚ)) 20 1 (-48) 48 0 (20 * 2 ^ 48) (by norm_num)
      (by decide) (by decide) (by decide) (by decide) (by decide) (by decide) (by decide)
    rw [float64OfInt, this]; norm_num
  have hdiv : float64Div 11 20 = 2476979795053773 / 2 ^ 52 := by
    have := roundFloat64_eval ((11 : ℚ) / 20) 11 20 (-53) 53 0 4953959590107546 (by norm_num)
      (by decide) (by decide) (by decide) (by decide) (by decide) (by decide) (by decide)
    rw [float64Div, this]; norm_num
  have hmul : float64Mul (2476979795053773 / 2 ^ 52) 100 = 55 + 1 / 2 ^ 47 := by
    have := roundFloat64_eval ((2476979795053773 / 2 ^ 52 : ℚ) * 100) 61924494876344325
      1125899906842624 (-47) 47 0 7740561859543041 (by norm_num)
      (by decide) (by decide) (by decide) (by decide) (by decide) (by decide) (by decide)
    rw [float64Mul, this]; norm_num
  have heff : efficiencyOf 11 20 = 55 + 1 / 2 ^ 47 := by
    unfold efficiencyOf
    rw [if_pos (by decide), h11, h20, hdiv, hmul]
    norm_num
  have hrun : ((sessionOn [taskInsertO]).ProcessKeys asciiTables
        (List.replicate 20 (str "l"))).map (fun s => (s.CurrentTask, s.keystrokes))
      = some (some taskInsertO, 20) := by
    decide
  constructor
  · cases hX : (sessionOn [taskInsertO]).ProcessKeys asciiTables (List.replicate 20 (str "l")) with
    | none => rw [hX] at hrun; cases hrun
    | some s =>
      rw [hX] at hrun
      simp only [Option.map_some', Option.some.injEq, Prod.mk.injEq] at hrun
      obtain ⟨h1, h2⟩ := hrun
      simp only [Option.map_some', Session.CompleteTask, h1, h2, Option.some.injEq,
        Prod.mk.injEq, true_and]
      exact ⟨rfl, heff⟩
  · norm_num

/-- Claim C28, amended, on the task `insert-o-001` with 20 keystrokes counted: the result
has an efficiency in `[0, 100]` within `2^-44` of `min(100, 100 * 11 / 20)`. -/
theorem CompleteTask_efficiency_on_insert_o_task :
    ∃ r, (({ sessionOn [taskInsertO] with keystrokes := 20 } : Session).CompleteTask 0).2
        = some r ∧
      0 ≤ r.Efficiency ∧ r.Efficiency ≤ 100 ∧
      (({ sessionOn [taskInsertO] with keystrokes := 20 } : Session).keystrokes ≤ 0 →
        r.Efficiency = 0) ∧
      (0 < ({ sessionOn [taskInsertO] with keystrokes := 20 } : Session).keystrokes →
        |r.Efficiency - min 100 (100 * (taskInsertO.OptimalCount : ℚ) /
            ({ sessionOn [taskInsertO] with keystrokes := 20 } : Session).keystrokes)|
          ≤ 1 / 2 ^ 44) :=
  CompleteTask_efficiency_bounded_and_near_formula
    ({ sessionOn [taskInsertO] with keystrokes := 20 } : Session) 0 taskInsertO
    (by decide) (by decide)

/-! ### Bracket text objects on nested brackets -/

theorem bracketCount_nil (op cl : Rune) : bracketCount op cl [] = 0 := by
  simp [bracketCount]

theorem bracketCount_cons (op cl r : Rune) (u : List Rune) :
    bracketCount op cl (r :: u)
      = (if r = op then 1 else 0) - (if r = cl then 1 else 0) + bracketCount op cl u := by
  unfold bracketCount
  simp only [List.count_cons, beq_iff_eq]
  split_ifs <;> push_cast <;> ring

theorem bracketCount_append (op cl : Rune) (u v : List Rune) :
    bracketCount op cl (u ++ v) = bracketCount op cl u + bracketCount op cl v := by
  unfold bracketCount
  simp only [List.count_append]
  push_cast; ring

theorem bracketCount_reverse (op cl : Rune) (u : List Rune) :
    bracketCount op cl u.reverse = bracketCount op cl u := by
  unfold bracketCount
  simp only [List.count_reverse]

theorem findCloseLoop_segment (op cl : Rune) (hne : op ≠ cl) (w rest : List Rune) :
    ∀ (i d : Int), (∀ n, n ≤ w.length → 1 ≤ d + bracketCount op cl (w.take n)) →
      d + bracketCount op cl w = 1 →
      findCloseLoop op cl (w ++ cl :: rest) i d = some (i + w.length) := by
  induction w with
  | nil =>
    intro i d _ hd
    have hd1 : d = 1 := by simpa [bracketCount_nil] using hd
    simp [findCloseLoop, Ne.symm hne, hd1]
  | cons r w ih =>
    intro i d hp hd
    have hstep : ∀ d1 : Int,
        d1 = d + ((if r = op then 1 else 0) - (if r = cl then 1 else 0)) →
        findCloseLoop op cl (w ++ cl :: rest) (i + 1) d1 = some (i + 1 + w.length) := by
      intro d1 hd1
      apply ih
      · intro n hn
        have := hp (n + 1) (by simp; omega)
        rw [List.take_succ_cons, bracketCount_cons] at this
        omega
      · rw [bracketCount_cons] at hd
        omega
    have hlen : (i : Int) + ((r :: w).length : Nat) = i + 1 + w.length := by
      simp only [List.length_cons]; push_cast; ring
    rw [hlen]
    simp only [List.cons_append, findCloseLoop]
    by_cases h1 : r = op
    · rw [if_pos h1]
      exact hstep _ (by rw [if_pos h1, if_neg (by rw [h1]; exact hne)]; ring)
    · rw [if_neg h1]
      by_cases h2 : r = cl
      · rw [if_pos h2]
        have h3 := hp 1 (by simp)
        rw [List.take_succ_cons, List.take_zero, bracketCount_cons, bracketCount_nil, if_neg h1,
          if_pos h2] at h3
        rw [if_neg (by omega)]
        exact hstep _ (by rw [if_neg h1, if_pos h2]; ring)
      · rw [if_neg h2]
        exact hstep _ (by rw [if_neg h1, if_neg h2]; ring)

theorem findOpenLoop_segment (op cl : Rune) (hne : op ≠ cl) (pre : List Rune) (v : List Rune) :
    ∀ (rest : List Rune) (d : Int),
      (∀ n, n ≤ v.length → bracketCount op cl (v.take n) ≤ d) →
      bracketCount op cl v = d →
      findOpenLoop (pre ++ op :: (v.reverse ++ rest)) op cl (pre.length + v.length + 1)
        ((pre.length : Int) + v.length) d = some (some (pre.length : Int)) := by
  induction v with
  | nil =>
    intro rest d _ hd
    have hd0 : d = 0 := by rw [← hd, bracketCount_nil]
    have hi : (0 : Int) ≤ (pre.length : Int) := by omega
    simp only [List.length_nil, Nat.add_zero, Nat.cast_zero, add_zero, findOpenLoop,
      List.reverse_nil, List.nil_append, ge_iff_le, hi, if_true, idx?_append, hne, if_false,
      hd0]
  | cons r v ih =>
    intro rest d hp hd
    have ht : pre ++ op :: ((r :: v).reverse ++ rest)
        = (pre ++ op :: v.reverse) ++ r :: rest := by
      simp [List.reverse_cons, List.append_assoc]
    have ht2 : pre ++ op :: ((r :: v).reverse ++ rest)
        = pre ++ op :: (v.reverse ++ (r :: rest)) := by
      simp [List.reverse_cons, List.append_assoc]
    have hidx : idx? (pre ++ op :: ((r :: v).reverse ++ rest))
        ((pre.length : Int) + ((r :: v).length : Nat)) = some r := by
      rw [ht]
      have := idx?_append (pre ++ op :: v.reverse) r rest
      have hl : (((pre ++ op :: v.reverse).length : Nat) : Int)
          = (pre.length : Int) + ((r :: v).length : Nat) := by
        simp only [List.length_append, List.length_cons, List.length_reverse]; push_cast; ring
      rw [hl] at this
      exact this
    have hstep : ∀ d1 : Int,
        d1 = d - ((if r = op then 1 else 0) - (if r = cl then 1 else 0)) →
        findOpenLoop (pre ++ op :: ((r :: v).reverse ++ rest)) op cl (pre.length + v.length + 1)
          ((pre.length : Int) + ((r :: v).length : Nat) - 1) d1
          = some (some (pre.length : Int)) := by
      intro d1 hd1
      have hi : (pre.length : Int) + ((r :: v).length : Nat) - 1 = (pre.length : Int) + v.length := by
        simp only [List.length_cons]; push_cast; ring
      rw [hi, ht2]
      apply ih
      · intro n hn
        have := hp (n + 1) (by simp; omega)
        rw [List.take_succ_cons, bracketCount_cons] at this
        omega
      · rw [bracketCount_cons] at hd
        omega
    have hfuel : pre.length + (r :: v).length + 1 = (pre.length + v.length + 1) + 1 := by
      simp only [List.length_cons]; omega
    have hi0 : (pre.length : Int) + ((r :: v).length : Nat) ≥ 0 := by omega
    rw [hfuel]
    conv_lhs => unfold findOpenLoop
    simp only [hi0, if_true, hidx]
    by_cases h1 : r = cl
    · rw [if_pos h1]
      exact hstep _ (by rw [if_neg (by rw [h1]; exact Ne.symm hne), if_pos h1]; ring)
    · rw [if_neg h1]
      by_cases h2 : r = op
      · rw [if_pos h2]
        have h3 := hp 1 (by simp)
        rw [List.take_succ_cons, List.take_zero, bracketCount_cons, bracketCount_nil, if_pos h2,
          if_neg h1] at h3
        rw [if_neg (by omega)]
        exact hstep _ (by rw [if_pos h2, if_neg h1]; ring)
      · rw [if_neg h2]
        exact hstep _ (by rw [if_neg h2, if_neg h1]; ring)

theorem balanced_take (op cl : Rune) (u : List Rune) (h : Balanced op cl u) (n : Nat) :
    0 ≤ bracketCount op cl (u.take n) := by
  rcases Nat.le_total n u.length with hn | hn
  · exact h.2 n hn
  · rw [List.take_of_length_le hn, h.1]

theorem balanced_reverse_take (op cl : Rune) (u : List Rune) (h : Balanced op cl u) (n : Nat) :
    bracketCount op cl (u.reverse.take n) ≤ 0 := by
  have h1 := bracketCount_append op cl (u.take (u.length - n)) (u.drop (u.length - n))
  rw [List.take_append_drop, h.1] at h1
  have h2 := balanced_take op cl u h (u.length - n)
  rw [List.take_reverse, bracketCount_reverse]
  omega

theorem SetCursorIndex_single_line (b : Buffer) (l : GoString) (i : Int) (hl : b.lines = [l])
    (h0 : 0 ≤ i) (hi : i < runeCount l) :
    b.SetCursorIndex i = { b with cursorX := i, cursorY := 0 } := by
  have hloop : setCursorIndexLoop i b.lines 0 0 = some (i, 0) := by
    rw [hl]
    simp only [setCursorIndexLoop]
    rw [if_pos (by omega)]
    simp
  unfold Buffer.SetCursorIndex
  rw [hloop]
  apply clampCursor_of_valid
  · show (0 : Int) ≤ 0; omega
  · show (0 : Int) < (b.lines.length : Int); rw [hl]; simp
  · exact h0
  · show i ≤ (runeCount (b.lines.getD (0 : Int).toNat []) : Int)
    rw [hl]; simp; omega
  · intro _ _
    show i < (runeCount (b.lines.getD (0 : Int).toNat []) : Int)
    rw [hl]; simp; omega

theorem handleBracketObject_d_nested (e : Engine) (l : GoString) (pre u v post : List Rune)
    (c op cl : Rune) (inner : Bool) (rest : GoString) (hne : op ≠ cl)
    (hl : e.buffer.lines = [l]) (hvl : ValidUTF8 l)
    (ht : toRunes l = pre ++ op :: (u ++ c :: v) ++ cl :: post)
    (hc1 : c ≠ op) (hc2 : c ≠ cl) (hu : Balanced op cl u) (hv : Balanced op cl v)
    (hy : e.buffer.cursorY = 0) (hx : e.buffer.cursorX = (pre.length : Int) + 1 + u.length) :
    ∃ e1, e.handleBracketObject (str "d") op cl inner rest = some (e1, true, rest) ∧
      e1.Text = fromRunes (if inner then pre ++ [op, cl] ++ post else pre ++ post) ∧
      e1.buffer.mode = e.buffer.mode := by
  have hText : e.buffer.Text = l := by
    simp [Buffer.Text, hl, stringsJoin]
  have hCI : e.buffer.CursorIndex = (pre.length : Int) + 1 + u.length := by
    simp [Buffer.CursorIndex, hy, hx, lineOffset_zero]
  have hbc : bracketCount op cl [c] = 0 := by
    rw [bracketCount_cons, bracketCount_nil, if_neg hc1, if_neg hc2]; ring
  have hopen : findOpenLoop (toRunes l) op cl ((pre.length : Int) + 1 + u.length + 1).toNat
      ((pre.length : Int) + 1 + u.length) 0 = some (some (pre.length : Int)) := by
    have h1 := findOpenLoop_segment op cl hne pre (c :: u.reverse) (v ++ cl :: post) 0
      (by
        intro n _
        cases n with
        | zero => simp [bracketCount_nil]
        | succ m =>
          rw [List.take_succ_cons, bracketCount_cons, if_neg hc1, if_neg hc2]
          have := balanced_reverse_take op cl u hu m
          omega)
      (by
        rw [bracketCount_cons, if_neg hc1, if_neg hc2, bracketCount_reverse, hu.1]; ring)
    have e1 : pre ++ op :: ((c :: u.reverse).reverse ++ (v ++ cl :: post)) = toRunes l := by
      rw [ht]; simp [List.append_assoc]
    have e2 : ((pre.length : Int) + 1 + u.length + 1).toNat
        = pre.length + (c :: u.reverse).length + 1 := by
      simp only [List.length_cons, List.length_reverse]; omega
    have e3 : (pre.length : Int) + 1 + u.length
        = (pre.length : Int) + ((c :: u.reverse).length : Nat) := by
      simp only [List.length_cons, List.length_reverse]; push_cast; ring
    rw [e1] at h1
    rw [e2, e3]
    exact h1
  have hclose : findCloseLoop op cl ((toRunes l).drop ((pre.length : Int) + 1).toNat)
      ((pre.length : Int) + 1) 1
      = some ((pre.length : Int) + 1 + ((u ++ c :: v).length : Nat)) := by
    have h1 := findCloseLoop_segment op cl hne (u ++ c :: v) post ((pre.length : Int) + 1) 1
      (by
        intro n _
        rw [List.take_append_eq_append_take, bracketCount_append]
        have a1 := balanced_take op cl u hu n
        have a2 : 0 ≤ bracketCount op cl ((c :: v).take (n - u.length)) := by
          cases (n - u.length) with
          | zero => simp [bracketCount_nil]
          | succ m =>
            rw [List.take_succ_cons, bracketCount_cons, if_neg hc1, if_neg hc2]
            have := balanced_take op cl v hv m
            omega
        omega)
      (by
        rw [bracketCount_append, bracketCount_cons, if_neg hc1, if_neg hc2, hu.1, hv.1]; ring)
    have e1 : (toRunes l).drop ((pre.length : Int) + 1).toNat = (u ++ c :: v) ++ cl :: post := by
      rw [ht]
      have : ((pre.length : Int) + 1).toNat = (pre ++ [op]).length := by simp
      rw [this]
      have : pre ++ op :: (u ++ c :: v) ++ cl :: post
          = (pre ++ [op]) ++ ((u ++ c :: v) ++ cl :: post) := by simp [List.append_assoc]
      rw [this, List.drop_left]
    rw [e1]
    exact h1
  have hsave : e.saveUndo.buffer = e.buffer := rfl
  have hlen : (runeCount l : Int)
      = (pre.length : Int) + 1 + ((u ++ c :: v).length : Nat) + 1 + post.length := by
    simp only [runeCount, ht, List.length_append, List.length_cons]; push_cast; ring
  have hw : ((u ++ c :: v).length : Int) = (u.length : Int) + 1 + v.length := by
    simp only [List.length_append, List.length_cons]; push_cast; ring
  -- the deletion from `start` of `n` characters
  have hdel : ∀ (start n : Int), 0 ≤ start → 0 < n → start + n ≤ runeCount l →
      ∃ r, (e.saveUndo.setBuf (e.saveUndo.buffer.SetCursorIndex start)).buffer.Delete n
          = some r ∧
        r.2.Text = fromRunes ((toRunes l).take start.toNat ++ (toRunes l).drop (start + n).toNat) ∧
        r.2.mode = e.buffer.mode := by
    intro start n hs hn hsn
    have hset := SetCursorIndex_single_line e.buffer l start hl hs (by omega)
    have hb : (e.saveUndo.setBuf (e.saveUndo.buffer.SetCursorIndex start)).buffer
        = { e.buffer with cursorX := start, cursorY := 0 } := by
      show e.saveUndo.buffer.SetCursorIndex start = _
      rw [hsave, hset]
    rw [hb]
    have hcur : ({ e.buffer with cursorX := start, cursorY := 0 } : Buffer).CurrentLine = l := by
      simp [Buffer.CurrentLine, hl]
    have hT : ({ e.buffer with cursorX := start, cursorY := 0 } : Buffer).Text = l := by
      simp [Buffer.Text, hl, stringsJoin]
    have hC : ({ e.buffer with cursorX := start, cursorY := 0 } : Buffer).CursorIndex = start := by
      simp [Buffer.CursorIndex, lineOffset_zero]
    obtain ⟨del, b1, h1, -, h3, h4, -, h6, -⟩ :=
      Delete_spec ({ e.buffer with cursorX := start, cursorY := 0 } : Buffer) n
        (by show (0 : Int) ≤ 0; omega)
        (by show (0 : Int) < (e.buffer.lines.length : Int); rw [hl]; simp)
        hs (by rw [hcur]; show start ≤ _; omega)
        (by show ValidLines e.buffer.lines; rw [hl]; intro x hx; simp at hx; rw [hx]; exact hvl)
        hn (Or.inr (by rw [hcur]; show start + n ≤ _; omega))
    refine ⟨(del, b1), h1, ?_, h6⟩
    have hv1 := validUTF8_text b1 h4
    rw [hT, hC] at h3
    have e0 : start.toNat + n.toNat = (start + n).toNat := by omega
    rw [e0] at h3
    show b1.Text = _
    rw [← h3]
    exact hv1.symm
  unfold Engine.handleBracketObject
  simp only [hText, hCI, hopen, hclose, Option.bind_eq_bind, Option.some_bind, if_true]
  cases inner with
  | true =>
    simp only [if_true]
    obtain ⟨r, hr, hrT, hrm⟩ := hdel ((pre.length : Int) + 1)
      ((pre.length : Int) + 1 + ((u ++ c :: v).length : Nat) - ((pre.length : Int) + 1))
      (by omega) (by omega) (by omega)
    rw [if_neg (by omega), hr]
    refine ⟨_, rfl, ?_, hrm⟩
    show r.2.Text = _
    rw [hrT, ht]
    congr 1
    have t1 : ((pre.length : Int) + 1).toNat = (pre ++ [op]).length := by simp
    have t2 : ((pre.length : Int) + 1 + (((pre.length : Int) + 1 + ((u ++ c :: v).length : Nat))
        - ((pre.length : Int) + 1))).toNat = (pre ++ [op] ++ (u ++ c :: v)).length := by
      simp only [List.length_append, List.length_cons, List.length_nil]; omega
    have t3 : pre ++ op :: (u ++ c :: v) ++ cl :: post
        = (pre ++ [op]) ++ ((u ++ c :: v) ++ cl :: post) := by simp [List.append_assoc]
    have t4 : pre ++ op :: (u ++ c :: v) ++ cl :: post
        = (pre ++ [op] ++ (u ++ c :: v)) ++ (cl :: post) := by simp [List.append_assoc]
    rw [t1, t2]
    conv_lhs => arg 1; rw [t3, List.take_left]
    conv_lhs => arg 2; rw [t4, List.drop_left]
    simp [List.append_assoc]
  | false =>
    simp only [Bool.false_eq_true, if_false]
    obtain ⟨r, hr, hrT, hrm⟩ := hdel (pre.length : Int)
      ((pre.length : Int) + 1 + ((u ++ c :: v).length : Nat) + 1 - (pre.length : Int))
      (by omega) (by omega) (by omega)
    rw [if_neg (by omega), hr]
    refine ⟨_, rfl, ?_, hrm⟩
    show r.2.Text = _
    rw [hrT, ht]
    congr 1
    have t2 : ((pre.length : Int) + (((pre.length : Int) + 1 + ((u ++ c :: v).length : Nat) + 1)
        - (pre.length : Int))).toNat = (pre ++ [op] ++ (u ++ c :: v) ++ [cl]).length := by
      simp only [List.length_append, List.length_cons, List.length_nil]; omega
    have t3 : pre ++ op :: (u ++ c :: v) ++ cl :: post
        = pre ++ (op :: (u ++ c :: v) ++ cl :: post) := by simp [List.append_assoc]
    have t4 : pre ++ op :: (u ++ c :: v) ++ cl :: post
        = (pre ++ [op] ++ (u ++ c :: v) ++ [cl]) ++ post := by simp [List.append_assoc]
    rw [Int.toNat_ofNat, t2]
    conv_lhs => arg 1; rw [t3, List.take_left]
    conv_lhs => arg 2; rw [t4, List.drop_left]

theorem handleNormalMode_di_paren (U : UnicodeTables) (e : Engine) :
    e.handleNormalMode U (str "di(") = e.handleBracketObject (str "d") 0x28 0x29 true [] := by
  rfl

theorem handleNormalMode_da_paren (U : UnicodeTables) (e : Engine) :
    e.handleNormalMode U (str "da(") = e.handleBracketObject (str "d") 0x28 0x29 false [] := by
  rfl

theorem bracket_object_between_balanced (U : UnicodeTables) (e : Engine) (l : GoString)
    (pre u v post : List Rune) (c : Rune)
    (hmode : e.buffer.mode = Mode.normal) (hp : e.pendingKeys = [])
    (hl : e.buffer.lines = [l]) (hvl : ValidUTF8 l)
    (ht : toRunes l = pre ++ 0x28 :: (u ++ c :: v) ++ 0x29 :: post)
    (hc : c ≠ 0x28 ∧ c ≠ 0x29) (hu : Balanced 0x28 0x29 u) (hv : Balanced 0x28 0x29 v)
    (hy : e.buffer.cursorY = 0) (hx : e.buffer.cursorX = (pre.length : Int) + 1 + u.length) :
    (∃ e1 c1, e.ProcessKey U (str "di(") = some (e1, c1) ∧
      e1.Text = fromRunes (pre ++ [0x28, 0x29] ++ post)) ∧
    (∃ e2 c2, e.ProcessKey U (str "da(") = some (e2, c2) ∧
      e2.Text = fromRunes (pre ++ post)) := by
  have hk1 : e.pendingKeys ++ str "di(" ≠ [] := by rw [hp]; decide
  have hk2 : e.pendingKeys ++ str "da(" ≠ [] := by rw [hp]; decide
  constructor
  · obtain ⟨e1, h1, h2, -⟩ := handleBracketObject_d_nested
      ({ e with pendingKeys := str "di(" } : Engine) l pre u v post c 0x28 0x29 true []
      (by decide) hl hvl ht hc.1 hc.2 hu hv hy hx
    rw [ProcessKey_normal U e _ hmode hk1, hp, List.nil_append, handleNormalMode_di_paren, h1]
    exact ⟨_, _, rfl, h2⟩
  · obtain ⟨e1, h1, h2, -⟩ := handleBracketObject_d_nested
      ({ e with pendingKeys := str "da(" } : Engine) l pre u v post c 0x28 0x29 false []
      (by decide) hl hvl ht hc.1 hc.2 hu hv hy hx
    rw [ProcessKey_normal U e _ hmode hk2, hp, List.nil_append, handleNormalMode_da_paren, h1]
    exact ⟨_, _, rfl, h2⟩

theorem bracketCount_take_succ (op cl : Rune) (m : List Rune) (n : Nat) (r : Rune)
    (h : m[n]? = some r) :
    bracketCount op cl (m.take (n + 1))
      = bracketCount op cl (m.take n)
        + ((if r = op then 1 else 0) - (if r = cl then 1 else 0)) := by
  rw [List.take_succ, h, bracketCount_append]
  simp only [Option.toList, bracketCount_cons, bracketCount_nil]
  ring

theorem bracketCount_take_step (op cl : Rune) (hne : op ≠ cl) (m : List Rune) (n : Nat) :
    (bracketCount op cl (m.take (n + 1)) = bracketCount op cl (m.take n) + 1 ∧
      m[n]? = some op) ∨
    (bracketCount op cl (m.take (n + 1)) = bracketCount op cl (m.take n) - 1 ∧
      m[n]? = some cl) ∨
    bracketCount op cl (m.take (n + 1)) = bracketCount op cl (m.take n) := by
  cases h : m[n]? with
  | none =>
    right; right
    rw [List.take_succ, h]; simp
  | some r =>
    rw [bracketCount_take_succ op cl m n r h]
    by_cases h1 : r = op
    · left
      rw [if_pos h1, if_neg (by rw [h1]; exact hne), h1]
      exact ⟨by ring, rfl⟩
    · by_cases h2 : r = cl
      · right; left
        rw [if_neg h1, if_pos h2, h2]
        exact ⟨by ring, rfl⟩
      · right; right
        rw [if_neg h1, if_neg h2]; ring

theorem bracketCount_take_drop (op cl : Rune) (m : List Rune) (a n : Nat) :
    bracketCount op cl ((m.drop a).take n)
      = bracketCount op cl (m.take (a + n)) - bracketCount op cl (m.take a) := by
  have h : m.take (a + n) = m.take a ++ (m.drop a).take n := by
    rw [List.take_add]
  rw [h, bracketCount_append]
  ring

theorem inner_pair_of_positive_depth (op cl : Rune) (hne : op ≠ cl) (m : List Rune) (p : Nat)
    (c : Rune) (hm : Balanced op cl m) (hp : m[p]? = some c) (hc1 : c ≠ op) (hc2 : c ≠ cl)
    (hD : 0 < bracketCount op cl (m.take p)) :
    ∃ q r, q < p ∧ p < r ∧ m[q]? = some op ∧ m[r]? = some cl ∧
      Balanced op cl ((m.take r).drop (q + 1)) := by
  have hplt : p < m.length := by
    by_contra h
    rw [List.getElem?_eq_none (by omega)] at hp
    cases hp
  -- the last index before `p` below the depth of `p`
  have hP0 : bracketCount op cl (m.take 0) < bracketCount op cl (m.take p) := by
    simpa [bracketCount_nil] using hD
  have hq := Nat.findGreatest_spec
    (P := fun n => bracketCount op cl (m.take n) < bracketCount op cl (m.take p))
    (Nat.zero_le p) hP0
  have hqle := Nat.findGreatest_le
    (P := fun n => bracketCount op cl (m.take n) < bracketCount op cl (m.take p)) p
  have hqmax : ∀ n, Nat.findGreatest
      (fun n => bracketCount op cl (m.take n) < bracketCount op cl (m.take p)) p < n → n ≤ p →
      bracketCount op cl (m.take p) ≤ bracketCount op cl (m.take n) := by
    intro n h1 h2
    have := Nat.findGreatest_is_greatest h1 h2
    simpa using this
  generalize Nat.findGreatest
    (fun n => bracketCount op cl (m.take n) < bracketCount op cl (m.take p)) p = q
    at hq hqle hqmax
  have hqlt : q < p := by
    rcases Nat.lt_or_ge q p with h | h
    · exact h
    · have : q = p := by omega
      rw [this] at hq
      exact absurd hq (lt_irrefl _)
  have hq1 := hqmax (q + 1) (by omega) (by omega)
  have hqstep : bracketCount op cl (m.take (q + 1)) = bracketCount op cl (m.take p) ∧
      m[q]? = some op := by
    rcases bracketCount_take_step op cl hne m q with ⟨h1, h2⟩ | ⟨h1, -⟩ | h1
    · exact ⟨by omega, h2⟩
    · omega
    · omega
  -- the first index after `p` below the depth of `p`
  have hpstep : bracketCount op cl (m.take (p + 1)) = bracketCount op cl (m.take p) := by
    rw [bracketCount_take_succ op cl m p c hp, if_neg hc1, if_neg hc2]; ring
  have hex : ∃ n, p < n ∧ bracketCount op cl (m.take n) < bracketCount op cl (m.take p) :=
    ⟨m.length, hplt, by rw [List.take_length, hm.1]; exact hD⟩
  have hn0 := Nat.find_spec hex
  have hn0min : ∀ n, n < Nat.find hex → p < n →
      bracketCount op cl (m.take p) ≤ bracketCount op cl (m.take n) := by
    intro n h1 h2
    have := Nat.find_min hex h1
    simp only [not_and, not_lt] at this
    exact this h2
  generalize Nat.find hex = n0 at hn0 hn0min
  have hn2 : p + 2 ≤ n0 := by
    by_contra h
    have : n0 = p + 1 := by omega
    rw [this, hpstep] at hn0
    exact absurd hn0.2 (lt_irrefl _)
  have hr1 := hn0min (n0 - 1) (by omega) (by omega)
  have hrstep : bracketCount op cl (m.take (n0 - 1)) = bracketCount op cl (m.take p) ∧
      m[n0 - 1]? = some cl := by
    have e : n0 - 1 + 1 = n0 := by omega
    rcases bracketCount_take_step op cl hne m (n0 - 1) with ⟨h1, -⟩ | ⟨h1, h2⟩ | h1
    · rw [e] at h1; omega
    · rw [e] at h1; exact ⟨by omega, h2⟩
    · rw [e] at h1; omega
  have hmid : ∀ n, q < n → n ≤ n0 - 1 →
      bracketCount op cl (m.take p) ≤ bracketCount op cl (m.take n) := by
    intro n h1 h2
    rcases Nat.lt_or_ge p n with h | h
    · exact hn0min n (by omega) h
    · exact hqmax n h1 h
  refine ⟨q, n0 - 1, hqlt, by omega, hqstep.2, hrstep.2, ?_, ?_⟩
  · have h := bracketCount_take_drop op cl (m.take (n0 - 1)) (q + 1) (n0 - 1 - (q + 1))
    have e1 : ((m.take (n0 - 1)).drop (q + 1)).take (n0 - 1 - (q + 1))
        = (m.take (n0 - 1)).drop (q + 1) := by
      apply List.take_of_length_le
      simp only [List.length_drop, List.length_take]; omega
    have e2 : (m.take (n0 - 1)).take (q + 1 + (n0 - 1 - (q + 1))) = m.take (n0 - 1) := by
      rw [List.take_take]; congr 1; omega
    have e3 : (m.take (n0 - 1)).take (q + 1) = m.take (q + 1) := by
      rw [List.take_take]; congr 1; omega
    rw [e1, e2, e3] at h
    rw [h, hrstep.1, hqstep.1]; ring
  · intro n _
    have h := bracketCount_take_drop op cl (m.take (n0 - 1)) (q + 1) n
    have e2 : (m.take (n0 - 1)).take (q + 1 + n) = m.take (min (q + 1 + n) (n0 - 1)) := by
      rw [List.take_take]
    have e3 : (m.take (n0 - 1)).take (q + 1) = m.take (q + 1) := by
      rw [List.take_take]; congr 1; omega
    rw [e2, e3] at h
    have := hmid (min (q + 1 + n) (n0 - 1)) (by omega) (by omega)
    rw [h, hqstep.1]
    omega

theorem list_split_at {α : Type} (l : List α) (n : Nat) (x : α) (h : l[n]? = some x) :
    l = l.take n ++ x :: l.drop (n + 1) := by
  induction l generalizing n with
  | nil => simp at h
  | cons a l ih =>
    cases n with
    | zero => simp at h; simp [h]
    | succ n =>
      simp only [List.getElem?_cons_succ] at h
      simp only [List.take_succ_cons, List.drop_succ_cons, List.cons_append]
      rw [← ih n h]

theorem innermostPair_decompose (op cl : Rune) (hne : op ≠ cl) (t : List Rune) (k i j : Nat)
    (c : Rune) (h : InnermostPair op cl t k i j) (hk : t[k]? = some c) (hc1 : c ≠ op)
    (hc2 : c ≠ cl) :
    t = t.take i ++ op :: ((t.take k).drop (i + 1) ++ c :: (t.take j).drop (k + 1))
          ++ cl :: t.drop (j + 1) ∧
    Balanced op cl ((t.take k).drop (i + 1)) ∧ Balanced op cl ((t.take j).drop (k + 1)) := by
  obtain ⟨⟨hij, hi, hj, hb⟩, hik, hkj, hmin⟩ := h
  have hjlt : j < t.length := by
    by_contra hc
    rw [List.getElem?_eq_none (by omega)] at hj
    cases hj
  -- the inside of the pair and the position of `c` in it
  have hmp : ((t.take j).drop (i + 1))[k - (i + 1)]? = some c := by
    rw [List.getElem?_drop, List.getElem?_take_of_lt (by omega)]
    have : i + 1 + (k - (i + 1)) = k := by omega
    rw [this]; exact hk
  have hu : ((t.take j).drop (i + 1)).take (k - (i + 1)) = (t.take k).drop (i + 1) := by
    rw [List.take_drop, List.take_take]
    congr 2; omega
  have hv : ((t.take j).drop (i + 1)).drop (k - (i + 1) + 1) = (t.take j).drop (k + 1) := by
    rw [List.drop_drop]
    congr 1; omega
  have hm0 := balanced_take op cl _ hb (k - (i + 1))
  have hdepth : bracketCount op cl (((t.take j).drop (i + 1)).take (k - (i + 1))) = 0 := by
    by_contra hne0
    have hpos : 0 < bracketCount op cl (((t.take j).drop (i + 1)).take (k - (i + 1))) := by
      omega
    obtain ⟨q, r, hq, hr, hmq, hmr, hbal⟩ :=
      inner_pair_of_positive_depth op cl hne _ (k - (i + 1)) c hb hmp hc1 hc2 hpos
    have hrlt : r < ((t.take j).drop (i + 1)).length := by
      by_contra hc
      rw [List.getElem?_eq_none (by omega)] at hmr
      cases hmr
    simp only [List.length_drop, List.length_take, Nat.min_eq_left hjlt.le] at hrlt
    have hrj : i + 1 + r < j := by omega
    have h1 : t[i + 1 + q]? = some op := by
      rw [List.getElem?_drop, List.getElem?_take_of_lt (by omega)] at hmq
      exact hmq
    have h2 : t[i + 1 + r]? = some cl := by
      rw [List.getElem?_drop, List.getElem?_take_of_lt (by omega)] at hmr
      exact hmr
    have h3 : (t.take (i + 1 + r)).drop (i + 1 + q + 1)
        = (((t.take j).drop (i + 1)).take r).drop (q + 1) := by
      rw [List.take_drop, List.take_take, Nat.min_eq_left (by omega), List.drop_drop]
      congr 1
    have hpair : MatchingPair op cl t (i + 1 + q) (i + 1 + r) :=
      ⟨by omega, h1, h2, by rw [h3]; exact hbal⟩
    have := hmin (i + 1 + q) (by omega) (i + 1 + r) (by omega) hpair (by omega)
    omega
  refine ⟨?_, ?_, ?_⟩
  · have s1 := list_split_at t i op hi
    have s2 : t.drop (i + 1) = (t.take j).drop (i + 1) ++ t.drop j := by
      conv_lhs => rw [← List.take_append_drop j t]
      rw [List.drop_append_of_le_length (by simp only [List.length_take]; omega)]
    have s3 := list_split_at _ _ c hmp
    rw [hu, hv] at s3
    have s4 : t.drop j = cl :: t.drop (j + 1) := by
      have := list_split_at (t.drop j) 0 cl (by rw [List.getElem?_drop]; simpa using hj)
      simpa [List.drop_drop] using this
    conv_lhs => rw [s1, s2, s3, s4]
    simp [List.append_assoc]
  · rw [← hu]
    refine ⟨hdepth, fun n _ => ?_⟩
    rw [List.take_take]
    exact balanced_take op cl _ hb _
  · rw [← hv]
    have hstep : bracketCount op cl (((t.take j).drop (i + 1)).take (k - (i + 1) + 1)) = 0 := by
      rw [bracketCount_take_succ op cl _ _ c hmp, if_neg hc1, if_neg hc2, hdepth]; ring
    constructor
    · have h1 := bracketCount_append op cl (((t.take j).drop (i + 1)).take (k - (i + 1) + 1))
        (((t.take j).drop (i + 1)).drop (k - (i + 1) + 1))
      rw [List.take_append_drop, hb.1, hstep] at h1
      omega
    · intro n _
      rw [bracketCount_take_drop, hstep]
      have := balanced_take op cl _ hb (k - (i + 1) + 1 + n)
      omega

/-- Claim C22: nested parentheses. On a single-line buffer of valid UTF-8 in normal mode with
no pending keys, with the cursor on a character that is not a parenthesis and with `(i, j)`
the innermost matching pair of `(`, `)` enclosing the cursor, the key string `di(` returns
and leaves the characters up to and including `i` followed by those from `j` on, and `da(`
returns and leaves the characters before `i` followed by those after `j`. -/
theorem bracket_object_deletes_innermost_pair (U : UnicodeTables) (e : Engine) (l : GoString)
    (k i j : Nat) (c : Rune)
    (hmode : e.buffer.mode = Mode.normal) (hp : e.pendingKeys = [])
    (hl : e.buffer.lines = [l]) (hvl : ValidUTF8 l)
    (hy : e.buffer.cursorY = 0) (hx : e.buffer.cursorX = k)
    (hk : (toRunes l)[k]? = some c) (hc : c ≠ 0x28 ∧ c ≠ 0x29)
    (hin : InnermostPair 0x28 0x29 (toRunes l) k i j) :
    (∃ e1 c1, e.ProcessKey U (str "di(") = some (e1, c1) ∧
      e1.Text = fromRunes ((toRunes l).take (i + 1) ++ (toRunes l).drop j)) ∧
    (∃ e2 c2, e.ProcessKey U (str "da(") = some (e2, c2) ∧
      e2.Text = fromRunes ((toRunes l).take i ++ (toRunes l).drop (j + 1))) := by
  obtain ⟨hdec, hu, hv⟩ :=
    innermostPair_decompose 0x28 0x29 (by decide) (toRunes l) k i j c hin hk hc.1 hc.2
  obtain ⟨⟨hij, hi, hj, -⟩, hik, hkj, -⟩ := hin
  have hjlt : j < (toRunes l).length := by
    by_contra hcn
    rw [List.getElem?_eq_none (by omega)] at hj
    cases hj
  have hlen1 : ((toRunes l).take i).length = i := by
    rw [List.length_take]; omega
  have hlen2 : (((toRunes l).take k).drop (i + 1)).length = k - (i + 1) := by
    rw [List.length_drop, List.length_take]; omega
  have hx1 : e.buffer.cursorX
      = (((toRunes l).take i).length : Int) + 1 + ((((toRunes l).take k).drop (i + 1)).length : Nat) := by
    rw [hx, hlen1, hlen2]; omega
  have h := bracket_object_between_balanced U e l ((toRunes l).take i)
    (((toRunes l).take k).drop (i + 1)) (((toRunes l).take j).drop (k + 1))
    ((toRunes l).drop (j + 1)) c hmode hp hl hvl hdec hc hu hv hy hx1
  have t1 : (toRunes l).take (i + 1) = (toRunes l).take i ++ [0x28] := by
    rw [List.take_succ, hi]; rfl
  have t2 : (toRunes l).drop j = 0x29 :: (toRunes l).drop (j + 1) := by
    have := list_split_at ((toRunes l).drop j) 0 0x29 (by rw [List.getElem?_drop]; simpa using hj)
    simpa [List.drop_drop] using this
  rw [t1, t2]
  have t3 : (toRunes l).take i ++ [0x28] ++ 0x29 :: (toRunes l).drop (j + 1)
      = (toRunes l).take i ++ [0x28, 0x29] ++ (toRunes l).drop (j + 1) := by
    simp [List.append_assoc]
  rw [t3]
  exact h

/-- Claim C22 on "f(a(b)c)" with the cursor on `c` (index 6): the innermost pair enclosing
the cursor is at the indices 1 and 7, `di(` leaves "f()" and `da(` leaves "f". -/
theorem bracket_object_on_nested_call :
    ((startEngine "f(a(b)c)" 6).ProcessKeys asciiTables [str "di("]).map Engine.Text
      = some (str "f()") ∧
    ((startEngine "f(a(b)c)" 6).ProcessKeys asciiTables [str "da("]).map Engine.Text
      = some (str "f") ∧
    (∃ e1 c1, (startEngine "f(a(b)c)" 6).ProcessKey asciiTables (str "di(") = some (e1, c1) ∧
      e1.Text = fromRunes ((toRunes (str "f(a(b)c)")).take (1 + 1)
        ++ (toRunes (str "f(a(b)c)")).drop 7)) ∧
    (∃ e2 c2, (startEngine "f(a(b)c)" 6).ProcessKey asciiTables (str "da(") = some (e2, c2) ∧
      e2.Text = fromRunes ((toRunes (str "f(a(b)c)")).take 1
        ++ (toRunes (str "f(a(b)c)")).drop (7 + 1))) :=
  ⟨by decide, by decide,
   bracket_object_deletes_innermost_pair asciiTables (startEngine "f(a(b)c)" 6)
    (str "f(a(b)c)") 6 1 7 0x63
    (by decide) (by decide) (by decide) (by decide) (by decide) (by decide) (by decide)
    (by decide) (by decide)⟩

/-! ### Embedded tasks: key counts, optimal keys; panics, escape, completed sessions -/

set_option maxRecDepth 1000000 in
/-- C34 (code_bug): of the 41 embedded tasks, nine carry an `optimal_count` that is not the
number of keys of their `optimal_keys` (with `<ESC>` counted as one key); each of the nine is
one too high, for example `sw<ESC>` has three keys and `optimal_count` 4. -/
theorem embedded_tasks_with_wrong_optimal_count :
    getEmbeddedTasks.length = 41 ∧
    (getEmbeddedTasks.filter (fun t => keyCount t.OptimalKeys ≠ t.OptimalCount)).map
        (fun t => (t.ID, keyCount t.OptimalKeys, t.OptimalCount))
      = [(str "change-s-001", 3, 4), (str "change-ci-quote-001", 13, 14),
         (str "insert-a-001", 3, 4), (str "insert-A-001", 3, 4), (str "insert-I-001", 8, 9),
         (str "insert-o-001", 10, 11), (str "insert-O-001", 10, 11),
         (str "complex-multi-001", 10, 11), (str "complex-dup-001", 7, 8)] := by
  decide

set_option maxRecDepth 1000000 in
set_option maxHeartbeats 4000000 in
/-- C35 (code_bug): on 18 of the 41 embedded tasks, a session started on the task and fed the
task's `optimal_keys` one key at a time does not end with `MatchComplete`; the first of them
is `motion-3w-001`, whose keys `3`, `w` leave the cursor at index 4. The task `delete-dw-001`
of the claim's example does end with `MatchComplete` after 2 keystrokes. -/
theorem optimal_keys_fail_on_embedded_tasks :
    (getEmbeddedTasks.filter
        (fun t => (optimalRun asciiTables t).map Prod.fst ≠ some MatchStatus.MatchComplete)).map
        Task.ID
      = [str "motion-3w-001", str "motion-2b-001", str "delete-daw-001", str "delete-diw-001",
         str "change-cw-001", str "change-C-001", str "change-ciw-001",
         str "change-ci-quote-001", str "change-ci-paren-001", str "insert-o-001",
         str "visual-vwd-001", str "visual-Vy-001", str "visual-viw-001", str "complex-cf-001",
         str "complex-yap-001", str "complex-multi-001", str "complex-swap-001",
         str "complex-dup-001"] ∧
    ((sessionOn (getEmbeddedTasks.filter (fun t => t.ID = str "motion-3w-001"))).ProcessKeys asciiTables [str "3", str "w"]).map
        (fun s => (s.CheckMatch, s.keystrokes, s.engine.map (fun e => e.buffer.CursorIndex)))
      = some (MatchStatus.MatchInProgress, 2, some 4) ∧
    optimalRun asciiTables taskDeleteWord = some (MatchStatus.MatchComplete, 2) := by
  decide

/-- C36 (code_bug): `ProcessKey` panics on these inputs: `A` on an empty buffer followed by a
typed character, `y`, `y`, `p` on an empty buffer, and the bracket object `di(` on an empty
buffer or with the cursor on a trailing empty line. -/
theorem ProcessKey_panics_on_empty_lines :
    (NewEngine []).ProcessKeys asciiTables [str "A", str "x"] = none ∧
    (NewEngine []).ProcessKeys asciiTables [str "y", str "y", str "p"] = none ∧
    (NewEngine []).ProcessKeys asciiTables [str "di("] = none ∧
    (startEngine "(a)\n" 4).ProcessKeys asciiTables [str "di("] = none := by
  decide

/-- C37 (code_bug): in normal mode with a pending `d`, `c` or `r`, the key "esc" is appended
to the pending keys and its first letter `e` is taken as the motion or the replacement:
on "hello world" the text becomes " world" (still normal mode), " world" in insert mode, and
"eello world"; the rest "sc" stays pending. With no pending keys the text stays. -/
theorem esc_runs_the_pending_operator :
    ((startEngine "hello world" 0).ProcessKeys asciiTables [str "d", str "esc"]).map
        (fun e => (e.buffer.Text, e.buffer.mode, e.pendingKeys))
      = some (str " world", Mode.normal, str "sc") ∧
    ((startEngine "hello world" 0).ProcessKeys asciiTables [str "c", str "esc"]).map
        (fun e => (e.buffer.Text, e.buffer.mode, e.pendingKeys))
      = some (str " world", Mode.insert, str "sc") ∧
    ((startEngine "hello world" 0).ProcessKeys asciiTables [str "r", str "esc"]).map
        (fun e => (e.buffer.Text, e.buffer.mode, e.pendingKeys))
      = some (str "eello world", Mode.normal, str "sc") ∧
    ((startEngine "hello world" 0).ProcessKeys asciiTables [str "esc"]).map
        (fun e => (e.buffer.Text, e.buffer.mode, e.pendingKeys))
      = some (str "hello world", Mode.normal, []) := by
  decide

/-- C39 (code_bug): after the only task of a session is completed the state is completed;
`Pause` then makes it paused and `Resume` makes it active, and `IsComplete` is false. -/
theorem Pause_overwrites_completed_state :
    ((sessionOn [taskDeleteWord]).CompleteTask 5).1.State = SessionState.SessionStateCompleted ∧
    (((sessionOn [taskDeleteWord]).CompleteTask 5).1.Pause 6).State
      = SessionState.SessionStatePaused ∧
    ((((sessionOn [taskDeleteWord]).CompleteTask 5).1.Pause 6).Resume 7).State
      = SessionState.SessionStateActive ∧
    ((((sessionOn [taskDeleteWord]).CompleteTask 5).1.Pause 6).Resume 7).IsComplete = false := by
  decide

/-! ### The grade table -/

theorem roundFloat64_natCast (n : Nat) (h : n < 2 ^ 53) : roundFloat64 (n : ℚ) = n := by
  rcases Nat.eq_zero_or_pos n with h0 | hpos
  · subst h0; simp [roundFloat64]
  · obtain ⟨h1, h2, h3⟩ := bitLen_spec n hpos
    have hlen : bitLen n ≤ 53 := by
      by_contra hc
      have h54 : 53 ≤ bitLen n - 1 := by omega
      have : 2 ^ 53 ≤ 2 ^ (bitLen n - 1) := Nat.pow_le_pow_right (by norm_num) h54
      omega
    have hb1 : bitLen 1 = 1 := by decide
    have he : ulpExponent n 1 = (bitLen n : Int) - 53 := by
      unfold ulpExponent
      simp only [hb1]
      have hk : (((bitLen n : Int) - ((1 : Nat) : Int)).toNat) = bitLen n - 1 := by omega
      have hk2 : ((-((bitLen n : Int) - ((1 : Nat) : Int))).toNat) = 0 := by omega
      rw [hk, hk2]
      simp only [pow_zero, Nat.mul_one, Nat.one_mul]
      rw [if_pos h2]
      push_cast
      ring
    have hp : (-((bitLen n : Int) - 53)).toNat = 53 - bitLen n := by omega
    have hq : ((bitLen n : Int) - 53).toNat = 0 := by omega
    have hm : roundHalfEven (n * 2 ^ (53 - bitLen n)) (1 * 2 ^ 0) = n * 2 ^ (53 - bitLen n) := by
      unfold roundHalfEven
      simp [Nat.mod_one]
    have := roundFloat64_eval (n : ℚ) n 1 _ _ _ _ (by simp) hpos (by norm_num)
      (Nat.coprime_one_right n) he hp hq hm
    rw [this]
    push_cast
    field_simp

theorem float64OfInt_exact (n : Int) (h0 : 0 ≤ n) (h : n < 2 ^ 53) : float64OfInt n = n := by
  obtain ⟨k, rfl⟩ := Int.eq_ofNat_of_zero_le h0
  have hk : k < 2 ^ 53 := by exact_mod_cast h
  unfold float64OfInt
  exact_mod_cast roundFloat64_natCast k hk

theorem roundFloat64_lt_of_gap (c t : ℚ) (hc : 0 ≤ c) (ht : t ≤ 1) (h : c + 1 / 2 ^ 51 ≤ t) :
    roundFloat64 c < roundFloat64 t := by
  have ht0 : 0 ≤ t := by
    have : (0 : ℚ) ≤ 1 / 2 ^ 51 := by norm_num
    linarith
  obtain ⟨_, c2⟩ := roundFloat64_bounds c hc
  obtain ⟨t1, _⟩ := roundFloat64_bounds t ht0
  have e1 : (1 : ℚ) / 2 ^ 53 = 1 / 9007199254740992 := by norm_num
  have e2 : (1 : ℚ) / 2 ^ 51 = 1 / 2251799813685248 := by norm_num
  rw [e1] at c2 t1
  rw [e2] at h
  linarith

theorem roundFloat64_gt_of_gap (c t : ℚ) (ht0 : 0 ≤ t) (ht : t ≤ 1) (h : t + 1 / 2 ^ 51 ≤ c) :
    roundFloat64 t < roundFloat64 c := by
  have hc : 0 ≤ c := by
    have : (0 : ℚ) ≤ 1 / 2 ^ 51 := by norm_num
    linarith
  obtain ⟨c1, _⟩ := roundFloat64_bounds c hc
  obtain ⟨_, t2⟩ := roundFloat64_bounds t ht0
  have e1 : (1 : ℚ) / 2 ^ 53 = 1 / 9007199254740992 := by norm_num
  have e2 : (1 : ℚ) / 2 ^ 51 = 1 / 2251799813685248 := by norm_num
  rw [e1] at c1 t2
  rw [e2] at h
  linarith

/-- Two fractions whose denominators have a product of at most `10 * 2^47` are equal or at
least `2^-51` apart. -/
theorem fraction_gap (a b p q : Int) (hb : 0 < b) (hq : 0 < q) (hbq : b * q ≤ 2 ^ 47 * 10)
    (h : (a : ℚ) / b < (p : ℚ) / q) : (a : ℚ) / b + 1 / 2 ^ 51 ≤ (p : ℚ) / q := by
  have hbQ : (0 : ℚ) < b := by exact_mod_cast hb
  have hqQ : (0 : ℚ) < q := by exact_mod_cast hq
  have h1 : (a : ℚ) * q < p * b := by
    rwa [div_lt_div_iff₀ hbQ hqQ] at h
  have h2 : a * q < p * b := by exact_mod_cast h1
  have h3 : a * q + 1 ≤ p * b := by omega
  have h4 : (a : ℚ) * q + 1 ≤ p * b := by exact_mod_cast h3
  have hbq2 : (b : ℚ) * q ≤ 2 ^ 47 * 10 := by exact_mod_cast hbq
  rw [div_add' _ _ _ (ne_of_gt hbQ), div_le_div_iff₀ hbQ hqQ]
  have h5 : (1 : ℚ) / 2 ^ 51 * (b * q) ≤ 1 := by
    have : (1 : ℚ) / 2 ^ 51 * (b * q) ≤ 1 / 2 ^ 51 * (2 ^ 47 * 10) :=
      mul_le_mul_of_nonneg_left hbq2 (by norm_num)
    have e : (1 : ℚ) / 2 ^ 51 * (2 ^ 47 * 10) ≤ 1 := by norm_num
    linarith
  nlinarith [h4, h5]

/-- Rounding keeps the order between a completion rate `a / b` with `b ≤ 2^47` and a
threshold `p / q` with `0 ≤ p ≤ q ≤ 10`. -/
theorem roundFloat64_compare (a b p q : Int) (ha : 0 ≤ a) (hb : 0 < b) (hb2 : b ≤ 2 ^ 47)
    (hp : 0 ≤ p) (hq : 0 < q) (hq2 : q ≤ 10) (hpq : p ≤ q) :
    (roundFloat64 ((a : ℚ) / b) ≥ roundFloat64 ((p : ℚ) / q) ↔ (a : ℚ) / b ≥ (p : ℚ) / q) ∧
    (roundFloat64 ((a : ℚ) / b) = roundFloat64 ((p : ℚ) / q) ↔ (a : ℚ) / b = (p : ℚ) / q) := by
  have hbQ : (0 : ℚ) < b := by exact_mod_cast hb
  have hqQ : (0 : ℚ) < q := by exact_mod_cast hq
  have haQ : (0 : ℚ) ≤ a := by exact_mod_cast ha
  have hpQ : (0 : ℚ) ≤ p := by exact_mod_cast hp
  have hpqQ : (p : ℚ) ≤ q := by exact_mod_cast hpq
  have hc : (0 : ℚ) ≤ (a : ℚ) / b := div_nonneg haQ hbQ.le
  have ht0 : (0 : ℚ) ≤ (p : ℚ) / q := div_nonneg hpQ hqQ.le
  have ht1 : (p : ℚ) / q ≤ 1 := (div_le_one hqQ).mpr hpqQ
  have hprod : b * q ≤ 2 ^ 47 * 10 := by nlinarith
  have hprod2 : q * b ≤ 2 ^ 47 * 10 := by nlinarith
  rcases lt_trichotomy ((a : ℚ) / b) ((p : ℚ) / q) with hlt | heq | hgt
  · have h := roundFloat64_lt_of_gap _ _ hc ht1 (fraction_gap a b p q hb hq hprod hlt)
    exact ⟨⟨fun h2 => absurd h (not_lt.mpr h2), fun h2 => absurd hlt (not_lt.mpr h2)⟩,
      ⟨fun h2 => absurd h2 (ne_of_lt h), fun h2 => absurd h2 (ne_of_lt hlt)⟩⟩
  · rw [heq]
    exact ⟨⟨fun _ => le_refl _, fun _ => le_refl _⟩, ⟨fun _ => rfl, fun _ => rfl⟩⟩
  · have h := roundFloat64_gt_of_gap _ _ ht0 ht1 (fraction_gap p q a b hq hb hprod2 hgt)
    exact ⟨⟨fun _ => hgt.le, fun _ => h.le⟩,
      ⟨fun h2 => absurd h2 (ne_of_gt h), fun h2 => absurd h2 (ne_of_gt hgt)⟩⟩

theorem roundFloat64_six_fifths : roundFloat64 (6 / 5) = 5404319552844595 / 2 ^ 52 := by
  have := roundFloat64_eval (6 / 5) 6 5 (-52) 52 0 5404319552844595 (by norm_num) (by norm_num)
    (by norm_num) (by norm_num) (by decide) (by decide) (by decide) (by decide)
  rw [this]
  norm_num

theorem roundFloat64_three_quarters : roundFloat64 (3 / 4) = 3 / 4 := by
  have := roundFloat64_eval (3 / 4) 3 4 (-53) 53 0 6755399441055744 (by norm_num) (by norm_num)
    (by norm_num) (by norm_num) (by decide) (by decide) (by decide) (by decide)
  rw [this]
  norm_num

theorem roundFloat64_half : roundFloat64 (1 / 2) = 1 / 2 := by
  have := roundFloat64_eval (1 / 2) 1 2 (-53) 53 0 4503599627370496 (by norm_num) (by norm_num)
    (by norm_num) (by norm_num) (by decide) (by decide) (by decide) (by decide)
  rw [this]
  norm_num

/-- The bound of grade A: `int64(float64(8000) * 1.2)` is `9600`. -/
theorem grade_A_time_bound :
    int64OfFloat (float64Mul (float64OfInt 8000) (roundFloat64 (6 / 5))) = 9600 := by
  have h1 : float64OfInt 8000 = 8000 := by
    have := float64OfInt_exact 8000 (by norm_num) (by norm_num)
    simpa using this
  have h2 := roundFloat64_eval (8000 * (5404319552844595 / 2 ^ 52)) 675539944105574375
    70368744177664 (-39) 39 0 5277655813324800 (by norm_num) (by norm_num)
    (by norm_num) (by norm_num) (by decide) (by decide) (by decide) (by decide)
  unfold float64Mul
  rw [h1, roundFloat64_six_fifths, h2]
  have h3 : ((5277655813324800 : Nat) : ℚ) * 2 ^ 0 / 2 ^ 39 = ((9600 : Int) : ℚ) := by norm_num
  rw [h3]
  unfold int64OfFloat
  rw [Rat.num_intCast, Rat.den_intCast]
  decide

/-- C31 (amended): for every session record with `0 < tasks_attempted ≤ 2^47` and
`0 ≤ tasks_completed ≤ 2^47`, `calculateGrade` returns the first matching row of the grade
table, read on the exact completion rate `tasks_completed / tasks_attempted`. -/
theorem calculateGrade_follows_grade_table (s : SessionStats) (h1 : 0 < s.TasksAttempted)
    (h2 : s.TasksAttempted ≤ 2 ^ 47) (h3 : 0 ≤ s.TasksCompleted)
    (h4 : s.TasksCompleted ≤ 2 ^ 47) : calculateGrade s = gradeTable s := by
  have ea : float64OfInt s.TasksAttempted = s.TasksAttempted :=
    float64OfInt_exact _ h1.le (by omega)
  have ec : float64OfInt s.TasksCompleted = s.TasksCompleted :=
    float64OfInt_exact _ h3 (by omega)
  have c1 := roundFloat64_compare s.TasksCompleted s.TasksAttempted 1 1 h3 h1 h2
    (by norm_num) (by norm_num) (by norm_num) (by norm_num)
  have c90 := roundFloat64_compare s.TasksCompleted s.TasksAttempted 9 10 h3 h1 h2
    (by norm_num) (by norm_num) (by norm_num) (by norm_num)
  have c75 := roundFloat64_compare s.TasksCompleted s.TasksAttempted 3 4 h3 h1 h2
    (by norm_num) (by norm_num) (by norm_num) (by norm_num)
  have c50 := roundFloat64_compare s.TasksCompleted s.TasksAttempted 1 2 h3 h1 h2
    (by norm_num) (by norm_num) (by norm_num) (by norm_num)
  have r1 : roundFloat64 (((1 : Int) : ℚ) / ((1 : Int) : ℚ)) = 1 := by
    have := roundFloat64_natCast 1 (by norm_num)
    simpa using this
  have r90 : roundFloat64 (((9 : Int) : ℚ) / ((10 : Int) : ℚ)) = roundFloat64 (9 / 10) := by
    norm_num
  have r75 : roundFloat64 (((3 : Int) : ℚ) / ((4 : Int) : ℚ)) = 3 / 4 := by
    have := roundFloat64_three_quarters
    norm_num at this ⊢
    exact this
  have r50 : roundFloat64 (((1 : Int) : ℚ) / ((2 : Int) : ℚ)) = 1 / 2 := by
    have := roundFloat64_half
    norm_num at this ⊢
    exact this
  have q1 : (((1 : Int) : ℚ) / ((1 : Int) : ℚ)) = 1 := by norm_num
  have q90 : (((9 : Int) : ℚ) / ((10 : Int) : ℚ)) = 9 / 10 := by norm_num
  have q75 : (((3 : Int) : ℚ) / ((4 : Int) : ℚ)) = 3 / 4 := by norm_num
  have q50 : (((1 : Int) : ℚ) / ((2 : Int) : ℚ)) = 1 / 2 := by norm_num
  rw [r1, q1] at c1
  rw [r90, q90] at c90
  rw [r75, q75] at c75
  rw [r50, q50] at c50
  unfold calculateGrade gradeTable
  simp only [if_neg (ne_of_gt h1), float64Div, ea, ec, grade_A_time_bound, c1.2, c90.1, c75.1,
    c50.1]

/-- C31, instance: with 27 of 30 tasks completed, efficiency 80 and 5000 ms the grade is B
(the completion rate is exactly 0.9). -/
theorem calculateGrade_on_round_of_30 :
    calculateGrade roundStats = gradeTable roundStats ∧ gradeTable roundStats = str "B" :=
  ⟨calculateGrade_follows_grade_table roundStats (by decide) (by decide) (by decide)
    (by decide), by
    unfold gradeTable roundStats
    norm_num⟩

/-- C31, counterexample: with `2^53` of `2^53 + 1` tasks completed (efficiency 100, 0 ms) the
completion rate is below 1 and the table gives B, but both counts convert to the same
`float64` and `calculateGrade` returns S. -/
theorem calculateGrade_S_below_full_completion :
    0 < hugeStats.TasksAttempted ∧ calculateGrade hugeStats = str "S" ∧
    gradeTable hugeStats = str "B" := by
  have e1 : float64OfInt 9007199254740992 = 9007199254740992 := by
    have := roundFloat64_eval 9007199254740992 9007199254740992 1 1 0 1 4503599627370496
      (by norm_num) (by norm_num) (by norm_num) (by norm_num) (by decide) (by decide)
      (by decide) (by decide)
    unfold float64OfInt
    push_cast
    rw [this]
    norm_num
  have e2 : float64OfInt 9007199254740993 = 9007199254740992 := by
    have := roundFloat64_eval 9007199254740993 9007199254740993 1 1 0 1 4503599627370496
      (by norm_num) (by norm_num) (by norm_num) (by norm_num) (by decide) (by decide)
      (by decide) (by decide)
    unfold float64OfInt
    push_cast
    rw [this]
    norm_num
  have e3 : roundFloat64 1 = 1 := by
    have := roundFloat64_natCast 1 (by norm_num)
    simpa using this
  refine ⟨by decide, ?_, ?_⟩
  · unfold calculateGrade hugeStats float64Div
    simp only [e1, e2]
    norm_num [e3]
  · unfold gradeTable hugeStats
    norm_num

/-! ### The bracket motion `%` visits the cells between the two brackets -/

theorem scanCells_rowFrom (char m : Rune) (rs : List Rune) (x y d : Int) (rest : List Cell) :
    scanCells char m (rowFrom rs x y ++ rest) d =
      match bracketScan char m 1 rs x d with
      | ScanResult.found x1 => some (x1, y)
      | ScanResult.depth d1 => scanCells char m rest d1 := by
  induction rs generalizing x d with
  | nil => simp [rowFrom, bracketScan]
  | cons r rs ih =>
    simp only [rowFrom, List.cons_append, scanCells, bracketScan]
    split_ifs <;> first | rfl | exact ih _ _

theorem scanCells_rowDown (char m : Rune) (rs : List Rune) (x y d : Int) (rest : List Cell) :
    scanCells char m (rowDown rs x y ++ rest) d =
      match bracketScan char m (-1) rs x d with
      | ScanResult.found x1 => some (x1, y)
      | ScanResult.depth d1 => scanCells char m rest d1 := by
  induction rs generalizing x d with
  | nil => simp [rowDown, bracketScan]
  | cons r rs ih =>
    simp only [rowDown, List.cons_append, scanCells, bracketScan]
    split_ifs <;> first | rfl | exact ih _ _

theorem bracketLinesFwd_eq (char m : Rune) (ls : List GoString) (y sx d : Int) :
    bracketLinesFwd char m ls y sx d = scanCells char m (cellsFwd ls y sx) d := by
  induction ls generalizing y sx d with
  | nil => rfl
  | cons l ls ih =>
    unfold bracketLinesFwd cellsFwd
    rw [scanCells_rowFrom]
    cases bracketScan char m 1 ((toRunes l).drop sx.toNat) sx d with
    | found x1 => rfl
    | depth d1 => exact ih _ _ _

theorem bracketLinesBwd_eq (char m : Rune) (cx : Int) (ls : List GoString) (y : Int)
    (first : Bool) (d : Int) :
    bracketLinesBwd char m cx ls y first d = scanCells char m (cellsBwd cx ls y first) d := by
  induction ls generalizing y first d with
  | nil => rfl
  | cons l ls ih =>
    unfold bracketLinesBwd cellsBwd
    simp only
    rw [scanCells_rowDown]
    split
    · rfl
    · exact ih _ _ _

theorem rowFrom_append (a b : List Rune) (x y : Int) :
    rowFrom (a ++ b) x y = rowFrom a x y ++ rowFrom b (x + a.length) y := by
  induction a generalizing x with
  | nil => simp [rowFrom]
  | cons r a ih =>
    rw [List.cons_append, rowFrom, rowFrom, ih, List.cons_append, List.length_cons]
    congr 3
    push_cast
    ring

theorem rowDown_append (a b : List Rune) (x y : Int) :
    rowDown (a ++ b) x y = rowDown a x y ++ rowDown b (x - a.length) y := by
  induction a generalizing x with
  | nil => simp [rowDown]
  | cons r a ih =>
    rw [List.cons_append, rowDown, rowDown, ih, List.cons_append, List.length_cons]
    congr 3
    push_cast
    ring

theorem rowDown_reverse (rs : List Rune) (x y : Int) :
    rowDown rs.reverse (x + rs.length - 1) y = (rowFrom rs x y).reverse := by
  induction rs generalizing x with
  | nil => simp [rowDown, rowFrom]
  | cons r rs ih =>
    rw [List.reverse_cons, rowDown_append, rowFrom, List.reverse_cons, ← ih]
    simp only [List.length_cons, List.length_reverse, rowDown]
    congr 2
    · congr 1
      push_cast
      ring
    · congr 2
      push_cast
      ring

theorem cellsFwd_zero (ls : List GoString) (y : Int) : cellsFwd ls y 0 = cellsFrom ls y := by
  induction ls generalizing y with
  | nil => rfl
  | cons l ls ih => simp [cellsFwd, cellsFrom, ih]

theorem cellsFrom_append (A B : List GoString) (y : Int) :
    cellsFrom (A ++ B) y = cellsFrom A y ++ cellsFrom B (y + A.length) := by
  induction A generalizing y with
  | nil => simp [cellsFrom]
  | cons l A ih =>
    rw [List.cons_append, cellsFrom, cellsFrom, ih, List.append_assoc, List.length_cons]
    congr 3
    push_cast
    ring

theorem cellsBwd_append (cx : Int) (A B : List GoString) (y : Int) :
    cellsBwd cx (A ++ B) y false = cellsBwd cx A y false ++ cellsBwd cx B (y - A.length) false := by
  induction A generalizing y with
  | nil => simp [cellsBwd]
  | cons l A ih =>
    rw [List.cons_append, cellsBwd, cellsBwd, ih, List.append_assoc, List.length_cons]
    congr 3
    push_cast
    ring

theorem cellsBwd_single (cx : Int) (l : GoString) (y : Int) :
    cellsBwd cx [l] y false = (rowFrom (toRunes l) 0 y).reverse := by
  have h := rowDown_reverse (toRunes l) 0 y
  simp only [cellsBwd, List.append_nil, Bool.false_eq_true, if_false]
  rw [← h]
  have h1 : ((((toRunes l).length : Int) - 1 + 1).toNat) = (toRunes l).length := by omega
  rw [h1, List.take_length]
  congr 1
  ring

theorem cellsBwd_reverse (cx : Int) (A : List GoString) (y : Int) :
    cellsBwd cx A.reverse (y + A.length - 1) false = (cellsFrom A y).reverse := by
  induction A generalizing y with
  | nil => simp [cellsBwd, cellsFrom]
  | cons l A ih =>
    rw [List.reverse_cons, cellsBwd_append, cellsFrom, List.reverse_append, ← ih,
      cellsBwd_single]
    simp only [List.length_cons, List.length_reverse]
    congr 2
    · congr 1
      push_cast
      ring
    · congr 2
      push_cast
      ring

/-- A cell of a row sits at the column given by its place in the row. -/
theorem rowFrom_split (rs : List Rune) (x0 y : Int) (U V : List Cell) (r : Rune) (x y1 : Int)
    (h : rowFrom rs x0 y = U ++ (r, x, y1) :: V) :
    ∃ pre post, rs = pre ++ r :: post ∧ x0 + pre.length = x ∧ y1 = y ∧
      U = rowFrom pre x0 y ∧ V = rowFrom post (x + 1) y := by
  induction rs generalizing x0 U with
  | nil =>
    simp only [rowFrom] at h
    exact absurd h (by simp)
  | cons r0 rs ih =>
    rw [rowFrom] at h
    cases U with
    | nil =>
      simp only [List.nil_append, List.cons.injEq, Prod.mk.injEq] at h
      obtain ⟨⟨h1, h2, h3⟩, h4⟩ := h
      refine ⟨[], rs, ?_, ?_, h3.symm, rfl, ?_⟩
      · rw [h1]; rfl
      · simpa using h2
      · rw [← h4, h2]
    | cons u U =>
      simp only [List.cons_append, List.cons.injEq] at h
      obtain ⟨h1, h2⟩ := h
      obtain ⟨pre, post, e1, e2, e3, e4, e5⟩ := ih (x0 + 1) U h2
      refine ⟨r0 :: pre, post, ?_, ?_, e3, ?_, e5⟩
      · rw [e1]; rfl
      · rw [← e2, List.length_cons]; push_cast; ring
      · rw [rowFrom, ← e4, h1]

/-- A cell of the buffer sits at the line and column given by its place in the list of
cells. -/
theorem cellsFrom_split (L : List GoString) (y0 : Int) (U V : List Cell) (r : Rune) (x y : Int)
    (h : cellsFrom L y0 = U ++ (r, x, y) :: V) :
    ∃ A l B pre post, L = A ++ l :: B ∧ y0 + A.length = y ∧ toRunes l = pre ++ r :: post ∧
      (pre.length : Int) = x ∧ U = cellsFrom A y0 ++ rowFrom pre 0 y ∧
      V = rowFrom post (x + 1) y ++ cellsFrom B (y + 1) := by
  induction L generalizing y0 U with
  | nil =>
    simp only [cellsFrom] at h
    exact absurd h (by simp)
  | cons l L ih =>
    rw [cellsFrom] at h
    rcases List.append_eq_append_iff.mp h with ⟨W, hW1, hW2⟩ | ⟨W, hW1, hW2⟩
    · obtain ⟨A, l1, B, pre, post, e1, e2, e3, e4, e5, e6⟩ := ih (y0 + 1) W hW2
      refine ⟨l :: A, l1, B, pre, post, by rw [e1]; rfl, ?_, e3, e4, ?_, e6⟩
      · rw [← e2, List.length_cons]; push_cast; ring
      · rw [hW1, e5, cellsFrom, List.append_assoc]
    · cases W with
      | nil =>
        simp only [List.append_nil] at hW1
        simp only [List.nil_append] at hW2
        obtain ⟨A, l1, B, pre, post, e1, e2, e3, e4, e5, e6⟩ := ih (y0 + 1) [] hW2.symm
        refine ⟨l :: A, l1, B, pre, post, by rw [e1]; rfl, ?_, e3, e4, ?_, e6⟩
        · rw [← e2, List.length_cons]; push_cast; ring
        · rw [cellsFrom, List.append_assoc, ← e5, List.append_nil, hW1]
      | cons w W =>
        simp only [List.cons_append, List.cons.injEq] at hW2
        obtain ⟨hw, hV⟩ := hW2
        subst hw
        obtain ⟨pre, post, e1, e2, e3, e4, e5⟩ := rowFrom_split _ _ _ _ _ _ _ _ hW1
        subst e3
        refine ⟨[], l, L, pre, post, rfl, ?_, e1, ?_, ?_, ?_⟩
        · simp
        · simpa using e2
        · simpa [cellsFrom] using e4
        · rw [hV, e5]

theorem cellCount_nil (char m : Rune) : cellCount char m [] = 0 := by
  simp [cellCount, bracketCount_nil]

theorem cellCount_cons (char m : Rune) (c : Cell) (cs : List Cell) :
    cellCount char m (c :: cs)
      = (if c.1 = char then 1 else 0) - (if c.1 = m then 1 else 0) + cellCount char m cs := by
  simp [cellCount, bracketCount_cons]

theorem cellCount_append (char m : Rune) (u v : List Cell) :
    cellCount char m (u ++ v) = cellCount char m u + cellCount char m v := by
  simp [cellCount, bracketCount_append]

theorem cellCount_reverse (char m : Rune) (u : List Cell) :
    cellCount char m u.reverse = cellCount char m u := by
  simp [cellCount, List.map_reverse, bracketCount_reverse]

theorem cellCount_swap (char m : Rune) (u : List Cell) :
    cellCount m char u = - cellCount char m u := by
  simp [cellCount, bracketCount]

/-- What a successful scan has seen: the cells `S` before the hit keep the depth at `1` or
more and bring it back to `1`. -/
theorem scanCells_spec (char m : Rune) (hne : char ≠ m) (C : List Cell) (d : Int) (pos : Int × Int)
    (hd : 1 ≤ d) (h : scanCells char m C d = some pos) :
    ∃ S T, C = S ++ (m, pos) :: T ∧ d + cellCount char m S = 1 ∧
      ∀ S1 S2, S = S1 ++ S2 → 1 ≤ d + cellCount char m S1 := by
  induction C generalizing d with
  | nil => simp [scanCells] at h
  | cons c C ih =>
    obtain ⟨r, p⟩ := c
    rw [scanCells] at h
    -- the step of the depth at the first cell and the depth after it
    have step : ∀ d1 : Int, 1 ≤ d1 → scanCells char m C d1 = some pos →
        d1 = d + ((if r = char then 1 else 0) - (if r = m then 1 else 0)) →
        ∃ S T, (r, p) :: C = S ++ (m, pos) :: T ∧ d + cellCount char m S = 1 ∧
          ∀ S1 S2, S = S1 ++ S2 → 1 ≤ d + cellCount char m S1 := by
      intro d1 hd1 hscan hstep
      obtain ⟨S, T, e1, e2, e3⟩ := ih d1 hd1 hscan
      refine ⟨(r, p) :: S, T, by rw [e1]; rfl, ?_, ?_⟩
      · rw [cellCount_cons]
        simp only
        omega
      · intro S1 S2 hs
        cases S1 with
        | nil => rw [cellCount_nil]; omega
        | cons s S1 =>
          simp only [List.cons_append, List.cons.injEq] at hs
          obtain ⟨hs1, hs2⟩ := hs
          have := e3 S1 S2 hs2
          rw [cellCount_cons, ← hs1]
          simp only
          omega
    by_cases h1 : r = char
    · have hm : r ≠ m := fun hh => hne (h1.symm.trans hh)
      rw [if_pos h1] at h
      exact step (d + 1) (by omega) h (by rw [if_pos h1, if_neg hm]; ring)
    · rw [if_neg h1] at h
      by_cases h2 : r = m
      · rw [if_pos h2] at h
        by_cases h3 : d - 1 = 0
        · rw [if_pos h3] at h
          refine ⟨[], C, ?_, ?_, ?_⟩
          · rw [List.nil_append, h2, Option.some.inj h]
          · rw [cellCount_nil]; omega
          · intro S1 S2 hs
            have : S1 = [] := by
              cases S1 with
              | nil => rfl
              | cons s S1 => simp at hs
            rw [this, cellCount_nil]; omega
        · rw [if_neg h3] at h
          exact step (d - 1) (by omega) h (by rw [if_neg h1, if_pos h2]; ring)
      · rw [if_neg h2] at h
        exact step d hd h (by rw [if_neg h1, if_neg h2]; ring)

/-- Cells that keep the depth at `1` or more are passed over. -/
theorem scanCells_skip (char m : Rune) (hne : char ≠ m) (S rest : List Cell) (d : Int)
    (h : ∀ S1 S2, S = S1 ++ S2 → 1 ≤ d + cellCount char m S1) :
    scanCells char m (S ++ rest) d = scanCells char m rest (d + cellCount char m S) := by
  induction S generalizing d with
  | nil => simp [cellCount_nil]
  | cons c S ih =>
    obtain ⟨r, p⟩ := c
    have hfirst := h [(r, p)] S rfl
    rw [cellCount_cons, cellCount_nil] at hfirst
    simp only at hfirst
    have hrest : ∀ d1, d1 = d + ((if r = char then 1 else 0) - (if r = m then 1 else 0)) →
        scanCells char m (S ++ rest) d1 = scanCells char m rest (d1 + cellCount char m S) := by
      intro d1 hd1
      apply ih
      intro S1 S2 hs
      have := h ((r, p) :: S1) S2 (by rw [hs]; rfl)
      rw [cellCount_cons] at this
      simp only at this
      omega
    have hsum : ∀ d1, d1 = d + ((if r = char then 1 else 0) - (if r = m then 1 else 0)) →
        d1 + cellCount char m S = d + cellCount char m ((r, p) :: S) := by
      intro d1 hd1
      rw [cellCount_cons]
      simp only
      omega
    rw [List.cons_append, scanCells]
    by_cases h1 : r = char
    · have hm : r ≠ m := fun hh => hne (h1.symm.trans hh)
      have e : d + 1 = d + ((if r = char then 1 else 0) - (if r = m then 1 else 0)) := by
        rw [if_pos h1, if_neg hm]; ring
      rw [if_pos h1, hrest _ e, hsum _ e]
    · rw [if_neg h1]
      by_cases h2 : r = m
      · have e : d - 1 = d + ((if r = char then 1 else 0) - (if r = m then 1 else 0)) := by
          rw [if_neg h1, if_pos h2]; ring
        rw [if_neg h1, if_pos h2] at hfirst
        have h3 : ¬ (d - 1 = 0) := by omega
        rw [if_pos h2, if_neg h3, hrest _ e, hsum _ e]
      · have e : d = d + ((if r = char then 1 else 0) - (if r = m then 1 else 0)) := by
          rw [if_neg h1, if_neg h2]; ring
        rw [if_neg h2, hrest _ e, hsum _ e]

/-- From the bracket found by a scan, the scan in the other direction over the same cells
comes back to the bracket the first scan left. -/
theorem scanCells_back (char m : Rune) (hne : char ≠ m) (C : List Cell) (q : Int × Int)
    (h : scanCells char m C 1 = some q) :
    ∃ S T, C = S ++ (m, q) :: T ∧
      ∀ (p : Int × Int) (T2 : List Cell),
        scanCells m char (S.reverse ++ (char, p) :: T2) 1 = some p := by
  obtain ⟨S, T, e1, e2, e3⟩ := scanCells_spec char m hne C 1 q (le_refl 1) h
  refine ⟨S, T, e1, ?_⟩
  intro p T2
  have hskip : ∀ S1 S2, S.reverse = S1 ++ S2 → 1 ≤ 1 + cellCount m char S1 := by
    intro S1 S2 hs
    have hS : S = S2.reverse ++ S1.reverse := by
      have := congrArg List.reverse hs
      rwa [List.reverse_reverse, List.reverse_append] at this
    have h1 := e3 S2.reverse S1.reverse hS
    have h2 : cellCount char m S = cellCount char m S2 + cellCount char m S1 := by
      rw [hS, cellCount_append, cellCount_reverse, cellCount_reverse]
    rw [cellCount_reverse] at h1
    rw [cellCount_swap]
    omega
  rw [scanCells_skip m char (Ne.symm hne) S.reverse _ 1 hskip, cellCount_swap, cellCount_reverse]
  have hz : (1 : Int) + -cellCount char m S = 1 := by omega
  rw [hz, scanCells, if_neg hne, if_pos rfl, if_pos (by norm_num)]

/-- The cells before and after the cursor, as the loops of `MoveToMatchingBracket` visit
them. -/
theorem cursor_cells (b : Buffer) (A B : List GoString) (l : GoString) (pre post : List Rune)
    (c : Rune) (hl : b.lines = A ++ l :: B) (hy : b.cursorY = A.length)
    (hr : toRunes l = pre ++ c :: post) (hx : b.cursorX = pre.length) :
    b.CurrentLine = l ∧
    cellsFwd (b.lines.drop b.cursorY.toNat) b.cursorY (b.cursorX + 1)
      = rowFrom post (b.cursorX + 1) b.cursorY ++ cellsFrom B (b.cursorY + 1) ∧
    cellsBwd b.cursorX (b.lines.take (b.cursorY + 1).toNat).reverse b.cursorY true
      = (cellsFrom A 0 ++ rowFrom pre 0 b.cursorY).reverse ∧
    cellsFrom b.lines 0
      = (cellsFrom A 0 ++ rowFrom pre 0 b.cursorY)
        ++ (c, b.cursorX, b.cursorY) :: (rowFrom post (b.cursorX + 1) b.cursorY
          ++ cellsFrom B (b.cursorY + 1)) := by
  obtain ⟨lines, cx, cy, mode, reg⟩ := b
  simp only at hl hy hx
  subst hl hy hx
  refine ⟨?_, ?_, ?_, ?_⟩
  · unfold Buffer.CurrentLine
    simp only
    rw [if_pos ⟨by omega, by simp⟩]
    have h1 : ((A.length : Int)).toNat = A.length := by omega
    rw [h1, getD_append_cons]
  · have h1 : ((A.length : Int)).toNat = A.length := by omega
    have h2 : (((pre.length : Int) + 1)).toNat = pre.length + 1 := by omega
    simp only [h1, List.drop_left, cellsFwd, hr, h2, cellsFwd_zero]
    have h3 : (pre ++ c :: post).drop (pre.length + 1) = post := by
      rw [show pre ++ c :: post = (pre ++ [c]) ++ post by simp]
      exact List.drop_left' (by simp)
    rw [h3]
  · have h1 : ((A.length : Int) + 1).toNat = A.length + 1 := by omega
    have h2 : (A ++ l :: B).take (A.length + 1) = A ++ [l] := by
      rw [show A ++ l :: B = (A ++ [l]) ++ B by simp]
      exact List.take_left' (by simp)
    have h3 : ((pre.length : Int) - 1 + 1).toNat = pre.length := by omega
    simp only [h1, h2, List.reverse_append, List.reverse_cons, List.reverse_nil, List.nil_append,
      List.cons_append, cellsBwd, if_true, hr, h3, List.take_left]
    have e1 := rowDown_reverse pre 0 (A.length : Int)
    have e2 := cellsBwd_reverse (pre.length : Int) A 0
    simp only [zero_add] at e1 e2
    rw [e1, e2]
  · rw [cellsFrom_append, cellsFrom, hr, rowFrom_append, rowFrom]
    simp only [zero_add, List.append_assoc, List.cons_append]

theorem bracketPair_spec (c m : Rune) (h : bracketPair c = some m) :
    c ≠ m ∧ bracketPair m = some c ∧
    ((c = 0x28 ∨ c = 0x5B ∨ c = 0x7B ∨ c = 0x3C) ↔
      ¬ (m = 0x28 ∨ m = 0x5B ∨ m = 0x7B ∨ m = 0x3C)) := by
  unfold bracketPair at h
  split_ifs at h with h1 h2 h3 h4 h5 h6 h7 h8 <;>
    (have hm := (Option.some.inj h).symm
     subst hm
     subst c
     decide)

/-- `MoveToMatchingBracket` with the cursor on the character `c` of a line, in terms of the
cells before and after the cursor. -/
theorem MoveToMatchingBracket_cells (b : Buffer) (A B : List GoString) (l : GoString)
    (pre post : List Rune) (c m : Rune) (hl : b.lines = A ++ l :: B)
    (hy : b.cursorY = A.length) (hr : toRunes l = pre ++ c :: post)
    (hx : b.cursorX = pre.length) (hp : bracketPair c = some m) :
    MoveToMatchingBracket b =
      match (if c = 0x28 ∨ c = 0x5B ∨ c = 0x7B ∨ c = 0x3C then
          scanCells c m (rowFrom post (b.cursorX + 1) b.cursorY ++ cellsFrom B (b.cursorY + 1)) 1
        else scanCells c m (cellsFrom A 0 ++ rowFrom pre 0 b.cursorY).reverse 1) with
      | some (x, y) => some ({ b with cursorX := x, cursorY := y }, true)
      | none => some (b, false) := by
  obtain ⟨h1, h2, h3, _⟩ := cursor_cells b A B l pre post c hl hy hr hx
  have hlen : ¬ (b.cursorX ≥ ((toRunes b.CurrentLine).length : Int)) := by
    rw [h1, hr, hx, List.length_append, List.length_cons]
    push_cast
    omega
  have hidx : idx? (toRunes b.CurrentLine) b.cursorX = some c := by
    rw [h1, hr, hx]
    unfold idx?
    have ht : ((pre.length : Int)).toNat = pre.length := by omega
    rw [if_pos (by omega), ht, List.get?_eq_getElem?, getElem?_append_cons]
  unfold MoveToMatchingBracket
  simp only [hlen, if_false, hidx, Option.bind_eq_bind, Option.some_bind, hp, bracketLinesFwd_eq,
    bracketLinesBwd_eq, h2, h3]
  split_ifs <;> (split <;> simp_all)

/-- When `MoveToMatchingBracket` moves, the cursor is on a character of a line. -/
theorem cursor_on_character (b b1 : Buffer) (h : MoveToMatchingBracket b = some (b1, true)) :
    ∃ A l B pre c post, b.lines = A ++ l :: B ∧ b.cursorY = (A.length : Int) ∧
      toRunes l = pre ++ c :: post ∧ b.cursorX = (pre.length : Int) := by
  unfold MoveToMatchingBracket at h
  by_cases hge : b.cursorX ≥ ((toRunes b.CurrentLine).length : Int)
  · simp [hge] at h
  · simp only [hge, if_false] at h
    cases hi : idx? (toRunes b.CurrentLine) b.cursorX with
    | none => rw [hi] at h; simp at h
    | some c =>
      unfold idx? at hi
      by_cases hx0 : 0 ≤ b.cursorX
      · rw [if_pos hx0, List.get?_eq_getElem?] at hi
        by_cases hy : 0 ≤ b.cursorY ∧ b.cursorY < b.lines.length
        · have hcur : b.CurrentLine = b.lines.getD b.cursorY.toNat [] := by
            unfold Buffer.CurrentLine
            rw [if_pos hy]
          have hlt : b.cursorY.toNat < b.lines.length := by omega
          have hget : b.lines[b.cursorY.toNat]? = some b.CurrentLine := by
            rw [hcur, List.getD_eq_getElem?_getD, List.getElem?_eq_getElem hlt]
            rfl
          refine ⟨b.lines.take b.cursorY.toNat, b.CurrentLine,
            b.lines.drop (b.cursorY.toNat + 1), (toRunes b.CurrentLine).take b.cursorX.toNat, c,
            (toRunes b.CurrentLine).drop (b.cursorX.toNat + 1),
            list_split_at _ _ _ hget, ?_, list_split_at _ _ _ hi, ?_⟩
          · rw [List.length_take]
            omega
          · rw [List.length_take]
            omega
        · have hcur : b.CurrentLine = [] := by
            unfold Buffer.CurrentLine
            rw [if_neg hy]
          rw [hcur] at hi
          simp [toRunes, toRunesAux] at hi
      · rw [if_neg hx0] at hi
        exact absurd hi (by simp)

/-- After a successful scan from the bracket `c` at the cursor to the bracket `m` at `q`,
`MoveToMatchingBracket` from `q` comes back. `fwd` tells the direction of the first scan. -/
theorem MoveToMatchingBracket_return (b : Buffer) (A B : List GoString) (l : GoString)
    (pre post : List Rune) (c m : Rune) (hl : b.lines = A ++ l :: B)
    (hy : b.cursorY = A.length) (hr : toRunes l = pre ++ c :: post)
    (hx : b.cursorX = pre.length) (hp : bracketPair c = some m) (q : Int × Int)
    (hq : (if c = 0x28 ∨ c = 0x5B ∨ c = 0x7B ∨ c = 0x3C then
          scanCells c m (rowFrom post (b.cursorX + 1) b.cursorY ++ cellsFrom B (b.cursorY + 1)) 1
        else scanCells c m (cellsFrom A 0 ++ rowFrom pre 0 b.cursorY).reverse 1) = some q) :
    MoveToMatchingBracket { b with cursorX := q.1, cursorY := q.2 } = some (b, true) := by
  obtain ⟨hne, hpm, hdir⟩ := bracketPair_spec c m hp
  obtain ⟨_, _, _, hcells⟩ := cursor_cells b A B l pre post c hl hy hr hx
  have hback : ∀ (b2 : Buffer), b2 = { b with cursorX := q.1, cursorY := q.2 } →
      ∀ (U V : List Cell), cellsFrom b.lines 0 = U ++ (m, q.1, q.2) :: V →
      (if m = 0x28 ∨ m = 0x5B ∨ m = 0x7B ∨ m = 0x3C then scanCells m c V 1
        else scanCells m c U.reverse 1) = some (b.cursorX, b.cursorY) →
      MoveToMatchingBracket b2 = some (b, true) := by
    intro b2 hb2 U V hUV hscan
    obtain ⟨A1, l1, B1, pre1, post1, e1, e2, e3, e4, e5, e6⟩ :=
      cellsFrom_split b.lines 0 U V m q.1 q.2 hUV
    have hl2 : b2.lines = A1 ++ l1 :: B1 := by rw [hb2]; exact e1
    have hy2 : b2.cursorY = A1.length := by rw [hb2]; simp only; rw [← e2]; ring
    have hx2 : b2.cursorX = pre1.length := by rw [hb2]; exact e4.symm
    have hx3 : b2.cursorX = q.1 := by rw [hb2]
    have hy3 : b2.cursorY = q.2 := by rw [hb2]
    rw [MoveToMatchingBracket_cells b2 A1 B1 l1 pre1 post1 m c hl2 hy2 e3 hx2 hpm, hx3, hy3,
      ← e6, ← e5, hscan]
    simp only [hb2]
  by_cases hopen : c = 0x28 ∨ c = 0x5B ∨ c = 0x7B ∨ c = 0x3C
  · rw [if_pos hopen] at hq
    obtain ⟨S, T, e1, e2⟩ := scanCells_back c m hne _ q hq
    have hm : ¬ (m = 0x28 ∨ m = 0x5B ∨ m = 0x7B ∨ m = 0x3C) := hdir.mp hopen
    apply hback _ rfl ((cellsFrom A 0 ++ rowFrom pre 0 b.cursorY) ++ (c, b.cursorX, b.cursorY) :: S) T
    · rw [hcells, e1]
      simp only [List.append_assoc, List.cons_append]
    · rw [if_neg hm, List.reverse_append, List.reverse_cons, List.append_assoc]
      simp only [List.singleton_append]
      exact e2 _ _
  · rw [if_neg hopen] at hq
    obtain ⟨S, T, e1, e2⟩ := scanCells_back c m hne _ q hq
    have hm : m = 0x28 ∨ m = 0x5B ∨ m = 0x7B ∨ m = 0x3C := by
      by_contra hcon
      exact hopen (hdir.mpr hcon)
    have hbefore : cellsFrom A 0 ++ rowFrom pre 0 b.cursorY = T.reverse ++ (m, q) :: S.reverse := by
      have := congrArg List.reverse e1
      rw [List.reverse_reverse] at this
      rw [this]
      simp
    apply hback _ rfl T.reverse
      (S.reverse ++ (c, b.cursorX, b.cursorY) :: (rowFrom post (b.cursorX + 1) b.cursorY
          ++ cellsFrom B (b.cursorY + 1)))
    · rw [hcells, hbefore]
      simp only [List.append_assoc, List.cons_append]
    · rw [if_pos hm]
      exact e2 _ _

/-- C38: where `MoveToMatchingBracket` returns true and moves the cursor of the buffer `b`,
giving `b1`, a second call on `b1` returns true and gives back `b`: the cursor is again at
the position it started from, and nothing else has changed. -/
theorem MoveToMatchingBracket_involution (b b1 : Buffer)
    (h : MoveToMatchingBracket b = some (b1, true)) :
    MoveToMatchingBracket b1 = some (b, true) := by
  obtain ⟨A, l, B, pre, c, post, hl, hy, hr, hx⟩ := cursor_on_character b b1 h
  cases hp : bracketPair c with
  | none =>
    have hlen : ¬ (b.cursorX ≥ ((toRunes b.CurrentLine).length : Int)) := by
      rw [(cursor_cells b A B l pre post c hl hy hr hx).1, hr, hx, List.length_append,
        List.length_cons]
      push_cast
      omega
    have hidx : idx? (toRunes b.CurrentLine) b.cursorX = some c := by
      rw [(cursor_cells b A B l pre post c hl hy hr hx).1, hr, hx]
      exact idx?_append pre c post
    unfold MoveToMatchingBracket at h
    simp [hlen, hidx, hp] at h
  | some m =>
    rw [MoveToMatchingBracket_cells b A B l pre post c m hl hy hr hx hp] at h
    split at h
    · rename_i x y hq
      have hb1 : b1 = { b with cursorX := x, cursorY := y } := by
        have := Option.some.inj h
        exact (congrArg Prod.fst this).symm
      rw [hb1]
      exact MoveToMatchingBracket_return b A B l pre post c m hl hy hr hx hp (x, y) hq
    · simp at h

/-- C38 on a buffer of two lines: from the `(` of "f(a" the bracket motion goes to the `)`
of "b)" on the next line and a second call comes back. -/
theorem MoveToMatchingBracket_on_two_lines :
    MoveToMatchingBracket ((NewBuffer (str "f(a\nb)")).SetCursorPosition 1 0)
      = some ((NewBuffer (str "f(a\nb)")).SetCursorPosition 1 1, true) ∧
    MoveToMatchingBracket ((NewBuffer (str "f(a\nb)")).SetCursorPosition 1 1)
      = some ((NewBuffer (str "f(a\nb)")).SetCursorPosition 1 0, true) :=
  ⟨by decide, MoveToMatchingBracket_involution _ _ (by decide)⟩

/-! ### The task generator on concrete draws -/

set_option maxRecDepth 1000000 in
set_option maxHeartbeats 4000000 in
/-- C33 (code_bug): the same seeded generator returns different task lists from its first
`GenerateTasksForRound("beginner")` call when `range` visits the map `distribution` in a
different order: visited from motion to complex the list starts with five motion tasks,
visited from complex to motion it starts with two complex tasks. -/
theorem GenerateTasksForRound_depends_on_map_order :
    distribution.reverse.Perm distribution ∧
    (sampleGenerator.GenerateTasksForRound distribution (str "beginner")).map
        (fun p => p.1.map Task.ID)
      = some ([str "gen-motion-w-0", str "gen-motion-w-0", str "gen-motion-w-0",
          str "gen-motion-w-0", str "gen-motion-w-0"]
        ++ List.replicate 6 (str "gen-delete-dw-0") ++ List.replicate 6 (str "gen-change-cw-0")
        ++ List.replicate 6 (str "gen-insert-i-0") ++ List.replicate 3 (str "gen-visual-viwd-0")
        ++ List.replicate 3 (str "gen-complex-swap-0") ++ [str "gen-motion-0-0"]) ∧
    (sampleGenerator.GenerateTasksForRound distribution.reverse (str "beginner")).map
        (fun p => p.1.map Task.ID)
      = some ([str "gen-complex-swap-0", str "gen-complex-swap-0"]
        ++ List.replicate 3 (str "gen-visual-viwd-0") ++ List.replicate 6 (str "gen-insert-i-0")
        ++ List.replicate 6 (str "gen-change-cw-0") ++ List.replicate 6 (str "gen-delete-dw-0")
        ++ List.replicate 6 (str "gen-motion-w-0") ++ [str "gen-complex-swap-2"]) := by
  refine ⟨List.reverse_perm _, ?_, ?_⟩ <;> decide

set_option maxRecDepth 1000000 in
set_option maxHeartbeats 4000000 in
/-- C40 (code_bug): the round generated by `sampleGenerator` contains the motion task
`gen-motion-0-0` (keys `0`, cursor from 19 to 0 on an unchanged sentence); it is the only
task of the round on which a freshly started session has `CheckMatch() == MatchComplete`. -/
theorem generated_zero_motion_is_complete_at_start :
    (sampleGenerator.GenerateTasksForRound distribution (str "beginner")).map
        (fun p => (p.1.filter
          (fun t => (sessionOn [t]).CheckMatch = MatchStatus.MatchComplete)).map Task.ID)
      = some [str "gen-motion-0-0"] ∧
    (sampleGenerator.GenerateTasksForRound distribution (str "beginner")).map
        (fun p => (p.1.filter
          (fun t => (sessionOn [t]).CheckMatch = MatchStatus.MatchComplete)).map
          (fun t => (decide (t.Initial = t.Desired), t.CursorStart, t.CursorEnd)))
      = some [(true, 19, 0)] ∧
    (sampleGenerator.GenerateTasksForRound distribution (str "beginner")).map
        (fun p => (p.1.filter
          (fun t => (sessionOn [t]).CheckMatch = MatchStatus.MatchComplete)).map
          Task.OptimalKeys)
      = some [str "0"] := by
  refine ⟨?_, ?_, ?_⟩ <;> decide

/-! ### The task generator: a round has 30 tasks in the six categories -/

theorem rngIntn_some (r : Rng) (n : Int) (hn : 0 < n) :
    ∃ v r1, r.Intn n = some (v, r1) ∧ 0 ≤ v ∧ v < n := by
  unfold Rng.Intn
  rw [if_neg (by omega)]
  exact ⟨_, _, rfl, Int.emod_nonneg _ (by omega), Int.emod_lt_of_pos _ hn⟩

theorem idx?_some_of_lt {α : Type} (l : List α) (i : Int) (h0 : 0 ≤ i) (h1 : i < l.length) :
    ∃ a, idx? l i = some a ∧ a ∈ l := by
  unfold idx?
  rw [if_pos h0, List.get?_eq_getElem?]
  have hlt : i.toNat < l.length := by omega
  exact ⟨l[i.toNat], List.getElem?_eq_getElem hlt, List.getElem_mem hlt⟩

theorem cons_set_perm {α : Type} (t : List α) (j : Nat) (a b : α) (h : t[j]? = some b) :
    (b :: t.set j a).Perm (a :: t) := by
  induction t generalizing j with
  | nil => simp at h
  | cons c t ih =>
    cases j with
    | zero =>
      simp only [List.getElem?_cons_zero, Option.some.injEq] at h
      subst h
      exact List.Perm.swap _ _ _
    | succ j =>
      simp only [List.getElem?_cons_succ] at h
      rw [List.set_cons_succ]
      exact ((List.Perm.swap c b _).trans ((ih j h).cons c)).trans (List.Perm.swap a c t)

theorem set_set_perm_of_getElem? {α : Type} (l : List α) (i j : Nat) (a b : α)
    (hi : l[i]? = some a) (hj : l[j]? = some b) : ((l.set i b).set j a).Perm l := by
  induction l generalizing i j with
  | nil => simp at hi
  | cons c t ih =>
    cases i with
    | zero =>
      simp only [List.getElem?_cons_zero, Option.some.injEq] at hi
      subst hi
      cases j with
      | zero =>
        simp only [List.getElem?_cons_zero, Option.some.injEq] at hj
        subst hj
        simp
      | succ j =>
        simp only [List.getElem?_cons_succ] at hj
        simp only [List.set_cons_zero, List.set_cons_succ]
        exact cons_set_perm t j c b hj
    | succ i =>
      simp only [List.getElem?_cons_succ] at hi
      cases j with
      | zero =>
        simp only [List.getElem?_cons_zero, Option.some.injEq] at hj
        subst hj
        simp only [List.set_cons_zero, List.set_cons_succ]
        exact cons_set_perm t i c a hi
      | succ j =>
        simp only [List.getElem?_cons_succ] at hj
        simp only [List.set_cons_succ]
        exact (ih i j hi hj).cons c

theorem swap?_perm {α : Type} (l : List α) (i j : Int) (hi0 : 0 ≤ i) (hi : i < l.length)
    (hj0 : 0 ≤ j) (hj : j < l.length) : ∃ l1, swap? l i j = some l1 ∧ l1.Perm l := by
  have hin : i.toNat < l.length := by omega
  have hjn : j.toNat < l.length := by omega
  have e1 : idx? l i = some l[i.toNat] := by
    unfold idx?
    rw [if_pos hi0, List.get?_eq_getElem?, List.getElem?_eq_getElem hin]
  have e2 : idx? l j = some l[j.toNat] := by
    unfold idx?
    rw [if_pos hj0, List.get?_eq_getElem?, List.getElem?_eq_getElem hjn]
  refine ⟨(l.set i.toNat l[j.toNat]).set j.toNat l[i.toNat], ?_, ?_⟩
  · unfold swap? setIdx?
    simp only [e1, e2, Option.bind_eq_bind, Option.some_bind]
    rw [if_pos ⟨hi0, hi⟩]
    simp only [Option.some_bind]
    rw [if_pos ⟨hj0, by rw [List.length_set]; exact hj⟩]
  · exact set_set_perm_of_getElem? l _ _ _ _ (List.getElem?_eq_getElem hin)
      (List.getElem?_eq_getElem hjn)

theorem shuffleLoop_perm {α : Type} (i : Nat) (r : Rng) (l : List α) (h : i < l.length ∨ i = 0) :
    ∃ l1 r1, Rng.shuffleLoop i r l = some (l1, r1) ∧ l1.Perm l := by
  induction i generalizing r l with
  | zero => exact ⟨l, r, rfl, List.Perm.refl l⟩
  | succ i ih =>
    have hlen : i + 1 < l.length := by omega
    obtain ⟨j, r1, hj, hj0, hj1⟩ := rngIntn_some r ((i : Int) + 2) (by omega)
    obtain ⟨l1, hs, hp⟩ := swap?_perm l ((i : Int) + 1) j (by omega) (by omega) hj0 (by omega)
    obtain ⟨l2, r2, hl, hp2⟩ := ih r1 l1 (Or.inl (by rw [hp.length_eq]; omega))
    refine ⟨l2, r2, ?_, hp2.trans hp⟩
    unfold Rng.shuffleLoop
    simp only [hj, Option.bind_eq_bind, Option.some_bind, hs, hl]

theorem Shuffle_perm {α : Type} (r : Rng) (l : List α) :
    ∃ l1 r1, r.Shuffle l = some (l1, r1) ∧ l1.Perm l := by
  unfold Rng.Shuffle
  apply shuffleLoop_perm
  omega
theorem sources_ok : ∀ src ∈ GetPublicDomainSources,
    0 < src.Sentences.length ∧ ∀ s ∈ src.Sentences, sentenceOK s = true := by
  decide

theorem randomSentence_spec (g : TaskGenerator) (hg : g.sources = GetPublicDomainSources) :
    ∃ s g1, g.randomSentence = some (s, g1) ∧ sentenceOK s = true ∧
      g1.sources = GetPublicDomainSources := by
  obtain ⟨i, r1, hi, hi0, hi1⟩ := rngIntn_some g.rng g.sources.length (by rw [hg]; decide)
  obtain ⟨src, hsrc, hmem⟩ := idx?_some_of_lt g.sources i hi0 hi1
  rw [hg] at hmem
  obtain ⟨hlen, hall⟩ := sources_ok src hmem
  obtain ⟨j, r2, hj, hj0, hj1⟩ := rngIntn_some r1 src.Sentences.length (by omega)
  obtain ⟨s, hs, hsmem⟩ := idx?_some_of_lt src.Sentences j hj0 hj1
  refine ⟨s, { g with rng := r2 }, ?_, hall s hsmem, hg⟩
  unfold TaskGenerator.randomSentence
  simp only [hi, Option.bind_eq_bind, Option.some_bind, hsrc, hj, hs]
  rfl

theorem GenerateVisualTask_spec (g : TaskGenerator) (d : Int)
    (hg : g.sources = GetPublicDomainSources) :
    ∃ t g1, g.GenerateVisualTask d = some (t, g1) ∧ t.Category = CategoryVisual ∧
      t.Difficulty = max d 2 ∧ g1.sources = GetPublicDomainSources := by
  obtain ⟨s, g1, hs, hok, hg1⟩ := randomSentence_spec g hg
  unfold TaskGenerator.GenerateVisualTask
  simp only [hs, Option.bind_eq_bind, Option.some_bind]
  by_cases hw : (stringsFields s).length ≥ 2
  · rw [if_pos hw]
    obtain ⟨k, r1, hk, hk0, hk1⟩ := rngIntn_some g1.rng (stringsFields s).length (by omega)
    obtain ⟨w, hw1, _⟩ := idx?_some_of_lt (stringsFields s) k hk0 hk1
    simp only [hk, Option.some_bind, hw1]
    exact ⟨_, _, rfl, rfl, rfl, hg1⟩
  · rw [if_neg hw]
    exact ⟨_, _, rfl, rfl, rfl, hg1⟩
theorem sentenceOK_spec (s : GoString) (h : sentenceOK s = true) :
    2 ≤ (stringsFields s).length ∧ (∀ w ∈ stringsFields s, 0 ≤ stringsIndex s w) ∧
    ∀ k, k < (stringsFields s).length →
      ∃ x, randomWordLoop s ((stringsFields s).take k) 0 = some x := by
  unfold sentenceOK at h
  simp only [Bool.and_eq_true, decide_eq_true_eq, List.all_eq_true, List.mem_range] at h
  obtain ⟨⟨h1, h2⟩, h3⟩ := h
  exact ⟨h1, h2, fun k hk => Option.isSome_iff_exists.mp (h3 k hk)⟩

theorem indexAux_le (substr s : GoString) (i : Int) (hi : 0 ≤ i) :
    indexAux substr s i ≤ i + s.length := by
  induction s generalizing i with
  | nil =>
    unfold indexAux
    split_ifs <;> (simp only [List.length_nil]; omega)
  | cons c cs ih =>
    unfold indexAux
    split_ifs
    · simp only [List.length_cons]
      push_cast
      omega
    · have := ih (i + 1) (by omega)
      simp only [List.length_cons]
      push_cast
      omega

theorem stringsIndex_le (s substr : GoString) : stringsIndex s substr ≤ s.length := by
  have := indexAux_le substr s 0 (le_refl 0)
  unfold stringsIndex
  omega

theorem randomWord_spec (g : TaskGenerator) (s : GoString) (hok : sentenceOK s = true) :
    ∃ w ws g1, g.randomWord s = some (w, ws, g1) ∧ 0 ≤ ws ∧ ws ≤ s.length ∧
      g1.sources = g.sources := by
  obtain ⟨h2, hidx, hloop⟩ := sentenceOK_spec s hok
  obtain ⟨k, r1, hk, hk0, hk1⟩ := rngIntn_some g.rng (stringsFields s).length (by omega)
  obtain ⟨w, hw, hwmem⟩ := idx?_some_of_lt (stringsFields s) k hk0 hk1
  obtain ⟨x, hx⟩ := hloop k.toNat (by omega)
  refine ⟨w, stringsIndex s w, { g with rng := r1 }, ?_, hidx w hwmem, stringsIndex_le s w, rfl⟩
  unfold TaskGenerator.randomWord
  simp only
  rw [if_neg (by omega)]
  simp only [hk, Option.bind_eq_bind, Option.some_bind, hw, hx]
  rfl

theorem GenerateComplexTask_spec (g : TaskGenerator) (d : Int)
    (hg : g.sources = GetPublicDomainSources) :
    ∃ t g1, g.GenerateComplexTask d = some (t, g1) ∧ t.Category = CategoryComplex ∧
      t.Difficulty = max d 3 ∧ g1.sources = GetPublicDomainSources := by
  obtain ⟨s, g1, hs, hok, hg1⟩ := randomSentence_spec g hg
  obtain ⟨h2, _, _⟩ := sentenceOK_spec s hok
  unfold TaskGenerator.GenerateComplexTask
  simp only [hs, Option.bind_eq_bind, Option.some_bind]
  rw [if_pos h2]
  obtain ⟨l1, hl1, _⟩ := swap?_perm (stringsFields s) 0 1 (by omega) (by omega) (by omega)
    (by omega)
  simp only [hl1, Option.some_bind]
  exact ⟨_, _, rfl, rfl, rfl, hg1⟩

theorem GenerateInsertTask_spec (g : TaskGenerator) (d : Int)
    (hg : g.sources = GetPublicDomainSources) :
    ∃ t g1, g.GenerateInsertTask d = some (t, g1) ∧ t.Category = CategoryInsert ∧
      t.Difficulty = d ∧ g1.sources = GetPublicDomainSources := by
  obtain ⟨s, g1, hs, hok, hg1⟩ := randomSentence_spec g hg
  obtain ⟨h2, hidx, _⟩ := sentenceOK_spec s hok
  obtain ⟨k, r1, hk, hk0, hk1⟩ := rngIntn_some g1.rng insertWords.length (by decide)
  obtain ⟨ins, hins, _⟩ := idx?_some_of_lt insertWords k hk0 hk1
  unfold TaskGenerator.GenerateInsertTask
  simp only [hs, Option.bind_eq_bind, Option.some_bind, hk, hins]
  by_cases h1 : d = 1
  · rw [if_pos h1, if_pos h2]
    obtain ⟨w1, hw1, hw1mem⟩ := idx?_some_of_lt (stringsFields s) 1 (by omega) (by omega)
    have hp0 := hidx w1 hw1mem
    have hp1 := stringsIndex_le s w1
    have e1 : sliceTo? s (stringsIndex s w1) = some (s.take (stringsIndex s w1).toNat) := by
      unfold sliceTo? slice?
      rw [if_pos ⟨le_refl 0, hp0, hp1⟩]
      simp
    have e2 : sliceFrom? s (stringsIndex s w1) = some (s.drop (stringsIndex s w1).toNat) := by
      unfold sliceFrom? slice?
      rw [if_pos ⟨hp0, hp1, le_refl _⟩]
      simp
    simp only [hw1, Option.some_bind, e1, e2]
    exact ⟨_, _, rfl, rfl, h1.symm ▸ rfl, hg1⟩
  · rw [if_neg h1]
    by_cases h2 : d = 2
    · rw [if_pos h2]
      exact ⟨_, _, rfl, rfl, rfl, hg1⟩
    · rw [if_neg h2]
      exact ⟨_, _, rfl, rfl, rfl, hg1⟩

theorem GenerateChangeTask_spec (g : TaskGenerator) (d : Int)
    (hg : g.sources = GetPublicDomainSources) :
    ∃ t g1, g.GenerateChangeTask d = some (t, g1) ∧ t.Category = CategoryChange ∧
      t.Difficulty = d ∧ g1.sources = GetPublicDomainSources := by
  obtain ⟨s, g1, hs, hok, hg1⟩ := randomSentence_spec g hg
  obtain ⟨h2, hidx, _⟩ := sentenceOK_spec s hok
  obtain ⟨k, r1, hk, hk0, hk1⟩ := rngIntn_some g1.rng replacementWords.length (by decide)
  obtain ⟨rep, hrep, _⟩ := idx?_some_of_lt replacementWords k hk0 hk1
  obtain ⟨wi, r2, hwi, hwi0, hwi1⟩ := rngIntn_some r1 (stringsFields s).length (by omega)
  obtain ⟨w, hw, _⟩ := idx?_some_of_lt (stringsFields s) wi hwi0 hwi1
  have h1w : (stringsFields s).length ≥ 1 := by omega
  unfold TaskGenerator.GenerateChangeTask
  simp only [hs, Option.bind_eq_bind, Option.some_bind, hk, hrep]
  by_cases h1 : d = 1
  · rw [if_pos h1, if_pos h1w]
    simp only [hwi, Option.some_bind, hw]
    exact ⟨_, _, rfl, rfl, h1.symm ▸ rfl, hg1⟩
  · rw [if_neg h1]
    by_cases h2 : d = 2
    · rw [if_pos h2, if_pos h1w]
      simp only [hwi, Option.some_bind, hw]
      exact ⟨_, _, rfl, rfl, h2.symm ▸ rfl, hg1⟩
    · rw [if_neg h2]
      exact ⟨_, _, rfl, rfl, rfl, hg1⟩
theorem idx?_zero_of_length_pos (w : GoString) (h : w.length > 0) :
    ∃ c, idx? w 0 = some c := by
  obtain ⟨c, hc, _⟩ := idx?_some_of_lt w 0 (le_refl 0) (by omega)
  exact ⟨c, hc⟩

theorem sliceFrom?_some (s : GoString) (i : Int) (h0 : 0 ≤ i) (h1 : i ≤ s.length) :
    ∃ x, sliceFrom? s i = some x := by
  unfold sliceFrom? slice?
  rw [if_pos ⟨h0, h1, le_refl _⟩]
  exact ⟨_, rfl⟩

theorem sliceTo?_some (s : GoString) (i : Int) (h0 : 0 ≤ i) (h1 : i ≤ s.length) :
    ∃ x, sliceTo? s i = some x := by
  unfold sliceTo? slice?
  rw [if_pos ⟨le_refl 0, h0, h1⟩]
  exact ⟨_, rfl⟩

theorem GenerateDeleteTask_spec (g : TaskGenerator) (d : Int)
    (hg : g.sources = GetPublicDomainSources) :
    ∃ t g1, g.GenerateDeleteTask d = some (t, g1) ∧ t.Category = CategoryDelete ∧
      t.Difficulty = d ∧ g1.sources = GetPublicDomainSources := by
  obtain ⟨s, g1, hs, hok, hg1⟩ := randomSentence_spec g hg
  obtain ⟨h2, hidx, _⟩ := sentenceOK_spec s hok
  unfold TaskGenerator.GenerateDeleteTask
  simp only [hs, Option.bind_eq_bind, Option.some_bind]
  by_cases h1 : d = 1
  · rw [if_pos h1, if_pos h2]
    obtain ⟨k, r1, hk, hk0, hk1⟩ :=
      rngIntn_some g1.rng (((stringsFields s).length : Int) - 1) (by omega)
    obtain ⟨w, hw, _⟩ := idx?_some_of_lt (stringsFields s) k hk0 (by omega)
    simp only [hk, Option.some_bind, hw]
    exact ⟨_, _, rfl, rfl, h1.symm ▸ rfl, hg1⟩
  · rw [if_neg h1]
    by_cases h2d : d = 2
    · rw [if_pos h2d, if_pos h2]
      obtain ⟨k, r1, hk, hk0, hk1⟩ := rngIntn_some g1.rng (stringsFields s).length (by omega)
      obtain ⟨w, hw, _⟩ := idx?_some_of_lt (stringsFields s) k hk0 hk1
      simp only [hk, Option.some_bind, hw]
      refine ⟨_, _, rfl, ?_, ?_, hg1⟩
      · simp only
        split_ifs <;> rfl
      · simp only
        split_ifs <;> rfl
    · rw [if_neg h2d]
      obtain ⟨w, ws, g2, hrw, hws0, hws1, hg2⟩ := randomWord_spec g1 s hok
      simp only [hrw, Option.some_bind]
      by_cases hc : w.length > 0 ∧ ws > 0
      · rw [if_pos hc]
        obtain ⟨c, hc0⟩ := idx?_zero_of_length_pos w hc.1
        obtain ⟨x, hx⟩ := sliceFrom?_some s ws hws0 hws1
        simp only [hc0, Option.some_bind, hx]
        exact ⟨_, _, rfl, rfl, rfl, hg2.trans hg1⟩
      · rw [if_neg hc]
        exact ⟨_, _, rfl, rfl, rfl, hg2.trans hg1⟩

theorem motionChoices_setup (s : GoString) (words : List GoString) (h2 : 2 ≤ words.length)
    (c : MotionChoice) (hc : c ∈ motionChoices s words) : ∃ p, c.setup = some p := by
  obtain ⟨w0, hw0, _⟩ := idx?_some_of_lt words 0 (le_refl 0) (by omega)
  obtain ⟨w1, hw1, _⟩ := idx?_some_of_lt words 1 (by omega) (by omega)
  have hn2 : ¬ (words.length < 2) := by omega
  have hn1 : ¬ (words.length < 1) := by omega
  simp only [motionChoices, List.mem_cons, List.mem_singleton, List.not_mem_nil, or_false] at hc
  rcases hc with rfl | rfl | rfl | rfl | rfl
  · simp only [if_neg hn2, hw1, Option.bind_eq_bind, Option.some_bind]
    exact ⟨_, rfl⟩
  · simp only [if_neg hn1, hw0, Option.bind_eq_bind, Option.some_bind]
    exact ⟨_, rfl⟩
  · exact ⟨_, rfl⟩
  · exact ⟨_, rfl⟩
  · simp only [if_neg hn2, hw1, Option.bind_eq_bind, Option.some_bind]
    exact ⟨_, rfl⟩

theorem motionCase1_spec (g : TaskGenerator) (s : GoString) (task : Task)
    (hok : sentenceOK s = true) :
    ∃ t g1, g.motionCase1 s (stringsFields s) task = some (t, g1) ∧
      t.Category = task.Category ∧ t.Difficulty = task.Difficulty ∧
      g1.sources = g.sources := by
  obtain ⟨h2, _, _⟩ := sentenceOK_spec s hok
  have hlen : (0 : Int) < ((motionChoices s (stringsFields s)).length : Int) := by
    simp [motionChoices]
  obtain ⟨k, r1, hk, hk0, hk1⟩ :=
    rngIntn_some g.rng (motionChoices s (stringsFields s)).length hlen
  obtain ⟨c, hc, hcmem⟩ := idx?_some_of_lt (motionChoices s (stringsFields s)) k hk0 hk1
  obtain ⟨p, hp⟩ := motionChoices_setup s _ h2 c hcmem
  unfold TaskGenerator.motionCase1
  simp only [hk, Option.bind_eq_bind, Option.some_bind, hc, hp]
  exact ⟨_, _, rfl, rfl, rfl, rfl⟩

theorem motionDefault_spec (g : TaskGenerator) (s : GoString) (task : Task)
    (hok : sentenceOK s = true) :
    ∃ t g1, g.motionDefault s task = some (t, g1) ∧
      t.Category = task.Category ∧ t.Difficulty = task.Difficulty ∧
      g1.sources = g.sources := by
  obtain ⟨w, ws, g2, hrw, hws0, hws1, hg2⟩ := randomWord_spec g s hok
  unfold TaskGenerator.motionDefault
  simp only [hrw, Option.bind_eq_bind, Option.some_bind]
  by_cases hc : w.length > 0 ∧ ws > 1
  · rw [if_pos hc]
    obtain ⟨c, hc0⟩ := idx?_zero_of_length_pos w hc.1
    simp only [hc0, Option.some_bind]
    exact ⟨_, _, rfl, rfl, rfl, hg2⟩
  · rw [if_neg hc]
    exact ⟨_, _, rfl, rfl, rfl, hg2⟩

theorem motionCase2_spec (g : TaskGenerator) (s : GoString) (task : Task)
    (hok : sentenceOK s = true) :
    ∃ t g1, g.motionCase2 s (stringsFields s) task = some (t, g1) ∧
      t.Category = task.Category ∧ t.Difficulty = task.Difficulty ∧
      g1.sources = g.sources := by
  unfold TaskGenerator.motionCase2
  simp only
  by_cases h3 : (stringsFields s).length ≥ 3
  · simp only [if_pos h3]
    by_cases hf : g.rng.Float32.1 < 2 ^ 148
    · simp only [hf, decide_True, if_true]
      by_cases h4 : (stringsFields s).length > 3
      · rw [if_pos h4]
        obtain ⟨v, r1, hv, hv0, hv1⟩ := rngIntn_some g.rng.Float32.2 2 (by omega)
        obtain ⟨w, hw, _⟩ := idx?_some_of_lt (stringsFields s)
          (min (2 + v) (((stringsFields s).length : Int) - 1)) (by omega) (by omega)
        simp only [hv, Option.bind_eq_bind, Option.pure_def, Option.some_bind, hw]
        exact ⟨_, _, rfl, rfl, rfl, rfl⟩
      · rw [if_neg h4]
        obtain ⟨w, hw, _⟩ := idx?_some_of_lt (stringsFields s)
          (min 2 (((stringsFields s).length : Int) - 1)) (by omega) (by omega)
        simp only [Option.bind_eq_bind, Option.pure_def, Option.some_bind, hw]
        exact ⟨_, _, rfl, rfl, rfl, rfl⟩
    · simp only [hf, decide_False, Bool.false_eq_true, if_false]
      obtain ⟨w, ws, g2, hrw, hws0, hws1, hg2⟩ :=
        randomWord_spec ({ g with rng := g.rng.Float32.2 } : TaskGenerator) s hok
      simp only [hrw, Option.bind_eq_bind, Option.some_bind]
      by_cases hc : w.length > 0 ∧ ws > 0
      · rw [if_pos hc]
        obtain ⟨c, hc0⟩ := idx?_zero_of_length_pos w hc.1
        simp only [hc0, Option.some_bind]
        exact ⟨_, _, rfl, rfl, rfl, hg2⟩
      · rw [if_neg hc]
        exact ⟨_, _, rfl, rfl, rfl, hg2⟩
  · simp only [if_neg h3, Bool.false_eq_true, if_false]
    obtain ⟨w, ws, g2, hrw, hws0, hws1, hg2⟩ :=
      randomWord_spec ({ g with rng := g.rng } : TaskGenerator) s hok
    simp only [hrw, Option.bind_eq_bind, Option.some_bind]
    by_cases hc : w.length > 0 ∧ ws > 0
    · rw [if_pos hc]
      obtain ⟨c, hc0⟩ := idx?_zero_of_length_pos w hc.1
      simp only [hc0, Option.some_bind]
      exact ⟨_, _, rfl, rfl, rfl, hg2⟩
    · rw [if_neg hc]
      exact ⟨_, _, rfl, rfl, rfl, hg2⟩

theorem GenerateMotionTask_spec (g : TaskGenerator) (d : Int)
    (hg : g.sources = GetPublicDomainSources) :
    ∃ t g1, g.GenerateMotionTask d = some (t, g1) ∧ t.Category = CategoryMotion ∧
      t.Difficulty = d ∧ g1.sources = GetPublicDomainSources := by
  obtain ⟨s, g1, hs, hok, hg1⟩ := randomSentence_spec g hg
  have c1 := motionCase1_spec g1 s
    { Task.zero with Category := CategoryMotion, Difficulty := d, Initial := s, Desired := s } hok
  have c2 := motionCase2_spec g1 s
    { Task.zero with Category := CategoryMotion, Difficulty := d, Initial := s, Desired := s } hok
  have c3 := motionDefault_spec g1 s
    { Task.zero with Category := CategoryMotion, Difficulty := d, Initial := s, Desired := s } hok
  unfold TaskGenerator.GenerateMotionTask
  simp only [hs, Option.bind_eq_bind, Option.some_bind]
  by_cases h1 : d = 1
  · rw [if_pos h1]
    obtain ⟨t, g2, ht, hc, hd, hg2⟩ := c1
    simp only [ht, Option.some_bind]
    exact ⟨_, _, rfl, hc, hd, hg2.trans hg1⟩
  · rw [if_neg h1]
    by_cases h2 : d = 2
    · rw [if_pos h2]
      obtain ⟨t, g2, ht, hc, hd, hg2⟩ := c2
      simp only [ht, Option.some_bind]
      exact ⟨_, _, rfl, hc, hd, hg2.trans hg1⟩
    · rw [if_neg h2]
      obtain ⟨t, g2, ht, hc, hd, hg2⟩ := c3
      simp only [ht, Option.some_bind]
      exact ⟨_, _, rfl, hc, hd, hg2.trans hg1⟩
theorem generateByCategory_spec (g : TaskGenerator) (cat : GoString) (d : Int)
    (hg : g.sources = GetPublicDomainSources)
    (hcat : cat ∈ distribution.map Prod.fst) :
    ∃ t g1, g.generateByCategory cat d = some (t, g1) ∧ t.Category = cat ∧
      t.Difficulty = taskDifficulty cat d ∧ g1.sources = GetPublicDomainSources := by
  have n1 : CategoryDelete ≠ CategoryMotion := by decide
  have n2 : CategoryChange ≠ CategoryMotion := by decide
  have n3 : CategoryChange ≠ CategoryDelete := by decide
  have n4 : CategoryInsert ≠ CategoryMotion := by decide
  have n5 : CategoryInsert ≠ CategoryDelete := by decide
  have n6 : CategoryInsert ≠ CategoryChange := by decide
  have n7 : CategoryVisual ≠ CategoryMotion := by decide
  have n8 : CategoryVisual ≠ CategoryDelete := by decide
  have n9 : CategoryVisual ≠ CategoryChange := by decide
  have n10 : CategoryVisual ≠ CategoryInsert := by decide
  have n11 : CategoryComplex ≠ CategoryMotion := by decide
  have n12 : CategoryComplex ≠ CategoryDelete := by decide
  have n13 : CategoryComplex ≠ CategoryChange := by decide
  have n14 : CategoryComplex ≠ CategoryInsert := by decide
  have n15 : CategoryComplex ≠ CategoryVisual := by decide
  simp only [distribution, List.map_cons, List.map_nil, List.mem_cons, List.mem_singleton,
    List.not_mem_nil, or_false] at hcat
  unfold TaskGenerator.generateByCategory taskDifficulty
  rcases hcat with rfl | rfl | rfl | rfl | rfl | rfl
  · simp only [if_true, if_neg n7.symm, if_neg n11.symm]
    exact GenerateMotionTask_spec g d hg
  · simp only [if_true, if_neg n1, if_neg n8.symm, if_neg n12.symm]
    exact GenerateDeleteTask_spec g d hg
  · simp only [if_true, if_neg n2, if_neg n3, if_neg n9.symm, if_neg n13.symm]
    exact GenerateChangeTask_spec g d hg
  · simp only [if_true, if_neg n4, if_neg n5, if_neg n6, if_neg n10.symm, if_neg n14.symm]
    exact GenerateInsertTask_spec g d hg
  · simp only [if_true, if_neg n7, if_neg n8, if_neg n9, if_neg n10]
    exact GenerateVisualTask_spec g d hg
  · simp only [if_true, if_neg n11, if_neg n12, if_neg n13, if_neg n14, if_neg n15]
    exact GenerateComplexTask_spec g d hg

theorem categoryLoop_spec (cat : GoString) (lo hi : Int) (hlohi : lo ≤ hi)
    (hcat : cat ∈ distribution.map Prod.fst) (n : Nat) (g : TaskGenerator) (tasks : List Task)
    (hg : g.sources = GetPublicDomainSources) :
    ∃ new g1, TaskGenerator.categoryLoop cat lo hi n g tasks = some (tasks ++ new, g1) ∧
      new.length = n ∧
      (∀ t ∈ new, t.Category = cat ∧ ∃ d, lo ≤ d ∧ d ≤ hi ∧ t.Difficulty = taskDifficulty cat d) ∧
      g1.sources = GetPublicDomainSources := by
  induction n generalizing g tasks with
  | zero => exact ⟨[], g, by simp [TaskGenerator.categoryLoop], rfl, by simp, hg⟩
  | succ n ih =>
    have tail : ∀ (d : Int) (g1 : TaskGenerator), lo ≤ d → d ≤ hi →
        g1.sources = GetPublicDomainSources →
        ∃ t g2 new g3, g1.generateByCategory cat d = some (t, g2) ∧
          TaskGenerator.categoryLoop cat lo hi n g2 (tasks ++ [t])
            = some (tasks ++ (t :: new), g3) ∧
          (t :: new).length = n + 1 ∧
          (∀ t1 ∈ t :: new, t1.Category = cat ∧
            ∃ d, lo ≤ d ∧ d ≤ hi ∧ t1.Difficulty = taskDifficulty cat d) ∧
          g3.sources = GetPublicDomainSources := by
      intro d g1 hd0 hd1 hg1
      obtain ⟨t, g2, ht, htc, htd, hg2⟩ := generateByCategory_spec g1 cat d hg1 hcat
      obtain ⟨new, g3, hl, hlen, hall, hg3⟩ := ih g2 (tasks ++ [t]) hg2
      refine ⟨t, g2, new, g3, ht, ?_, by simp [hlen], ?_, hg3⟩
      · rw [hl, List.append_assoc, List.singleton_append]
      · intro t1 ht1
        rcases List.mem_cons.mp ht1 with rfl | hmem
        · exact ⟨htc, d, hd0, hd1, htd⟩
        · exact hall t1 hmem
    unfold TaskGenerator.categoryLoop
    by_cases h : hi > lo
    · obtain ⟨v, r, hv, hv0, hv1⟩ := rngIntn_some g.rng (hi - lo + 1) (by omega)
      obtain ⟨t, g2, new, g3, ht, hl, hlen, hall, hg3⟩ :=
        tail (lo + v) ({ g with rng := r } : TaskGenerator) (by omega) (by omega) hg
      simp only [if_pos h, hv, Option.bind_eq_bind, Option.pure_def, Option.some_bind, ht, hl]
      exact ⟨t :: new, g3, rfl, hlen, hall, hg3⟩
    · obtain ⟨t, g2, new, g3, ht, hl, hlen, hall, hg3⟩ := tail lo g (le_refl _) hlohi hg
      simp only [if_neg h, Option.bind_eq_bind, Option.pure_def, Option.some_bind, ht, hl]
      exact ⟨t :: new, g3, rfl, hlen, hall, hg3⟩
theorem categoryCount_append (a b : List Task) (c : GoString) :
    categoryCount (a ++ b) c = categoryCount a c + categoryCount b c := by
  simp [categoryCount, List.filter_append]

theorem categoryCount_block (l : List Task) (cat c : GoString)
    (h : ∀ t ∈ l, t.Category = cat) :
    categoryCount l c = if cat = c then l.length else 0 := by
  unfold categoryCount
  by_cases hc : cat = c
  · rw [if_pos hc]
    congr 1
    apply List.filter_eq_self.mpr
    intro t ht
    simp [h t ht, hc]
  · rw [if_neg hc, List.length_eq_zero]
    apply List.filter_eq_nil_iff.mpr
    intro t ht
    simp [h t ht, hc]

theorem categoryTotal_cons (cat : GoString) (count : Int) (rest : List (GoString × Int))
    (c : GoString) :
    categoryTotal ((cat, count) :: rest) c
      = (if cat = c then count.toNat else 0) + categoryTotal rest c := by
  unfold categoryTotal
  by_cases hc : cat = c
  · simp [List.filter_cons, hc]
  · simp [List.filter_cons, hc]

theorem roundLoop_spec (lo hi : Int) (hlohi : lo ≤ hi) (order : List (GoString × Int))
    (hknown : ∀ e ∈ order, e.1 ∈ distribution.map Prod.fst) (g : TaskGenerator)
    (tasks : List Task) (hg : g.sources = GetPublicDomainSources) :
    ∃ new g1, TaskGenerator.roundLoop lo hi order g tasks = some (tasks ++ new, g1) ∧
      new.length = (order.map (fun e => e.2.toNat)).sum ∧
      (∀ c, categoryCount new c = categoryTotal order c) ∧
      (∀ t ∈ new, ∃ d, lo ≤ d ∧ d ≤ hi ∧ t.Difficulty = taskDifficulty t.Category d) ∧
      g1.sources = GetPublicDomainSources := by
  induction order generalizing g tasks with
  | nil =>
    refine ⟨[], g, by simp [TaskGenerator.roundLoop], rfl, ?_, by simp, hg⟩
    intro c
    simp [categoryCount, categoryTotal]
  | cons e rest ih =>
    obtain ⟨cat, count⟩ := e
    obtain ⟨new1, g1, h1, hlen1, hall1, hg1⟩ :=
      categoryLoop_spec cat lo hi hlohi (hknown (cat, count) (List.mem_cons_self _ _))
        count.toNat g tasks hg
    obtain ⟨new2, g2, h2, hlen2, hcnt2, hall2, hg2⟩ :=
      ih (fun e he => hknown e (List.mem_cons_of_mem _ he)) g1 (tasks ++ new1) hg1
    refine ⟨new1 ++ new2, g2, ?_, ?_, ?_, ?_, hg2⟩
    · unfold TaskGenerator.roundLoop
      simp only [h1, Option.bind_eq_bind, Option.some_bind, h2, List.append_assoc]
    · simp [hlen1, hlen2]
    · intro c
      rw [categoryCount_append, hcnt2, categoryTotal_cons,
        categoryCount_block new1 cat c (fun t ht => (hall1 t ht).1), hlen1]
    · intro t ht
      rcases List.mem_append.mp ht with h | h
      · obtain ⟨hc, d, hd0, hd1, hd⟩ := hall1 t h
        exact ⟨d, hd0, hd1, by rw [hc]; exact hd⟩
      · exact hall2 t h

theorem roundRange_le (roundType : GoString) :
    (roundRange roundType).1 ≤ (roundRange roundType).2 := by
  unfold roundRange
  split_ifs <;> decide

theorem categoryTotal_perm (order : List (GoString × Int)) (h : order.Perm distribution)
    (c : GoString) : categoryTotal order c = categoryTotal distribution c := by
  unfold categoryTotal
  exact ((h.filter _).map _).sum_eq

theorem categoryCount_perm (a b : List Task) (h : a.Perm b) (c : GoString) :
    categoryCount a c = categoryCount b c := by
  unfold categoryCount
  exact (h.filter _).length_eq

/-- C32 (amended): for every generator on the built-in text sources, every order in which
`range` visits the map `distribution` and every round type, `GenerateTasksForRound` returns
a list of exactly 30 tasks with 6 motion, 6 delete, 6 change, 6 insert, 3 visual and
3 complex tasks, and every task has the difficulty `taskDifficulty category d` for a level
`d` in the range of the round: `d` itself, but at least 2 for a visual task and at least 3
for a complex task. -/
theorem GenerateTasksForRound_counts_and_levels (g : TaskGenerator)
    (order : List (GoString × Int)) (roundType : GoString)
    (hg : g.sources = GetPublicDomainSources) (horder : order.Perm distribution) :
    ∃ tasks g1, g.GenerateTasksForRound order roundType = some (tasks, g1) ∧
      tasks.length = 30 ∧
      categoryCount tasks CategoryMotion = 6 ∧ categoryCount tasks CategoryDelete = 6 ∧
      categoryCount tasks CategoryChange = 6 ∧ categoryCount tasks CategoryInsert = 6 ∧
      categoryCount tasks CategoryVisual = 3 ∧ categoryCount tasks CategoryComplex = 3 ∧
      ∀ t ∈ tasks, ∃ d, (roundRange roundType).1 ≤ d ∧ d ≤ (roundRange roundType).2 ∧
        t.Difficulty = taskDifficulty t.Category d := by
  have hknown : ∀ e ∈ order, e.1 ∈ distribution.map Prod.fst := by
    intro e he
    exact List.mem_map_of_mem _ (horder.mem_iff.mp he)
  obtain ⟨new, g1, h1, hlen, hcnt, hall, hg1⟩ :=
    roundLoop_spec _ _ (roundRange_le roundType) order hknown g [] hg
  obtain ⟨tasks, r, hs, hp⟩ := Shuffle_perm g1.rng new
  have hsum : (order.map (fun e => e.2.toNat)).sum = 30 := by
    rw [(horder.map _).sum_eq]
    decide
  have hc : ∀ c, categoryCount tasks c = categoryTotal distribution c := by
    intro c
    rw [categoryCount_perm tasks new hp, hcnt, categoryTotal_perm order horder]
  refine ⟨tasks, { g1 with rng := r }, ?_, ?_, ?_, ?_, ?_, ?_, ?_, ?_, ?_⟩
  · unfold TaskGenerator.GenerateTasksForRound
    simp only [List.nil_append] at h1
    simp only [h1, Option.bind_eq_bind, Option.some_bind, hs]
    rfl
  · rw [hp.length_eq, hlen, hsum]
  · rw [hc]; decide
  · rw [hc]; decide
  · rw [hc]; decide
  · rw [hc]; decide
  · rw [hc]; decide
  · rw [hc]; decide
  · intro t ht
    exact hall t (hp.mem_iff.mp ht)

/-- C32, instance: the round generated by `sampleGenerator` for "beginner", with the map
visited from motion to complex. -/
theorem GenerateTasksForRound_on_sample_generator :
    sampleGenerator.sources = GetPublicDomainSources ∧ distribution.Perm distribution ∧
    ∃ tasks g1, sampleGenerator.GenerateTasksForRound distribution (str "beginner")
        = some (tasks, g1) ∧
      tasks.length = 30 ∧
      categoryCount tasks CategoryMotion = 6 ∧ categoryCount tasks CategoryDelete = 6 ∧
      categoryCount tasks CategoryChange = 6 ∧ categoryCount tasks CategoryInsert = 6 ∧
      categoryCount tasks CategoryVisual = 3 ∧ categoryCount tasks CategoryComplex = 3 ∧
      ∀ t ∈ tasks, ∃ d, (roundRange (str "beginner")).1 ≤ d ∧
        d ≤ (roundRange (str "beginner")).2 ∧ t.Difficulty = taskDifficulty t.Category d :=
  ⟨rfl, List.Perm.refl _,
    GenerateTasksForRound_counts_and_levels sampleGenerator distribution (str "beginner") rfl
      (List.Perm.refl _)⟩

set_option maxRecDepth 1000000 in
set_option maxHeartbeats 4000000 in
/-- C32, counterexample: the range of a "beginner" round is `[1, 1]`, but the round generated
by `sampleGenerator` holds six tasks outside it: its three visual tasks have difficulty 2
and its three complex tasks have difficulty 3. -/
theorem beginner_round_has_tasks_above_level_1 :
    roundRange (str "beginner") = (1, 1) ∧
    (sampleGenerator.GenerateTasksForRound distribution (str "beginner")).map
        (fun p => (p.1.filter (fun t => ¬ (1 ≤ t.Difficulty ∧ t.Difficulty ≤ 1))).map
          (fun t => (t.Category, t.Difficulty)))
      = some [(CategoryVisual, 2), (CategoryVisual, 2), (CategoryVisual, 2),
          (CategoryComplex, 3), (CategoryComplex, 3), (CategoryComplex, 3)] := by
  refine ⟨by decide, by decide⟩

end Macaco
